import Mathlib

/-!
# spi-lib: BGT60 acquisition pipeline

A shallow embedding of the raw sample unpacker (`direct.cpp`), the register
codec and driver entry points (`driver/bgt60.c`) and the
single-reader/single-writer ring buffer
(`SingleReaderSingleWriterRingBuffer.hpp`), followed by the properties proved
about them.

Conventions.
* Machine integers are natural numbers (`Int` for signed status codes); every
  place where the C code truncates (a store into a `uint16_t`, a `uint32_t`
  shift, a `size_t` subtraction) carries its explicit reduction modulo a power
  of two.
* A byte buffer is a `List Nat` whose entries are below 256.
* A pointer into a buffer is the buffer together with an offset; a pointer that
  may be `NULL` is an `Option`.
-/

namespace SpiLib

/-! ## Raw sample unpacker (`direct.cpp`, `unpack_raw12`) -/

/-- The `for (i = 0; i < count; i += 3)` loop of `unpack_raw12`. `i` is the
loop counter, `d` the position of the moving `dst` pointer inside the
destination buffer. Every iteration reads `src[i]`, `src[i+1]`, `src[i+2]`
and stores two `uint16_t` values through `*(dst++)`.

The result is `none` when an access leaves its buffer (undefined behaviour
in the C code) or when the iteration budget `fuel` is used up before the
loop condition fails. -/
def unpack_raw12_loop (src : List Nat) (count : Nat) :
    Nat → Nat → Nat → List Nat → Option (List Nat)
  | 0, _, _, _ => none
  | fuel + 1, i, d, dst =>
    if i < count then
      match src[i]?, src[i + 1]?, src[i + 2]? with
      | some b0, some b1, some b2 =>
        if d + 1 < dst.length then
          unpack_raw12_loop src count fuel (i + 3) (d + 2)
            ((dst.set d (((b0 <<< 4) ||| (b1 >>> 4)) % 65536)).set (d + 1)
              ((((b1 &&& 15) <<< 8) ||| b2) % 65536))
        else none
      | _, _, _ => none
    else some dst

/-- Model of `unpack_raw12(src, count, dst)`: `src` is the byte run starting at the
source pointer, `dst`/`off` the destination buffer and the offset of the
destination pointer in it. The loop body runs at most `count` times, so a
budget of `count + 1` steps always reaches the exit test. -/
def unpack_raw12 (src : List Nat) (count : Nat) (dst : List Nat) (off : Nat) :
    Option (List Nat) :=
  unpack_raw12_loop src count (count + 1) 0 off dst

/-- Six packed bytes, used to exercise the unpacker. -/
def sample_bytes : List Nat := [0xAB, 0xCD, 0xEF, 0x12, 0x34, 0x56]

/-! ## Register protocol codec and driver entry points (`driver/bgt60.c`) -/

def BGT60_STATUS_OK : Int := 0
def BGT60_STATUS_PARAM_ERROR : Int := -4

def BGT60_SPI_WR_OP_MSK : Nat := 0x01000000
def BGT60_SPI_REGADR_MSK : Nat := 0xFE000000
def BGT60_SPI_REGADR_POS : Nat := 25
def BGT60_SPI_DATA_MSK : Nat := 0x00FFFFFF
def BGT60_SPI_DATA_POS : Nat := 0
def BGT60_SPI_BURST_MODE_CMD : Nat := 0xFF000000
def BGT60_SPI_BURST_MODE_SADR_MSK : Nat := 0x00FE0000
def BGT60_SPI_BURST_MODE_SADR_POS : Nat := 17
def BGT60_SPI_BURST_MODE_RWB_MSK : Nat := 0x00010000
def BGT60_SPI_BURST_MODE_LEN_MSK : Nat := 0x0000FE00
def BGT60_SPI_BURST_MODE_SADR_FIFO : Nat := 0x60

/-- The static `htonl` of `bgt60.c`: an unconditional byte swap of a 32-bit
word, truncated to `uint32_t` on return. -/
def htonl (x : Nat) : Nat :=
  ((((x &&& 0x000000ff) <<< 24) |||
    ((x &&& 0x0000ff00) <<< 8) |||
    ((x &&& 0x00ff0000) >>> 8) |||
    ((x &&& 0xff000000) >>> 24))) % 2 ^ 32

/-- Bytes of a `uint32_t` object in increasing address order on the
little-endian target; this is the order in which a transfer starting at
`(uint8_t *)&word` clocks them out. -/
def le_bytes (w : Nat) : List Nat :=
  [w % 256, w / 256 % 256, w / 65536 % 256, w / 16777216 % 256]

/-- The `uint32_t` value read back from four bytes in increasing address order
(little-endian target). -/
def le_word (bs : List Nat) : Nat :=
  bs.getD 0 0 % 256 + 256 * (bs.getD 1 0 % 256) + 65536 * (bs.getD 2 0 % 256) +
    16777216 * (bs.getD 3 0 % 256)

/-- The device handle `bgt60_dev_t`. The two function pointers act on the state
`σ` of the outside world (bus and chip). `spi_transfer w tx rx bytes` receives
the `uint32_t` object that `tx_data` points at, the present content of the
receive buffer (`none` for a `NULL` pointer) and the byte count; it returns the
status, the content of the receive buffer afterwards and the new world. -/
structure bgt60_dev_t (σ : Type) where
  spi_transfer : σ → Nat → Option (List Nat) → Nat → Int × List Nat × σ
  reset : σ → σ
  slice_size : Nat

/-- Lines 156-160 of `bgt60_set_reg`: the word stored in `reg_addr` when the
transfer is started. -/
def bgt60_set_reg_word (reg_addr data : Nat) : Nat :=
  let r1 := ((reg_addr <<< BGT60_SPI_REGADR_POS) % 2 ^ 32) &&& BGT60_SPI_REGADR_MSK
  let r2 := r1 ||| BGT60_SPI_WR_OP_MSK
  let r3 := r2 ||| (((data <<< BGT60_SPI_DATA_POS) % 2 ^ 32) &&& BGT60_SPI_DATA_MSK)
  htonl r3

/-- Model of `bgt60_set_reg(dev, reg_addr, data)`; returns the status and the new world. -/
def bgt60_set_reg {σ : Type} (dev : Option (bgt60_dev_t σ)) (reg_addr data : Nat) (w : σ) :
    Int × σ :=
  match dev with
  | none => (BGT60_STATUS_PARAM_ERROR, w)
  | some dev =>
    let r := dev.spi_transfer w (bgt60_set_reg_word reg_addr data) none 4
    (r.1, r.2.2)

/-- Lines 175-177 of `bgt60_get_reg`: the request word. -/
def bgt60_get_reg_word (reg_addr : Nat) : Nat :=
  htonl (((reg_addr <<< BGT60_SPI_REGADR_POS) % 2 ^ 32) &&& BGT60_SPI_REGADR_MSK)

/-- Lines 182-183 of `bgt60_get_reg`: decoding of the received word. -/
def bgt60_get_reg_decode (data : Nat) : Nat :=
  htonl data &&& BGT60_SPI_DATA_MSK

/-- Model of `bgt60_get_reg(dev, reg_addr, data)`; `data` is the value of `*data` on entry,
the result carries the status, the value of `*data` on return and the new
world. -/
def bgt60_get_reg {σ : Type} (dev : Option (bgt60_dev_t σ)) (reg_addr data : Nat) (w : σ) :
    Int × Nat × σ :=
  match dev with
  | none => (BGT60_STATUS_PARAM_ERROR, data, w)
  | some dev =>
    let r := dev.spi_transfer w (bgt60_get_reg_word reg_addr) (some (le_bytes data)) 4
    let status := r.1
    let data1 := le_word r.2.1
    if status = 0 then (status, bgt60_get_reg_decode data1, r.2.2)
    else (status, data1, r.2.2)

/-- Conversion of an `int32_t` to `uint32_t`. -/
def to_uint32 (x : Int) : Nat := (x % 2 ^ 32).toNat

/-- Conversion of a `uint32_t` to `int32_t` (wrap-around at 2^31). -/
def to_int32 (u : Nat) : Int :=
  if u % 2 ^ 32 < 2 ^ 31 then ((u % 2 ^ 32 : Nat) : Int) else ((u % 2 ^ 32 : Nat) : Int) - 2 ^ 32

/-- Model of `bgt60_get_fifo_data(dev, data)`; `data` is the receive buffer (`none` for `NULL`). The
status passes through the local `uint32_t status` before it is returned as
`int32_t`. -/
def bgt60_get_fifo_data {σ : Type} (dev : Option (bgt60_dev_t σ)) (data : Option (List Nat))
    (w : σ) : Int × Option (List Nat) × σ :=
  match dev, data with
  | some dev, some buf =>
    let reg_addr := htonl ((BGT60_SPI_BURST_MODE_CMD |||
      (BGT60_SPI_BURST_MODE_SADR_FIFO <<< BGT60_SPI_BURST_MODE_SADR_POS)) % 2 ^ 32)
    let r := dev.spi_transfer w reg_addr (some buf) ((4 + (dev.slice_size * 3)) % 2 ^ 32)
    let status := to_uint32 r.1
    (to_int32 status, some r.2.1, r.2.2)
  | _, _ => (BGT60_STATUS_PARAM_ERROR, data, w)

/-- A logging transport: it appends every request to a log and answers with a
fixed status and fixed receive data. Used in the worked instances below. -/
def trace_dev (status : Int) (reply : List Nat) (slice_size : Nat) :
    bgt60_dev_t (List (Nat × Option (List Nat) × Nat)) :=
  bgt60_dev_t.mk (fun log tx rx bytes => (status, reply, log ++ [(tx, rx, bytes)]))
    (fun log => log) slice_size

/-! ## Ring buffer (`SingleReaderSingleWriterRingBuffer.hpp`) -/

/-- Subtraction of two `size_t` values; `M` is the number of values of
`size_t` on the target (`SIZE_MAX + 1`). -/
def size_sub (M a b : Nat) : Nat := (a % M + (M - b % M)) % M

/-- Addition of two `size_t` values. -/
def size_add (M a b : Nat) : Nat := (a + b) % M

/-- The class `SingleReaderSingleWriterRingBuffer<T>`: the two cursors and the
slot vector. The atomic loads and stores are plain reads and writes of the
fields; this is a sequential model. -/
structure SingleReaderSingleWriterRingBuffer (T : Type) where
  m_rd_offset : Nat
  m_wr_offset : Nat
  m_data : List T
  deriving DecidableEq

namespace SingleReaderSingleWriterRingBuffer

variable {T S : Type}

/-- Model of `reset()`. -/
def reset (rb : SingleReaderSingleWriterRingBuffer T) : SingleReaderSingleWriterRingBuffer T :=
  SingleReaderSingleWriterRingBuffer.mk 0 0 rb.m_data

/-- Model of `resize(new_size)`: `reset()`, then `std::vector::resize`, which keeps the first
`new_size` slots and appends value-initialised ones (`dflt`) as needed. -/
def resize (rb : SingleReaderSingleWriterRingBuffer T) (new_size : Nat) (dflt : T) :
    SingleReaderSingleWriterRingBuffer T :=
  SingleReaderSingleWriterRingBuffer.mk 0 0
    (rb.m_data.take new_size ++ List.replicate (new_size - rb.m_data.length) dflt)

/-- Model of `resize(new_size, init_fn)`: `resize(new_size)` followed by `init_fn` on every slot. -/
def resize_fn (rb : SingleReaderSingleWriterRingBuffer T) (new_size : Nat) (dflt : T)
    (init_fn : T → T) : SingleReaderSingleWriterRingBuffer T :=
  let r := rb.resize new_size dflt
  SingleReaderSingleWriterRingBuffer.mk r.m_rd_offset r.m_wr_offset (r.m_data.map init_fn)

/-- Model of `size()`. -/
def size (rb : SingleReaderSingleWriterRingBuffer T) : Nat := rb.m_data.length

/-- Model of `fill()`. -/
def fill (M : Nat) (rb : SingleReaderSingleWriterRingBuffer T) : Nat :=
  size_sub M rb.m_wr_offset rb.m_rd_offset

/-- Model of `try_push_fn(fn)`. The callback `fn` receives the slot by reference and may
touch what it captured; it is a function from the slot and the captured
state `S` to their new values. The third branch stands for an index outside
the vector, which cannot happen here: a buffer that is not full has at least
one slot. -/
def try_push_fn (M : Nat) (rb : SingleReaderSingleWriterRingBuffer T) (fn : T → S → T × S)
    (env : S) : Bool × SingleReaderSingleWriterRingBuffer T × S :=
  let rd_offset := rb.m_rd_offset
  let wr_offset := rb.m_wr_offset
  if size_sub M wr_offset rd_offset ≥ rb.m_data.length then (false, rb, env)
  else
    match rb.m_data[wr_offset % rb.m_data.length]? with
    | some slot =>
      let r := fn slot env
      (true,
        SingleReaderSingleWriterRingBuffer.mk rb.m_rd_offset (size_add M wr_offset 1)
          (rb.m_data.set (wr_offset % rb.m_data.length) r.1),
        r.2)
    | none => (false, rb, env)

/-- Model of `try_push(value)`: the callback assigns `value` to the slot. -/
def try_push (M : Nat) (rb : SingleReaderSingleWriterRingBuffer T) (value : T) :
    Bool × SingleReaderSingleWriterRingBuffer T :=
  let r := try_push_fn M rb (fun _ (v : T) => (v, v)) value
  (r.1, r.2.1)

/-- Model of `try_pop_fn(fn)`. The last branch stands for an index outside the vector; in
the source this is a division by zero on a buffer without slots. -/
def try_pop_fn (M : Nat) (rb : SingleReaderSingleWriterRingBuffer T) (fn : T → S → T × S)
    (env : S) : Bool × SingleReaderSingleWriterRingBuffer T × S :=
  let rd_offset := rb.m_rd_offset
  let wr_offset := rb.m_wr_offset
  if rd_offset = wr_offset then (false, rb, env)
  else
    match rb.m_data[rd_offset % rb.m_data.length]? with
    | some slot =>
      let r := fn slot env
      (true,
        SingleReaderSingleWriterRingBuffer.mk (size_add M rd_offset 1) rb.m_wr_offset
          (rb.m_data.set (rd_offset % rb.m_data.length) r.1),
        r.2)
    | none => (false, rb, env)

/-- Model of `try_pop(dest)`: the callback copies the slot into `dest`. -/
def try_pop (M : Nat) (rb : SingleReaderSingleWriterRingBuffer T) (dest : T) :
    Bool × SingleReaderSingleWriterRingBuffer T × T :=
  try_pop_fn M rb (fun value (_ : T) => (value, value)) dest

/-- Model of `try_pop()`: the callback does nothing. -/
def try_pop_discard (M : Nat) (rb : SingleReaderSingleWriterRingBuffer T) :
    Bool × SingleReaderSingleWriterRingBuffer T :=
  let r := try_pop_fn M rb (fun value (u : Unit) => (value, u)) ()
  (r.1, r.2.1)

/-- Pushes the values of a list one after the other with `try_push`, collecting the
results. -/
def push_all (M : Nat) : SingleReaderSingleWriterRingBuffer T → List T →
    List Bool × SingleReaderSingleWriterRingBuffer T
  | rb, [] => ([], rb)
  | rb, v :: vs =>
    let r := try_push M rb v
    let rest := push_all M r.2 vs
    (r.1 :: rest.1, rest.2)

end SingleReaderSingleWriterRingBuffer

/-! ## Sequences of ring buffer calls -/

/-- One call on the ring buffer: `try_push(value)`, `try_pop(dest)` or the
overload `try_pop()`. -/
inductive rb_call (T : Type) where
  | push (value : T)
  | pop (dest : T)
  | pop_discard

/-- Result and new buffer of one call. -/
def rb_step {T : Type} (M : Nat) (rb : SingleReaderSingleWriterRingBuffer T) :
    rb_call T → Bool × SingleReaderSingleWriterRingBuffer T
  | rb_call.push value => SingleReaderSingleWriterRingBuffer.try_push M rb value
  | rb_call.pop dest =>
    ((SingleReaderSingleWriterRingBuffer.try_pop M rb dest).1,
      (SingleReaderSingleWriterRingBuffer.try_pop M rb dest).2.1)
  | rb_call.pop_discard => SingleReaderSingleWriterRingBuffer.try_pop_discard M rb

/-- The buffer after a finite sequence of calls. -/
def rb_run {T : Type} (M : Nat) :
    SingleReaderSingleWriterRingBuffer T → List (rb_call T) →
      SingleReaderSingleWriterRingBuffer T
  | rb, [] => rb
  | rb, c :: cs => rb_run M (rb_step M rb c).2 cs

/-- Number of `try_push` calls of the sequence that returned true. -/
def pushes_ok {T : Type} (M : Nat) :
    SingleReaderSingleWriterRingBuffer T → List (rb_call T) → Nat
  | _, [] => 0
  | rb, rb_call.push value :: cs =>
    (if (rb_step M rb (rb_call.push value)).1 then 1 else 0) +
      pushes_ok M (rb_step M rb (rb_call.push value)).2 cs
  | rb, c :: cs => pushes_ok M (rb_step M rb c).2 cs

/-- Number of `try_pop` calls of the sequence that returned true. -/
def pops_ok {T : Type} (M : Nat) :
    SingleReaderSingleWriterRingBuffer T → List (rb_call T) → Nat
  | _, [] => 0
  | rb, rb_call.push value :: cs => pops_ok M (rb_step M rb (rb_call.push value)).2 cs
  | rb, c :: cs => (if (rb_step M rb c).1 then 1 else 0) + pops_ok M (rb_step M rb c).2 cs

/-- Both cursors are reduced `size_t` values and the fill level does not
exceed the number of slots. -/
def rb_inv {T : Type} (M : Nat) (rb : SingleReaderSingleWriterRingBuffer T) : Prop :=
  rb.m_rd_offset < M ∧ rb.m_wr_offset < M ∧ SingleReaderSingleWriterRingBuffer.fill M rb ≤ rb.m_data.length

/-! ## Data-integrity self-test generator (`direct.cpp`) -/

/-- Model of `test_mode_lsfr_init()`: the value stored into `test_mode_shift_register`. -/
def test_mode_lsfr_init (_reg : Nat) : Nat := 0x0001

/-- Model of `test_mode_lsfr_get_next()` on the register value `reg`: the returned value and
the new value of `test_mode_shift_register`. The expression is evaluated in
`int`; the store into the `uint16_t` variable reduces modulo `2^16`. -/
def test_mode_lsfr_get_next (reg : Nat) : Nat × Nat :=
  let v := reg
  let next_value :=
    ((v >>> 1) |||
      (((v <<< 11) ^^^
        (v <<< 10) ^^^
        (v <<< 9) ^^^
        (v <<< 3)) &&& 0x0800)) % 65536
  (v, next_value)

/-- The register after `n` calls of `test_mode_lsfr_get_next`, starting from `reg`. -/
def lfsr_state : Nat → Nat → Nat
  | 0, reg => reg
  | n + 1, reg => lfsr_state n (test_mode_lsfr_get_next reg).2

/-- The values returned by `n` successive calls of `test_mode_lsfr_get_next`, starting
from the register value `reg`. -/
def lfsr_draws : Nat → Nat → List Nat
  | 0, _ => []
  | n + 1, reg => (test_mode_lsfr_get_next reg).1 :: lfsr_draws n (test_mode_lsfr_get_next reg).2

/-- Walks along the register sequence from `reg`, counting calls from `n` on,
until the register is `seed` again; `none` when that does not happen within
`fuel` calls. -/
def lfsr_return_time (seed : Nat) : Nat → Nat → Nat → Option Nat
  | 0, _, _ => none
  | fuel + 1, reg, n =>
    if (test_mode_lsfr_get_next reg).2 = seed then some (n + 1)
    else lfsr_return_time seed fuel (test_mode_lsfr_get_next reg).2 (n + 1)

/-- The register update in the words of the specification: the old value
shifted right by one bit, with the bit at position `top` set to the XOR of the
bits 0, 3, 9 and 10 of the old value (`top = 15` for a 16-bit register). -/
def lfsr_next_as_specified (top : Nat) (v : Nat) : Nat :=
  (v >>> 1) |||
    ((xor (xor (xor (v.testBit 0) (v.testBit 3)) (v.testBit 9)) (v.testBit 10)).toNat <<< top)

/-- The feedback bit of the register update as coded: the XOR of the bits 0, 1,
2 and 8 of the old value. -/
def lfsr_feedback (v : Nat) : Bool :=
  xor (xor (xor (v.testBit 0) (v.testBit 1)) (v.testBit 2)) (v.testBit 8)

/-! ## Frame cube and frame normalizer (`direct.cpp`, `get_next_frame_from_buffer`) -/

/-- Modelled from the spec: the cube type `ifx_Cube_R_t` of `ifxBase/Cube.h`,
which is not among the sources at hand; the spec describes it as a dense
3-axis real-valued array with row, column and slice accessors. `rows`, `cols`
and `slices` are what `IFX_CUBE_ROWS`, `IFX_CUBE_COLS` and `IFX_CUBE_SLICES`
yield (`uint32_t`, like every container length in `ifxBase`), `data r c s` is
the cell `IFX_CUBE_AT(cube, r, c, s)`. A cell holds the exact rational value
that the `float` of the C code stands for. -/
structure ifx_Cube_R_t where
  rows : Nat
  cols : Nat
  slices : Nat
  data : Nat → Nat → Nat → ℚ

/-- Modelled from the spec: an assignment `IFX_CUBE_AT(cube, r, c, s) = x` of
`ifxBase/Cube.h` changes the cell `(r, c, s)` and no other. -/
def IFX_CUBE_AT_assign (cube : ifx_Cube_R_t) (r c s : Nat) (x : ℚ) : ifx_Cube_R_t :=
  ifx_Cube_R_t.mk cube.rows cube.cols cube.slices
    (fun i j k => if i = r ∧ j = c ∧ k = s then x else cube.data i j k)

/-- Normalization of a `float` quotient `a / b`: the numerator is doubled, and the
count `k` of doublings raised, until `a / b` has reached `2 ^ 23`, the size of a 24-bit
significand; the budget `fuel` is the number of doublings down to the smallest
exponent of the format. -/
def float_scale (b : Nat) : Nat → Nat → Nat → Nat × Nat
  | 0, a, k => (a, k)
  | fuel + 1, a, k => if a < b * 2 ^ 23 then float_scale b fuel (2 * a) (k + 1) else (a, k)

/-- The integer nearest to `a / b`, the even one of the two when `a / b` lies half way
between two integers. -/
def round_half_even (a b : Nat) : Nat :=
  if 2 * (a % b) < b then a / b
  else if b < 2 * (a % b) then a / b + 1
  else if (a / b) % 2 = 0 then a / b
  else a / b + 1

/-- The value of the C expression `x / d` for a `uint16_t` value `x` and a `float` `d` that holds
a positive integer below `2 ^ 24`, as in `buffer[index] / adc_max`: `x` is converted to `float`
without change and the division is the one of IEEE 754 binary32, which
delivers the binary32 number nearest to the exact quotient, ties to even. The
quotient is below `2 ^ 24`, so its significand is `x * 2 ^ k / d` rounded, for the
least `k` that brings it to `2 ^ 23`, or `k = 149` in the subnormal range. The result
is given as the rational number the `float` stands for. -/
def float_div (x d : Nat) : ℚ :=
  (round_half_even (float_scale d 149 x 0).1 d : ℚ) / 2 ^ (float_scale d 149 x 0).2

/-- Innermost loop of `get_next_frame_from_buffer`,
`for (sample = ...; sample < num_samples_per_chirp; sample++)`, with `n`
iterations left. The index is computed in `size_t` (modulus `M`); a read
outside the buffer gives `none`. The cell receives `buffer[index] / adc_max`, a division
in `float` with `adc_max = 4095`. -/
def get_next_frame_sample_loop (M : Nat) (buffer : List Nat) (num_rx rx chirp : Nat)
    (chirp_offset : Nat) : Nat → Nat → ifx_Cube_R_t → Option ifx_Cube_R_t
  | 0, _, frame => some frame
  | n + 1, sample, frame =>
    let sample_offset := (sample * num_rx) % M
    let index := ((rx + sample_offset) % M + chirp_offset) % M
    match buffer[index]? with
    | none => none
    | some x =>
      get_next_frame_sample_loop M buffer num_rx rx chirp chirp_offset n (sample + 1)
        (IFX_CUBE_AT_assign frame rx chirp sample (float_div x 4095))

/-- Middle loop of `get_next_frame_from_buffer`,
`for (chirp = ...; chirp < num_chirps_per_frame; chirp++)`, with `n` iterations
left. -/
def get_next_frame_chirp_loop (M : Nat) (buffer : List Nat) (num_rx num_samples_per_chirp : Nat)
    (rx : Nat) : Nat → Nat → ifx_Cube_R_t → Option ifx_Cube_R_t
  | 0, _, frame => some frame
  | n + 1, chirp, frame =>
    let chirp_offset := ((chirp * num_rx) % M * num_samples_per_chirp) % M
    match get_next_frame_sample_loop M buffer num_rx rx chirp chirp_offset
        num_samples_per_chirp 0 frame with
    | none => none
    | some frame1 =>
      get_next_frame_chirp_loop M buffer num_rx num_samples_per_chirp rx n (chirp + 1) frame1

/-- Outer loop of `get_next_frame_from_buffer`, `for (rx = ...; rx < num_rx; rx++)`, with
`n` iterations left. -/
def get_next_frame_rx_loop (M : Nat) (buffer : List Nat)
    (num_rx num_chirps_per_frame num_samples_per_chirp : Nat) :
    Nat → Nat → ifx_Cube_R_t → Option ifx_Cube_R_t
  | 0, _, frame => some frame
  | n + 1, rx, frame =>
    match get_next_frame_chirp_loop M buffer num_rx num_samples_per_chirp rx
        num_chirps_per_frame 0 frame with
    | none => none
    | some frame1 =>
      get_next_frame_rx_loop M buffer num_rx num_chirps_per_frame num_samples_per_chirp n
        (rx + 1) frame1

/-- Model of `get_next_frame_from_buffer(buffer, frame)`: the result and the cube afterwards;
`none` when a read leaves the buffer. The antenna count is held in a
`uint8_t`. -/
def get_next_frame_from_buffer (M : Nat) (buffer : List Nat) (frame : ifx_Cube_R_t) :
    Option (Bool × ifx_Cube_R_t) :=
  let num_chirps_per_frame := frame.cols
  let num_samples_per_chirp := frame.slices
  let num_rx := frame.rows % 256
  match get_next_frame_rx_loop M buffer num_rx num_chirps_per_frame num_samples_per_chirp
      num_rx 0 frame with
  | none => none
  | some frame1 => some (true, frame1)

/-- A cube of shape 2 x 2 x 3 with every cell set to 7. -/
def sample_cube : ifx_Cube_R_t := ifx_Cube_R_t.mk 2 2 3 (fun _ _ _ => 7)

/-- The normalized value of the cell `(a, c, s)`: the sample at the flat offset
`c * A * S + s * A + a` of the buffer, divided in `float` by the maximum ADC code
4095. -/
def normalized_sample (buffer : List Nat) (A S a c s : Nat) : ℚ :=
  float_div (buffer.getD (c * A * S + s * A + a) 0) 4095

/-! ## Session state of `direct.cpp` -/

/-- The structure `ifx_Config_t` of `direct.h`. The two `float` fields hold exact
rational values. -/
structure ifx_Config_t where
  num_samples_per_chirp : Nat
  num_chirps_per_frame : Nat
  bandwidth_Hz : ℚ
  center_frequency_Hz : ℚ
  orientation : Nat

/-- The structure `direct_mode_description_t` of `direct.h`; `regs` is the array the
pointer refers to. -/
structure direct_mode_description_t where
  specifier : String
  name : String
  num_antennas : Nat
  regs : List Nat
  seg_config : ifx_Config_t

/-- The static structure `radar` of `direct.cpp`, without the thread handle. -/
structure radar_t where
  header_size : Nat
  slice_size : Nat
  frame_count : Nat
  is_started : Bool
  buffer_overflow : Bool
  fifo_error : Bool
  frame_buffer : SingleReaderSingleWriterRingBuffer (List Nat)
  mode : Option direct_mode_description_t

/-- The `rep_err` and `rep_msg` calls of `direct.cpp`, with the values they print. -/
inductive rep_event where
  | spi_fifo_error
  | frame_buffer_overflow (size fill : Nat)
  | fetch_not_started
  | mismatch (index expected actual : Nat)
  | assuming_slices (n : Nat)
  | already_started
  | cube_create_failed
  | hw_init_failed
  | bgt_init_failed
  | test_mode_failed (enable : Bool)
  | frame_start_failed
  deriving DecidableEq

/-- All file-level variables of `direct.cpp`, the function-level statics of
`read_frame_data`, the log of reports and the state `world` of bus and chip. -/
structure direct_state (σ : Type) where
  data_integrity_test_enabled : Bool
  test_mode_shift_register : Nat
  radar : radar_t
  bgt60_dev : bgt60_dev_t σ
  radar_data_frame : Option ifx_Cube_R_t
  slice_cnt : Nat
  buffer_idx : Nat
  reports : List rep_event
  world : σ

/-- Model of `get_num_samples_per_frame()`: a product in `uint32_t`; `none` when `radar.mode`
is `NULL`. -/
def get_num_samples_per_frame (radar : radar_t) : Option Nat :=
  match radar.mode with
  | none => none
  | some mode =>
    some (((mode.num_antennas * mode.seg_config.num_chirps_per_frame) % 2 ^ 32 *
      mode.seg_config.num_samples_per_chirp) % 2 ^ 32)

/-- Model of `get_num_slices_per_frame()`; `none` on a division by zero. -/
def get_num_slices_per_frame (radar : radar_t) : Option Nat :=
  match get_num_samples_per_frame radar with
  | none => none
  | some samples =>
    if radar.slice_size * 2 = 0 then none else some (samples / (radar.slice_size * 2))

/-- Model of `get_num_samples_per_slice()`; `none` on a division by zero. -/
def get_num_samples_per_slice (radar : radar_t) : Option Nat :=
  match get_num_samples_per_frame radar, get_num_slices_per_frame radar with
  | some samples, some slices => if slices = 0 then none else some (samples / slices)
  | _, _ => none

/-- Model of `get_spi_transfer_size()`: computed in `size_t`, returned as `uint32_t`. -/
def get_spi_transfer_size (M : Nat) (radar : radar_t) : Nat :=
  ((radar.slice_size * 3 + radar.header_size) % M) % 2 ^ 32

/-- The integrity loop of `radar_fetch_frame`,
`for (i = ...; i < samples_per_frame; i += radar.mode->num_antennas)`. The result
is the report of the first mismatch, if any, and the register afterwards;
`none` when a read leaves the frame or the budget `fuel` is used up. -/
def integrity_loop (M : Nat) (frame_buffer : List Nat) (samples_per_frame num_antennas : Nat) :
    Nat → Nat → Nat → Option (Option (Nat × Nat × Nat) × Nat)
  | 0, _, _ => none
  | fuel + 1, i, reg =>
    if i < samples_per_frame then
      let expected := (test_mode_lsfr_get_next reg).1
      match frame_buffer[i]? with
      | none => none
      | some x =>
        if x ≠ expected then some (some (i, expected, x), (test_mode_lsfr_get_next reg).2)
        else
          integrity_loop M frame_buffer samples_per_frame num_antennas fuel
            (size_add M i num_antennas) (test_mode_lsfr_get_next reg).2
    else some (none, reg)

/-- Model of `radar_fetch_frame(frame)`: the result, the state and the cube afterwards.
`wait_fill(1)` returns at once when a frame is there; in this sequential model
a fetch on an empty ring buffer has no result (`none`), as have a `NULL` mode,
a `NULL` cube that is written to and an access outside a buffer. -/
def radar_fetch_frame {σ : Type} (M : Nat) (st : direct_state σ) (frame : Option ifx_Cube_R_t) :
    Option (Bool × direct_state σ × Option ifx_Cube_R_t) :=
  match get_num_samples_per_frame st.radar, st.radar.mode with
  | some samples_per_frame, some mode =>
    if st.radar.is_started then
      if SingleReaderSingleWriterRingBuffer.fill M st.radar.frame_buffer < 1 then none
      else
        let p := SingleReaderSingleWriterRingBuffer.try_pop M st.radar.frame_buffer
          (List.replicate samples_per_frame 0)
        let st1 : direct_state σ :=
          { st with radar := { st.radar with frame_buffer := p.2.1 } }
        let frame_buffer := p.2.2
        if st.data_integrity_test_enabled then
          match integrity_loop M frame_buffer samples_per_frame mode.num_antennas
              (samples_per_frame + 1) 0 st.test_mode_shift_register with
          | none => none
          | some (some (i, expected, actual), reg) =>
            some (false,
              { st1 with test_mode_shift_register := reg,
                         reports := st1.reports ++ [rep_event.mismatch i expected actual] },
              frame)
          | some (none, reg) =>
            match frame with
            | none => none
            | some cube =>
              match get_next_frame_from_buffer M (List.replicate frame_buffer.length 0) cube with
              | none => none
              | some r =>
                some (r.1, { st1 with test_mode_shift_register := reg }, some r.2)
        else
          match frame with
          | none => none
          | some cube =>
            match get_next_frame_from_buffer M frame_buffer cube with
            | none => none
            | some r => some (r.1, st1, some r.2)
    else
      some (false, { st with reports := st.reports ++ [rep_event.fetch_not_started] }, frame)
  | _, _ => none

/-- Model of `direct_device_acq_fetch(out)`: the result, the state afterwards and the value
of `*out`. The cube behind `radar_data_frame` is updated in place. -/
def direct_device_acq_fetch {σ : Type} (M : Nat) (st : direct_state σ) :
    Option (Bool × direct_state σ × Option ifx_Cube_R_t) :=
  match radar_fetch_frame M st st.radar_data_frame with
  | none => none
  | some r =>
    if r.1 = false then some (false, { r.2.1 with radar_data_frame := r.2.2 }, none)
    else some (true, { r.2.1 with radar_data_frame := r.2.2 }, r.2.2)

/-- A mode with one antenna, one chirp per frame and two samples per chirp. -/
def sample_mode : direct_mode_description_t :=
  direct_mode_description_t.mk ("sample") ("one antenna, two samples") 1 [0xFFFFFFFF]
    (ifx_Config_t.mk 2 1 0 0 0)

/-- A started session in `sample_mode` with the self-test enabled, the register at
the seed and the frame `frame` waiting in a ring buffer of capacity 2. The
transport logs every request and answers with status 0 and the bytes `reply`. -/
def sample_session (reply : List Nat) (frame : List Nat) :
    direct_state (List (Nat × Option (List Nat) × Nat)) :=
  direct_state.mk true 0x0001
    (radar_t.mk 4 1 0 true false false
      (SingleReaderSingleWriterRingBuffer.mk 0 1 [frame, [0, 0]]) (some sample_mode))
    (trace_dev 0 reply 1)
    (some (ifx_Cube_R_t.mk 1 1 2 (fun _ _ _ => 7))) 0 0 [] []

/-! ## Acquisition loop (`direct.cpp`, `read_frame_data`) -/

/-- The collaborators of `direct.cpp` outside the core, acting on the state of the
outside world: the hardware setup and the data-ready wait of
`bgt60_platform_rpi.c`, and the allocation `ifx_cube_create_r` of `ifxBase`, which
yields a cube or `NULL`. -/
structure platform_t (σ : Type) where
  bgt60_platform_init : σ → Int × σ
  bgt60_platform_deinit : σ → Int × σ
  bgt60_platform_wait_interrupt : σ → Int × σ
  ifx_cube_create_r : σ → Nat → Nat → Nat → Option ifx_Cube_R_t × σ

/-- The part of one iteration of the slice loop of `read_frame_data` that precedes the
unpacking: the data-ready wait, the FIFO read and, after a successful read,
the overwrite of the header bytes 1 to 3 and the two counters. The result is
the state and the slice buffer afterwards; `none` when the header bytes lie
outside the slice buffer. -/
def read_frame_data_slice {σ : Type} (plat : platform_t σ) (num_slices_per_frame : Nat)
    (st : direct_state σ) (slice_data : List Nat) : Option (direct_state σ × List Nat) :=
  let wi := plat.bgt60_platform_wait_interrupt st.world
  let st1 : direct_state σ := { st with world := wi.2 }
  if wi.1 > 0 then
    let r := bgt60_get_fifo_data (some st1.bgt60_dev) (some slice_data) st1.world
    let slice_data1 := r.2.1.getD slice_data
    let st2 : direct_state σ := { st1 with world := r.2.2 }
    if r.1 = 0 then
      if slice_data1.length < 4 then none
      else
        let b1 := (st.slice_cnt &&& ((num_slices_per_frame + 2 ^ 32 - 1) % 2 ^ 32)) % 256
        let v := (st.slice_cnt / num_slices_per_frame) &&& 0xFFFF
        let st3 : direct_state σ :=
          { st2 with buffer_idx := (st.buffer_idx + 1) % 2 ^ 32,
                     slice_cnt := (st.slice_cnt + 1) % 2 ^ 32 }
        some (st3, ((slice_data1.set 1 b1).set 2 (v % 256)).set 3 (v / 256 % 256))
    else
      let st3 : direct_state σ :=
        { st2 with radar := { st2.radar with fifo_error := true },
                   reports := st2.reports ++ [rep_event.spi_fifo_error] }
      some (st3, slice_data1)
  else some (st1, slice_data)

/-- The slice loop of `read_frame_data`, `for (slice = ...; slice < num_slices_per_frame; slice++)`,
with `n` iterations left: the state, the slice buffer and the frame buffer
afterwards. -/
def read_frame_data_loop {σ : Type} (M : Nat) (plat : platform_t σ)
    (num_slices_per_frame : Nat) :
    Nat → Nat → direct_state σ → List Nat → List Nat →
      Option (direct_state σ × List Nat × List Nat)
  | 0, _, st, slice_data, frame_buffer => some (st, slice_data, frame_buffer)
  | n + 1, slice, st, slice_data, frame_buffer =>
    match read_frame_data_slice plat num_slices_per_frame st slice_data with
    | none => none
    | some (st1, slice_data1) =>
      match get_num_samples_per_slice st1.radar with
      | none => none
      | some samples_per_slice =>
        match unpack_raw12 (slice_data1.drop st1.radar.header_size)
            (size_sub M (get_spi_transfer_size M st1.radar) st1.radar.header_size)
            frame_buffer ((slice * samples_per_slice) % M) with
        | none => none
        | some frame_buffer1 =>
          read_frame_data_loop M plat num_slices_per_frame n (slice + 1) st1 slice_data1
            frame_buffer1

/-- The frame assembly of `read_frame_data`: everything up to the `try_push`. The result is
the state afterwards and the assembled frame buffer. -/
def read_frame_data_assemble {σ : Type} (M : Nat) (plat : platform_t σ) (st : direct_state σ) :
    Option (direct_state σ × List Nat) :=
  match get_num_samples_per_frame st.radar, get_num_slices_per_frame st.radar with
  | some samples_per_frame, some num_slices_per_frame =>
    match read_frame_data_loop M plat num_slices_per_frame num_slices_per_frame 0 st
        (List.replicate (get_spi_transfer_size M st.radar) 0)
        (List.replicate samples_per_frame 0) with
    | none => none
    | some r => some (r.1, r.2.2)
  | _, _ => none

/-- Model of `read_frame_data()`: one iteration of the acquisition thread. -/
def read_frame_data {σ : Type} (M : Nat) (plat : platform_t σ) (st : direct_state σ) :
    Option (direct_state σ) :=
  match read_frame_data_assemble M plat st with
  | none => none
  | some (st1, frame_buffer) =>
    let p := SingleReaderSingleWriterRingBuffer.try_push M st1.radar.frame_buffer frame_buffer
    if p.1 = false then
      some
        { st1 with
          radar := { st1.radar with buffer_overflow := true },
          reports := st1.reports ++
            [rep_event.frame_buffer_overflow
              (SingleReaderSingleWriterRingBuffer.size st1.radar.frame_buffer)
              (SingleReaderSingleWriterRingBuffer.fill M st1.radar.frame_buffer)] }
    else some { st1 with radar := { st1.radar with frame_buffer := p.2 } }

/-- The receive data of the transport are bytes. -/
def transport_bytes {σ : Type} (dev : bgt60_dev_t σ) : Prop :=
  ∀ (w : σ) (tx : Nat) (rx : Option (List Nat)) (n : Nat),
    ∀ b ∈ (dev.spi_transfer w tx rx n).2.1, b < 256

/-- A platform whose setup succeeds, whose data-ready wait reports readiness and
whose allocation yields a cube filled with 7. -/
def sample_platform : platform_t (List (Nat × Option (List Nat) × Nat)) :=
  platform_t.mk (fun w => (0, w)) (fun w => (0, w)) (fun w => (1, w))
    (fun w r c s => (some (ifx_Cube_R_t.mk r c s (fun _ _ _ => 7)), w))

/-! ## Driver sequences (`driver/bgt60.c`) and session start (`direct.cpp`) -/

def BGT60_STATUS_CHIPID_ERROR : Int := -3

def BGT60TR13C_CHIPID : Nat := 0x000303

def BGT60_RESET_FSM : Nat := 0x000004

/-- The constants of `driver/bgt60_regs.h` that `bgt60.c` uses. The header is not
among the sources at hand, so the register addresses and field masks are
parameters of the driver functions below. -/
structure bgt60_regs_t where
  BGT60_REG_MAIN : Nat
  BGT60_REG_CHIP_ID : Nat
  BGT60_REG_SFCTL : Nat
  BGT60_REG_MAIN_FRAME_START_MSK : Nat
  BGT60_REG_SFCTL_FIFO_CREF_MSK : Nat
  BGT60_REG_SFCTL_FIFO_CREF_POS : Nat
  BGT60_REG_SFCTL_LFSR_EN_MSK : Nat

/-- The indeterminate initial values of the locals that `bgt60.c` declares without
initialiser and hands to `bgt60_get_reg` as receive buffer: `chipid` and `tmp` in
`bgt60_init`, `tmp` in `bgt60_enable_data_test_mode`. -/
structure bgt60_uninit_t where
  chipid : Nat
  tmp_init : Nat
  tmp_test_mode : Nat

/-- Model of `bgt60_soft_reset(dev, reset_type)`. -/
def bgt60_soft_reset {σ : Type} (regs_h : bgt60_regs_t) (dev : Option (bgt60_dev_t σ))
    (reset_type : Nat) (w : σ) : Int × σ :=
  match dev with
  | none => (BGT60_STATUS_PARAM_ERROR, w)
  | some d =>
    let g := bgt60_get_reg (some d) regs_h.BGT60_REG_MAIN 0 w
    if g.1 ≠ 0 then (g.1, g.2.2)
    else bgt60_set_reg (some d) regs_h.BGT60_REG_MAIN (g.2.1 ||| (reset_type % 2 ^ 32)) g.2.2

/-- Model of `bgt60_frame_start(dev, start)`. -/
def bgt60_frame_start {σ : Type} (regs_h : bgt60_regs_t) (dev : Option (bgt60_dev_t σ))
    (start : Bool) (w : σ) : Int × σ :=
  match dev with
  | none => (BGT60_STATUS_PARAM_ERROR, w)
  | some d =>
    if start then
      let g := bgt60_get_reg (some d) regs_h.BGT60_REG_MAIN 0 w
      if g.1 ≠ 0 then (g.1, g.2.2)
      else
        bgt60_set_reg (some d) regs_h.BGT60_REG_MAIN
          ((g.2.1 ||| regs_h.BGT60_REG_MAIN_FRAME_START_MSK) % 2 ^ 32) g.2.2
    else bgt60_soft_reset regs_h (some d) BGT60_RESET_FSM w

/-- Model of `bgt60_enable_data_test_mode(dev, enable)`; `tmp0` is the indeterminate initial
value of `tmp`. -/
def bgt60_enable_data_test_mode {σ : Type} (regs_h : bgt60_regs_t)
    (dev : Option (bgt60_dev_t σ)) (enable : Bool) (tmp0 : Nat) (w : σ) : Int × σ :=
  match dev with
  | none => (BGT60_STATUS_PARAM_ERROR, w)
  | some d =>
    let g := bgt60_get_reg (some d) regs_h.BGT60_REG_SFCTL tmp0 w
    if g.1 ≠ 0 then (g.1, g.2.2)
    else if enable then
      bgt60_set_reg (some d) regs_h.BGT60_REG_SFCTL
        ((g.2.1 ||| regs_h.BGT60_REG_SFCTL_LFSR_EN_MSK) % 2 ^ 32) g.2.2
    else
      bgt60_set_reg (some d) regs_h.BGT60_REG_SFCTL
        (g.2.1 &&& ((2 ^ 32 - 1) ^^^ (regs_h.BGT60_REG_SFCTL_LFSR_EN_MSK % 2 ^ 32))) g.2.2

/-- The register-list loop of `bgt60_init`, `while (regs[reg_idx] != 0xFFFFFFFF)`, on the
rest of the list from `reg_idx` on: the status, the final `reg_idx` and the new
world; `none` when the list ends without the sentinel. -/
def bgt60_init_reg_loop {σ : Type} (dev : bgt60_dev_t σ) :
    List Nat → Nat → Int → σ → Option (Int × Nat × σ)
  | [], _, _, _ => none
  | r :: rest, reg_idx, status, w =>
    if r = 0xFFFFFFFF then some (status, reg_idx, w)
    else
      let s := bgt60_set_reg (some dev)
        ((r &&& BGT60_SPI_REGADR_MSK) >>> BGT60_SPI_REGADR_POS)
        ((r &&& BGT60_SPI_DATA_MSK) >>> BGT60_SPI_DATA_POS) w
      if s.1 ≠ 0 then some (s.1, reg_idx, s.2)
      else bgt60_init_reg_loop dev rest (reg_idx + 1) s.1 s.2

/-- Model of `bgt60_init(dev, regs)`: the status, the device handle afterwards (its
`slice_size` may have been stored) and the new world. `u` holds the indeterminate
initial values of `chipid` and `tmp`. The delays and the messages printed on the
way are not part of the model. -/
def bgt60_init {σ : Type} (regs_h : bgt60_regs_t) (u : bgt60_uninit_t)
    (dev : Option (bgt60_dev_t σ)) (regs : Option (List Nat)) (w : σ) :
    Option (Int × Option (bgt60_dev_t σ) × σ) :=
  match dev, regs with
  | some d, some rl =>
    let w1 := d.reset w
    let sr := bgt60_soft_reset regs_h (some d) BGT60_RESET_FSM w1
    let s1 := bgt60_set_reg (some d) regs_h.BGT60_REG_SFCTL 0x102000 sr.2
    if s1.1 ≠ 0 then some (s1.1, some d, s1.2)
    else
      let g1 := bgt60_get_reg (some d) regs_h.BGT60_REG_SFCTL u.chipid s1.2
      if g1.1 ≠ 0 then some (g1.1, some d, g1.2.2)
      else
        let g2 := bgt60_get_reg (some d) regs_h.BGT60_REG_CHIP_ID g1.2.1 g1.2.2
        let g3 :=
          if g2.2.1 ≠ BGT60TR13C_CHIPID then
            bgt60_get_reg (some d) regs_h.BGT60_REG_CHIP_ID g2.2.1 g2.2.2
          else g2
        if g3.2.1 ≠ BGT60TR13C_CHIPID then some (BGT60_STATUS_CHIPID_ERROR, some d, g3.2.2)
        else
          match bgt60_init_reg_loop d rl 0 g3.1 g3.2.2 with
          | none => none
          | some l =>
            if l.1 = BGT60_STATUS_OK then
              let g4 := bgt60_get_reg (some d) regs_h.BGT60_REG_SFCTL u.tmp_init l.2.2
              if g4.1 = 0 then
                some (g4.1,
                  some (bgt60_dev_t.mk d.spi_transfer d.reset
                    ((((g4.2.1 &&& regs_h.BGT60_REG_SFCTL_FIFO_CREF_MSK) >>>
                      regs_h.BGT60_REG_SFCTL_FIFO_CREF_POS) + 1) % 65536)),
                  g4.2.2)
              else some (g4.1, some (bgt60_dev_t.mk d.spi_transfer d.reset 0), g4.2.2)
            else some (l.1, some d, l.2.2)
  | _, _ => some (BGT60_STATUS_PARAM_ERROR, dev, w)

/-- Model of `setup_bgt(mode)`. The message evaluates `get_num_slices_per_frame()`. -/
def setup_bgt {σ : Type} (regs_h : bgt60_regs_t) (u : bgt60_uninit_t) (st : direct_state σ)
    (mode : direct_mode_description_t) : Option (Bool × direct_state σ) :=
  match bgt60_init regs_h u (some st.bgt60_dev) (some mode.regs) st.world with
  | none => none
  | some r =>
    let st1 : direct_state σ := { st with bgt60_dev := r.2.1.getD st.bgt60_dev, world := r.2.2 }
    if r.1 ≠ 0 then some (false, st1)
    else
      let radar1 : radar_t :=
        { st1.radar with slice_size := st1.bgt60_dev.slice_size, frame_count := 0,
                         mode := some mode }
      match get_num_slices_per_frame radar1 with
      | none => none
      | some n =>
        some (true,
          { st1 with radar := radar1, reports := st1.reports ++ [rep_event.assuming_slices n] })

/-- `std::vector<uint16_t>::resize(n)`: the first `n` elements are kept, missing ones
are zero. -/
def vector_resize (f : List Nat) (n : Nat) : List Nat :=
  f.take n ++ List.replicate (n - f.length) 0

/-- Model of `direct_device_start(mode)`: the result and the state afterwards. The acquisition
thread that is started at the end is not part of this function: its
iterations are `read_frame_data` steps on the state returned here. -/
def direct_device_start {σ : Type} (regs_h : bgt60_regs_t) (u : bgt60_uninit_t)
    (plat : platform_t σ) (st : direct_state σ) (mode : direct_mode_description_t) :
    Option (Bool × direct_state σ) :=
  if st.radar.is_started then
    some (false, { st with reports := st.reports ++ [rep_event.already_started] })
  else
    let rx_antenna_count := mode.num_antennas % 256
    let cc := plat.ifx_cube_create_r st.world rx_antenna_count
      mode.seg_config.num_chirps_per_frame mode.seg_config.num_samples_per_chirp
    let st1 : direct_state σ := { st with radar_data_frame := cc.1, world := cc.2 }
    if cc.1.isNone then
      some (false, { st1 with reports := st1.reports ++ [rep_event.cube_create_failed] })
    else
      let pi := plat.bgt60_platform_init st1.world
      let st2 : direct_state σ := { st1 with world := pi.2 }
      if pi.1 ≠ 0 then
        some (false, { st2 with reports := st2.reports ++ [rep_event.hw_init_failed] })
      else
        match setup_bgt regs_h u st2 mode with
        | none => none
        | some sb =>
          if sb.1 = false then
            some (false, { sb.2 with reports := sb.2.reports ++ [rep_event.bgt_init_failed] })
          else
            let st3 : direct_state σ :=
              { sb.2 with
                test_mode_shift_register := test_mode_lsfr_init sb.2.test_mode_shift_register }
            let tm := bgt60_enable_data_test_mode regs_h (some st3.bgt60_dev)
              st3.data_integrity_test_enabled u.tmp_test_mode st3.world
            let st4 : direct_state σ := { st3 with world := tm.2 }
            if tm.1 ≠ 0 then
              some (false,
                { st4 with
                  reports := st4.reports ++
                    [rep_event.test_mode_failed st4.data_integrity_test_enabled] })
            else
              let st5 : direct_state σ :=
                { st4 with
                  radar :=
                    { st4.radar with
                      frame_buffer :=
                        SingleReaderSingleWriterRingBuffer.resize_fn st4.radar.frame_buffer 5 []
                          (fun f =>
                            vector_resize f
                              (((rx_antenna_count * mode.seg_config.num_chirps_per_frame) %
                                2 ^ 32 * mode.seg_config.num_samples_per_chirp) % 2 ^ 32)) } }
              let fs := bgt60_frame_start regs_h (some st5.bgt60_dev) true st5.world
              let st6 : direct_state σ := { st5 with world := fs.2 }
              if fs.1 ≠ 0 then
                some (false,
                  { st6 with reports := st6.reports ++ [rep_event.frame_start_failed] })
              else some (true, { st6 with radar := { st6.radar with is_started := true } })

/-- Register addresses and field masks used in the worked instances. -/
def sample_regs : bgt60_regs_t := bgt60_regs_t.mk 0x00 0x02 0x06 0x000001 0x001FFF 0 0x020000

/-- A session that has not been started, in the state `direct_device_init` leaves
behind; the transport answers every transfer with status 0 and the bytes
`00 00 03 03`, which decode to the chip identity. -/
def sample_idle_session : direct_state (List (Nat × Option (List Nat) × Nat)) :=
  direct_state.mk false 0x0ABC
    (radar_t.mk 4 0 0 false false false (SingleReaderSingleWriterRingBuffer.mk 0 0 []) none)
    (trace_dev 0 [0, 0, 3, 3] 0) none 0 0 [] []

/-! ## Iterations of the acquisition thread (`direct.cpp`, `read_frame_data`, `spi_data_thread`) -/

/-- Model of `direct_device_init()`. -/
def direct_device_init {σ : Type} (st : direct_state σ) : direct_state σ :=
  { st with
    radar :=
      { st.radar with frame_count := 0, is_started := false, buffer_overflow := false,
                      fifo_error := false, header_size := 4 } }

/-- The transport leaves the size of the receive buffer as it is: the callee of
`spi_transfer` gets a pointer and cannot resize the array behind it. -/
def transport_keeps_length {σ : Type} (dev : bgt60_dev_t σ) : Prop :=
  ∀ (w : σ) (tx : Nat) (rx : List Nat) (n : Nat),
    (dev.spi_transfer w tx (some rx) n).2.1.length = rx.length

/-- The test `bgt60_platform_wait_interrupt() > 0` at the head of an iteration of the slice
loop, evaluated in the state `st`. -/
def slice_wait_ready {σ : Type} (plat : platform_t σ) (st : direct_state σ) : Bool :=
  decide ((plat.bgt60_platform_wait_interrupt st.world).1 > 0)

/-- The slice read of an iteration of the slice loop that starts in the state `st`
with the slice buffer `slice_data`: the call
`bgt60_get_fifo_data(&bgt60_dev, slice_data.data())` after the data-ready wait. -/
def slice_fifo_read {σ : Type} (plat : platform_t σ) (st : direct_state σ)
    (slice_data : List Nat) : Int × Option (List Nat) × σ :=
  bgt60_get_fifo_data (some st.bgt60_dev) (some slice_data)
    (plat.bgt60_platform_wait_interrupt st.world).2

/-- An iteration of the slice loop that starts in the state `st` has a failing
slice read: the wait indicates readiness and `bgt60_get_fifo_data` returns
non-zero. -/
def slice_read_failed {σ : Type} (plat : platform_t σ) (st : direct_state σ)
    (slice_data : List Nat) : Bool :=
  slice_wait_ready plat st && decide ((slice_fifo_read plat st slice_data).1 ≠ 0)

/-- The body of the slice loop of `read_frame_data` for the slice with index `slice`: the
part before the unpacking, then the call of `unpack_raw12`. -/
def read_frame_data_body {σ : Type} (M : Nat) (plat : platform_t σ)
    (num_slices_per_frame slice : Nat) (st : direct_state σ) (slice_data frame_buffer : List Nat) :
    Option (direct_state σ × List Nat × List Nat) :=
  match read_frame_data_slice plat num_slices_per_frame st slice_data with
  | none => none
  | some (st1, slice_data1) =>
    match get_num_samples_per_slice st1.radar with
    | none => none
    | some samples_per_slice =>
      match unpack_raw12 (slice_data1.drop st1.radar.header_size)
          (size_sub M (get_spi_transfer_size M st1.radar) st1.radar.header_size)
          frame_buffer ((slice * samples_per_slice) % M) with
      | none => none
      | some frame_buffer1 => some (st1, slice_data1, frame_buffer1)

/-- The loop `while (radar.is_started) read_frame_data();` of `spi_data_thread`, cut off
after `k` iterations, on a session that no other thread touches. -/
def spi_data_thread {σ : Type} (M : Nat) (plat : platform_t σ) :
    Nat → direct_state σ → Option (direct_state σ)
  | 0, st => some st
  | k + 1, st =>
    if st.radar.is_started then
      match read_frame_data M plat st with
      | none => none
      | some st1 => spi_data_thread M plat k st1
    else some st

/-- The 12-bit sample with index `j` that `unpack_raw12` takes from the packed
bytes `src`: two samples per group of three bytes. -/
def unpacked_sample (src : List Nat) (j : Nat) : Nat :=
  if j % 2 = 0 then (src.getD (3 * (j / 2)) 0 <<< 4) ||| (src.getD (3 * (j / 2) + 1) 0 >>> 4)
  else ((src.getD (3 * (j / 2) + 1) 0 &&& 15) <<< 8) ||| src.getD (3 * (j / 2) + 2) 0

/-- The receive buffer after a transfer that delivers `reply`: the bytes of `reply`
overwrite the head of the buffer, whose size stays as it is. The buffer is an
array of `uint8_t`, so every entry is taken modulo 256. -/
def fit_reply (rx : Option (List Nat)) (reply : List Nat) : List Nat :=
  match rx with
  | none => []
  | some buf => ((reply ++ buf.drop reply.length).take buf.length).map (fun b => b % 256)

/-- A logging transport that answers by transfer size: a transfer of four bytes, a
register access, gets the status 0 and `reg_reply`; every other transfer,
a FIFO read, gets `fifo_status` and `fifo_reply`. -/
def sim_dev (reg_reply : List Nat) (fifo_status : Int) (fifo_reply : List Nat)
    (slice_size : Nat) : bgt60_dev_t (List (Nat × Option (List Nat) × Nat)) :=
  bgt60_dev_t.mk
    (fun log tx rx bytes =>
      if bytes = 4 then (0, fit_reply rx reg_reply, log ++ [(tx, rx, bytes)])
      else (fifo_status, fit_reply rx fifo_reply, log ++ [(tx, rx, bytes)]))
    (fun log => log) slice_size

/-- A platform like `sample_platform` whose data-ready wait indicates readiness
only as long as no transfer has been logged. -/
def ready_once_platform : platform_t (List (Nat × Option (List Nat) × Nat)) :=
  platform_t.mk (fun w => (0, w)) (fun w => (0, w))
    (fun w => (if w.length = 0 then 1 else 0, w))
    (fun w r c s => (some (ifx_Cube_R_t.mk r c s (fun _ _ _ => 7)), w))

/-- A mode with one antenna, one chirp per frame and four samples per chirp: with a
slice size of 1 a frame has two slices of two samples. -/
def two_slice_mode : direct_mode_description_t :=
  direct_mode_description_t.mk ("two-slice") ("one antenna, four samples") 1 [0xFFFFFFFF]
    (ifx_Config_t.mk 4 1 0 0 0)

/-- A started session in `two_slice_mode` with slice size 1, clear flags and an empty
ring buffer of capacity 2, on the transport `dev`. -/
def two_slice_session (dev : bgt60_dev_t (List (Nat × Option (List Nat) × Nat))) :
    direct_state (List (Nat × Option (List Nat) × Nat)) :=
  direct_state.mk false 0x0001
    (radar_t.mk 4 1 0 true false false
      (SingleReaderSingleWriterRingBuffer.mk 0 0 [[0, 0, 0, 0], [0, 0, 0, 0]])
      (some two_slice_mode))
    dev none 0 0 [] []

/-- The geometry of a frame in a session with the structure `radar`: `F` samples per
frame, slice size `ss` (not zero), header size `h`; the transfer size
`3 * ss + h` is a `uint32_t` and a `size_t` value that leaves room for the three
header bytes written by `read_frame_data`, and `F` is a `size_t` value. -/
def slice_geometry (M : Nat) (radar : radar_t) (F ss h : Nat) : Prop :=
  get_num_samples_per_frame radar = some F ∧ radar.slice_size = ss ∧ radar.header_size = h ∧
    0 < ss ∧ 4 ≤ 3 * ss + h ∧ 3 * ss + h < M ∧ 3 * ss + h < 2 ^ 32 ∧ F < M

/-- The session `two_slice_session dev` with the ring buffer replaced by `rb`. -/
def two_slice_session_rb (dev : bgt60_dev_t (List (Nat × Option (List Nat) × Nat)))
    (rb : SingleReaderSingleWriterRingBuffer (List Nat)) :
    direct_state (List (Nat × Option (List Nat) × Nat)) :=
  direct_state.mk false 0x0001 (radar_t.mk 4 1 0 true false false rb (some two_slice_mode))
    dev none 0 0 [] []

/-- A session that has not been started, on a transport that answers every register
read with the bytes `00 00 03 03`, which decode to the chip identity, and every
FIFO read with zeros. -/
def sim_idle_session : direct_state (List (Nat × Option (List Nat) × Nat)) :=
  direct_state.mk false 0x0ABC
    (radar_t.mk 0 0 7 true true true (SingleReaderSingleWriterRingBuffer.mk 3 1 [[9]]) none)
    (sim_dev [0, 0, 3, 3] 0 [] 0) none 0 0 [] []

/-! ## Phases of `bgt60_init` (`driver/bgt60.c`) -/

/-- Lines 84 to 98 of `bgt60_init`: the hardware reset, the soft reset, the write of
`0x102000` to SFCTL and the read of SFCTL into `chipid`. The result is the status
that decides whether `bgt60_init` returns here, the value of `chipid` and the new
world. -/
def bgt60_init_prelude {σ : Type} (regs_h : bgt60_regs_t) (u : bgt60_uninit_t)
    (d : bgt60_dev_t σ) (w : σ) : Int × Nat × σ :=
  let w1 := d.reset w
  let sr := bgt60_soft_reset regs_h (some d) BGT60_RESET_FSM w1
  let s1 := bgt60_set_reg (some d) regs_h.BGT60_REG_SFCTL 0x102000 sr.2
  if s1.1 ≠ 0 then (s1.1, u.chipid, s1.2)
  else bgt60_get_reg (some d) regs_h.BGT60_REG_SFCTL u.chipid s1.2

/-- Lines 100 to 106 of `bgt60_init`: the read of the chip-identity register and the
second read when the first value is not `BGT60TR13C_CHIPID`. The result is the
status of the last read, the value of `chipid` and the new world. -/
def bgt60_init_chipid {σ : Type} (regs_h : bgt60_regs_t) (d : bgt60_dev_t σ) (chipid : Nat)
    (w : σ) : Int × Nat × σ :=
  let g2 := bgt60_get_reg (some d) regs_h.BGT60_REG_CHIP_ID chipid w
  if g2.2.1 ≠ BGT60TR13C_CHIPID then
    bgt60_get_reg (some d) regs_h.BGT60_REG_CHIP_ID g2.2.1 g2.2.2
  else g2

/-- Lines 112 to 145 of `bgt60_init`: the register-list loop and the read-back of the
slice size, entered with the status of the last chip-identity read. -/
def bgt60_init_program {σ : Type} (regs_h : bgt60_regs_t) (u : bgt60_uninit_t)
    (d : bgt60_dev_t σ) (rl : List Nat) (status : Int) (w : σ) :
    Option (Int × Option (bgt60_dev_t σ) × σ) :=
  match bgt60_init_reg_loop d rl 0 status w with
  | none => none
  | some l =>
    if l.1 = BGT60_STATUS_OK then
      let g4 := bgt60_get_reg (some d) regs_h.BGT60_REG_SFCTL u.tmp_init l.2.2
      if g4.1 = 0 then
        some (g4.1,
          some (bgt60_dev_t.mk d.spi_transfer d.reset
            ((((g4.2.1 &&& regs_h.BGT60_REG_SFCTL_FIFO_CREF_MSK) >>>
              regs_h.BGT60_REG_SFCTL_FIFO_CREF_POS) + 1) % 65536)),
          g4.2.2)
      else some (g4.1, some (bgt60_dev_t.mk d.spi_transfer d.reset 0), g4.2.2)
    else some (l.1, some d, l.2.2)

/-- The write that the register-list loop issues for the entry `e`:
`bgt60_set_reg(dev, (e & REGADR_MSK) >> REGADR_POS, (e & DATA_MSK) >> DATA_POS)`. -/
def reg_entry_write {σ : Type} (d : bgt60_dev_t σ) (e : Nat) (w : σ) : Int × σ :=
  bgt60_set_reg (some d) ((e &&& BGT60_SPI_REGADR_MSK) >>> BGT60_SPI_REGADR_POS)
    ((e &&& BGT60_SPI_DATA_MSK) >>> BGT60_SPI_DATA_POS) w

/-- The world after the writes for the entries `es`, issued one after the other
in list order. -/
def reg_list_world {σ : Type} (d : bgt60_dev_t σ) : σ → List Nat → σ
  | w, [] => w
  | w, e :: es => reg_list_world d (reg_entry_write d e w).2 es

/-- Every one of the writes for the entries `es`, issued in list order from the
world `w`, returns the status 0. -/
def reg_list_ok {σ : Type} (d : bgt60_dev_t σ) : σ → List Nat → Bool
  | _, [] => true
  | w, e :: es =>
    decide ((reg_entry_write d e w).1 = 0) && reg_list_ok d (reg_entry_write d e w).2 es

/-- The entries of a register list that precede its first `0xFFFFFFFF`. -/
def reg_list_entries (rl : List Nat) : List Nat :=
  rl.takeWhile (fun e => decide (e ≠ 0xFFFFFFFF))

/-- The word on the wire for the register-list entry `e`: the byte swap of the
address bits 31 to 25 and the data bits 23 to 0 of `e` with the write bit
set. -/
def reg_entry_wire (e : Nat) : Nat :=
  htonl ((e &&& 0xFE000000) ||| 0x01000000 ||| (e &&& 0x00FFFFFF))

/-- The world after transfers of four bytes without receive buffer that send
the words `ws`, one transfer per word, in list order. -/
def transmit_words {σ : Type} (d : bgt60_dev_t σ) : σ → List Nat → σ
  | w, [] => w
  | w, x :: xs => transmit_words d (d.spi_transfer w x none 4).2.2 xs

/-- The transport never fails: every transfer returns the status 0. -/
def transport_never_fails {σ : Type} (d : bgt60_dev_t σ) : Prop :=
  ∀ (w : σ) (tx : Nat) (rx : Option (List Nat)) (n : Nat), (d.spi_transfer w tx rx n).1 = 0

/-- A logging transport whose transfers succeed as long as fewer than `k` requests
have been logged and fail with the status `-1` from then on; the receive data
are always `reply`. -/
def failing_dev (k : Nat) (reply : List Nat) (slice_size : Nat) :
    bgt60_dev_t (List (Nat × Option (List Nat) × Nat)) :=
  bgt60_dev_t.mk
    (fun log tx rx bytes =>
      (if log.length < k then 0 else -1, fit_reply rx reply, log ++ [(tx, rx, bytes)]))
    (fun log => log) slice_size

/-! ## Mode table (`default_mode_table.c`) and mode selection (`acq_spi.c`) -/

/-- The array `regs_landscape_460MHz`. -/
def regs_landscape_460MHz : List Nat :=
  [0x011E8270, 0x030A0210, 0x09E967FD, 0x0B0805B4, 0x0D102FFF, 0x0F010700, 0x11000000,
   0x13000000, 0x15000000, 0x17000BE0, 0x19000000, 0x1B000000, 0x1D000000, 0x1F000B60,
   0x21133C51, 0x235FF41F, 0x25706F7B, 0x2D000490, 0x3B000480, 0x49000480, 0x57000480,
   0x5911BE0E, 0x5B65AC0A, 0x5D03F000, 0x5F787E1E, 0x61F4A65A, 0x63000099, 0x650002B2,
   0x67000080, 0x69000000, 0x6B000000, 0x6D000000, 0x6F253B10, 0x7F000100, 0x8F000100,
   0x9F000100, 0xAB000000, 0xAD000000, 0xB7000000, 0xFFFFFFFF]

/-- The array `regs_landscape_1GHz`. -/
def regs_landscape_1GHz : List Nat :=
  [0x11e8270, 0x30a0210, 0x9e967fd, 0xb0805b4, 0xd102fff, 0xf010700, 0x11000000,
   0x13000000, 0x15000000, 0x17000be0, 0x19000000, 0x1b000000, 0x1d000000, 0x1f000b60,
   0x21133c51, 0x235ff41f, 0x25706f7b, 0x2d000490, 0x3b000480, 0x49000480, 0x57000480,
   0x5911be0e, 0x5b65ac0a, 0x5d03f000, 0x5f787e1e, 0x61e7cd4a, 0x63000131, 0x650002b2,
   0x67000080, 0x69000000, 0x6b000000, 0x6d000000, 0x6f253b10, 0x7f000100, 0x8f000100,
   0x9f000100, 0xab000000, 0xad000000, 0xb7000000, 0xFFFFFFFF]

def IFX_ORIENTATION_LANDSCAPE : Nat := 0

/-- The array `direct_device_default_mode_table`. The bandwidths `460000000` and
`1000000000` are `float` values as they stand; the centre frequencies
`61250000000` and `61000000000` are not, the fields hold the nearest `float`
values. -/
def direct_device_default_mode_table : List direct_mode_description_t :=
  [direct_mode_description_t.mk ("landscape") ("landscape using 460MHz of bandwidth") 2
      regs_landscape_460MHz
      (ifx_Config_t.mk 128 64 460000000 61249998848 IFX_ORIENTATION_LANDSCAPE),
   direct_mode_description_t.mk ("landscape-1ghz") ("landscape using 1GHz of bandwidth") 2
      regs_landscape_1GHz
      (ifx_Config_t.mk 128 64 1000000000 60999999488 IFX_ORIENTATION_LANDSCAPE)]

/-- The library function `strcmp` on the characters of two C strings (the
characters before the terminating NUL): zero when the strings are equal,
otherwise the difference of the first two characters that differ, the end of
a string counting as 0. -/
def strcmp : List Char → List Char → Int
  | [], [] => 0
  | [], b :: _ => 0 - (b.toNat : Int)
  | a :: _, [] => (a.toNat : Int)
  | a :: as, b :: bs => if a = b then strcmp as bs else (a.toNat : Int) - (b.toNat : Int)

/-- The loop `for (l = 0; l < table_size; l++)` of `direct_device_default_mode_find` over the
entries from index `l` on. -/
def direct_device_default_mode_find_loop (name : String) :
    List direct_mode_description_t → Option direct_mode_description_t
  | [] => none
  | entry :: rest =>
    if strcmp name.toList entry.specifier.toList = 0 then some entry
    else direct_device_default_mode_find_loop name rest

/-- Model of `direct_device_default_mode_find(name)`: the entry the returned pointer refers to,
`none` for `NULL`. A C string is given by the characters before its NUL. -/
def direct_device_default_mode_find (name : String) : Option direct_mode_description_t :=
  direct_device_default_mode_find_loop name direct_device_default_mode_table

/-- The static variable `mode` of `acq_spi.c`, given by the table entry it points at,
and the log of the `rep_err` calls of `acq_set_mode` with the name they print. -/
structure acq_spi_t where
  mode : direct_mode_description_t
  mode_not_understood : List String

/-- Model of `acq_set_mode(name)`. -/
def acq_set_mode (name : String) (acq : acq_spi_t) : Bool × acq_spi_t :=
  match direct_device_default_mode_find name with
  | none => (false, { acq with mode_not_understood := acq.mode_not_understood ++ [name] })
  | some new_mode => (true, { acq with mode := new_mode })

/-! ## Session life cycle (`direct.cpp`, `direct_device_stop`) -/

/-- Model of `direct_device_stop()`. When the session is started the flag `is_started` is
cleared and `join()` waits for the acquisition thread; `in_flight` says whether
that thread is inside an iteration of `read_frame_data` at that moment, which it
then completes. `ifx_cube_destroy_r` frees the cube. -/
def direct_device_stop {σ : Type} (M : Nat) (plat : platform_t σ) (in_flight : Bool)
    (st : direct_state σ) : Option (direct_state σ) :=
  let joined : Option (direct_state σ) :=
    if st.radar.is_started then
      let st1 : direct_state σ := { st with radar := { st.radar with is_started := false } }
      match (if in_flight then read_frame_data M plat st1 else some st1) with
      | none => none
      | some st2 =>
        some
          { st2 with
            radar :=
              { st2.radar with
                frame_buffer := SingleReaderSingleWriterRingBuffer.reset st2.radar.frame_buffer,
                frame_count := 0 } }
    else some st
  match joined with
  | none => none
  | some st3 =>
    some
      { st3 with radar_data_frame := none, world := (plat.bgt60_platform_deinit st3.world).2 }

/-- One event in the life of a session after its start: an iteration of the
acquisition thread, a fetch call of the consumer, or a stop. -/
inductive session_call where
  | iteration
  | fetch
  | stop (in_flight : Bool)

/-- The state after one event. -/
def session_step {σ : Type} (M : Nat) (plat : platform_t σ) :
    session_call → direct_state σ → Option (direct_state σ)
  | session_call.iteration, st => read_frame_data M plat st
  | session_call.fetch, st =>
    match direct_device_acq_fetch M st with
    | none => none
    | some r => some r.2.1
  | session_call.stop in_flight, st => direct_device_stop M plat in_flight st

/-- The state after a finite sequence of events. -/
def session_run {σ : Type} (M : Nat) (plat : platform_t σ) :
    List session_call → direct_state σ → Option (direct_state σ)
  | [], st => some st
  | c :: cs, st =>
    match session_step M plat c st with
    | none => none
    | some st1 => session_run M plat cs st1

/-- Both session flags that are set in `st` are set in `st1`. -/
def flags_kept {σ : Type} (st st1 : direct_state σ) : Prop :=
  (st.radar.fifo_error = true → st1.radar.fifo_error = true) ∧
    (st.radar.buffer_overflow = true → st1.radar.buffer_overflow = true)

/-- A started session in `two_slice_mode` with both flags set, one frame waiting in a
ring buffer of capacity 2 and a session cube, on a transport whose FIFO reads
fail with the status 1. -/
def flagged_session : direct_state (List (Nat × Option (List Nat) × Nat)) :=
  direct_state.mk false 0x0001
    (radar_t.mk 4 1 1 true true true
      (SingleReaderSingleWriterRingBuffer.mk 0 1 [[1, 2, 3, 4], [0, 0, 0, 0]])
      (some two_slice_mode))
    (sim_dev [0, 0, 3, 3] 1 [9, 9, 9, 9, 0xAB, 0xCD, 0xEF] 1)
    (some (ifx_Cube_R_t.mk 1 1 4 (fun _ _ _ => 0))) 0 0 [] []

/-! ## Values passing through the ring buffer -/

/-- The values of the `try_push` calls of the sequence that returned true, in call
order. -/
def pushed_values {T : Type} (M : Nat) :
    SingleReaderSingleWriterRingBuffer T → List (rb_call T) → List T
  | _, [] => []
  | rb, rb_call.push value :: cs =>
    (if (rb_step M rb (rb_call.push value)).1 then [value] else []) ++
      pushed_values M (rb_step M rb (rb_call.push value)).2 cs
  | rb, c :: cs => pushed_values M (rb_step M rb c).2 cs

/-- The values delivered by the `try_pop` calls of the sequence that returned true,
in call order: for `try_pop(dest)` the value of `dest` after the call, for `try_pop()`
the slot value handed to the callback. -/
def popped_values {T : Type} (M : Nat) :
    SingleReaderSingleWriterRingBuffer T → List (rb_call T) → List T
  | _, [] => []
  | rb, rb_call.push value :: cs => popped_values M (rb_step M rb (rb_call.push value)).2 cs
  | rb, rb_call.pop dest :: cs =>
    (if (SingleReaderSingleWriterRingBuffer.try_pop M rb dest).1 then
      [(SingleReaderSingleWriterRingBuffer.try_pop M rb dest).2.2] else []) ++
      popped_values M (rb_step M rb (rb_call.pop dest)).2 cs
  | rb, rb_call.pop_discard :: cs =>
    (SingleReaderSingleWriterRingBuffer.try_pop_fn M rb
      (fun value (_ : List T) => (value, [value])) []).2.2 ++
      popped_values M (rb_step M rb rb_call.pop_discard).2 cs

/-- The call sequence `try_push(value); try_pop();` repeated `n` times. -/
def push_pop_pairs {T : Type} (value : T) : Nat → List (rb_call T)
  | 0 => []
  | n + 1 => rb_call.push value :: rb_call.pop_discard :: push_pop_pairs value n

/-! ## Chip identity check on a failing transfer -/

/-- A logging transport on which every transfer that sends the word `bad_tx` fails
with the status `-1` and leaves `bad_reply` in the receive buffer; every other
transfer succeeds and delivers `reply`. -/
def selective_dev (bad_tx : Nat) (bad_reply reply : List Nat) (slice_size : Nat) :
    bgt60_dev_t (List (Nat × Option (List Nat) × Nat)) :=
  bgt60_dev_t.mk
    (fun log tx rx bytes =>
      if tx = bad_tx then (-1, fit_reply rx bad_reply, log ++ [(tx, rx, bytes)])
      else (0, fit_reply rx reply, log ++ [(tx, rx, bytes)]))
    (fun log => log) slice_size

/-! ## Circular shift of a vector (`ifxBase/Vector.c`) -/

/-- The copy loop of `ifx_vec_blit_r`, `for (i = 0; i < length; i++)`, with `n` iterations
left: `vAt(target, target_offset + i) = vAt(vector, offset + i)`. A vector is given
by the list of its elements, of any type; `none` when an access leaves a
vector. -/
def ifx_vec_blit_r_loop {α : Type} (vector : List α) (offset target_offset : Nat) :
    Nat → Nat → List α → Option (List α)
  | 0, _, target => some target
  | n + 1, i, target =>
    match vector[offset + i]? with
    | none => none
    | some x =>
      if target_offset + i < target.length then
        ifx_vec_blit_r_loop vector offset target_offset n (i + 1) (target.set (target_offset + i) x)
      else none

/-- Model of `ifx_vec_blit_r(vector, offset, length, target_offset, target)`: the target afterwards.
The two bounds checks, computed in `uint32_t`, leave the function early. -/
def ifx_vec_blit_r {α : Type} (vector : List α) (offset length target_offset : Nat)
    (target : List α) : Option (List α) :=
  if (length + offset) % 2 ^ 32 > vector.length then some target
  else if (length + target_offset) % 2 ^ 32 > target.length then some target
  else ifx_vec_blit_r_loop vector offset target_offset length 0 target

/-- The inner loop of the in-place branch of `ifx_vec_copyshift_r`,
`for (i = m, j = m + shift; j != m; i = j, j = ..., count++)`: the values of `i` and
`count` and the vector when the loop is left; `none` when an access leaves the
vector or the budget `fuel` is used up. -/
def ifx_vec_copyshift_r_inner {α : Type} (length shift m : Nat) :
    Nat → Nat → Nat → Nat → List α → Option (Nat × Nat × List α)
  | 0, _, _, _, _ => none
  | fuel + 1, i, j, count, v =>
    if j ≠ m then
      match v[j]? with
      | none => none
      | some x =>
        if i < v.length then
          ifx_vec_copyshift_r_inner length shift m fuel j
            (if (j + shift) % 2 ^ 32 < length then (j + shift) % 2 ^ 32
              else ((j + shift) % 2 ^ 32 + (2 ^ 32 - length % 2 ^ 32)) % 2 ^ 32)
            ((count + 1) % 2 ^ 32) (v.set i x)
        else none
    else some (i, count, v)

/-- The outer loop of the in-place branch of `ifx_vec_copyshift_r`,
`for (m = 0, count = 0; count != length; m++)`. -/
def ifx_vec_copyshift_r_outer {α : Type} (length shift : Nat) :
    Nat → Nat → Nat → List α → Option (List α)
  | 0, _, _, _ => none
  | fuel + 1, m, count, v =>
    if count ≠ length then
      match v[m]? with
      | none => none
      | some t =>
        match ifx_vec_copyshift_r_inner length shift m (length + 1) m ((m + shift) % 2 ^ 32)
            count v with
        | none => none
        | some r =>
          if r.1 < r.2.2.length then
            ifx_vec_copyshift_r_outer length shift fuel ((m + 1) % 2 ^ 32)
              ((r.2.1 + 1) % 2 ^ 32) (r.2.2.set r.1 t)
          else none
    else some v

/-- Model of `ifx_vec_copyshift_r(vector, shift, target)`: the target afterwards. `target = none`
stands for a target pointer equal to `vector`, the in-place call; then the
result is the vector afterwards. The dimension check leaves the function
early when the lengths differ. -/
def ifx_vec_copyshift_r {α : Type} (vector : List α) (shift : Nat) (target : Option (List α)) :
    Option (List α) :=
  let length := vector.length
  match target with
  | some t =>
    if t.length ≠ vector.length then some t
    else
      let n2 := (length + (2 ^ 32 - shift % 2 ^ 32)) % 2 ^ 32
      match ifx_vec_blit_r vector 0 n2 shift t with
      | none => none
      | some t1 => ifx_vec_blit_r vector n2 shift 0 t1
  | none => ifx_vec_copyshift_r_outer length shift (length + 1) 0 0 vector

/-- Model of `ifx_vec_shift_r(vector, shift)`: the vector afterwards. -/
def ifx_vec_shift_r {α : Type} (vector : List α) (shift : Nat) : Option (List α) :=
  if shift = 0 then some vector else ifx_vec_copyshift_r vector shift none

open SingleReaderSingleWriterRingBuffer

/-! ## Bit-level helper lemmas -/

theorem or_eq_add_of_dvd (k a b : Nat) (ha : 2 ^ k ∣ a) (hb : b < 2 ^ k) :
    a ||| b = a + b := by
  obtain ⟨c, rfl⟩ := ha
  exact (Nat.mul_add_lt_is_or hb c).symm

theorem and_mask_shift (x k w : Nat) :
    x &&& ((2 ^ w - 1) <<< k) = ((x >>> k) % 2 ^ w) <<< k := by
  apply Nat.eq_of_testBit_eq
  intro i
  simp only [Nat.testBit_and, Nat.testBit_shiftLeft, Nat.testBit_two_pow_sub_one,
    Nat.testBit_mod_two_pow, Nat.testBit_shiftRight]
  by_cases h : k ≤ i
  · have : k + (i - k) = i := by omega
    simp [h, this, Bool.and_comm]
  · simp [h]

theorem and_15 (x : Nat) : x &&& 15 = x % 16 :=
  Nat.and_pow_two_sub_one_eq_mod x 4

theorem and_255 (x : Nat) : x &&& 255 = x % 256 :=
  Nat.and_pow_two_sub_one_eq_mod x 8

theorem shl4 (x : Nat) : x <<< 4 = x * 16 := Nat.shiftLeft_eq x 4

theorem shl8 (x : Nat) : x <<< 8 = x * 256 := Nat.shiftLeft_eq x 8

theorem shr4 (x : Nat) : x >>> 4 = x / 16 := Nat.shiftRight_eq_div_pow x 4

theorem shr8 (x : Nat) : x >>> 8 = x / 256 := Nat.shiftRight_eq_div_pow x 8

/-! ## Raw sample unpacker -/

/-- First sample of a triplet as plain arithmetic. -/
theorem sampleA_arith (b0 b1 : Nat) (h1 : b1 < 256) :
    (b0 <<< 4) ||| (b1 >>> 4) = b0 * 16 + b1 / 16 := by
  rw [shl4, shr4]
  exact or_eq_add_of_dvd 4 _ _ ⟨b0, by ring⟩ (by show b1 / 16 < 16; omega)

/-- Second sample of a triplet as plain arithmetic. -/
theorem sampleB_arith (b1 b2 : Nat) (h2 : b2 < 256) :
    ((b1 &&& 15) <<< 8) ||| b2 = (b1 % 16) * 256 + b2 := by
  rw [and_15, shl8]
  exact or_eq_add_of_dvd 8 _ _ ⟨b1 % 16, by ring⟩ (by show b2 < 256; omega)

theorem sampleA_lt (b0 b1 : Nat) (h0 : b0 < 256) (h1 : b1 < 256) :
    (b0 <<< 4) ||| (b1 >>> 4) < 4096 := by
  rw [sampleA_arith b0 b1 h1]; omega

theorem sampleB_lt (b1 b2 : Nat) (h2 : b2 < 256) :
    ((b1 &&& 15) <<< 8) ||| b2 < 4096 := by
  rw [sampleB_arith b1 b2 h2]; omega

theorem getD_lt_256 (src : List Nat) (hb : ∀ b ∈ src, b < 256) (j : Nat)
    (hj : j < src.length) : src.getD j 0 < 256 := by
  apply hb
  simp [List.getD, List.getElem?_eq_getElem hj]

theorem getElem?_eq_some_getD (src : List Nat) (j : Nat) (hj : j < src.length) :
    src[j]? = some (src.getD j 0) := by
  simp [List.getD, List.getElem?_eq_getElem hj]

/-- Invariant of the unpacking loop: with `m` groups left, counter `i` and
destination position `d`, the loop terminates within any budget above `m`,
writes the `2 * m` positions from `d` on and nothing else. -/
theorem unpack_raw12_loop_spec (src : List Nat) (hb : ∀ b ∈ src, b < 256) :
    ∀ (m fuel i d : Nat) (dst : List Nat), m < fuel → i + 3 * m ≤ src.length →
      d + 2 * m ≤ dst.length →
      ∃ out, unpack_raw12_loop src (i + 3 * m) fuel i d dst = some out ∧
        out.length = dst.length ∧
        (∀ k, k < m →
          out[d + 2 * k]? =
            some ((src.getD (i + 3 * k) 0 <<< 4) ||| (src.getD (i + 3 * k + 1) 0 >>> 4)) ∧
          out[d + 2 * k + 1]? =
            some (((src.getD (i + 3 * k + 1) 0 &&& 15) <<< 8) |||
              src.getD (i + 3 * k + 2) 0)) ∧
        (∀ j, j < d ∨ d + 2 * m ≤ j → out[j]? = dst[j]?) := by
  intro m
  induction m with
  | zero =>
    intro fuel i d dst hf _ _
    obtain ⟨f, rfl⟩ : ∃ f, fuel = f + 1 := ⟨fuel - 1, by omega⟩
    refine ⟨dst, ?_, rfl, ?_, ?_⟩
    · simp [unpack_raw12_loop]
    · intro k hk; omega
    · intro j _; rfl
  | succ m ih =>
    intro fuel i d dst hf hs hd
    obtain ⟨f, rfl⟩ : ∃ f, fuel = f + 1 := ⟨fuel - 1, by omega⟩
    have e0 := getElem?_eq_some_getD src i (by omega)
    have e1 := getElem?_eq_some_getD src (i + 1) (by omega)
    have e2 := getElem?_eq_some_getD src (i + 2) (by omega)
    have l0 := getD_lt_256 src hb i (by omega)
    have l1 := getD_lt_256 src hb (i + 1) (by omega)
    have l2 := getD_lt_256 src hb (i + 2) (by omega)
    have hA := sampleA_lt _ _ l0 l1
    have hB := sampleB_lt (src.getD (i + 1) 0) _ l2
    have hcnt : i + 3 * (m + 1) = (i + 3) + 3 * m := by ring
    obtain ⟨out, hout, hlen, hk, hfr⟩ :=
      ih f (i + 3) (d + 2)
        ((dst.set d (((src.getD i 0 <<< 4) ||| (src.getD (i + 1) 0 >>> 4)) % 65536)).set (d + 1)
          ((((src.getD (i + 1) 0 &&& 15) <<< 8) ||| src.getD (i + 2) 0) % 65536))
        (by omega) (by omega) (by simp; omega)
    refine ⟨out, ?_, ?_, ?_, ?_⟩
    · rw [unpack_raw12_loop, if_pos (by omega), e0, e1, e2]
      simp only []
      rw [if_pos (by omega), hcnt]
      exact hout
    · simpa using hlen
    · intro k hk1
      rcases Nat.eq_zero_or_pos k with rfl | hpos
      · have h0 := hfr d (Or.inl (by omega))
        have h1 := hfr (d + 1) (Or.inl (by omega))
        have hd0 : d < dst.length := by omega
        have hd1 : d + 1 < dst.length := by omega
        simp only [Nat.mul_zero, Nat.add_zero]
        constructor
        · rw [h0, List.getElem?_set_ne (by omega), List.getElem?_set_self hd0,
            Nat.mod_eq_of_lt (by omega)]
        · rw [h1, List.getElem?_set_self (by simpa using hd1), Nat.mod_eq_of_lt (by omega)]
      · obtain ⟨k2, rfl⟩ : ∃ k2, k = k2 + 1 := ⟨k - 1, by omega⟩
        have := hk k2 (by omega)
        have ea : d + 2 + 2 * k2 = d + 2 * (k2 + 1) := by ring
        have eb : i + 3 + 3 * k2 = i + 3 * (k2 + 1) := by ring
        rw [ea, eb] at this
        exact this
    · intro j hj
      rw [hfr j (by omega), List.getElem?_set_ne (by omega), List.getElem?_set_ne (by omega)]

/-- C1: for a source of at least `3 * n` bytes and room for `2 * n` samples at
the destination pointer, `unpack_raw12(src, 3 * n, dst)` terminates without
leaving its buffers and, for every group `i < n`, stores
`(b0 << 4) | (b1 >> 4)` at position `2 * i` and `((b1 & 15) << 8) | b2` at
position `2 * i + 1` (counted from the destination pointer), where `b0`, `b1`,
`b2` are the bytes `3 * i`, `3 * i + 1`, `3 * i + 2`. Both samples are below
4096, the buffer keeps its length and every position outside the `2 * n`
written ones keeps its content. -/
theorem unpack_raw12_spec (src : List Nat) (n : Nat) (dst : List Nat) (off : Nat)
    (hsrc : 3 * n ≤ src.length) (hbytes : ∀ b ∈ src, b < 256)
    (hdst : off + 2 * n ≤ dst.length) :
    ∃ out, unpack_raw12 src (3 * n) dst off = some out ∧
      out.length = dst.length ∧
      (∀ i, i < n →
        out[off + 2 * i]? =
          some ((src.getD (3 * i) 0 <<< 4) ||| (src.getD (3 * i + 1) 0 >>> 4)) ∧
        out[off + 2 * i + 1]? =
          some (((src.getD (3 * i + 1) 0 &&& 15) <<< 8) ||| src.getD (3 * i + 2) 0) ∧
        (src.getD (3 * i) 0 <<< 4) ||| (src.getD (3 * i + 1) 0 >>> 4) < 4096 ∧
        ((src.getD (3 * i + 1) 0 &&& 15) <<< 8) ||| src.getD (3 * i + 2) 0 < 4096) ∧
      (∀ j, j < off ∨ off + 2 * n ≤ j → out[j]? = dst[j]?) := by
  obtain ⟨out, hout, hlen, hk, hfr⟩ :=
    unpack_raw12_loop_spec src hbytes n (3 * n + 1) 0 off dst (by omega) (by omega) hdst
  refine ⟨out, ?_, hlen, ?_, hfr⟩
  · simpa [unpack_raw12] using hout
  · intro i hi
    have h := hk i hi
    simp only [Nat.zero_add] at h
    exact ⟨h.1, h.2,
      sampleA_lt _ _ (getD_lt_256 src hbytes _ (by omega)) (getD_lt_256 src hbytes _ (by omega)),
      sampleB_lt _ _ (getD_lt_256 src hbytes _ (by omega))⟩

/-- Instance of C1: two groups unpacked into a buffer of six cells, starting at
cell 1. -/
theorem unpack_raw12_spec_witness :
    (3 * 2 ≤ sample_bytes.length ∧ (∀ b ∈ sample_bytes, b < 256) ∧
      1 + 2 * 2 ≤ [7, 7, 7, 7, 7, 7].length) ∧
    unpack_raw12 sample_bytes (3 * 2) [7, 7, 7, 7, 7, 7] 1 =
      some [7, 0xABC, 0xDEF, 0x123, 0x456, 7] ∧
    ∃ out, unpack_raw12 sample_bytes (3 * 2) [7, 7, 7, 7, 7, 7] 1 = some out ∧
      out.length = [7, 7, 7, 7, 7, 7].length ∧
      (∀ i, i < 2 →
        out[1 + 2 * i]? =
          some ((sample_bytes.getD (3 * i) 0 <<< 4) ||| (sample_bytes.getD (3 * i + 1) 0 >>> 4)) ∧
        out[1 + 2 * i + 1]? =
          some (((sample_bytes.getD (3 * i + 1) 0 &&& 15) <<< 8) |||
            sample_bytes.getD (3 * i + 2) 0) ∧
        (sample_bytes.getD (3 * i) 0 <<< 4) ||| (sample_bytes.getD (3 * i + 1) 0 >>> 4) < 4096 ∧
        ((sample_bytes.getD (3 * i + 1) 0 &&& 15) <<< 8) |||
            sample_bytes.getD (3 * i + 2) 0 < 4096) ∧
      (∀ j, j < 1 ∨ 1 + 2 * 2 ≤ j → out[j]? = [7, 7, 7, 7, 7, 7][j]?) :=
  ⟨⟨by decide, by decide, by decide⟩, by decide,
    unpack_raw12_spec sample_bytes 2 [7, 7, 7, 7, 7, 7] 1 (by decide) (by decide) (by decide)⟩

/-- The unpacker on a single triplet and a two-cell destination. -/
theorem unpack_raw12_triplet (b0 b1 b2 : Nat) (h0 : b0 < 256) (h1 : b1 < 256)
    (h2 : b2 < 256) :
    unpack_raw12 [b0, b1, b2] 3 [0, 0] 0 = some [b0 * 16 + b1 / 16, (b1 % 16) * 256 + b2] := by
  have hA := sampleA_arith b0 b1 h1
  have hB := sampleB_arith b1 b2 h2
  have hA2 : (b0 * 16 + b1 / 16) % 65536 = b0 * 16 + b1 / 16 := Nat.mod_eq_of_lt (by omega)
  have hB2 : ((b1 % 16) * 256 + b2) % 65536 = (b1 % 16) * 256 + b2 :=
    Nat.mod_eq_of_lt (by omega)
  simp [unpack_raw12, unpack_raw12_loop, hA, hB, hA2, hB2]

/-- C2: for every byte triplet, the two samples `A`, `B` that `unpack_raw12`
produces satisfy `A >> 4 = b0`, `((A & 15) << 4) | (B >> 8) = b1` and
`B & 255 = b2`; hence any triplet unpacking to the same two samples is the
same triplet. -/
theorem unpack_raw12_round_trip (b0 b1 b2 : Nat) (h0 : b0 < 256) (h1 : b1 < 256)
    (h2 : b2 < 256) :
    ∃ A B, unpack_raw12 [b0, b1, b2] 3 [0, 0] 0 = some [A, B] ∧
      A >>> 4 = b0 ∧ ((A &&& 15) <<< 4) ||| (B >>> 8) = b1 ∧ B &&& 255 = b2 ∧
      ∀ c0 c1 c2, c0 < 256 → c1 < 256 → c2 < 256 →
        unpack_raw12 [c0, c1, c2] 3 [0, 0] 0 = some [A, B] →
        c0 = b0 ∧ c1 = b1 ∧ c2 = b2 := by
  refine ⟨b0 * 16 + b1 / 16, (b1 % 16) * 256 + b2, unpack_raw12_triplet b0 b1 b2 h0 h1 h2,
    ?_, ?_, ?_, ?_⟩
  · rw [shr4]; omega
  · rw [and_15, shl4, shr8]
    rw [or_eq_add_of_dvd 4 _ _ ⟨(b0 * 16 + b1 / 16) % 16, by ring⟩
      (by show _ < 16; omega)]
    omega
  · rw [and_255]; omega
  · intro c0 c1 c2 g0 g1 g2 hc
    rw [unpack_raw12_triplet c0 c1 c2 g0 g1 g2] at hc
    simp only [Option.some.injEq, List.cons.injEq, and_true] at hc
    omega

/-- Instance of C2 at the triplet `AB CD EF`. -/
theorem unpack_raw12_round_trip_witness :
    (0xAB < 256 ∧ 0xCD < 256 ∧ 0xEF < 256) ∧
    ∃ A B, unpack_raw12 [0xAB, 0xCD, 0xEF] 3 [0, 0] 0 = some [A, B] ∧
      A >>> 4 = 0xAB ∧ ((A &&& 15) <<< 4) ||| (B >>> 8) = 0xCD ∧ B &&& 255 = 0xEF ∧
      ∀ c0 c1 c2, c0 < 256 → c1 < 256 → c2 < 256 →
        unpack_raw12 [c0, c1, c2] 3 [0, 0] 0 = some [A, B] →
        c0 = 0xAB ∧ c1 = 0xCD ∧ c2 = 0xEF :=
  ⟨by decide, unpack_raw12_round_trip 0xAB 0xCD 0xEF (by decide) (by decide) (by decide)⟩

/-! ## Register protocol codec -/

/-- The byte swap as plain arithmetic on the four bytes of the word. -/
theorem htonl_arith (x : Nat) :
    htonl x = (x % 256) * 16777216 + (x / 256 % 256) * 65536 + (x / 65536 % 256) * 256 +
      x / 16777216 % 256 := by
  have m0 : x &&& 0x000000ff = x % 256 := Nat.and_pow_two_sub_one_eq_mod x 8
  have m1 : x &&& 0x0000ff00 = (x / 256 % 256) * 256 := by
    have := and_mask_shift x 8 8
    simpa [Nat.shiftLeft_eq, Nat.shiftRight_eq_div_pow] using this
  have m2 : x &&& 0x00ff0000 = (x / 65536 % 256) * 65536 := by
    have := and_mask_shift x 16 8
    simpa [Nat.shiftLeft_eq, Nat.shiftRight_eq_div_pow] using this
  have m3 : x &&& 0xff000000 = (x / 16777216 % 256) * 16777216 := by
    have := and_mask_shift x 24 8
    simpa [Nat.shiftLeft_eq, Nat.shiftRight_eq_div_pow] using this
  unfold htonl
  rw [m0, m1, m2, m3]
  simp only [Nat.shiftLeft_eq, Nat.shiftRight_eq_div_pow]
  norm_num
  have e1 : x % 256 * 16777216 ||| x / 256 % 256 * 256 * 256 =
      x % 256 * 16777216 + x / 256 % 256 * 256 * 256 :=
    or_eq_add_of_dvd 24 _ _ ⟨x % 256, by ring⟩ (by show _ < 16777216; omega)
  have e2 : x % 256 * 16777216 + x / 256 % 256 * 256 * 256 ||| x / 65536 % 256 * 65536 / 256 =
      x % 256 * 16777216 + x / 256 % 256 * 256 * 256 + x / 65536 % 256 * 65536 / 256 :=
    or_eq_add_of_dvd 16 _ _ ⟨x % 256 * 256 + x / 256 % 256, by ring⟩
      (by show _ < 65536; omega)
  have e3 : x % 256 * 16777216 + x / 256 % 256 * 256 * 256 + x / 65536 % 256 * 65536 / 256 |||
        x / 16777216 % 256 =
      x % 256 * 16777216 + x / 256 % 256 * 256 * 256 + x / 65536 % 256 * 65536 / 256 +
        x / 16777216 % 256 :=
    or_eq_add_of_dvd 8 _ _
      ⟨x % 256 * 65536 + x / 256 % 256 * 256 + x / 65536 % 256 * 65536 / 256 / 256, by
        show _ = 256 * _
        omega⟩
      (by show _ < 256; omega)
  rw [e1, e2, e3]
  omega

theorem htonl_lt (x : Nat) : htonl x < 4294967296 := by
  rw [htonl_arith]; omega

/-- The byte swap on a word given by its four bytes. -/
theorem htonl_of_bytes (b0 b1 b2 b3 : Nat) (h0 : b0 < 256) (h1 : b1 < 256) (h2 : b2 < 256)
    (h3 : b3 < 256) :
    htonl (b3 * 16777216 + b2 * 65536 + b1 * 256 + b0) =
      b0 * 16777216 + b1 * 65536 + b2 * 256 + b3 := by
  rw [htonl_arith]
  have e0 : (b3 * 16777216 + b2 * 65536 + b1 * 256 + b0) % 256 = b0 := by omega
  have e1 : (b3 * 16777216 + b2 * 65536 + b1 * 256 + b0) / 256 % 256 = b1 := by omega
  have e2 : (b3 * 16777216 + b2 * 65536 + b1 * 256 + b0) / 65536 % 256 = b2 := by omega
  have e3 : (b3 * 16777216 + b2 * 65536 + b1 * 256 + b0) / 16777216 % 256 = b3 := by omega
  rw [e0, e1, e2, e3]

/-- Every 32-bit word is the sum of its four bytes. -/
theorem word_bytes (x : Nat) (hx : x < 4294967296) :
    x = (x / 16777216 % 256) * 16777216 + (x / 65536 % 256) * 65536 + (x / 256 % 256) * 256 +
      x % 256 := by
  omega

/-- The byte swap is an involution on 32-bit words. -/
theorem htonl_htonl (x : Nat) (hx : x < 4294967296) : htonl (htonl x) = x := by
  have hb := word_bytes x hx
  have h1 := htonl_of_bytes (x % 256) (x / 256 % 256) (x / 65536 % 256) (x / 16777216 % 256)
    (by omega) (by omega) (by omega) (by omega)
  have h2 := htonl_of_bytes (x / 16777216 % 256) (x / 65536 % 256) (x / 256 % 256) (x % 256)
    (by omega) (by omega) (by omega) (by omega)
  rw [← hb] at h1
  rw [h1, h2]
  exact hb.symm

theorem htonl_injective (x y : Nat) (hx : x < 4294967296) (hy : y < 4294967296)
    (h : htonl x = htonl y) : x = y := by
  rw [← htonl_htonl x hx, ← htonl_htonl y hy, h]

/-- The bytes of a swapped word, in increasing address order, are the bytes of
the word from the most significant down. -/
theorem le_bytes_htonl (x : Nat) :
    le_bytes (htonl x) =
      [x / 16777216 % 256, x / 65536 % 256, x / 256 % 256, x % 256] := by
  unfold le_bytes
  rw [htonl_arith]
  have h0 : x % 256 < 256 := by omega
  have h1 : x / 256 % 256 < 256 := by omega
  have h2 : x / 65536 % 256 < 256 := by omega
  have h3 : x / 16777216 % 256 < 256 := by omega
  generalize x % 256 = b0 at h0 ⊢
  generalize x / 256 % 256 = b1 at h1 ⊢
  generalize x / 65536 % 256 = b2 at h2 ⊢
  generalize x / 16777216 % 256 = b3 at h3 ⊢
  simp only [List.cons.injEq, and_true]
  refine ⟨?_, ?_, ?_, ?_⟩ <;> omega

theorem le_word_le_bytes (x : Nat) : le_word (le_bytes x) = x % 4294967296 := by
  simp [le_word, le_bytes]
  omega

/-- The address field of a request word. -/
theorem regadr_field (a : Nat) :
    ((a <<< BGT60_SPI_REGADR_POS) % 2 ^ 32) &&& BGT60_SPI_REGADR_MSK = (a % 128) * 33554432 := by
  have h := and_mask_shift ((a <<< 25) % 2 ^ 32) 25 7
  have e : BGT60_SPI_REGADR_MSK = (2 ^ 7 - 1) <<< 25 := by decide
  rw [e, BGT60_SPI_REGADR_POS, h]
  simp only [Nat.shiftLeft_eq, Nat.shiftRight_eq_div_pow]
  norm_num
  omega

/-- The data field of a write word. -/
theorem data_field (d : Nat) :
    ((d <<< BGT60_SPI_DATA_POS) % 2 ^ 32) &&& BGT60_SPI_DATA_MSK = d % 16777216 := by
  have h := Nat.and_pow_two_sub_one_eq_mod ((d <<< 0) % 2 ^ 32) 24
  have e : BGT60_SPI_DATA_MSK = 2 ^ 24 - 1 := by decide
  rw [e, BGT60_SPI_DATA_POS, h]
  simp only [Nat.shiftLeft_eq]
  norm_num

/-- The word of a write before the byte swap, as plain arithmetic. -/
theorem write_word_arith (a d : Nat) :
    ((a % 128) <<< 25) ||| 0x01000000 ||| (d % 2 ^ 24) =
      (a % 128) * 33554432 + 16777216 + d % 16777216 := by
  have e1 : (a % 128) <<< 25 = (a % 128) * 33554432 := Nat.shiftLeft_eq _ 25
  have e2 : (a % 128) * 33554432 ||| 0x01000000 = (a % 128) * 33554432 + 16777216 :=
    or_eq_add_of_dvd 25 _ _ ⟨a % 128, by ring⟩ (by decide)
  have e3 : (a % 128) * 33554432 + 16777216 ||| d % 2 ^ 24 =
      (a % 128) * 33554432 + 16777216 + d % 2 ^ 24 :=
    or_eq_add_of_dvd 24 _ _ ⟨(a % 128) * 2 + 1, by ring⟩ (Nat.mod_lt _ (by decide))
  rw [e1, e2, e3]
  norm_num

theorem bgt60_set_reg_word_eq (a d : Nat) :
    bgt60_set_reg_word a d = htonl (((a % 128) <<< 25) ||| 0x01000000 ||| (d % 2 ^ 24)) := by
  have e2 : (a % 128) * 33554432 ||| 0x01000000 = (a % 128) * 33554432 + 16777216 :=
    or_eq_add_of_dvd 25 _ _ ⟨a % 128, by ring⟩ (by decide)
  have e3 : (a % 128) * 33554432 + 16777216 ||| d % 16777216 =
      (a % 128) * 33554432 + 16777216 + d % 16777216 :=
    or_eq_add_of_dvd 24 _ _ ⟨(a % 128) * 2 + 1, by ring⟩ (Nat.mod_lt _ (by decide))
  unfold bgt60_set_reg_word
  simp only []
  rw [regadr_field, data_field, write_word_arith, BGT60_SPI_WR_OP_MSK, e2, e3]

theorem bgt60_get_reg_word_eq (a : Nat) :
    bgt60_get_reg_word a = htonl ((a % 128) <<< 25) := by
  unfold bgt60_get_reg_word
  rw [regadr_field, Nat.shiftLeft_eq]

/-- The three masks of the register word cut out the fields of
`A * 2^25 + op * 2^24 + D`. -/
theorem word_fields (A op D : Nat) (hA : A < 128) (hop : op < 2) (hD : D < 16777216) :
    (A * 33554432 + op * 16777216 + D) &&& BGT60_SPI_WR_OP_MSK = op * 16777216 ∧
    ((A * 33554432 + op * 16777216 + D) &&& BGT60_SPI_REGADR_MSK) >>> BGT60_SPI_REGADR_POS = A ∧
    (A * 33554432 + op * 16777216 + D) &&& BGT60_SPI_DATA_MSK = D := by
  have e1 : BGT60_SPI_WR_OP_MSK = (2 ^ 1 - 1) <<< 24 := by decide
  have e2 : BGT60_SPI_REGADR_MSK = (2 ^ 7 - 1) <<< 25 := by decide
  have e3 : BGT60_SPI_DATA_MSK = 2 ^ 24 - 1 := by decide
  rw [e1, e2, e3, and_mask_shift, and_mask_shift, Nat.and_pow_two_sub_one_eq_mod,
    BGT60_SPI_REGADR_POS]
  simp only [Nat.shiftLeft_eq, Nat.shiftRight_eq_div_pow]
  norm_num
  refine ⟨?_, ?_, ?_⟩ <;> omega

/-- C3: for every address and data value, `bgt60_set_reg` on a valid handle
performs the single transfer `spi_transfer(&w, NULL, 4)` where `w` is the byte
swap of `W = ((address mod 128) << 25) | 0x01000000 | (data mod 2^24)`, and
returns its status. In `W` the write bit is set, the address field holds
`address mod 128`, the data field `data mod 2^24`. The bytes of `w` in
increasing address order, which is the wire order, are `W[31:24]`,
`W[23:16]`, `W[15:8]`, `W[7:0]`. -/
theorem bgt60_set_reg_wire (σ : Type) (dev : bgt60_dev_t σ) (address data : Nat) (w : σ) :
    bgt60_set_reg (some dev) address data w =
      ((dev.spi_transfer w
          (htonl (((address % 128) <<< 25) ||| 0x01000000 ||| (data % 2 ^ 24))) none 4).1,
        (dev.spi_transfer w
          (htonl (((address % 128) <<< 25) ||| 0x01000000 ||| (data % 2 ^ 24))) none 4).2.2) ∧
    (((address % 128) <<< 25) ||| 0x01000000 ||| (data % 2 ^ 24)) &&& BGT60_SPI_WR_OP_MSK =
      0x01000000 ∧
    ((((address % 128) <<< 25) ||| 0x01000000 ||| (data % 2 ^ 24)) &&& BGT60_SPI_REGADR_MSK) >>>
      BGT60_SPI_REGADR_POS = address % 128 ∧
    (((address % 128) <<< 25) ||| 0x01000000 ||| (data % 2 ^ 24)) &&& BGT60_SPI_DATA_MSK =
      data % 2 ^ 24 ∧
    le_bytes (htonl (((address % 128) <<< 25) ||| 0x01000000 ||| (data % 2 ^ 24))) =
      [(((address % 128) <<< 25) ||| 0x01000000 ||| (data % 2 ^ 24)) >>> 24,
       ((((address % 128) <<< 25) ||| 0x01000000 ||| (data % 2 ^ 24)) >>> 16) &&& 255,
       ((((address % 128) <<< 25) ||| 0x01000000 ||| (data % 2 ^ 24)) >>> 8) &&& 255,
       (((address % 128) <<< 25) ||| 0x01000000 ||| (data % 2 ^ 24)) &&& 255] := by
  have hw := bgt60_set_reg_word_eq address data
  have ha := write_word_arith address data
  have hf := word_fields (address % 128) 1 (data % 16777216) (by omega) (by omega) (by omega)
  simp only [Nat.one_mul] at hf
  refine ⟨?_, ?_, ?_, ?_, ?_⟩
  · simp only [bgt60_set_reg, hw]
  · rw [ha]; exact hf.1
  · rw [ha]; exact hf.2.1
  · rw [ha]; exact hf.2.2
  · rw [le_bytes_htonl, ha]
    simp only [and_255, Nat.shiftRight_eq_div_pow, List.cons.injEq, and_true]
    norm_num
    omega

theorem bgt60_set_reg_word_lt (a d : Nat) : bgt60_set_reg_word a d < 4294967296 := by
  rw [bgt60_set_reg_word_eq]; exact htonl_lt _

theorem bgt60_get_reg_decode_set_reg_word (a v : Nat) (hv : v < 2 ^ 24) :
    bgt60_get_reg_decode (bgt60_set_reg_word a v) = v := by
  have hlt : (a % 128) * 33554432 + 16777216 + v % 16777216 < 4294967296 := by omega
  have hf := word_fields (a % 128) 1 (v % 16777216) (by omega) (by omega) (by omega)
  simp only [Nat.one_mul] at hf
  unfold bgt60_get_reg_decode
  rw [bgt60_set_reg_word_eq, write_word_arith, htonl_htonl _ hlt, hf.2.2]
  norm_num at hv
  omega

/-- C4: for every address in `[0, 127]` and value in `[0, 2^24 - 1]`, the
read-response decoding of `bgt60_get_reg` (byte swap, then mask with
`0x00FFFFFF`) applied to the word `bgt60_set_reg` encodes for the pair gives
back the value. Accordingly, whenever the transfer started by `bgt60_get_reg`
succeeds and delivers the four wire bytes of that write word, `bgt60_get_reg`
returns status 0 and stores the value. -/
theorem bgt60_codec_round_trip (address value : Nat) (_ha : address < 128)
    (hv : value < 2 ^ 24) :
    bgt60_get_reg_decode (bgt60_set_reg_word address value) = value ∧
    ∀ (σ : Type) (dev : bgt60_dev_t σ) (w w2 : σ) (reg_addr old : Nat),
      dev.spi_transfer w (bgt60_get_reg_word reg_addr) (some (le_bytes old)) 4 =
        (0, le_bytes (bgt60_set_reg_word address value), w2) →
      bgt60_get_reg (some dev) reg_addr old w = (0, value, w2) := by
  have hdec := bgt60_get_reg_decode_set_reg_word address value hv
  refine ⟨hdec, ?_⟩
  intro σ dev w w2 reg_addr old htr
  have hword : le_word (le_bytes (bgt60_set_reg_word address value)) =
      bgt60_set_reg_word address value := by
    rw [le_word_le_bytes, Nat.mod_eq_of_lt (bgt60_set_reg_word_lt _ _)]
  simp only [bgt60_get_reg, htr, hword, hdec, if_true]

/-- Instance of C4: register 3, value `0xABCDEF`, read back through a transport
that answers with the wire bytes of the write. -/
theorem bgt60_codec_round_trip_witness :
    (3 < 128 ∧ 0xABCDEF < 2 ^ 24) ∧
    bgt60_get_reg_decode (bgt60_set_reg_word 3 0xABCDEF) = 0xABCDEF ∧
    bgt60_get_reg (some (trace_dev 0 (le_bytes (bgt60_set_reg_word 3 0xABCDEF)) 0)) 3 0 [] =
      (0, 0xABCDEF, [(bgt60_get_reg_word 3, some (le_bytes 0), 4)]) :=
  ⟨by decide,
    (bgt60_codec_round_trip 3 0xABCDEF (by decide) (by decide)).1,
    (bgt60_codec_round_trip 3 0xABCDEF (by decide) (by decide)).2 _
      (trace_dev 0 (le_bytes (bgt60_set_reg_word 3 0xABCDEF)) 0) [] _ 3 0 rfl⟩

/-- C5: for addresses in `[0, 127]` and values in `[0, 2^24 - 1]`, equal write
words of `bgt60_set_reg` come from equal addresses and equal values, equal
read-request words of `bgt60_get_reg` come from equal addresses, and a write
word is never a read-request word. -/
theorem bgt60_codec_injective (a1 a2 v1 v2 : Nat) (ha1 : a1 < 128) (ha2 : a2 < 128)
    (hv1 : v1 < 2 ^ 24) (hv2 : v2 < 2 ^ 24) :
    (bgt60_set_reg_word a1 v1 = bgt60_set_reg_word a2 v2 → a1 = a2 ∧ v1 = v2) ∧
    (bgt60_get_reg_word a1 = bgt60_get_reg_word a2 → a1 = a2) ∧
    bgt60_set_reg_word a1 v1 ≠ bgt60_get_reg_word a2 := by
  norm_num at hv1 hv2
  have hs1 := bgt60_set_reg_word_eq a1 v1
  have hs2 := bgt60_set_reg_word_eq a2 v2
  have hg1 := bgt60_get_reg_word_eq a1
  have hg2 := bgt60_get_reg_word_eq a2
  rw [write_word_arith] at hs1 hs2
  rw [Nat.shiftLeft_eq] at hg1 hg2
  refine ⟨?_, ?_, ?_⟩
  · intro h
    rw [hs1, hs2] at h
    have := htonl_injective _ _ (by omega) (by omega) h
    omega
  · intro h
    rw [hg1, hg2] at h
    have := htonl_injective _ _ (by omega) (by omega) h
    omega
  · intro h
    rw [hs1, hg2] at h
    have := htonl_injective _ _ (by omega) (by omega) h
    omega

/-- Instance of C5 at the registers 3 and 5. -/
theorem bgt60_codec_injective_witness :
    (3 < 128 ∧ 5 < 128 ∧ 0xABCDEF < 2 ^ 24 ∧ 0x000001 < 2 ^ 24) ∧
    (bgt60_set_reg_word 3 0xABCDEF = bgt60_set_reg_word 5 0x000001 →
      3 = 5 ∧ 0xABCDEF = 0x000001) ∧
    (bgt60_get_reg_word 3 = bgt60_get_reg_word 5 → 3 = 5) ∧
    bgt60_set_reg_word 3 0xABCDEF ≠ bgt60_get_reg_word 5 :=
  ⟨by decide, bgt60_codec_injective 3 5 0xABCDEF 0x000001 (by decide) (by decide) (by decide)
    (by decide)⟩

theorem to_int32_to_uint32 (s : Int) (h1 : -2 ^ 31 ≤ s) (h2 : s < 2 ^ 31) :
    to_int32 (to_uint32 s) = s := by
  unfold to_int32 to_uint32
  have hnn : 0 ≤ s % 2 ^ 32 := Int.emod_nonneg _ (by norm_num)
  have hlt : s % 2 ^ 32 < 2 ^ 32 := Int.emod_lt_of_pos _ (by norm_num)
  have hmod : ((s % 2 ^ 32).toNat % 2 ^ 32 : Nat) = (s % 2 ^ 32).toNat := by
    apply Nat.mod_eq_of_lt
    omega
  rw [hmod]
  have hcast : (((s % 2 ^ 32).toNat : Nat) : Int) = s % 2 ^ 32 := Int.toNat_of_nonneg hnn
  rw [hcast]
  split_ifs with h
  · omega
  · omega

/-- C7: on a valid handle and a valid buffer, `bgt60_get_fifo_data` performs the
single transfer `spi_transfer(&w, data, 4 + 3 * slice_size)` and returns what
the transport returns. The command word `w` is the constant `0x0000C0FF`, the
byte swap of `0xFF000000 | (0x60 << 17) = 0xFFC00000`, whose start-address
field holds `0x60`, whose top byte is `0xFF` and whose read/write and length
fields are zero. The buffer and the handle do not enter the command word. -/
theorem bgt60_get_fifo_data_spec (σ : Type) (dev : bgt60_dev_t σ) (data : List Nat) (w : σ)
    (hslice : dev.slice_size < 65536)
    (hlo : -2 ^ 31 ≤ (dev.spi_transfer w 0x0000C0FF (some data) (4 + 3 * dev.slice_size)).1)
    (hhi : (dev.spi_transfer w 0x0000C0FF (some data) (4 + 3 * dev.slice_size)).1 < 2 ^ 31) :
    bgt60_get_fifo_data (some dev) (some data) w =
      ((dev.spi_transfer w 0x0000C0FF (some data) (4 + 3 * dev.slice_size)).1,
       some (dev.spi_transfer w 0x0000C0FF (some data) (4 + 3 * dev.slice_size)).2.1,
       (dev.spi_transfer w 0x0000C0FF (some data) (4 + 3 * dev.slice_size)).2.2) ∧
    0x0000C0FF = htonl (0xFF000000 ||| (0x60 <<< 17)) ∧
    0xFF000000 ||| (0x60 <<< 17) = 0xFFC00000 ∧
    0xFFC00000 >>> 24 = 0xFF ∧
    (0xFFC00000 &&& BGT60_SPI_BURST_MODE_SADR_MSK) >>> BGT60_SPI_BURST_MODE_SADR_POS = 0x60 ∧
    0xFFC00000 &&& BGT60_SPI_BURST_MODE_RWB_MSK = 0 ∧
    0xFFC00000 &&& BGT60_SPI_BURST_MODE_LEN_MSK = 0 := by
  refine ⟨?_, by decide, by decide, by decide, by decide, by decide, by decide⟩
  have hcmd : htonl ((BGT60_SPI_BURST_MODE_CMD |||
      (BGT60_SPI_BURST_MODE_SADR_FIFO <<< BGT60_SPI_BURST_MODE_SADR_POS)) % 2 ^ 32) =
      0x0000C0FF := by decide
  have hlen : (4 + dev.slice_size * 3) % 2 ^ 32 = 4 + 3 * dev.slice_size := by
    rw [Nat.mod_eq_of_lt (by omega)]; omega
  simp only [bgt60_get_fifo_data, hcmd, hlen]
  rw [to_int32_to_uint32 _ hlo hhi]

/-- Instance of C7: slice size 8 on a logging transport that reports status -1. -/
theorem bgt60_get_fifo_data_spec_witness :
    (trace_dev (-1) [1, 2, 3] 8).slice_size < 65536 ∧
    bgt60_get_fifo_data (some (trace_dev (-1) [1, 2, 3] 8)) (some [0, 0]) [] =
      (-1, some [1, 2, 3], [(0x0000C0FF, some [0, 0], 28)]) :=
  ⟨by decide,
    (bgt60_get_fifo_data_spec _ (trace_dev (-1) [1, 2, 3] 8) [0, 0] [] (by decide)
      (by decide) (by decide)).1⟩

/-! ## Ring buffer -/

theorem size_sub_of_le (M a b : Nat) (hab : b ≤ a) (ha : a < M) : size_sub M a b = a - b := by
  unfold size_sub
  rw [Nat.mod_eq_of_lt ha, Nat.mod_eq_of_lt (by omega : b < M)]
  have e : a + (M - b) = (a - b) + M := by omega
  rw [e, Nat.add_mod_right, Nat.mod_eq_of_lt (by omega)]

/-- Advancing the first argument of a `size_t` difference by one advances the
difference by one, as long as the result stays below the modulus. -/
theorem size_sub_size_add_one (M a b : Nat) (h : size_sub M a b + 1 < M) :
    size_sub M (size_add M a 1) b = size_sub M a b + 1 := by
  unfold size_sub size_add at *
  have e1 : (a % M + (M - b % M)) % M = (a + (M - b % M)) % M := Nat.mod_add_mod a M _
  have e2 : ((a + 1) % M % M + (M - b % M)) % M = (a + 1 + (M - b % M)) % M := by
    rw [Nat.mod_mod, Nat.mod_add_mod]
  rw [e1] at h
  rw [e1, e2, Nat.add_right_comm, ← Nat.mod_add_mod (a + (M - b % M)) M 1, Nat.mod_eq_of_lt h]

theorem try_push_fn_full {T S : Type} (M : Nat) (rb : SingleReaderSingleWriterRingBuffer T)
    (fn : T → S → T × S) (env : S)
    (hfull : rb.m_data.length ≤ size_sub M rb.m_wr_offset rb.m_rd_offset) :
    try_push_fn M rb fn env = (false, rb, env) := by
  simp [try_push_fn, hfull]

theorem try_push_fn_ok {T S : Type} (M : Nat) (rb : SingleReaderSingleWriterRingBuffer T)
    (fn : T → S → T × S) (env : S)
    (h : size_sub M rb.m_wr_offset rb.m_rd_offset < rb.m_data.length) :
    ∃ slot, rb.m_data[rb.m_wr_offset % rb.m_data.length]? = some slot ∧
      try_push_fn M rb fn env =
        (true,
          SingleReaderSingleWriterRingBuffer.mk rb.m_rd_offset (size_add M rb.m_wr_offset 1)
            (rb.m_data.set (rb.m_wr_offset % rb.m_data.length) (fn slot env).1),
          (fn slot env).2) := by
  have hpos : 0 < rb.m_data.length := by omega
  have hidx : rb.m_wr_offset % rb.m_data.length < rb.m_data.length := Nat.mod_lt _ hpos
  refine ⟨rb.m_data[rb.m_wr_offset % rb.m_data.length], List.getElem?_eq_getElem hidx, ?_⟩
  simp [try_push_fn, Nat.not_le.mpr h, List.getElem?_eq_getElem hidx]

/-- Five pushes into a freshly resized buffer of capacity 5. -/
theorem push_all_capacity_5 {T : Type} (M : Nat) (hM : 5 < M)
    (rb : SingleReaderSingleWriterRingBuffer T) (dflt : T) (v1 v2 v3 v4 v5 : T) :
    push_all M (rb.resize 5 dflt) [v1, v2, v3, v4, v5] =
      ([true, true, true, true, true],
        SingleReaderSingleWriterRingBuffer.mk 0 5 [v1, v2, v3, v4, v5]) := by
  have hlen : (rb.resize 5 dflt).m_data.length = 5 := by
    simp [resize]; omega
  generalize hr : rb.resize 5 dflt = r at hlen
  have h0 : r.m_rd_offset = 0 := by rw [← hr]; rfl
  have h1 : r.m_wr_offset = 0 := by rw [← hr]; rfl
  obtain ⟨rd, wr, data⟩ := r
  simp only at h0 h1 hlen
  subst h0 h1
  match data, hlen with
  | [s1, s2, s3, s4, s5], _ =>
    have e0 : size_sub M 0 0 = 0 := size_sub_of_le M 0 0 (by omega) (by omega)
    have e1 : size_sub M 1 0 = 1 := size_sub_of_le M 1 0 (by omega) (by omega)
    have e2 : size_sub M 2 0 = 2 := size_sub_of_le M 2 0 (by omega) (by omega)
    have e3 : size_sub M 3 0 = 3 := size_sub_of_le M 3 0 (by omega) (by omega)
    have e4 : size_sub M 4 0 = 4 := size_sub_of_le M 4 0 (by omega) (by omega)
    have a0 : size_add M 0 1 = 1 := Nat.mod_eq_of_lt (by omega)
    have a1 : size_add M 1 1 = 2 := Nat.mod_eq_of_lt (by omega)
    have a2 : size_add M 2 1 = 3 := Nat.mod_eq_of_lt (by omega)
    have a3 : size_add M 3 1 = 4 := Nat.mod_eq_of_lt (by omega)
    have a4 : size_add M 4 1 = 5 := Nat.mod_eq_of_lt (by omega)
    simp [push_all, try_push, try_push_fn, e0, e1, e2, e3, e4, a0, a1, a2, a3, a4]

/-- C8: when `write_offset - read_offset >= capacity` (in `size_t` arithmetic),
`try_push_fn` and `try_push` return false and leave both offsets, every slot
and the state captured by the callback as they were. In particular, on a
buffer resized to capacity 5, five pushes succeed and fill the slots in order,
and a sixth `try_push` returns false and changes nothing. -/
theorem try_push_full {T S : Type} (M : Nat) (rb : SingleReaderSingleWriterRingBuffer T)
    (fn : T → S → T × S) (env : S) (value : T)
    (hfull : rb.m_data.length ≤ size_sub M rb.m_wr_offset rb.m_rd_offset) :
    try_push_fn M rb fn env = (false, rb, env) ∧
    try_push M rb value = (false, rb) ∧
    ∀ (r0 : SingleReaderSingleWriterRingBuffer T) (dflt v1 v2 v3 v4 v5 v6 : T), 5 < M →
      push_all M (r0.resize 5 dflt) [v1, v2, v3, v4, v5] =
        ([true, true, true, true, true],
          SingleReaderSingleWriterRingBuffer.mk 0 5 [v1, v2, v3, v4, v5]) ∧
      try_push M (SingleReaderSingleWriterRingBuffer.mk 0 5 [v1, v2, v3, v4, v5]) v6 =
        (false, SingleReaderSingleWriterRingBuffer.mk 0 5 [v1, v2, v3, v4, v5]) := by
  refine ⟨try_push_fn_full M rb fn env hfull, ?_, ?_⟩
  · simp only [try_push, try_push_fn_full M rb _ value hfull]
  · intro r0 dflt v1 v2 v3 v4 v5 v6 hM
    have hfull5 : (SingleReaderSingleWriterRingBuffer.mk 0 5 [v1, v2, v3, v4, v5]).m_data.length ≤
        size_sub M (SingleReaderSingleWriterRingBuffer.mk 0 5 [v1, v2, v3, v4, v5]).m_wr_offset
          (SingleReaderSingleWriterRingBuffer.mk 0 5 [v1, v2, v3, v4, v5]).m_rd_offset := by
      simp only [List.length_cons, List.length_nil]
      rw [size_sub_of_le M 5 0 (by omega) hM]
    refine ⟨push_all_capacity_5 M hM r0 dflt v1 v2 v3 v4 v5, ?_⟩
    simp only [try_push, try_push_fn_full M _ _ v6 hfull5]

/-- Instance of C8: a capacity-5 buffer holding five values, 64-bit `size_t`. -/
theorem try_push_full_witness :
    (SingleReaderSingleWriterRingBuffer.mk 0 5 [1, 2, 3, 4, 5]).m_data.length ≤
      size_sub (2 ^ 64) (SingleReaderSingleWriterRingBuffer.mk 0 5 [1, 2, 3, 4, 5]).m_wr_offset
        (SingleReaderSingleWriterRingBuffer.mk 0 5 [1, 2, 3, 4, 5]).m_rd_offset ∧
    try_push_fn (2 ^ 64) (SingleReaderSingleWriterRingBuffer.mk 0 5 [1, 2, 3, 4, 5])
        (fun (slot : Nat) (e : Nat) => (slot + e, e + 1)) 9 =
      (false, SingleReaderSingleWriterRingBuffer.mk 0 5 [1, 2, 3, 4, 5], 9) ∧
    try_push (2 ^ 64) (SingleReaderSingleWriterRingBuffer.mk 0 5 [1, 2, 3, 4, 5]) 6 =
      (false, SingleReaderSingleWriterRingBuffer.mk 0 5 [1, 2, 3, 4, 5]) :=
  ⟨by decide,
    (try_push_full (2 ^ 64) (SingleReaderSingleWriterRingBuffer.mk 0 5 [1, 2, 3, 4, 5])
      (fun (slot : Nat) (e : Nat) => (slot + e, e + 1)) 9 6 (by decide)).1,
    (try_push_full (2 ^ 64) (SingleReaderSingleWriterRingBuffer.mk 0 5 [1, 2, 3, 4, 5])
      (fun (slot : Nat) (e : Nat) => (slot + e, e + 1)) 9 6 (by decide)).2.1⟩

/-- C9: when `write_offset - read_offset < capacity` (in `size_t` arithmetic),
`try_push` returns true, stores the value into slot `write_offset mod capacity`,
sets `write_offset` to `write_offset + 1` (a `size_t` addition, which is the
plain successor unless the cursor is at `SIZE_MAX`), and leaves `read_offset`,
the number of slots and every other slot unchanged. The fill level grows by
exactly one. -/
theorem try_push_not_full {T : Type} (M : Nat) (rb : SingleReaderSingleWriterRingBuffer T)
    (value : T) (h : size_sub M rb.m_wr_offset rb.m_rd_offset < rb.m_data.length) :
    ∃ rb2, try_push M rb value = (true, rb2) ∧
      rb.m_wr_offset % rb.m_data.length < rb.m_data.length ∧
      rb2.m_data[rb.m_wr_offset % rb.m_data.length]? = some value ∧
      rb2.m_wr_offset = (rb.m_wr_offset + 1) % M ∧
      (rb.m_wr_offset + 1 < M → rb2.m_wr_offset = rb.m_wr_offset + 1) ∧
      rb2.m_rd_offset = rb.m_rd_offset ∧
      rb2.m_data.length = rb.m_data.length ∧
      (∀ j, j ≠ rb.m_wr_offset % rb.m_data.length → rb2.m_data[j]? = rb.m_data[j]?) ∧
      (rb.m_data.length < M → fill M rb2 = fill M rb + 1) := by
  obtain ⟨slot, _, hpush⟩ := try_push_fn_ok M rb (fun _ (v : T) => (v, v)) value h
  have hidx : rb.m_wr_offset % rb.m_data.length < rb.m_data.length :=
    Nat.mod_lt _ (by omega)
  refine ⟨SingleReaderSingleWriterRingBuffer.mk rb.m_rd_offset (size_add M rb.m_wr_offset 1)
    (rb.m_data.set (rb.m_wr_offset % rb.m_data.length) value), ?_, hidx, ?_, rfl, ?_, rfl, ?_,
    ?_, ?_⟩
  · simp only [try_push, hpush]
  · exact List.getElem?_set_self hidx
  · intro hlt
    exact Nat.mod_eq_of_lt hlt
  · simp
  · intro j hj
    exact List.getElem?_set_ne (fun e => hj e.symm)
  · intro hM
    exact size_sub_size_add_one M rb.m_wr_offset rb.m_rd_offset (by omega)

/-- Instance of C9: a capacity-3 buffer holding one value, 64-bit `size_t`. -/
theorem try_push_not_full_witness :
    size_sub (2 ^ 64) (SingleReaderSingleWriterRingBuffer.mk 4 5 [7, 8, 9]).m_wr_offset
        (SingleReaderSingleWriterRingBuffer.mk 4 5 [7, 8, 9]).m_rd_offset <
      (SingleReaderSingleWriterRingBuffer.mk 4 5 [7, 8, 9]).m_data.length ∧
    try_push (2 ^ 64) (SingleReaderSingleWriterRingBuffer.mk 4 5 [7, 8, 9]) 1 =
      (true, SingleReaderSingleWriterRingBuffer.mk 4 6 [7, 8, 1]) ∧
    ∃ rb2, try_push (2 ^ 64) (SingleReaderSingleWriterRingBuffer.mk 4 5 [7, 8, 9]) 1 =
        (true, rb2) ∧
      rb2.m_data[2]? = some 1 ∧ rb2.m_wr_offset = 6 ∧ rb2.m_rd_offset = 4 := by
  refine ⟨by decide, by decide, ?_⟩
  obtain ⟨rb2, h1, _, h3, h4, _, h6, _⟩ :=
    try_push_not_full (2 ^ 64) (SingleReaderSingleWriterRingBuffer.mk 4 5 [7, 8, 9]) 1
      (by decide)
  exact ⟨rb2, h1, h3, h4, h6⟩

/-- C10: `try_pop` on an empty buffer (`read_offset = write_offset`) returns
false and changes neither the buffer nor the destination. On a buffer that is
not empty and has at least one slot it returns true, copies slot
`read_offset mod capacity` into the destination, sets `read_offset` to
`read_offset + 1` (a `size_t` addition) and leaves `write_offset` and all
slots unchanged. The overload without destination behaves alike. -/
theorem try_pop_spec {T : Type} (M : Nat) (rb : SingleReaderSingleWriterRingBuffer T)
    (dest : T) :
    (rb.m_rd_offset = rb.m_wr_offset →
      try_pop M rb dest = (false, rb, dest) ∧ try_pop_discard M rb = (false, rb)) ∧
    (rb.m_rd_offset ≠ rb.m_wr_offset → 0 < rb.m_data.length →
      ∃ v, rb.m_data[rb.m_rd_offset % rb.m_data.length]? = some v ∧
        try_pop M rb dest =
          (true,
            SingleReaderSingleWriterRingBuffer.mk ((rb.m_rd_offset + 1) % M) rb.m_wr_offset
              rb.m_data,
            v) ∧
        try_pop_discard M rb =
          (true,
            SingleReaderSingleWriterRingBuffer.mk ((rb.m_rd_offset + 1) % M) rb.m_wr_offset
              rb.m_data) ∧
        (rb.m_rd_offset + 1 < M → (rb.m_rd_offset + 1) % M = rb.m_rd_offset + 1)) := by
  constructor
  · intro he
    simp [try_pop, try_pop_discard, try_pop_fn, he]
  · intro hne hcap
    have hidx : rb.m_rd_offset % rb.m_data.length < rb.m_data.length := Nat.mod_lt _ hcap
    have hget := List.getElem?_eq_getElem hidx
    have hset : rb.m_data.set (rb.m_rd_offset % rb.m_data.length)
        rb.m_data[rb.m_rd_offset % rb.m_data.length] = rb.m_data := by
      apply List.ext_getElem? 
      intro j
      by_cases hj : rb.m_rd_offset % rb.m_data.length = j
      · subst hj
        rw [List.getElem?_set_self hidx, hget]
      · rw [List.getElem?_set_ne hj]
    refine ⟨rb.m_data[rb.m_rd_offset % rb.m_data.length], hget, ?_, ?_,
      fun hlt => Nat.mod_eq_of_lt hlt⟩
    · simp [try_pop, try_pop_fn, hne, hget, hset, size_add]
    · simp [try_pop_discard, try_pop_fn, hne, hget, hset, size_add]

/-- Instance of C10: an empty buffer and a buffer holding two values, 64-bit
`size_t`. -/
theorem try_pop_spec_witness :
    (try_pop (2 ^ 64) (SingleReaderSingleWriterRingBuffer.mk 1 1 [7, 8, 9]) 0 =
      (false, SingleReaderSingleWriterRingBuffer.mk 1 1 [7, 8, 9], 0)) ∧
    ((4 : Nat) ≠ 6 ∧ 0 < [7, 8, 9].length) ∧
    ∃ v, [7, 8, 9][4 % 3]? = some v ∧
      try_pop (2 ^ 64) (SingleReaderSingleWriterRingBuffer.mk 4 6 [7, 8, 9]) 0 =
        (true, SingleReaderSingleWriterRingBuffer.mk 5 6 [7, 8, 9], v) := by
  refine ⟨((try_pop_spec (2 ^ 64) (SingleReaderSingleWriterRingBuffer.mk 1 1 [7, 8, 9]) 0).1
    rfl).1, by decide, ?_⟩
  obtain ⟨v, h1, h2, _⟩ :=
    (try_pop_spec (2 ^ 64) (SingleReaderSingleWriterRingBuffer.mk 4 6 [7, 8, 9]) 0).2
      (by decide) (by decide)
  exact ⟨v, h1, h2⟩


/-! ## Ring buffer: sequences of calls -/

/-- The `size_t` difference of two reduced values, by cases. -/
theorem size_sub_cases (M a b : Nat) (ha : a < M) (hb : b < M) :
    size_sub M a b = if b ≤ a then a - b else a + M - b := by
  unfold size_sub
  rw [Nat.mod_eq_of_lt ha, Nat.mod_eq_of_lt hb]
  split_ifs with h
  · have e : a + (M - b) = (a - b) + M := by omega
    rw [e, Nat.add_mod_right, Nat.mod_eq_of_lt (by omega)]
  · have e : a + (M - b) = a + M - b := by omega
    rw [e, Nat.mod_eq_of_lt (by omega)]

/-- The `size_t` successor of a reduced value, by cases. -/
theorem size_add_one_cases (M a : Nat) (ha : a < M) :
    size_add M a 1 = if a + 1 = M then 0 else a + 1 := by
  unfold size_add
  split_ifs with h
  · rw [h, Nat.mod_self]
  · exact Nat.mod_eq_of_lt (by omega)


/-- What a single `try_push` does to the cursors. -/
theorem try_push_effect {T : Type} (M : Nat) (rb : SingleReaderSingleWriterRingBuffer T)
    (value : T) :
    (try_push M rb value = (false, rb) ∧ rb.m_data.length ≤ fill M rb) ∨
    (fill M rb < rb.m_data.length ∧ (try_push M rb value).1 = true ∧
      (try_push M rb value).2.m_rd_offset = rb.m_rd_offset ∧
      (try_push M rb value).2.m_wr_offset = size_add M rb.m_wr_offset 1 ∧
      (try_push M rb value).2.m_data.length = rb.m_data.length) := by
  by_cases h : rb.m_data.length ≤ size_sub M rb.m_wr_offset rb.m_rd_offset
  · left
    refine ⟨?_, h⟩
    simp only [try_push, try_push_fn_full M rb _ value h]
  · right
    have h2 : size_sub M rb.m_wr_offset rb.m_rd_offset < rb.m_data.length := by omega
    obtain ⟨slot, _, hpush⟩ := try_push_fn_ok M rb (fun _ (v : T) => (v, v)) value h2
    refine ⟨h2, ?_, ?_, ?_, ?_⟩ <;> simp [try_push, hpush]

/-- What a single `try_pop_fn` does to the cursors, whatever the callback. -/
theorem try_pop_fn_effect {T S : Type} (M : Nat) (rb : SingleReaderSingleWriterRingBuffer T)
    (fn : T → S → T × S) (env : S) :
    ((try_pop_fn M rb fn env).1 = false ∧ (try_pop_fn M rb fn env).2.1 = rb) ∨
    (rb.m_rd_offset ≠ rb.m_wr_offset ∧ (try_pop_fn M rb fn env).1 = true ∧
      (try_pop_fn M rb fn env).2.1.m_rd_offset = size_add M rb.m_rd_offset 1 ∧
      (try_pop_fn M rb fn env).2.1.m_wr_offset = rb.m_wr_offset ∧
      (try_pop_fn M rb fn env).2.1.m_data.length = rb.m_data.length) := by
  by_cases h : rb.m_rd_offset = rb.m_wr_offset
  · left
    simp [try_pop_fn, h]
  · cases hs : rb.m_data[rb.m_rd_offset % rb.m_data.length]? with
    | none =>
      left
      simp [try_pop_fn, h, hs]
    | some slot =>
      right
      refine ⟨h, ?_, ?_, ?_, ?_⟩ <;> simp [try_pop_fn, h, hs]

/-- What one call of a sequence does: nothing, a successful push, or a
successful pop. -/
theorem rb_step_effect {T : Type} (M : Nat) (rb : SingleReaderSingleWriterRingBuffer T)
    (c : rb_call T) :
    ((rb_step M rb c).1 = false ∧ (rb_step M rb c).2 = rb) ∨
    ((∃ v, c = rb_call.push v) ∧ fill M rb < rb.m_data.length ∧ (rb_step M rb c).1 = true ∧
      (rb_step M rb c).2.m_rd_offset = rb.m_rd_offset ∧
      (rb_step M rb c).2.m_wr_offset = size_add M rb.m_wr_offset 1 ∧
      (rb_step M rb c).2.m_data.length = rb.m_data.length) ∨
    ((∀ v, c ≠ rb_call.push v) ∧ rb.m_rd_offset ≠ rb.m_wr_offset ∧ (rb_step M rb c).1 = true ∧
      (rb_step M rb c).2.m_rd_offset = size_add M rb.m_rd_offset 1 ∧
      (rb_step M rb c).2.m_wr_offset = rb.m_wr_offset ∧
      (rb_step M rb c).2.m_data.length = rb.m_data.length) := by
  cases c with
  | push value =>
    rcases try_push_effect M rb value with ⟨h, _⟩ | h
    · left
      simp [rb_step, h]
    · right; left
      exact ⟨⟨value, rfl⟩, h⟩
  | pop dest =>
    rcases try_pop_fn_effect M rb (fun value (_ : T) => (value, value)) dest with h | h
    · left
      exact h
    · right; right
      exact ⟨fun v hv => (by cases hv), h⟩
  | pop_discard =>
    rcases try_pop_fn_effect M rb (fun value (u : Unit) => (value, u)) () with h | h
    · left
      exact h
    · right; right
      exact ⟨fun v hv => (by cases hv), h⟩

/-- A single call keeps the invariant and the number of slots, and accounts
for the fill level: it grows by one on a successful push and shrinks by one on
a successful pop. -/
theorem rb_step_inv {T : Type} (M : Nat) (rb : SingleReaderSingleWriterRingBuffer T)
    (c : rb_call T) (hinv : rb_inv M rb) :
    rb_inv M (rb_step M rb c).2 ∧
    (rb_step M rb c).2.m_data.length = rb.m_data.length ∧
    (rb.m_data.length < M →
      fill M (rb_step M rb c).2 + pops_ok M rb [c] = fill M rb + pushes_ok M rb [c]) := by
  obtain ⟨hrd, hwr, hfill⟩ := hinv
  have hf := size_sub_cases M rb.m_wr_offset rb.m_rd_offset hwr hrd
  rcases rb_step_effect M rb c with ⟨hb, hs⟩ | ⟨⟨v, rfl⟩, hlt, hb, h1, h2, h3⟩ |
      ⟨hc, hne, hb, h1, h2, h3⟩
  · rw [hs]
    refine ⟨⟨hrd, hwr, hfill⟩, rfl, ?_⟩
    intro _
    cases c <;> simp [pops_ok, pushes_ok, hb, hs]
  · have ha := size_add_one_cases M rb.m_wr_offset hwr
    have hwr2 : size_add M rb.m_wr_offset 1 < M := by
      rw [ha]; split_ifs <;> omega
    have hf2 := size_sub_cases M (size_add M rb.m_wr_offset 1) rb.m_rd_offset hwr2 hrd
    unfold rb_inv fill at *
    rw [h1, h2, h3]
    refine ⟨⟨hrd, hwr2, ?_⟩, rfl, ?_⟩
    · rw [hf2, ha]
      rw [hf] at hlt
      split_ifs at hlt ⊢ <;> omega
    · intro hM
      simp only [pops_ok, pushes_ok, hb, if_true]
      rw [hf2, ha, hf]
      rw [hf] at hlt
      split_ifs at hlt ⊢ <;> omega
  · have ha := size_add_one_cases M rb.m_rd_offset hrd
    have hrd2 : size_add M rb.m_rd_offset 1 < M := by
      rw [ha]; split_ifs <;> omega
    have hf2 := size_sub_cases M rb.m_wr_offset (size_add M rb.m_rd_offset 1) hwr hrd2
    unfold rb_inv fill at *
    rw [h1, h2, h3]
    refine ⟨⟨hrd2, hwr, ?_⟩, rfl, ?_⟩
    · rw [hf2, ha]
      rw [hf] at hfill
      split_ifs at hfill ⊢ <;> omega
    · intro hM
      have hpo : pops_ok M rb [c] = 1 := by
        cases c with
        | push v => exact absurd rfl (hc v)
        | pop dest => simp [pops_ok, hb]
        | pop_discard => simp [pops_ok, hb]
      have hpu : pushes_ok M rb [c] = 0 := by
        cases c with
        | push v => exact absurd rfl (hc v)
        | pop dest => simp [pushes_ok]
        | pop_discard => simp [pushes_ok]
      rw [hpo, hpu, hf2, ha, hf]
      rw [hf] at hfill
      split_ifs at hfill ⊢ <;> omega

theorem pushes_ok_cons {T : Type} (M : Nat) (rb : SingleReaderSingleWriterRingBuffer T)
    (c : rb_call T) (cs : List (rb_call T)) :
    pushes_ok M rb (c :: cs) = pushes_ok M rb [c] + pushes_ok M (rb_step M rb c).2 cs := by
  cases c <;> simp [pushes_ok]

theorem pops_ok_cons {T : Type} (M : Nat) (rb : SingleReaderSingleWriterRingBuffer T)
    (c : rb_call T) (cs : List (rb_call T)) :
    pops_ok M rb (c :: cs) = pops_ok M rb [c] + pops_ok M (rb_step M rb c).2 cs := by
  cases c <;> simp [pops_ok]

/-- A sequence of calls keeps the invariant and the number of slots, and the
fill level accounts for the successful pushes and pops. -/
theorem rb_run_inv {T : Type} (M : Nat) (calls : List (rb_call T)) :
    ∀ rb : SingleReaderSingleWriterRingBuffer T, rb_inv M rb →
      rb_inv M (rb_run M rb calls) ∧
      (rb_run M rb calls).m_data.length = rb.m_data.length ∧
      (rb.m_data.length < M →
        fill M (rb_run M rb calls) + pops_ok M rb calls = fill M rb + pushes_ok M rb calls) := by
  induction calls with
  | nil =>
    intro rb hinv
    exact ⟨hinv, rfl, fun _ => rfl⟩
  | cons c cs ih =>
    intro rb hinv
    obtain ⟨h1, h2, h3⟩ := rb_step_inv M rb c hinv
    obtain ⟨g1, g2, g3⟩ := ih (rb_step M rb c).2 h1
    refine ⟨g1, by rw [← h2]; exact g2, ?_⟩
    intro hM
    have e3 := h3 hM
    have f3 := g3 (by rw [h2]; exact hM)
    rw [pushes_ok_cons, pops_ok_cons]
    show fill M (rb_run M (rb_step M rb c).2 cs) + _ = _
    omega

theorem rb_inv_reset {T : Type} (M : Nat) (hM : 0 < M)
    (rb : SingleReaderSingleWriterRingBuffer T) : rb_inv M rb.reset ∧ fill M rb.reset = 0 := by
  have h0 : size_sub M 0 0 = 0 := size_sub_of_le M 0 0 (Nat.le_refl 0) hM
  refine ⟨⟨hM, hM, ?_⟩, h0⟩
  show size_sub M 0 0 ≤ _
  omega

/-- C11: for every `size_t` width, starting from `resize(n)` or from `reset()`,
after every finite sequence of `try_push` and `try_pop` calls the value of
`fill()` lies between 0 and the capacity, and the capacity is still the one
the sequence started with. -/
theorem fill_invariant {T : Type} (M : Nat) (hM : 0 < M)
    (rb0 : SingleReaderSingleWriterRingBuffer T) (n : Nat) (dflt : T)
    (calls : List (rb_call T)) :
    (0 ≤ fill M (rb_run M (rb0.resize n dflt) calls) ∧
      fill M (rb_run M (rb0.resize n dflt) calls) ≤ size (rb_run M (rb0.resize n dflt) calls) ∧
      size (rb_run M (rb0.resize n dflt) calls) = n) ∧
    (0 ≤ fill M (rb_run M rb0.reset calls) ∧
      fill M (rb_run M rb0.reset calls) ≤ size (rb_run M rb0.reset calls) ∧
      size (rb_run M rb0.reset calls) = size rb0) := by
  have hres : rb0.resize n dflt = (rb0.resize n dflt).reset := rfl
  have hlen : (rb0.resize n dflt).m_data.length = n := by
    simp [resize]; omega
  obtain ⟨⟨_, _, a3⟩, a4, _⟩ :=
    rb_run_inv M calls (rb0.resize n dflt) (by rw [hres]; exact (rb_inv_reset M hM _).1)
  obtain ⟨⟨_, _, b3⟩, b4, _⟩ := rb_run_inv M calls rb0.reset (rb_inv_reset M hM rb0).1
  refine ⟨⟨Nat.zero_le _, ?_, ?_⟩, ⟨Nat.zero_le _, ?_, ?_⟩⟩
  · exact a3
  · show (rb_run M (rb0.resize n dflt) calls).m_data.length = n
    rw [a4, hlen]
  · exact b3
  · exact b4

/-- Instance of C11: capacity 2, 64-bit `size_t`, three pushes and a pop. -/
theorem fill_invariant_witness :
    (0 < 2 ^ 64) ∧
    fill (2 ^ 64)
        (rb_run (2 ^ 64)
          ((SingleReaderSingleWriterRingBuffer.mk 3 7 [9]).resize 2 0)
          [rb_call.push 1, rb_call.push 2, rb_call.push 3, rb_call.pop 0]) ≤
      size
        (rb_run (2 ^ 64)
          ((SingleReaderSingleWriterRingBuffer.mk 3 7 [9]).resize 2 0)
          [rb_call.push 1, rb_call.push 2, rb_call.push 3, rb_call.pop 0]) ∧
    rb_run (2 ^ 64)
        ((SingleReaderSingleWriterRingBuffer.mk 3 7 [9]).resize 2 0)
        [rb_call.push 1, rb_call.push 2, rb_call.push 3, rb_call.pop 0] =
      SingleReaderSingleWriterRingBuffer.mk 1 2 [1, 2] :=
  ⟨by decide,
    (fill_invariant (2 ^ 64) (by decide) (SingleReaderSingleWriterRingBuffer.mk 3 7 [9]) 2 0
      [rb_call.push 1, rb_call.push 2, rb_call.push 3, rb_call.pop 0]).1.2.1,
    by decide⟩

/-- C12: on a buffer whose capacity is a `size_t` value, starting from
`reset()`, after every finite sequence of `try_push` and `try_pop` calls the
value of `fill()` is the number of pushes that returned true minus the number
of pops that returned true. -/
theorem fill_counts {T : Type} (M : Nat) (rb0 : SingleReaderSingleWriterRingBuffer T)
    (calls : List (rb_call T)) (hcap : rb0.m_data.length < M) :
    fill M (rb_run M rb0.reset calls) + pops_ok M rb0.reset calls =
      pushes_ok M rb0.reset calls ∧
    (fill M (rb_run M rb0.reset calls) : Int) =
      (pushes_ok M rb0.reset calls : Int) - (pops_ok M rb0.reset calls : Int) := by
  have hM : 0 < M := by omega
  obtain ⟨hinv, h0⟩ := rb_inv_reset M hM rb0
  obtain ⟨_, _, h3⟩ := rb_run_inv M calls rb0.reset hinv
  have h := h3 hcap
  rw [h0, Nat.zero_add] at h
  refine ⟨h, ?_⟩
  omega

/-- Instance of C12: capacity 2, 64-bit `size_t`; two of three pushes and one
of two pops succeed. -/
theorem fill_counts_witness :
    (SingleReaderSingleWriterRingBuffer.mk 3 7 [8, 9]).m_data.length < 2 ^ 64 ∧
    fill (2 ^ 64)
        (rb_run (2 ^ 64) (SingleReaderSingleWriterRingBuffer.mk 3 7 [8, 9]).reset
          [rb_call.pop 0, rb_call.push 1, rb_call.push 2, rb_call.push 3, rb_call.pop_discard]) +
      pops_ok (2 ^ 64) (SingleReaderSingleWriterRingBuffer.mk 3 7 [8, 9]).reset
          [rb_call.pop 0, rb_call.push 1, rb_call.push 2, rb_call.push 3, rb_call.pop_discard] =
      pushes_ok (2 ^ 64) (SingleReaderSingleWriterRingBuffer.mk 3 7 [8, 9]).reset
          [rb_call.pop 0, rb_call.push 1, rb_call.push 2, rb_call.push 3, rb_call.pop_discard] ∧
    pushes_ok (2 ^ 64) (SingleReaderSingleWriterRingBuffer.mk 3 7 [8, 9]).reset
        [rb_call.pop 0, rb_call.push 1, rb_call.push 2, rb_call.push 3, rb_call.pop_discard] = 2 ∧
    pops_ok (2 ^ 64) (SingleReaderSingleWriterRingBuffer.mk 3 7 [8, 9]).reset
        [rb_call.pop 0, rb_call.push 1, rb_call.push 2, rb_call.push 3, rb_call.pop_discard] = 1 :=
  ⟨by decide,
    (fill_counts (2 ^ 64) (SingleReaderSingleWriterRingBuffer.mk 3 7 [8, 9])
      [rb_call.pop 0, rb_call.push 1, rb_call.push 2, rb_call.push 3, rb_call.pop_discard]
      (by decide)).1,
    by decide, by decide⟩

/-! ## Data-integrity self-test generator -/

/-- The masked XOR of the four shifted copies is the feedback bit at position 11. -/
theorem lfsr_feedback_bit (v : Nat) :
    ((v <<< 11) ^^^ (v <<< 10) ^^^ (v <<< 9) ^^^ (v <<< 3)) &&& 0x0800 =
      (lfsr_feedback v).toNat <<< 11 := by
  apply Nat.eq_of_testBit_eq
  intro i
  have e : (0x0800 : Nat) = 2 ^ 11 := by decide
  rw [e, Nat.testBit_and, Nat.testBit_two_pow, Nat.testBit_shiftLeft, Nat.testBit_bool_to_nat]
  by_cases h : 11 = i
  · subst h
    simp only [Nat.testBit_xor, Nat.testBit_shiftLeft, lfsr_feedback]
    have e0 : 11 - 11 = 0 := rfl
    have e1 : 11 - 10 = 1 := rfl
    have e2 : 11 - 9 = 2 := rfl
    have e8 : 11 - 3 = 8 := rfl
    have d0 : decide (11 ≥ 11) = true := by decide
    have d1 : decide (11 ≥ 10) = true := by decide
    have d2 : decide (11 ≥ 9) = true := by decide
    have d8 : decide (11 ≥ 3) = true := by decide
    rw [e0, e1, e2, e8, d0, d1, d2, d8]
    simp only [Bool.true_and, Bool.and_true, decide_True]
  · have h2 : ¬ (i - 11 = 0 ∧ i ≥ 11) := by omega
    have d : decide (11 = i) = false := by simp [h]
    rw [d, Bool.and_false]
    by_cases h3 : i ≥ 11
    · have d3 : decide (i - 11 = 0) = false := by
        simp only [decide_eq_false_iff_not]; omega
      rw [d3]; simp
    · have d4 : decide (i ≥ 11) = false := by simp only [decide_eq_false_iff_not]; exact h3
      rw [d4]; simp

theorem lfsr_next_eq (v : Nat) (hv : v < 65536) :
    (test_mode_lsfr_get_next v).2 = (v >>> 1) ||| ((lfsr_feedback v).toNat <<< 11) := by
  have hs : v >>> 1 < 2 ^ 16 := by
    rw [Nat.shiftRight_eq_div_pow]; show v / 2 < 65536; omega
  have hf : (lfsr_feedback v).toNat <<< 11 < 2 ^ 16 := by
    rw [Nat.shiftLeft_eq]
    have := Bool.toNat_le (lfsr_feedback v)
    show _ * 2048 < 65536
    omega
  have hlt := Nat.or_lt_two_pow hs hf
  simp only [test_mode_lsfr_get_next, lfsr_feedback_bit]
  exact Nat.mod_eq_of_lt hlt

/-- A register value below `2^12` stays below `2^12`. -/
theorem lfsr_next_lt (v : Nat) (hv : v < 4096) : (test_mode_lsfr_get_next v).2 < 4096 := by
  rw [lfsr_next_eq v (by omega)]
  have hs : v >>> 1 < 2 ^ 12 := by
    rw [Nat.shiftRight_eq_div_pow]; show v / 2 < 4096; omega
  have hf : (lfsr_feedback v).toNat <<< 11 < 2 ^ 12 := by
    rw [Nat.shiftLeft_eq]
    have := Bool.toNat_le (lfsr_feedback v)
    show _ * 2048 < 4096
    omega
  exact Nat.or_lt_two_pow hs hf

/-- C14 (as amended): on every 16-bit register value `v`,
`test_mode_lsfr_get_next` returns `v` and replaces the register by `v`
shifted right by one bit, OR-ed with the XOR of the bits 0, 1, 2 and 8 of `v`
placed at bit 11. For `v` below `2^12` the new value is again below `2^12`,
its bit 11 is that XOR and its bits 0 to 10 are the bits 1 to 11 of `v`: the
generator is a 12-bit shift register with taps 0, 1, 2 and 8. -/
theorem test_mode_lsfr_get_next_spec (v : Nat) (hv : v < 65536) :
    (test_mode_lsfr_get_next v).1 = v ∧
    (test_mode_lsfr_get_next v).2 =
      (v >>> 1) |||
        ((xor (xor (xor (v.testBit 0) (v.testBit 1)) (v.testBit 2)) (v.testBit 8)).toNat <<<
          11) ∧
    (v < 4096 →
      (test_mode_lsfr_get_next v).2 < 4096 ∧
      (test_mode_lsfr_get_next v).2.testBit 11 =
        xor (xor (xor (v.testBit 0) (v.testBit 1)) (v.testBit 2)) (v.testBit 8) ∧
      ∀ i, i < 11 → (test_mode_lsfr_get_next v).2.testBit i = v.testBit (i + 1)) := by
  have hn := lfsr_next_eq v hv
  refine ⟨rfl, hn, ?_⟩
  intro h12
  refine ⟨lfsr_next_lt v h12, ?_, ?_⟩
  · rw [hn, Nat.testBit_or, Nat.testBit_shiftRight, Nat.testBit_shiftLeft,
      Nat.testBit_bool_to_nat]
    have h0 : v.testBit (1 + 11) = false :=
      Nat.testBit_lt_two_pow (by show v < 4096; exact h12)
    rw [h0]
    simp [lfsr_feedback]
  · intro i hi
    rw [hn, Nat.testBit_or, Nat.testBit_shiftRight, Nat.testBit_shiftLeft]
    have d : decide (i ≥ 11) = false := by simp only [decide_eq_false_iff_not]; omega
    rw [d, Bool.false_and, Bool.or_false, Nat.add_comm]

/-- Instance of C14 (as amended) at the register value `0x0103`. -/
theorem test_mode_lsfr_get_next_spec_witness :
    (0x0103 < 65536 ∧ 0x0103 < 4096) ∧
    test_mode_lsfr_get_next 0x0103 = (0x0103, 0x0881) ∧
    (test_mode_lsfr_get_next 0x0103).2.testBit 11 =
      xor (xor (xor (Nat.testBit 0x0103 0) (Nat.testBit 0x0103 1)) (Nat.testBit 0x0103 2))
        (Nat.testBit 0x0103 8) ∧
    (test_mode_lsfr_get_next 0x0103).2 < 4096 :=
  ⟨by decide, by decide,
    ((test_mode_lsfr_get_next_spec 0x0103 (by decide)).2.2 (by decide)).2.1,
    ((test_mode_lsfr_get_next_spec 0x0103 (by decide)).2.2 (by decide)).1⟩

/-- C14 fails as stated: at the register value `0x0002` (only bit 1 set) the
bits 0, 3, 9 and 10 are all clear, so the update of the claim gives `0x0001`
wherever the top bit is taken to be (bit 15 or bit 11); the code gives `0x0801`.
At the seed `0x0001` the code sets bit 11, not bit 15. -/
theorem test_mode_lsfr_get_next_taps_counterexample :
    test_mode_lsfr_get_next 0x0002 = (0x0002, 0x0801) ∧
    lfsr_next_as_specified 15 0x0002 = 0x0001 ∧
    lfsr_next_as_specified 11 0x0002 = 0x0001 ∧
    (test_mode_lsfr_get_next 0x0002).2 ≠ lfsr_next_as_specified 15 0x0002 ∧
    (test_mode_lsfr_get_next 0x0002).2 ≠ lfsr_next_as_specified 11 0x0002 ∧
    test_mode_lsfr_get_next 0x0001 = (0x0001, 0x0800) ∧
    lfsr_next_as_specified 15 0x0001 = 0x8000 := by
  decide

theorem lfsr_state_add (m n r : Nat) : lfsr_state (m + n) r = lfsr_state n (lfsr_state m r) := by
  induction m generalizing r with
  | zero => simp [lfsr_state]
  | succ m ih =>
    have e : m + 1 + n = (m + n) + 1 := by omega
    rw [e]
    simp only [lfsr_state]
    exact ih _

theorem lfsr_state_succ (n r : Nat) :
    lfsr_state (n + 1) r = (test_mode_lsfr_get_next (lfsr_state n r)).2 := by
  rw [lfsr_state_add n 1 r]
  rfl

theorem lfsr_state_of_zero (n : Nat) : lfsr_state n 0 = 0 := by
  induction n with
  | zero => rfl
  | succ n ih =>
    have h0 : (test_mode_lsfr_get_next 0).2 = 0 := by decide
    simp only [lfsr_state, h0]
    exact ih

theorem lfsr_state_lt (n r : Nat) (hr : r < 4096) : lfsr_state n r < 4096 := by
  induction n generalizing r with
  | zero => exact hr
  | succ n ih => exact ih _ (lfsr_next_lt r hr)

/-- The entries of a run of draws are the successive register values. -/
theorem lfsr_draws_getElem (n : Nat) :
    ∀ (reg k : Nat), k < n → (lfsr_draws n reg)[k]? = some (lfsr_state k reg) := by
  induction n with
  | zero => intro reg k hk; omega
  | succ n ih =>
    intro reg k hk
    cases k with
    | zero => simp [lfsr_draws, lfsr_state, test_mode_lsfr_get_next]
    | succ k =>
      simp only [lfsr_draws, List.getElem?_cons_succ, lfsr_state]
      exact ih _ k (by omega)

theorem lfsr_draws_length (n reg : Nat) : (lfsr_draws n reg).length = n := by
  induction n generalizing reg with
  | zero => rfl
  | succ n ih => simp [lfsr_draws, ih]

/-- Meaning of a successful walk: the value found is the first return time. -/
theorem lfsr_return_time_spec (seed : Nat) :
    ∀ (fuel reg n k : Nat), lfsr_return_time seed fuel reg n = some k →
      n < k ∧ lfsr_state (k - n) reg = seed ∧
      ∀ j, 0 < j → j < k - n → lfsr_state j reg ≠ seed := by
  intro fuel
  induction fuel with
  | zero => intro reg n k h; simp [lfsr_return_time] at h
  | succ fuel ih =>
    intro reg n k h
    simp only [lfsr_return_time] at h
    split_ifs at h with hs
    · simp only [Option.some.injEq] at h
      subst h
      refine ⟨by omega, ?_, ?_⟩
      · have e : n + 1 - n = 1 := by omega
        rw [e]
        exact hs
      · intro j h1 h2
        omega
    · obtain ⟨h1, h2, h3⟩ := ih _ _ _ h
      refine ⟨by omega, ?_, ?_⟩
      · have e : k - n = (k - (n + 1)) + 1 := by omega
        rw [e]
        exact h2
      · intro j hj1 hj2
        obtain ⟨j2, rfl⟩ : ∃ j2, j = j2 + 1 := ⟨j - 1, by omega⟩
        simp only [lfsr_state]
        rcases Nat.eq_zero_or_pos j2 with rfl | hpos
        · exact hs
        · exact h3 j2 hpos (by omega)

/-- Walking from the seed, the register is back at the seed after 4095 calls
and not earlier. -/
theorem lfsr_return_time_seed : lfsr_return_time 0x0001 4095 0x0001 0 = some 4095 := by
  decide!

theorem lfsr_state_4095 : lfsr_state 4095 0x0001 = 0x0001 :=
  (lfsr_return_time_spec 1 4095 1 0 4095 lfsr_return_time_seed).2.1

theorem lfsr_state_ne_seed (k : Nat) (h0 : 0 < k) (h1 : k < 4095) :
    lfsr_state k 0x0001 ≠ 0x0001 :=
  (lfsr_return_time_spec 1 4095 1 0 4095 lfsr_return_time_seed).2.2 k h0 h1

/-- The first 4095 register values are pairwise different. -/
theorem lfsr_state_injective (i j : Nat) (hi : i < 4095) (hj : j < 4095)
    (h : lfsr_state i 0x0001 = lfsr_state j 0x0001) : i = j := by
  by_contra hne
  rcases Nat.lt_or_gt_of_ne hne with hlt | hlt
  · have e : lfsr_state (i + (4095 - j)) 1 = 1 := by
      rw [lfsr_state_add, h, ← lfsr_state_add]
      have : j + (4095 - j) = 4095 := by omega
      rw [this]
      exact lfsr_state_4095
    exact lfsr_state_ne_seed _ (by omega) (by omega) e
  · have e : lfsr_state (j + (4095 - i)) 1 = 1 := by
      rw [lfsr_state_add, ← h, ← lfsr_state_add]
      have : i + (4095 - i) = 4095 := by omega
      rw [this]
      exact lfsr_state_4095
    exact lfsr_state_ne_seed _ (by omega) (by omega) e

/-- Every register value reached from the seed lies in `[1, 4095]`. -/
theorem lfsr_state_range (k : Nat) :
    1 ≤ lfsr_state k 0x0001 ∧ lfsr_state k 0x0001 ≤ 4095 := by
  have hlt := lfsr_state_lt k 1 (by decide)
  refine ⟨?_, by omega⟩
  by_contra h0
  have hz : lfsr_state k 1 = 0 := by omega
  have e : lfsr_state (k + (4095 - k % 4095)) 1 = 0 := by
    rw [lfsr_state_add, hz, lfsr_state_of_zero]
  have hper : ∀ q, lfsr_state (4095 * q) 1 = 1 := by
    intro q
    induction q with
    | zero => rfl
    | succ q ih =>
      have : 4095 * (q + 1) = 4095 * q + 4095 := by ring
      rw [this, lfsr_state_add, ih]
      exact lfsr_state_4095
  have hk : k + (4095 - k % 4095) = 4095 * (k / 4095 + 1) := by omega
  rw [hk, hper] at e
  exact absurd e (by decide)

/-- Every value of `[1, 4095]` is among the first 4095 register values. -/
theorem lfsr_state_surjective (v : Nat) (h1 : 1 ≤ v) (h2 : v ≤ 4095) :
    ∃ k, k < 4095 ∧ lfsr_state k 0x0001 = v := by
  let f : Fin 4095 → Fin 4095 := fun k =>
    ⟨lfsr_state k.val 1 - 1, by have := lfsr_state_range k.val; omega⟩
  have hinj : Function.Injective f := by
    intro a b hab
    have ha := lfsr_state_range a.val
    have hb := lfsr_state_range b.val
    have hab2 : lfsr_state a.val 1 - 1 = lfsr_state b.val 1 - 1 := congrArg Fin.val hab
    apply Fin.ext
    exact lfsr_state_injective a.val b.val a.isLt b.isLt (by omega)
  have hsurj : Function.Surjective f := Finite.injective_iff_surjective.mp hinj
  obtain ⟨k, hk⟩ := hsurj ⟨v - 1, by omega⟩
  refine ⟨k.val, k.isLt, ?_⟩
  have hk2 : lfsr_state k.val 1 - 1 = v - 1 := congrArg Fin.val hk
  have := lfsr_state_range k.val
  omega

/-- C15 fails as stated: drawing from the seed `0x0001`, the draw with index
4095 (the 4096th value) is the seed again, long before `2^16 - 1` values have
been produced, and a 16-bit value such as `0x8000` is never produced. -/
theorem lfsr_period_counterexample :
    (lfsr_draws 4096 0x0001)[4095]? = some 0x0001 ∧
    (0 < 4095 ∧ 4095 < 2 ^ 16 - 1) ∧
    ¬ (∀ n, 0 < n → n < 2 ^ 16 - 1 → lfsr_state n 0x0001 ≠ 0x0001) ∧
    ∀ k, lfsr_state k 0x0001 ≠ 0x8000 := by
  refine ⟨?_, by decide, ?_, ?_⟩
  · rw [lfsr_draws_getElem 4096 1 4095 (by decide), lfsr_state_4095]
  · intro h
    exact h 4095 (by decide) (by decide) lfsr_state_4095
  · intro k h
    have := lfsr_state_range k
    omega

/-- C15 (as amended): drawing from the seed `0x0001`, the k-th draw is the
register value after k calls; the seed does not come back during the draws
1 to 4094 and comes back at draw 4095, by which time every one of the
`2^12 - 1 = 4095` non-zero 12-bit values has been produced exactly once. The
sequence is maximal-length for a 12-bit register, with period 4095. -/
theorem lfsr_period_4095 :
    (∀ N k, k < N → (lfsr_draws N 0x0001)[k]? = some (lfsr_state k 0x0001)) ∧
    (∀ k, 0 < k → k < 4095 → lfsr_state k 0x0001 ≠ 0x0001) ∧
    lfsr_state 4095 0x0001 = 0x0001 ∧
    (∀ v, 1 ≤ v → v ≤ 2 ^ 12 - 1 → ∃ k, k < 4095 ∧ lfsr_state k 0x0001 = v) ∧
    (∀ i j, i < 4095 → j < 4095 → lfsr_state i 0x0001 = lfsr_state j 0x0001 → i = j) ∧
    (∀ k, lfsr_state (k + 4095) 0x0001 = lfsr_state k 0x0001) := by
  refine ⟨fun N k hk => lfsr_draws_getElem N 1 k hk, lfsr_state_ne_seed, lfsr_state_4095,
    fun v h1 h2 => lfsr_state_surjective v h1 h2, lfsr_state_injective, ?_⟩
  intro k
  rw [Nat.add_comm, lfsr_state_add, lfsr_state_4095]

/-- Instance of C15 (as amended): the first draws, and the value `0x0ABC`, which
is produced by one of the first 4095 draws. -/
theorem lfsr_period_4095_witness :
    lfsr_draws 4 0x0001 = [0x0001, 0x0800, 0x0400, 0x0200] ∧
    lfsr_state 1 0x0001 ≠ 0x0001 ∧
    ∃ k, k < 4095 ∧ lfsr_state k 0x0001 = 0x0ABC :=
  ⟨by decide, lfsr_period_4095.2.1 1 (by decide) (by decide),
    lfsr_period_4095.2.2.2.1 0x0ABC (by decide) (by decide)⟩

/-! ## Frame normalizer -/

theorem float_scale_zero (b : Nat) :
    ∀ fuel k : Nat, (float_scale b fuel 0 k).1 = 0 := by
  intro fuel
  induction fuel with
  | zero =>
    intro k
    rfl
  | succ n ih =>
    intro k
    simp only [float_scale, Nat.mul_zero]
    split_ifs
    · exact ih (k + 1)
    · rfl

theorem round_half_even_zero (b : Nat) : round_half_even 0 b = 0 := by
  simp [round_half_even]

/-- The `float` quotient of zero is zero. -/
theorem float_div_zero (d : Nat) : float_div 0 d = 0 := by
  simp only [float_div, float_scale_zero, round_half_even_zero, Nat.cast_zero, zero_div]

/-- The normalization doubles the numerator `j` times, stops as soon as the
quotient has reached `2 ^ 23`, and has not overshot it by the step before. -/
theorem float_scale_spec (b : Nat) :
    ∀ fuel a k : Nat, ∃ j, j ≤ fuel ∧ float_scale b fuel a k = (a * 2 ^ j, k + j) ∧
      (j < fuel → b * 2 ^ 23 ≤ a * 2 ^ j) ∧ (0 < j → a * 2 ^ (j - 1) < b * 2 ^ 23) := by
  intro fuel
  induction fuel with
  | zero =>
    intro a k
    exact ⟨0, le_rfl, by simp [float_scale], fun h => absurd h (lt_irrefl 0),
      fun h => absurd h (lt_irrefl 0)⟩
  | succ n ih =>
    intro a k
    by_cases h : a < b * 2 ^ 23
    · obtain ⟨j, hj, e, h1, h2⟩ := ih (2 * a) (k + 1)
      refine ⟨j + 1, by omega, ?_, ?_, ?_⟩
      · simp only [float_scale, h, if_true, e, Prod.mk.injEq]
        constructor
        · rw [pow_succ]
          ring
        · omega
      · intro hlt
        have := h1 (by omega)
        have e2 : a * 2 ^ (j + 1) = 2 * a * 2 ^ j := by
          rw [pow_succ]
          ring
        rw [e2]
        exact this
      · intro _
        by_cases hj0 : j = 0
        · subst hj0
          simpa using h
        · have := h2 (by omega)
          have e2 : a * 2 ^ (j + 1 - 1) = 2 * a * 2 ^ (j - 1) := by
            obtain ⟨i, rfl⟩ : ∃ i, j = i + 1 := ⟨j - 1, by omega⟩
            simp only [Nat.add_sub_cancel]
            rw [pow_succ]
            ring
          rw [e2]
          exact this
    · refine ⟨0, by omega, ?_, ?_, fun h0 => absurd h0 (lt_irrefl 0)⟩
      · simp only [float_scale, if_neg h, pow_zero, Nat.mul_one, Nat.add_zero]
      · intro _
        rw [pow_zero, Nat.mul_one]
        exact Nat.not_lt.mp h

/-- The rounded quotient is within one half of the exact one. -/
theorem round_half_even_near (a b : Nat) (hb : 0 < b) :
    2 * (b * round_half_even a b) ≤ 2 * a + b ∧ 2 * a ≤ 2 * (b * round_half_even a b) + b := by
  have hdm : b * (a / b) + a % b = a := Nat.div_add_mod a b
  have hr : a % b < b := Nat.mod_lt a hb
  have e1 : b * (a / b + 1) = b * (a / b) + b := by ring
  unfold round_half_even
  split_ifs with h1 h2 h3
  · omega
  · rw [e1]
    omega
  · omega
  · rw [e1]
    omega

/-- Rounding does not pass an integer bound of the exact quotient. -/
theorem round_half_even_le (a b N : Nat) (hb : 0 < b) (h : a ≤ b * N) :
    round_half_even a b ≤ N := by
  have hq : a / b ≤ N := by
    calc a / b ≤ b * N / b := Nat.div_le_div_right h
      _ = N := Nat.mul_div_cancel_left N hb
  by_cases hlt : a / b < N
  · unfold round_half_even
    split_ifs <;> omega
  · have hqN : a / b = N := by omega
    have hdm : b * (a / b) + a % b = a := Nat.div_add_mod a b
    have hr0 : a % b = 0 := by
      rw [hqN] at hdm
      omega
    unfold round_half_even
    rw [hr0, hqN]
    simp [hb]

/-- The `float` quotient of `x` by `d` lies in `[0, 1]` when `x ≤ d`. -/
theorem float_div_range (x d : Nat) (hd : 0 < d) (hx : x ≤ d) :
    0 ≤ float_div x d ∧ float_div x d ≤ 1 := by
  obtain ⟨j, _, e, _, _⟩ := float_scale_spec d 149 x 0
  have hm : round_half_even (x * 2 ^ j) d ≤ 2 ^ j :=
    round_half_even_le _ _ _ hd (Nat.mul_le_mul_right _ hx)
  simp only [float_div, e, Nat.zero_add]
  constructor
  · positivity
  · rw [div_le_one (by positivity)]
    exact_mod_cast hm

/-- The `float` quotient is within the relative distance `2 ^ -24` of the exact
quotient, for a divisor below `2 ^ 125`, for which no quotient of integers is
subnormal. -/
theorem float_div_error (x d : Nat) (hd : 0 < d) (hd2 : d < 2 ^ 125) :
    (x : ℚ) / d * (1 - 1 / 2 ^ 24) ≤ float_div x d ∧
      float_div x d ≤ (x : ℚ) / d * (1 + 1 / 2 ^ 24) := by
  by_cases hx : x = 0
  · subst hx
    rw [float_div_zero]
    simp
  obtain ⟨j, hj, e, h1, h2⟩ := float_scale_spec d 149 x 0
  have hnorm : d * 2 ^ 23 ≤ x * 2 ^ j := by
    by_cases hlt : j < 149
    · exact h1 hlt
    · have hj149 : j = 149 := by omega
      subst hj149
      have h3 := h2 (by omega)
      have h4 : 1 * 2 ^ 148 ≤ x * 2 ^ (149 - 1) :=
        Nat.mul_le_mul_right _ (Nat.pos_of_ne_zero hx)
      have h5 : d * 2 ^ 23 < 2 ^ 125 * 2 ^ 23 := Nat.mul_lt_mul_of_pos_right hd2 (by positivity)
      have h6 : (2 : Nat) ^ 125 * 2 ^ 23 = 1 * 2 ^ 148 := by norm_num
      omega
  obtain ⟨n1, n2⟩ := round_half_even_near (x * 2 ^ j) d hd
  simp only [float_div, e, Nat.zero_add]
  have hD : (0 : ℚ) < d := by exact_mod_cast hd
  have q1 : (2 : ℚ) * (d * (round_half_even (x * 2 ^ j) d : ℚ)) ≤ 2 * (x * 2 ^ j) + d := by
    exact_mod_cast n1
  have q2 : (2 : ℚ) * (x * 2 ^ j) ≤ 2 * (d * (round_half_even (x * 2 ^ j) d : ℚ)) + d := by
    exact_mod_cast n2
  have q3 : (d : ℚ) * 2 ^ 23 ≤ x * 2 ^ j := by exact_mod_cast hnorm
  generalize (round_half_even (x * 2 ^ j) d : ℚ) = m at q1 q2 ⊢
  have hP : (0 : ℚ) < 2 ^ j := by positivity
  generalize (2 : ℚ) ^ j = P at hP q1 q2 q3 ⊢
  have q4 : (d : ℚ) * 8388608 ≤ x * P := by
    norm_num at q3
    exact q3
  have k1 : (d : ℚ) * m ≤ x * P * (1 + 1 / 16777216) := by linarith
  have k2 : (x : ℚ) * P * (1 - 1 / 16777216) ≤ d * m := by linarith
  have c1 : (1 : ℚ) - 1 / 2 ^ 24 = 1 - 1 / 16777216 := by norm_num
  have c2 : (1 : ℚ) + 1 / 2 ^ 24 = 1 + 1 / 16777216 := by norm_num
  rw [c1, c2]
  have g1 : (x : ℚ) / d * (1 - 1 / 16777216) = x * P * (1 - 1 / 16777216) / d / P := by
    field_simp
    ring
  have g2 : (x : ℚ) / d * (1 + 1 / 16777216) = x * P * (1 + 1 / 16777216) / d / P := by
    field_simp
    ring
  rw [g1, g2]
  constructor
  · apply (div_le_div_iff_of_pos_right hP).mpr
    rw [div_le_iff₀ hD]
    linarith
  · apply (div_le_div_iff_of_pos_right hP).mpr
    rw [le_div_iff₀ hD]
    linarith

/-- The flat index of a cell lies inside a buffer of `A * C * S` samples. -/
theorem cube_index_lt (A C S a c s : Nat) (ha : a < A) (hc : c < C) (hs : s < S) :
    c * A * S + s * A + a < A * C * S := by
  have h1 : s * A + a < (s + 1) * A := by
    have : (s + 1) * A = s * A + A := by ring
    omega
  have h2 : (s + 1) * A ≤ S * A := Nat.mul_le_mul_right A hs
  have h3 : c * A * S + S * A = (c + 1) * (A * S) := by ring
  have h4 : (c + 1) * (A * S) ≤ C * (A * S) := Nat.mul_le_mul_right (A * S) hc
  have h5 : C * (A * S) = A * C * S := by ring
  omega

/-- The `size_t` computation of the flat index does not wrap when the buffer is
an object of the address space. -/
theorem cube_index_size_t (M A C S a c s : Nat) (ha : a < A) (hc : c < C) (hs : s < S)
    (hM : A * C * S < M) :
    ((a + (s * A) % M) % M + ((c * A) % M * S) % M) % M = c * A * S + s * A + a := by
  have hidx := cube_index_lt A C S a c s ha hc hs
  have h1 : s * A < M := by
    have : s * A ≤ c * A * S + s * A + a := by omega
    omega
  have h2 : c * A * S < M := by omega
  have h3 : c * A < M := by
    have : c * A * 1 ≤ c * A * S := Nat.mul_le_mul_left (c * A) (by omega)
    omega
  rw [Nat.mod_eq_of_lt h1, Nat.mod_eq_of_lt h3, Nat.mod_eq_of_lt h2,
    Nat.mod_eq_of_lt (by omega : a + s * A < M), Nat.mod_eq_of_lt (by omega)]
  omega

theorem get_next_frame_sample_loop_spec (M : Nat) (buffer : List Nat) (A C S rx chirp : Nat)
    (hrx : rx < A) (hc : chirp < C) (hlen : A * C * S ≤ buffer.length)
    (hM : buffer.length < M) :
    ∀ (n sample : Nat) (frame : ifx_Cube_R_t), sample + n = S →
      ∃ f, get_next_frame_sample_loop M buffer A rx chirp (((chirp * A) % M * S) % M) n sample
          frame = some f ∧
        f.rows = frame.rows ∧ f.cols = frame.cols ∧ f.slices = frame.slices ∧
        ∀ r c s, f.data r c s =
          if r = rx ∧ c = chirp ∧ sample ≤ s ∧ s < S then normalized_sample buffer A S r c s
          else frame.data r c s := by
  intro n
  induction n with
  | zero =>
    intro sample frame hn
    refine ⟨frame, rfl, rfl, rfl, rfl, ?_⟩
    intro r c s
    rw [if_neg (by omega)]
  | succ n ih =>
    intro sample frame hn
    have hs : sample < S := by omega
    have hidx := cube_index_size_t M A C S rx chirp sample hrx hc hs (by omega)
    have hlt := cube_index_lt A C S rx chirp sample hrx hc hs
    have hget : buffer[chirp * A * S + sample * A + rx]? =
        some (buffer.getD (chirp * A * S + sample * A + rx) 0) :=
      getElem?_eq_some_getD buffer _ (by omega)
    obtain ⟨f, hf, h1, h2, h3, h4⟩ := ih (sample + 1)
      (IFX_CUBE_AT_assign frame rx chirp sample
        (float_div (buffer.getD (chirp * A * S + sample * A + rx) 0) 4095)) (by omega)
    refine ⟨f, ?_, h1, h2, h3, ?_⟩
    · simp only [get_next_frame_sample_loop, hidx, hget]
      exact hf
    · intro r c s
      rw [h4]
      by_cases hcell : r = rx ∧ c = chirp
      · obtain ⟨rfl, rfl⟩ := hcell
        by_cases h5 : sample + 1 ≤ s ∧ s < S
        · rw [if_pos ⟨rfl, rfl, h5⟩, if_pos ⟨rfl, rfl, by omega, h5.2⟩]
        · rw [if_neg (by intro h; exact h5 h.2.2)]
          by_cases h6 : s = sample
          · subst h6
            rw [if_pos ⟨rfl, rfl, Nat.le_refl _, hs⟩]
            simp [IFX_CUBE_AT_assign, normalized_sample]
          · rw [if_neg (by intro h; omega)]
            simp [IFX_CUBE_AT_assign, h6]
      · rw [if_neg (by intro h; exact hcell ⟨h.1, h.2.1⟩),
          if_neg (by intro h; exact hcell ⟨h.1, h.2.1⟩)]
        have : ¬ (r = rx ∧ c = chirp ∧ s = sample) := fun h => hcell ⟨h.1, h.2.1⟩
        simp [IFX_CUBE_AT_assign, this]

theorem get_next_frame_chirp_loop_spec (M : Nat) (buffer : List Nat) (A C S rx : Nat)
    (hrx : rx < A) (hlen : A * C * S ≤ buffer.length) (hM : buffer.length < M) :
    ∀ (n chirp : Nat) (frame : ifx_Cube_R_t), chirp + n = C →
      ∃ f, get_next_frame_chirp_loop M buffer A S rx n chirp frame = some f ∧
        f.rows = frame.rows ∧ f.cols = frame.cols ∧ f.slices = frame.slices ∧
        ∀ r c s, f.data r c s =
          if r = rx ∧ chirp ≤ c ∧ c < C ∧ s < S then normalized_sample buffer A S r c s
          else frame.data r c s := by
  intro n
  induction n with
  | zero =>
    intro chirp frame hn
    refine ⟨frame, rfl, rfl, rfl, rfl, ?_⟩
    intro r c s
    rw [if_neg (by omega)]
  | succ n ih =>
    intro chirp frame hn
    have hc : chirp < C := by omega
    obtain ⟨f1, hf1, a1, a2, a3, a4⟩ :=
      get_next_frame_sample_loop_spec M buffer A C S rx chirp hrx hc hlen hM S 0 frame
        (by omega)
    obtain ⟨f, hf, h1, h2, h3, h4⟩ := ih (chirp + 1) f1 (by omega)
    refine ⟨f, ?_, h1.trans a1, h2.trans a2, h3.trans a3, ?_⟩
    · simp only [get_next_frame_chirp_loop, hf1]
      exact hf
    · intro r c s
      rw [h4, a4]
      by_cases h5 : r = rx ∧ chirp + 1 ≤ c ∧ c < C ∧ s < S
      · rw [if_pos h5, if_pos ⟨h5.1, by omega, h5.2.2⟩]
      · rw [if_neg h5]
        by_cases h6 : r = rx ∧ c = chirp ∧ 0 ≤ s ∧ s < S
        · rw [if_pos h6, if_pos ⟨h6.1, by omega, by omega, h6.2.2.2⟩]
        · rw [if_neg h6, if_neg (by intro h; omega)]

theorem get_next_frame_rx_loop_spec (M : Nat) (buffer : List Nat) (A C S : Nat)
    (hlen : A * C * S ≤ buffer.length) (hM : buffer.length < M) :
    ∀ (n rx : Nat) (frame : ifx_Cube_R_t), rx + n = A →
      ∃ f, get_next_frame_rx_loop M buffer A C S n rx frame = some f ∧
        f.rows = frame.rows ∧ f.cols = frame.cols ∧ f.slices = frame.slices ∧
        ∀ r c s, f.data r c s =
          if rx ≤ r ∧ r < A ∧ c < C ∧ s < S then normalized_sample buffer A S r c s
          else frame.data r c s := by
  intro n
  induction n with
  | zero =>
    intro rx frame hn
    refine ⟨frame, rfl, rfl, rfl, rfl, ?_⟩
    intro r c s
    rw [if_neg (by omega)]
  | succ n ih =>
    intro rx frame hn
    have hrx : rx < A := by omega
    obtain ⟨f1, hf1, a1, a2, a3, a4⟩ :=
      get_next_frame_chirp_loop_spec M buffer A C S rx hrx hlen hM C 0 frame (by omega)
    obtain ⟨f, hf, h1, h2, h3, h4⟩ := ih (rx + 1) f1 (by omega)
    refine ⟨f, ?_, h1.trans a1, h2.trans a2, h3.trans a3, ?_⟩
    · simp only [get_next_frame_rx_loop, hf1]
      exact hf
    · intro r c s
      rw [h4, a4]
      by_cases h5 : rx + 1 ≤ r ∧ r < A ∧ c < C ∧ s < S
      · rw [if_pos h5, if_pos ⟨by omega, h5.2⟩]
      · rw [if_neg h5]
        by_cases h6 : r = rx ∧ 0 ≤ c ∧ c < C ∧ s < S
        · rw [if_pos h6, if_pos ⟨by omega, by omega, h6.2.2⟩]
        · rw [if_neg h6, if_neg (by intro h; omega)]

/-- The loops of `get_next_frame_from_buffer` terminate without leaving the buffer; the
call returns true, the cell `(a, c, s)` receives the `float` quotient of the sample at
the flat offset `c * A * S + s * A + a` by 4095, and the shape and every other cell
are unchanged. -/
theorem get_next_frame_from_buffer_cells (M : Nat) (buffer : List Nat) (frame : ifx_Cube_R_t)
    (hA : frame.rows < 256)
    (hlen : frame.rows * frame.cols * frame.slices ≤ buffer.length)
    (hM : buffer.length < M) :
    ∃ f, get_next_frame_from_buffer M buffer frame = some (true, f) ∧
      (f.rows = frame.rows ∧ f.cols = frame.cols ∧ f.slices = frame.slices) ∧
      (∀ a c s, a < frame.rows → c < frame.cols → s < frame.slices →
        f.data a c s =
          float_div (buffer.getD (c * frame.rows * frame.slices + s * frame.rows + a) 0)
            4095) ∧
      (∀ a c s, ¬ (a < frame.rows ∧ c < frame.cols ∧ s < frame.slices) →
        f.data a c s = frame.data a c s) ∧
      ((∀ x ∈ buffer, x = 0) →
        ∀ a c s, a < frame.rows → c < frame.cols → s < frame.slices → f.data a c s = 0) := by
  obtain ⟨f, hf, h1, h2, h3, h4⟩ :=
    get_next_frame_rx_loop_spec M buffer frame.rows frame.cols frame.slices hlen hM
      frame.rows 0 frame (by omega)
  have hcell : ∀ a c s, a < frame.rows → c < frame.cols → s < frame.slices →
      f.data a c s =
        float_div (buffer.getD (c * frame.rows * frame.slices + s * frame.rows + a) 0)
          4095 := by
    intro a c s ha hc hs
    rw [h4, if_pos ⟨Nat.zero_le _, ha, hc, hs⟩]
    rfl
  refine ⟨f, ?_, ⟨h1, h2, h3⟩, hcell, ?_, ?_⟩
  · simp only [get_next_frame_from_buffer, Nat.mod_eq_of_lt hA, hf]
  · intro a c s hn
    rw [h4, if_neg (fun h => hn h.2)]
  · intro hz a c s ha hc hs
    rw [hcell a c s ha hc hs]
    have hlt := cube_index_lt frame.rows frame.cols frame.slices a c s ha hc hs
    have hmem : buffer.getD (c * frame.rows * frame.slices + s * frame.rows + a) 0 ∈ buffer := by
      rw [List.getD_eq_getElem _ _ (by omega)]
      exact List.getElem_mem _
    rw [hz _ hmem]
    exact float_div_zero 4095

/-- C19: for a cube of shape `(A, C, S)` with an antenna count that fits the
`uint8_t` it is held in, and a flat buffer of at least `A * C * S` samples,
`get_next_frame_from_buffer` terminates without leaving the buffer, returns
true and sets `cube[a, c, s] = buffer[c*A*S + s*A + a] / 4095` for every
`a < A`, `c < C`, `s < S`, the quotient being the one the code computes, in `float`:
the binary32 number nearest to the exact quotient, which lies within the
relative distance `2 ^ -24` of it. The shape and every other cell are
unchanged, and an all-zero buffer yields an all-zero cube. -/
theorem get_next_frame_from_buffer_spec (M : Nat) (buffer : List Nat) (frame : ifx_Cube_R_t)
    (hA : frame.rows < 256)
    (hlen : frame.rows * frame.cols * frame.slices ≤ buffer.length)
    (hM : buffer.length < M) :
    ∃ f, get_next_frame_from_buffer M buffer frame = some (true, f) ∧
      (f.rows = frame.rows ∧ f.cols = frame.cols ∧ f.slices = frame.slices) ∧
      (∀ a c s, a < frame.rows → c < frame.cols → s < frame.slices →
        f.data a c s =
          float_div (buffer.getD (c * frame.rows * frame.slices + s * frame.rows + a) 0)
            4095 ∧
        ((buffer.getD (c * frame.rows * frame.slices + s * frame.rows + a) 0 : Nat) : ℚ) /
            4095 * (1 - 1 / 2 ^ 24) ≤ f.data a c s ∧
        f.data a c s ≤
          ((buffer.getD (c * frame.rows * frame.slices + s * frame.rows + a) 0 : Nat) : ℚ) /
            4095 * (1 + 1 / 2 ^ 24)) ∧
      (∀ a c s, ¬ (a < frame.rows ∧ c < frame.cols ∧ s < frame.slices) →
        f.data a c s = frame.data a c s) ∧
      ((∀ x ∈ buffer, x = 0) →
        ∀ a c s, a < frame.rows → c < frame.cols → s < frame.slices → f.data a c s = 0) := by
  obtain ⟨f, hf, hshape, hcell, hother, hzero⟩ :=
    get_next_frame_from_buffer_cells M buffer frame hA hlen hM
  refine ⟨f, hf, hshape, ?_, hother, hzero⟩
  intro a c s ha hc hs
  have he := float_div_error
    (buffer.getD (c * frame.rows * frame.slices + s * frame.rows + a) 0) 4095 (by decide)
    (by decide)
  rw [hcell a c s ha hc hs]
  exact ⟨rfl, by exact_mod_cast he.1, by exact_mod_cast he.2⟩

/-- The `float` quotients of the samples 1 and 4095 by 4095. -/
theorem float_div_samples :
    float_div 1 4095 = 8390657 / 2 ^ 35 ∧ float_div 4095 4095 = 1 := by
  have s1 : float_scale 4095 149 1 0 = (2 ^ 35, 35) := by decide
  have r1 : round_half_even (2 ^ 35) 4095 = 8390657 := by decide
  have s2 : float_scale 4095 149 4095 0 = (4095 * 2 ^ 23, 23) := by decide
  have r2 : round_half_even (4095 * 2 ^ 23) 4095 = 2 ^ 23 := by decide
  constructor
  · simp only [float_div, s1, r1]
    norm_num
  · simp only [float_div, s2, r2]
    norm_num

/-- The frame normalizer run on the 2 x 2 x 3 cube with a buffer of twelve samples: the
call reports success; the cell `(1, 0, 0)` holds sample 1 of the buffer, the value 1,
as the `float` quotient `8390657 / 2 ^ 35`, which is not the exact quotient `1 / 4095`, and
the cell `(1, 1, 2)` holds sample 11, the value 4095, as 1. -/
theorem get_next_frame_from_buffer_spec_witness :
    sample_cube.rows < 256 ∧
    sample_cube.rows * sample_cube.cols * sample_cube.slices ≤
      [0, 1, 2, 3, 4, 5, 6, 7, 8, 9, 10, 4095].length ∧
    [0, 1, 2, 3, 4, 5, 6, 7, 8, 9, 10, 4095].length < 2 ^ 64 ∧
    ∃ f, get_next_frame_from_buffer (2 ^ 64) [0, 1, 2, 3, 4, 5, 6, 7, 8, 9, 10, 4095]
        sample_cube = some (true, f) ∧
      f.data 1 0 0 = 8390657 / 2 ^ 35 ∧ f.data 1 0 0 ≠ 1 / 4095 ∧ f.data 1 1 2 = 1 := by
  refine ⟨by decide, by decide, by decide, ?_⟩
  obtain ⟨f, hf, _, hcell, _, _⟩ :=
    get_next_frame_from_buffer_spec (2 ^ 64) [0, 1, 2, 3, 4, 5, 6, 7, 8, 9, 10, 4095]
      sample_cube (by decide) (by decide) (by decide)
  have c1 := (hcell 1 0 0 (by decide) (by decide) (by decide)).1
  have c2 := (hcell 1 1 2 (by decide) (by decide) (by decide)).1
  have e1 : [0, 1, 2, 3, 4, 5, 6, 7, 8, 9, 10, 4095].getD
      (0 * sample_cube.rows * sample_cube.slices + 0 * sample_cube.rows + 1) 0 = 1 := by decide
  have e2 : [0, 1, 2, 3, 4, 5, 6, 7, 8, 9, 10, 4095].getD
      (1 * sample_cube.rows * sample_cube.slices + 2 * sample_cube.rows + 1) 0 = 4095 := by
    decide
  rw [e1, float_div_samples.1] at c1
  rw [e2, float_div_samples.2] at c2
  refine ⟨f, hf, c1, ?_, c2⟩
  rw [c1]
  norm_num
/-! ## Integrity check of a fetched frame -/

/-- The integrity loop on a frame without mismatch from position `k` on: it
ends with no report. -/
theorem integrity_loop_pass (M : Nat) (f : List Nat) (A reg : Nat)
    (hA : 1 ≤ A ∨ f.length = 0) (hM : f.length + A ≤ M) :
    ∀ (fuel k : Nat), 1 ≤ fuel → f.length + 1 ≤ k * A + fuel →
      (∀ j, k ≤ j → j * A < f.length → f.getD (j * A) 0 = lfsr_state j reg) →
      ∃ K, integrity_loop M f f.length A fuel (k * A) (lfsr_state k reg) =
        some (none, lfsr_state K reg) := by
  intro fuel
  induction fuel with
  | zero => intro k h; omega
  | succ fuel ih =>
    intro k _ hfuel hmatch
    by_cases hi : k * A < f.length
    · have hA1 : 1 ≤ A := by omega
      have hget := getElem?_eq_some_getD f (k * A) hi
      have hnext : size_add M (k * A) A = (k + 1) * A := by
        unfold size_add
        rw [Nat.mod_eq_of_lt (by omega)]
        ring
      have hkA : (k + 1) * A = k * A + A := by ring
      obtain ⟨K, hK⟩ := ih (k + 1) (by omega) (by omega)
        (fun j hj hlt => hmatch j (by omega) hlt)
      refine ⟨K, ?_⟩
      rw [integrity_loop, if_pos hi, hget]
      simp only [test_mode_lsfr_get_next]
      rw [if_neg (by rw [hmatch k (Nat.le_refl k) hi]; exact fun h => h rfl), hnext]
      rw [lfsr_state_succ] at hK
      exact hK
    · exact ⟨k, by rw [integrity_loop, if_neg hi]⟩

/-- The integrity loop on a frame whose first mismatch from position `k` on is at
position `k0`: it ends with the report of that mismatch. -/
theorem integrity_loop_fail (M : Nat) (f : List Nat) (A reg : Nat)
    (hM : f.length + A ≤ M) :
    ∀ (d fuel k k0 : Nat), k + d = k0 → k0 * A < f.length → d < fuel →
      (∀ j, k ≤ j → j < k0 → f.getD (j * A) 0 = lfsr_state j reg) →
      f.getD (k0 * A) 0 ≠ lfsr_state k0 reg →
      integrity_loop M f f.length A fuel (k * A) (lfsr_state k reg) =
        some (some (k0 * A, lfsr_state k0 reg, f.getD (k0 * A) 0), lfsr_state (k0 + 1) reg) := by
  intro d
  induction d with
  | zero =>
    intro fuel k k0 hk hlt hfuel _ hne
    obtain ⟨fuel, rfl⟩ : ∃ g, fuel = g + 1 := ⟨fuel - 1, by omega⟩
    have hk2 : k = k0 := by omega
    subst hk2
    rw [integrity_loop, if_pos hlt, getElem?_eq_some_getD f (k * A) hlt]
    simp only [test_mode_lsfr_get_next]
    rw [if_pos hne, lfsr_state_succ]
    rfl
  | succ d ih =>
    intro fuel k k0 hk hlt hfuel hmatch hne
    obtain ⟨fuel, rfl⟩ : ∃ g, fuel = g + 1 := ⟨fuel - 1, by omega⟩
    have hle : k * A ≤ k0 * A := Nat.mul_le_mul_right A (by omega)
    have hi : k * A < f.length := by omega
    have hnext : size_add M (k * A) A = (k + 1) * A := by
      unfold size_add
      rw [Nat.mod_eq_of_lt (by omega)]
      ring
    have h := ih fuel (k + 1) k0 (by omega) hlt (by omega)
      (fun j hj hlt2 => hmatch j (by omega) hlt2) hne
    rw [integrity_loop, if_pos hi, getElem?_eq_some_getD f (k * A) hi]
    simp only [test_mode_lsfr_get_next]
    rw [if_neg (by rw [hmatch k (Nat.le_refl k) (by omega)]; exact fun h => h rfl), hnext]
    rw [lfsr_state_succ] at h
    exact h

/-- C17: in a started session with the self-test enabled, an antenna count
`A >= 1` and a popped frame `f` of length `F`, `radar_fetch_frame` returns, and
it returns false if and only if there is a `k` with `k * A < F` such that
`f[k * A]` differs from the k-th value drawn from the LFSR at its current
state. For the smallest such `k` the report appended is the mismatch at sample
index `k * A` with the expected value, the k-th draw, and the actual value
`f[k * A]`; the register has then been advanced `k + 1` times. -/
theorem radar_fetch_frame_integrity {σ : Type} (M : Nat) (st : direct_state σ)
    (mode : direct_mode_description_t) (cube : ifx_Cube_R_t) (f : List Nat) (F A : Nat)
    (rb2 : SingleReaderSingleWriterRingBuffer (List Nat))
    (hmode : st.radar.mode = some mode) (hant : mode.num_antennas = A) (hA : 1 ≤ A)
    (hF : get_num_samples_per_frame st.radar = some F)
    (hstarted : st.radar.is_started = true)
    (htest : st.data_integrity_test_enabled = true)
    (hfill : 1 ≤ fill M st.radar.frame_buffer)
    (hpop : try_pop M st.radar.frame_buffer (List.replicate F 0) = (true, rb2, f))
    (hlen : f.length = F) (hM : F + A ≤ M)
    (hrows : cube.rows < 256) (hshape : cube.rows * cube.cols * cube.slices ≤ F) :
    ∃ b st2 frame2, radar_fetch_frame M st (some cube) = some (b, st2, frame2) ∧
      (b = false ↔
        ∃ k, k * A < F ∧ f.getD (k * A) 0 ≠ lfsr_state k st.test_mode_shift_register) ∧
      (∀ k, k * A < F → f.getD (k * A) 0 ≠ lfsr_state k st.test_mode_shift_register →
        (∀ j, j < k → f.getD (j * A) 0 = lfsr_state j st.test_mode_shift_register) →
        b = false ∧
        st2.reports = st.reports ++
          [rep_event.mismatch (k * A) (lfsr_state k st.test_mode_shift_register)
            (f.getD (k * A) 0)] ∧
        st2.test_mode_shift_register = lfsr_state (k + 1) st.test_mode_shift_register) := by
  subst hlen
  subst hant
  have hnf : ¬ (fill M st.radar.frame_buffer < 1) := by omega
  by_cases hex : ∃ k, k * mode.num_antennas < f.length ∧
      f.getD (k * mode.num_antennas) 0 ≠ lfsr_state k st.test_mode_shift_register
  · -- a mismatch exists: take the first one
    classical
    have hk0 := Nat.find_spec hex
    have hmin : ∀ j, j < Nat.find hex →
        f.getD (j * mode.num_antennas) 0 = lfsr_state j st.test_mode_shift_register := by
      intro j hj
      have hle : j * mode.num_antennas ≤ Nat.find hex * mode.num_antennas :=
        Nat.mul_le_mul_right _ (by omega)
      have := Nat.find_min hex hj
      by_contra hne
      exact this ⟨by omega, hne⟩
    have hk0A : Nat.find hex ≤ Nat.find hex * mode.num_antennas := Nat.le_mul_of_pos_right _ hA
    have hloop := integrity_loop_fail M f mode.num_antennas st.test_mode_shift_register hM
      (Nat.find hex) (f.length + 1) 0 (Nat.find hex) (by omega) hk0.1 (by omega)
      (fun j _ hj => hmin j hj) hk0.2
    have h0 : lfsr_state 0 st.test_mode_shift_register = st.test_mode_shift_register := rfl
    rw [Nat.zero_mul, h0] at hloop
    have hval : ∃ st2, radar_fetch_frame M st (some cube) = some (false, st2, some cube) ∧
        st2.reports = st.reports ++
          [rep_event.mismatch (Nat.find hex * mode.num_antennas)
            (lfsr_state (Nat.find hex) st.test_mode_shift_register)
            (f.getD (Nat.find hex * mode.num_antennas) 0)] ∧
        st2.test_mode_shift_register =
          lfsr_state (Nat.find hex + 1) st.test_mode_shift_register := by
      simp only [radar_fetch_frame, hF, hmode, hstarted, htest, if_true, hnf, if_false, hpop,
        hloop]
      exact ⟨_, rfl, rfl, rfl⟩
    obtain ⟨st2, hst2, hrep, hreg⟩ := hval
    refine ⟨false, st2, some cube, hst2, ?_, ?_⟩
    · exact ⟨fun _ => hex, fun _ => rfl⟩
    · intro k hk hne hfirst
      have hkeq : k = Nat.find hex := by
        rcases Nat.lt_trichotomy k (Nat.find hex) with h | h | h
        · exact absurd (hmin k h) hne
        · exact h
        · exact absurd (hfirst _ h) hk0.2
      subst hkeq
      exact ⟨rfl, hrep, hreg⟩
  · -- no mismatch: the loop passes and the frame is normalized
    have hall : ∀ j, 0 ≤ j → j * mode.num_antennas < f.length →
        f.getD (j * mode.num_antennas) 0 = lfsr_state j st.test_mode_shift_register := by
      intro j _ hj
      by_contra hne
      exact hex ⟨j, hj, hne⟩
    obtain ⟨K, hK⟩ := integrity_loop_pass M f mode.num_antennas st.test_mode_shift_register
      (Or.inl hA) hM (f.length + 1) 0 (by omega) (by omega) hall
    have h0 : lfsr_state 0 st.test_mode_shift_register = st.test_mode_shift_register := rfl
    rw [Nat.zero_mul, h0] at hK
    obtain ⟨c2, hc2, _⟩ := get_next_frame_from_buffer_cells M (List.replicate f.length 0) cube
      hrows (by simpa using hshape) (by simp; omega)
    have hval : ∃ st2, radar_fetch_frame M st (some cube) = some (true, st2, some c2) := by
      simp only [radar_fetch_frame, hF, hmode, hstarted, htest, if_true, hnf, if_false, hpop,
        hK, hc2]
      exact ⟨_, rfl⟩
    obtain ⟨st2, hst2⟩ := hval
    refine ⟨true, st2, some c2, hst2, ?_, ?_⟩
    · exact ⟨fun h => (by cases h), fun h => absurd h hex⟩
    · intro k hk hne _
      exact absurd ⟨k, hk, hne⟩ hex

/-- Instance of C17: the frame `[1, 5]` matches the first draw and differs from
the second draw `0x0800` at sample index 1. -/
theorem radar_fetch_frame_integrity_witness :
    ∃ b st2 frame2,
      radar_fetch_frame (2 ^ 64) (sample_session [] [1, 5])
        (some (ifx_Cube_R_t.mk 1 1 2 (fun _ _ _ => 7))) = some (b, st2, frame2) ∧
      b = false ∧ st2.reports = [rep_event.mismatch 1 0x0800 5] := by
  obtain ⟨b, st2, frame2, h1, _, h3⟩ :=
    radar_fetch_frame_integrity (2 ^ 64) (sample_session [] [1, 5]) sample_mode
      (ifx_Cube_R_t.mk 1 1 2 (fun _ _ _ => 7)) [1, 5] 2 1
      (SingleReaderSingleWriterRingBuffer.mk 1 1 [[1, 5], [0, 0]])
      rfl rfl (by decide) (by decide) rfl rfl (by decide) (by decide) rfl (by decide)
      (by decide) (by decide)
  obtain ⟨hb, hrep, _⟩ := h3 1 (by decide) (by decide)
    (fun j hj => by
      have : j = 0 := by omega
      subst this
      decide)
  exact ⟨b, st2, frame2, h1, hb, hrep⟩

/-- C18: in a started session with the self-test enabled, if the popped frame
equals the LFSR sequence at every checked position, `direct_device_acq_fetch`
returns true, `*out` is the session cube (not `NULL`), and every cell of that
cube is zero: the frame is zeroed after the integrity pass and before it is
normalized. -/
theorem direct_device_acq_fetch_self_test {σ : Type} (M : Nat) (st : direct_state σ)
    (mode : direct_mode_description_t) (cube : ifx_Cube_R_t) (f : List Nat) (F : Nat)
    (rb2 : SingleReaderSingleWriterRingBuffer (List Nat))
    (hmode : st.radar.mode = some mode)
    (hF : get_num_samples_per_frame st.radar = some F)
    (hstarted : st.radar.is_started = true)
    (htest : st.data_integrity_test_enabled = true)
    (hfill : 1 ≤ fill M st.radar.frame_buffer)
    (hpop : try_pop M st.radar.frame_buffer (List.replicate F 0) = (true, rb2, f))
    (hlen : f.length = F) (hM : F + mode.num_antennas ≤ M) (hFM : F < M)
    (hcube : st.radar_data_frame = some cube)
    (hrows : cube.rows < 256) (hshape : cube.rows * cube.cols * cube.slices ≤ F)
    (hmatch : ∀ k, k * mode.num_antennas < F →
      f.getD (k * mode.num_antennas) 0 = lfsr_state k st.test_mode_shift_register) :
    ∃ st2 cube2, direct_device_acq_fetch M st = some (true, st2, some cube2) ∧
      st2.radar_data_frame = some cube2 ∧
      (cube2.rows = cube.rows ∧ cube2.cols = cube.cols ∧ cube2.slices = cube.slices) ∧
      ∀ a c s, a < cube2.rows → c < cube2.cols → s < cube2.slices → cube2.data a c s = 0 := by
  subst hlen
  have hnf : ¬ (fill M st.radar.frame_buffer < 1) := by omega
  have hA : 1 ≤ mode.num_antennas ∨ f.length = 0 := by
    rcases Nat.eq_zero_or_pos mode.num_antennas with h0 | hpos
    · right
      simp only [get_num_samples_per_frame, hmode, h0, Option.some.injEq] at hF
      rw [← hF]
      simp
    · exact Or.inl hpos
  obtain ⟨K, hK⟩ := integrity_loop_pass M f mode.num_antennas st.test_mode_shift_register
    hA hM (f.length + 1) 0 (by omega) (by omega) (fun j _ hj => hmatch j hj)
  have h0 : lfsr_state 0 st.test_mode_shift_register = st.test_mode_shift_register := rfl
  rw [Nat.zero_mul, h0] at hK
  obtain ⟨c2, hc2, hdims, _, _, hzero⟩ :=
    get_next_frame_from_buffer_cells M (List.replicate f.length 0) cube
      hrows (by simpa using hshape) (by simpa using hFM)
  have hz := hzero (fun x hx => (List.mem_replicate.mp hx).2)
  have hval : ∃ st2, direct_device_acq_fetch M st = some (true, st2, some c2) ∧
      st2.radar_data_frame = some c2 := by
    simp only [direct_device_acq_fetch, radar_fetch_frame, hF, hmode, hstarted, htest, if_true,
      hnf, if_false, hpop, hK, hc2, hcube]
    exact ⟨_, rfl, rfl⟩
  obtain ⟨st2, hst2, hfr⟩ := hval
  refine ⟨st2, c2, hst2, hfr, hdims, ?_⟩
  intro a c s ha hc hs
  exact hz a c s (by rw [← hdims.1]; exact ha) (by rw [← hdims.2.1]; exact hc)
    (by rw [← hdims.2.2]; exact hs)

/-- Instance of C18: the frame `[1, 0x0800]` is the LFSR sequence from the seed. -/
theorem direct_device_acq_fetch_self_test_witness :
    ∃ st2 cube2, direct_device_acq_fetch (2 ^ 64) (sample_session [] [0x0001, 0x0800]) =
        some (true, st2, some cube2) ∧
      cube2.data 0 0 0 = 0 ∧ cube2.data 0 0 1 = 0 := by
  obtain ⟨st2, cube2, h1, _, hd, h0⟩ :=
    direct_device_acq_fetch_self_test (2 ^ 64) (sample_session [] [0x0001, 0x0800]) sample_mode
      (ifx_Cube_R_t.mk 1 1 2 (fun _ _ _ => 7)) [0x0001, 0x0800] 2
      (SingleReaderSingleWriterRingBuffer.mk 1 1 [[0x0001, 0x0800], [0, 0]])
      rfl rfl rfl rfl (by decide) (by decide) rfl (by decide) (by decide) rfl (by decide)
      (by decide)
      (fun k hk => by
        have hk2 : k < 2 := by
          have : k * 1 < 2 := hk
          omega
        interval_cases k <;> decide)
  refine ⟨st2, cube2, h1, ?_, ?_⟩
  · exact h0 0 0 0 (by rw [hd.1]; decide) (by rw [hd.2.1]; decide) (by rw [hd.2.2]; decide)
  · exact h0 0 0 1 (by rw [hd.1]; decide) (by rw [hd.2.1]; decide) (by rw [hd.2.2]; decide)

/-! ## Acquisition loop: range of the assembled samples -/

/-- The unpacking loop keeps every cell of the destination at or below 4095. -/
theorem unpack_raw12_loop_le (src : List Nat) (count : Nat) (hb : ∀ b ∈ src, b < 256) :
    ∀ (fuel i d : Nat) (dst out : List Nat), (∀ x ∈ dst, x ≤ 4095) →
      unpack_raw12_loop src count fuel i d dst = some out → ∀ x ∈ out, x ≤ 4095 := by
  intro fuel
  induction fuel with
  | zero => intro i d dst out _ h; simp [unpack_raw12_loop] at h
  | succ fuel ih =>
    intro i d dst out hdst h
    rw [unpack_raw12_loop] at h
    by_cases hi : i < count
    · rw [if_pos hi] at h
      cases h0 : src[i]? with
      | none => simp [h0] at h
      | some b0 =>
        cases h1 : src[i + 1]? with
        | none => simp [h0, h1] at h
        | some b1 =>
          cases h2 : src[i + 2]? with
          | none => simp [h0, h1, h2] at h
          | some b2 =>
            simp only [h0, h1, h2] at h
            by_cases hd : d + 1 < dst.length
            · rw [if_pos hd] at h
              have l0 : b0 < 256 := hb b0 (List.getElem?_mem h0)
              have l1 : b1 < 256 := hb b1 (List.getElem?_mem h1)
              have l2 : b2 < 256 := hb b2 (List.getElem?_mem h2)
              have hA := sampleA_lt b0 b1 l0 l1
              have hB := sampleB_lt b1 b2 l2
              refine ih _ _ _ out ?_ h
              intro x hx
              rcases List.mem_or_eq_of_mem_set hx with hx1 | rfl
              · rcases List.mem_or_eq_of_mem_set hx1 with hx2 | rfl
                · exact hdst x hx2
                · rw [Nat.mod_eq_of_lt (by omega)]; omega
              · rw [Nat.mod_eq_of_lt (by omega)]; omega
            · rw [if_neg hd] at h
              cases h
    · rw [if_neg hi] at h
      simp only [Option.some.injEq] at h
      subst h
      exact hdst

theorem unpack_raw12_le (src : List Nat) (count : Nat) (dst out : List Nat) (off : Nat)
    (hb : ∀ b ∈ src, b < 256) (hdst : ∀ x ∈ dst, x ≤ 4095)
    (h : unpack_raw12 src count dst off = some out) : ∀ x ∈ out, x ≤ 4095 :=
  unpack_raw12_loop_le src count hb _ _ _ dst out hdst h

/-- The part of a slice iteration before the unpacking keeps the slice buffer a
buffer of bytes, and touches neither the device handle nor the self-test
register. -/
theorem read_frame_data_slice_bytes {σ : Type} (plat : platform_t σ) (n : Nat)
    (st st1 : direct_state σ) (sd sd1 : List Nat)
    (hdev : transport_bytes st.bgt60_dev) (hsd : ∀ b ∈ sd, b < 256)
    (h : read_frame_data_slice plat n st sd = some (st1, sd1)) :
    (∀ b ∈ sd1, b < 256) ∧ st1.bgt60_dev = st.bgt60_dev ∧
      st1.test_mode_shift_register = st.test_mode_shift_register := by
  unfold read_frame_data_slice at h
  simp only [bgt60_get_fifo_data, Option.getD_some] at h
  have hrx := hdev (plat.bgt60_platform_wait_interrupt st.world).2
    (htonl ((BGT60_SPI_BURST_MODE_CMD |||
      BGT60_SPI_BURST_MODE_SADR_FIFO <<< BGT60_SPI_BURST_MODE_SADR_POS) % 2 ^ 32))
    (some sd) ((4 + st.bgt60_dev.slice_size * 3) % 2 ^ 32)
  split_ifs at h with h1 h2 h3
  · simp only [Option.some.injEq, Prod.mk.injEq] at h
    obtain ⟨rfl, rfl⟩ := h
    refine ⟨?_, rfl, rfl⟩
    intro b hb
    rcases List.mem_or_eq_of_mem_set hb with hb1 | rfl
    · rcases List.mem_or_eq_of_mem_set hb1 with hb2 | rfl
      · rcases List.mem_or_eq_of_mem_set hb2 with hb3 | rfl
        · exact hrx b hb3
        · exact Nat.mod_lt _ (by decide)
      · exact Nat.mod_lt _ (by decide)
    · exact Nat.mod_lt _ (by decide)
  · simp only [Option.some.injEq, Prod.mk.injEq] at h
    obtain ⟨rfl, rfl⟩ := h
    exact ⟨hrx, rfl, rfl⟩
  · simp only [Option.some.injEq, Prod.mk.injEq] at h
    obtain ⟨rfl, rfl⟩ := h
    exact ⟨hsd, rfl, rfl⟩

/-- The slice loop keeps every sample of the frame buffer at or below 4095, and
touches neither the device handle nor the self-test register. -/
theorem read_frame_data_loop_le {σ : Type} (M : Nat) (plat : platform_t σ) (num : Nat) :
    ∀ (n slice : Nat) (st st1 : direct_state σ) (sd sd1 fb fb1 : List Nat),
      transport_bytes st.bgt60_dev → (∀ b ∈ sd, b < 256) → (∀ x ∈ fb, x ≤ 4095) →
      read_frame_data_loop M plat num n slice st sd fb = some (st1, sd1, fb1) →
      (∀ x ∈ fb1, x ≤ 4095) ∧ st1.bgt60_dev = st.bgt60_dev ∧
        st1.test_mode_shift_register = st.test_mode_shift_register := by
  intro n
  induction n with
  | zero =>
    intro slice st st1 sd sd1 fb fb1 _ _ hfb h
    simp only [read_frame_data_loop, Option.some.injEq, Prod.mk.injEq] at h
    obtain ⟨rfl, _, rfl⟩ := h
    exact ⟨hfb, rfl, rfl⟩
  | succ n ih =>
    intro slice st st1 sd sd1 fb fb1 hdev hsd hfb h
    rw [read_frame_data_loop] at h
    cases hs : read_frame_data_slice plat num st sd with
    | none => simp [hs] at h
    | some p =>
      obtain ⟨st2, sd2⟩ := p
      obtain ⟨hb2, hd2, hr2⟩ := read_frame_data_slice_bytes plat num st st2 sd sd2 hdev hsd hs
      simp only [hs] at h
      cases hq : get_num_samples_per_slice st2.radar with
      | none => simp [hq] at h
      | some sps =>
        simp only [hq] at h
        cases hu : unpack_raw12 (sd2.drop st2.radar.header_size)
            (size_sub M (get_spi_transfer_size M st2.radar) st2.radar.header_size) fb
            ((slice * sps) % M) with
        | none => simp [hu] at h
        | some fb2 =>
          simp only [hu] at h
          have hfb2 := unpack_raw12_le _ _ fb fb2 _
            (fun b hb => hb2 b (List.mem_of_mem_drop hb)) hfb hu
          obtain ⟨g1, g2, g3⟩ := ih (slice + 1) st2 st1 sd2 sd1 fb2 fb1
            (by rw [hd2]; exact hdev) hb2 hfb2 h
          exact ⟨g1, g2.trans hd2, g3.trans hr2⟩

/-- Every sample of a frame assembled by `read_frame_data` is at most 4095. -/
theorem read_frame_data_assemble_le {σ : Type} (M : Nat) (plat : platform_t σ)
    (st st1 : direct_state σ) (fb : List Nat) (hdev : transport_bytes st.bgt60_dev)
    (h : read_frame_data_assemble M plat st = some (st1, fb)) :
    (∀ x ∈ fb, x ≤ 4095) ∧ st1.test_mode_shift_register = st.test_mode_shift_register := by
  unfold read_frame_data_assemble at h
  cases h1 : get_num_samples_per_frame st.radar with
  | none => simp [h1] at h
  | some F =>
    cases h2 : get_num_slices_per_frame st.radar with
    | none => simp [h1, h2] at h
    | some n =>
      simp only [h1, h2] at h
      cases h3 : read_frame_data_loop M plat n n 0 st
          (List.replicate (get_spi_transfer_size M st.radar) 0) (List.replicate F 0) with
      | none => simp [h3] at h
      | some r =>
        obtain ⟨st2, sd2, fb2⟩ := r
        simp only [h3, Option.some.injEq, Prod.mk.injEq] at h
        obtain ⟨rfl, rfl⟩ := h
        obtain ⟨g1, _, g3⟩ := read_frame_data_loop_le M plat n n 0 st st2 _ sd2 _ fb2 hdev
          (fun b hb => by rw [(List.mem_replicate.mp hb).2]; decide)
          (fun x hx => by rw [(List.mem_replicate.mp hx).2]; decide) h3
        exact ⟨g1, g3⟩

/-- Normalizing a buffer whose samples are at most 4095 gives cells in `[0, 1]`. -/
theorem get_next_frame_from_buffer_range (M : Nat) (buffer : List Nat) (cube : ifx_Cube_R_t)
    (hle : ∀ x ∈ buffer, x ≤ 4095) (hrows : cube.rows < 256)
    (hshape : cube.rows * cube.cols * cube.slices ≤ buffer.length) (hM : buffer.length < M) :
    ∃ cube2, get_next_frame_from_buffer M buffer cube = some (true, cube2) ∧
      ∀ a c s, a < cube.rows → c < cube.cols → s < cube.slices →
        0 ≤ cube2.data a c s ∧ cube2.data a c s ≤ 1 := by
  obtain ⟨c2, hc2, _, hcell, _, _⟩ :=
    get_next_frame_from_buffer_cells M buffer cube hrows hshape hM
  refine ⟨c2, hc2, ?_⟩
  intro a c s ha hc hs
  rw [hcell a c s ha hc hs]
  have hlt := cube_index_lt cube.rows cube.cols cube.slices a c s ha hc hs
  have hmem : buffer.getD (c * cube.rows * cube.slices + s * cube.rows + a) 0 ∈ buffer := by
    rw [List.getD_eq_getElem _ _ (by omega)]
    exact List.getElem_mem _
  exact float_div_range _ 4095 (by decide) (hle _ hmem)

/-- C20: when the transport delivers bytes, every sample of a frame buffer
assembled by `read_frame_data` is at most 4095 (a cell is zero-initialised or
written by `unpack_raw12`). For such a buffer, and for any buffer with samples
of at most 4095, every cell that `get_next_frame_from_buffer` computes lies
between 0 and 1 inclusive, and so does the exact quotient `sample / 4095` of
every sample. -/
theorem normalized_cube_range {σ : Type} (M : Nat) (plat : platform_t σ)
    (st st1 : direct_state σ) (fb : List Nat) (cube : ifx_Cube_R_t)
    (hdev : transport_bytes st.bgt60_dev)
    (hasm : read_frame_data_assemble M plat st = some (st1, fb))
    (hrows : cube.rows < 256)
    (hshape : cube.rows * cube.cols * cube.slices ≤ fb.length) (hM : fb.length < M) :
    (∀ x ∈ fb, x ≤ 4095) ∧
    (∃ cube2, get_next_frame_from_buffer M fb cube = some (true, cube2) ∧
      ∀ a c s, a < cube.rows → c < cube.cols → s < cube.slices →
        0 ≤ cube2.data a c s ∧ cube2.data a c s ≤ 1) ∧
    (∀ buffer : List Nat, (∀ x ∈ buffer, x ≤ 4095) →
      cube.rows * cube.cols * cube.slices ≤ buffer.length → buffer.length < M →
      ∃ cube2, get_next_frame_from_buffer M buffer cube = some (true, cube2) ∧
        ∀ a c s, a < cube.rows → c < cube.cols → s < cube.slices →
          0 ≤ cube2.data a c s ∧ cube2.data a c s ≤ 1) ∧
    (∀ x ∈ fb, (0 : ℚ) ≤ (x : ℚ) / 4095 ∧ (x : ℚ) / 4095 ≤ 1) := by
  have hle := (read_frame_data_assemble_le M plat st st1 fb hdev hasm).1
  refine ⟨hle, get_next_frame_from_buffer_range M fb cube hle hrows hshape hM,
    fun buffer hb hs hm => get_next_frame_from_buffer_range M buffer cube hb hrows hs hm, ?_⟩
  intro x hx
  have h := hle x hx
  constructor
  · positivity
  · rw [div_le_one (by norm_num)]
    exact_mod_cast h

theorem transport_bytes_trace_dev (status : Int) (reply : List Nat) (slice_size : Nat)
    (h : ∀ b ∈ reply, b < 256) : transport_bytes (trace_dev status reply slice_size) := by
  intro w tx rx n b hb
  exact h b hb

/-- Instance of C20: one slice with the packed bytes `AB CD EF` is assembled
into the frame `[0xABC, 0xDEF]`, whose normalized cells lie in `[0, 1]`. -/
theorem normalized_cube_range_witness :
    ∃ st1, read_frame_data_assemble (2 ^ 64) sample_platform
        (sample_session [9, 9, 9, 9, 0xAB, 0xCD, 0xEF] [1, 5]) = some (st1, [0xABC, 0xDEF]) ∧
      (∀ x ∈ [0xABC, 0xDEF], x ≤ 4095) ∧
      ∃ cube2, get_next_frame_from_buffer (2 ^ 64) [0xABC, 0xDEF]
          (ifx_Cube_R_t.mk 1 1 2 (fun _ _ _ => 7)) = some (true, cube2) ∧
        ∀ a c s, a < 1 → c < 1 → s < 2 → 0 ≤ cube2.data a c s ∧ cube2.data a c s ≤ 1 := by
  have hasm : ∃ st1, read_frame_data_assemble (2 ^ 64) sample_platform
      (sample_session [9, 9, 9, 9, 0xAB, 0xCD, 0xEF] [1, 5]) = some (st1, [0xABC, 0xDEF]) :=
    ⟨_, rfl⟩
  obtain ⟨st1, h1⟩ := hasm
  obtain ⟨g1, g2, _⟩ := normalized_cube_range (2 ^ 64) sample_platform
    (sample_session [9, 9, 9, 9, 0xAB, 0xCD, 0xEF] [1, 5]) st1 [0xABC, 0xDEF]
    (ifx_Cube_R_t.mk 1 1 2 (fun _ _ _ => 7))
    (transport_bytes_trace_dev 0 _ 1 (by decide)) h1 (by decide) (by decide) (by decide)
  exact ⟨st1, h1, g1, g2⟩

/-! ## Session start and the self-test register -/

/-- A successful `direct_device_start` leaves the register at the seed and the
session started. -/
theorem direct_device_start_register {σ : Type} (regs_h : bgt60_regs_t) (u : bgt60_uninit_t)
    (plat : platform_t σ) (st st2 : direct_state σ) (mode : direct_mode_description_t)
    (h : direct_device_start regs_h u plat st mode = some (true, st2)) :
    st2.test_mode_shift_register = 0x0001 ∧ st2.radar.is_started = true := by
  unfold direct_device_start at h
  simp only [] at h
  repeat' split at h
  all_goals cases h
  exact ⟨rfl, rfl⟩

theorem read_frame_data_slice_register {σ : Type} (plat : platform_t σ) (n : Nat)
    (st st1 : direct_state σ) (sd sd1 : List Nat)
    (h : read_frame_data_slice plat n st sd = some (st1, sd1)) :
    st1.test_mode_shift_register = st.test_mode_shift_register := by
  unfold read_frame_data_slice at h
  simp only [bgt60_get_fifo_data, Option.getD_some] at h
  split_ifs at h with h1 h2 h3
  · simp only [Option.some.injEq, Prod.mk.injEq] at h
    rw [← h.1]
  · simp only [Option.some.injEq, Prod.mk.injEq] at h
    rw [← h.1]
  · simp only [Option.some.injEq, Prod.mk.injEq] at h
    rw [← h.1]

theorem read_frame_data_loop_register {σ : Type} (M : Nat) (plat : platform_t σ) (num : Nat) :
    ∀ (n slice : Nat) (st st1 : direct_state σ) (sd sd1 fb fb1 : List Nat),
      read_frame_data_loop M plat num n slice st sd fb = some (st1, sd1, fb1) →
      st1.test_mode_shift_register = st.test_mode_shift_register := by
  intro n
  induction n with
  | zero =>
    intro slice st st1 sd sd1 fb fb1 h
    simp only [read_frame_data_loop, Option.some.injEq, Prod.mk.injEq] at h
    rw [← h.1]
  | succ n ih =>
    intro slice st st1 sd sd1 fb fb1 h
    rw [read_frame_data_loop] at h
    cases hs : read_frame_data_slice plat num st sd with
    | none => simp [hs] at h
    | some p =>
      obtain ⟨st2, sd2⟩ := p
      have hr2 := read_frame_data_slice_register plat num st st2 sd sd2 hs
      simp only [hs] at h
      cases hq : get_num_samples_per_slice st2.radar with
      | none => simp [hq] at h
      | some sps =>
        simp only [hq] at h
        cases hu : unpack_raw12 (sd2.drop st2.radar.header_size)
            (size_sub M (get_spi_transfer_size M st2.radar) st2.radar.header_size) fb
            ((slice * sps) % M) with
        | none => simp [hu] at h
        | some fb2 =>
          simp only [hu] at h
          exact (ih (slice + 1) st2 st1 sd2 sd1 fb2 fb1 h).trans hr2

/-- An iteration of the acquisition thread does not touch the self-test
register. -/
theorem read_frame_data_register {σ : Type} (M : Nat) (plat : platform_t σ)
    (st st1 : direct_state σ) (h : read_frame_data M plat st = some st1) :
    st1.test_mode_shift_register = st.test_mode_shift_register := by
  unfold read_frame_data at h
  cases ha : read_frame_data_assemble M plat st with
  | none => simp [ha] at h
  | some p =>
    obtain ⟨st2, fb⟩ := p
    have hreg : st2.test_mode_shift_register = st.test_mode_shift_register := by
      unfold read_frame_data_assemble at ha
      cases h1 : get_num_samples_per_frame st.radar with
      | none => simp [h1] at ha
      | some F =>
        cases h2 : get_num_slices_per_frame st.radar with
        | none => simp [h1, h2] at ha
        | some n =>
          simp only [h1, h2] at ha
          cases h3 : read_frame_data_loop M plat n n 0 st
              (List.replicate (get_spi_transfer_size M st.radar) 0) (List.replicate F 0) with
          | none => simp [h3] at ha
          | some r =>
            obtain ⟨st3, sd3, fb3⟩ := r
            simp only [h3, Option.some.injEq, Prod.mk.injEq] at ha
            rw [← ha.1]
            exact read_frame_data_loop_register M plat n n 0 st st3 _ sd3 _ fb3 h3
    simp only [ha] at h
    split_ifs at h
    · simp only [Option.some.injEq] at h
      rw [← h]
      exact hreg
    · simp only [Option.some.injEq] at h
      rw [← h]
      exact hreg

/-- C16: whatever the register held before, `test_mode_lsfr_init` followed by
`N` draws yields the same `N` values, the first being the seed `0x0001`; and
every `direct_device_start` that returns true leaves the register at the seed
`0x0001` with the session started. The iterations of the acquisition thread
do not touch the register, so the first fetch draws from the seed. -/
theorem lfsr_reseed_reproducible {σ : Type} (regs_h : bgt60_regs_t) (u : bgt60_uninit_t)
    (plat : platform_t σ) (st st2 : direct_state σ) (mode : direct_mode_description_t)
    (hstart : direct_device_start regs_h u plat st mode = some (true, st2)) :
    (∀ reg1 reg2 N,
      lfsr_draws N (test_mode_lsfr_init reg1) = lfsr_draws N (test_mode_lsfr_init reg2)) ∧
    (∀ reg N, (lfsr_draws (N + 1) (test_mode_lsfr_init reg))[0]? = some 0x0001) ∧
    st2.test_mode_shift_register = 0x0001 ∧
    st2.radar.is_started = true ∧
    (∀ (M : Nat) (st3 : direct_state σ), read_frame_data M plat st2 = some st3 →
      st3.test_mode_shift_register = 0x0001) ∧
    (∀ N, lfsr_draws N st2.test_mode_shift_register = lfsr_draws N 0x0001) := by
  obtain ⟨h1, h2⟩ := direct_device_start_register regs_h u plat st st2 mode hstart
  refine ⟨fun _ _ _ => rfl,
    fun reg N => lfsr_draws_getElem (N + 1) (test_mode_lsfr_init reg) 0 (Nat.succ_pos N),
    h1, h2, ?_, ?_⟩
  · intro M st3 h3
    rw [read_frame_data_register M plat st2 st3 h3, h1]
  · intro N
    rw [h1]

/-- Instance of C16: a start that succeeds, from a register value of `0x0ABC`. -/
theorem lfsr_reseed_reproducible_witness :
    ∃ st2, direct_device_start sample_regs (bgt60_uninit_t.mk 0 0 0) sample_platform
        sample_idle_session sample_mode = some (true, st2) ∧
      sample_idle_session.test_mode_shift_register = 0x0ABC ∧
      st2.test_mode_shift_register = 0x0001 ∧
      lfsr_draws 3 st2.test_mode_shift_register = [0x0001, 0x0800, 0x0400] := by
  have hs : ∃ st2, direct_device_start sample_regs (bgt60_uninit_t.mk 0 0 0) sample_platform
      sample_idle_session sample_mode = some (true, st2) := ⟨_, rfl⟩
  obtain ⟨st2, h⟩ := hs
  obtain ⟨_, _, h3, _, _, h6⟩ :=
    lfsr_reseed_reproducible sample_regs (bgt60_uninit_t.mk 0 0 0) sample_platform
      sample_idle_session st2 sample_mode h
  refine ⟨st2, h, rfl, h3, ?_⟩
  rw [h6 3]
  decide

/-! ## The slice loop of `read_frame_data` -/

theorem read_frame_data_loop_succ {σ : Type} (M : Nat) (plat : platform_t σ) (num n slice : Nat)
    (st : direct_state σ) (sd fb : List Nat) :
    read_frame_data_loop M plat num (n + 1) slice st sd fb =
      (read_frame_data_body M plat num slice st sd fb).bind
        (fun r => read_frame_data_loop M plat num n (slice + 1) r.1 r.2.1 r.2.2) := by
  simp only [read_frame_data_loop, read_frame_data_body]
  cases h1 : read_frame_data_slice plat num st sd with
  | none => rfl
  | some p =>
    obtain ⟨st1, sd1⟩ := p
    simp only []
    cases h2 : get_num_samples_per_slice st1.radar with
    | none => rfl
    | some sps =>
      simp only []
      cases h3 : unpack_raw12 (sd1.drop st1.radar.header_size)
          (size_sub M (get_spi_transfer_size M st1.radar) st1.radar.header_size) fb
          ((slice * sps) % M) with
      | none => rfl
      | some fb1 => rfl

theorem read_frame_data_slice_spec {σ : Type} (plat : platform_t σ) (n : Nat)
    (st : direct_state σ) (sd : List Nat) (hlen : transport_keeps_length st.bgt60_dev)
    (h4 : 4 ≤ sd.length) :
    ∃ st1 sd1, read_frame_data_slice plat n st sd = some (st1, sd1) ∧
      sd1.length = sd.length ∧
      st1.radar =
        { st.radar with
          fifo_error := st.radar.fifo_error || slice_read_failed plat st sd } ∧
      st1.bgt60_dev = st.bgt60_dev ∧
      (slice_wait_ready plat st = false → sd1 = sd) ∧
      (slice_read_failed plat st sd = true →
        sd1 = ((slice_fifo_read plat st sd).2.1).getD sd) := by
  have hL := hlen (plat.bgt60_platform_wait_interrupt st.world).2
    (htonl ((BGT60_SPI_BURST_MODE_CMD |||
      (BGT60_SPI_BURST_MODE_SADR_FIFO <<< BGT60_SPI_BURST_MODE_SADR_POS)) % 2 ^ 32)) sd
    ((4 + (st.bgt60_dev.slice_size * 3)) % 2 ^ 32)
  by_cases hw : (plat.bgt60_platform_wait_interrupt st.world).1 > 0
  · by_cases hs : (slice_fifo_read plat st sd).1 = 0
    · have hs2 := hs
      simp only [slice_fifo_read, bgt60_get_fifo_data] at hs2
      simp only [read_frame_data_slice, bgt60_get_fifo_data, hw, if_true, hs2,
        Option.getD_some, hL]
      rw [if_neg (by omega)]
      refine ⟨_, _, rfl, ?_, ?_, rfl, ?_, ?_⟩
      · simp only [List.length_set]
        exact hL
      · simp [slice_read_failed, hs]
      · intro h
        simp [slice_wait_ready, hw] at h
      · intro h
        simp [slice_read_failed, hs] at h
    · have hs2 := hs
      simp only [slice_fifo_read, bgt60_get_fifo_data] at hs2
      simp only [read_frame_data_slice, bgt60_get_fifo_data, hw, if_true, hs2, if_false,
        Option.getD_some]
      refine ⟨_, _, rfl, ?_, ?_, rfl, ?_, ?_⟩
      · exact hL
      · simp [slice_read_failed, slice_wait_ready, hw, hs]
      · intro h
        simp [slice_wait_ready, hw] at h
      · intro _
        simp [slice_fifo_read, bgt60_get_fifo_data]
  · simp only [read_frame_data_slice, hw, if_false]
    refine ⟨_, _, rfl, rfl, ?_, rfl, ?_, ?_⟩
    · simp [slice_read_failed, slice_wait_ready, hw]
    · intro _
      rfl
    · intro h
      simp [slice_read_failed, slice_wait_ready, hw] at h
theorem slice_geometry_fifo_error (M : Nat) (radar : radar_t) (F ss h : Nat) (b : Bool)
    (hg : slice_geometry M radar F ss h) :
    slice_geometry M { radar with fifo_error := b } F ss h := hg

theorem slice_geometry_transfer_size (M : Nat) (radar : radar_t) (F ss h : Nat)
    (hg : slice_geometry M radar F ss h) :
    get_spi_transfer_size M radar = 3 * ss + h ∧
      size_sub M (get_spi_transfer_size M radar) radar.header_size = 3 * ss := by
  obtain ⟨_, h2, h3, _, _, h6, h7, _⟩ := hg
  have e : get_spi_transfer_size M radar = 3 * ss + h := by
    simp only [get_spi_transfer_size, h2, h3]
    rw [Nat.mul_comm ss 3, Nat.mod_eq_of_lt h6, Nat.mod_eq_of_lt h7]
  refine ⟨e, ?_⟩
  rw [e, h3, size_sub_of_le M _ _ (by omega) h6]
  omega

theorem slice_geometry_slices (M : Nat) (radar : radar_t) (F ss h : Nat)
    (hg : slice_geometry M radar F ss h) :
    get_num_slices_per_frame radar = some (F / (ss * 2)) ∧
      (0 < F / (ss * 2) →
        get_num_samples_per_slice radar = some (F / (F / (ss * 2)))) := by
  obtain ⟨h1, h2, _, h4, _, _, _, _⟩ := hg
  have e : get_num_slices_per_frame radar = some (F / (ss * 2)) := by
    simp only [get_num_slices_per_frame, h1, h2]
    rw [if_neg (by omega)]
  refine ⟨e, fun hN => ?_⟩
  simp only [get_num_samples_per_slice, h1, e]
  rw [if_neg (by omega)]

theorem slice_region_le (F ss slice : Nat) (hslice : slice < F / (ss * 2)) :
    2 * ss ≤ F / (F / (ss * 2)) ∧
      slice * (F / (F / (ss * 2))) + 2 * ss ≤ F ∧
      (slice + 1) * (F / (F / (ss * 2))) ≤ F := by
  have hN : 0 < F / (ss * 2) := by omega
  have h1 : F / (ss * 2) * (ss * 2) ≤ F := Nat.div_mul_le_self F (ss * 2)
  have h2 : 2 * ss ≤ F / (F / (ss * 2)) := by
    rw [Nat.le_div_iff_mul_le hN]
    rw [Nat.mul_comm (2 * ss), Nat.mul_comm 2 ss]
    exact h1
  have h3 : F / (F / (ss * 2)) * (F / (ss * 2)) ≤ F := Nat.div_mul_le_self F _
  have h4 : (slice + 1) * (F / (F / (ss * 2))) ≤ F / (ss * 2) * (F / (F / (ss * 2))) :=
    Nat.mul_le_mul_right _ hslice
  have h5 : (slice + 1) * (F / (F / (ss * 2))) ≤ F := by
    rw [Nat.mul_comm (F / (ss * 2))] at h4
    exact le_trans h4 h3
  refine ⟨h2, ?_, h5⟩
  rw [Nat.add_mul, Nat.one_mul] at h5
  omega

theorem unpacked_sample_cases (src : List Nat) (i : Nat) :
    unpacked_sample src (2 * i) =
        ((src.getD (3 * i) 0 <<< 4) ||| (src.getD (3 * i + 1) 0 >>> 4)) ∧
      unpacked_sample src (2 * i + 1) =
        (((src.getD (3 * i + 1) 0 &&& 15) <<< 8) ||| src.getD (3 * i + 2) 0) := by
  have e1 : 2 * i % 2 = 0 := by omega
  have e2 : 2 * i / 2 = i := by omega
  have e3 : (2 * i + 1) % 2 = 1 := by omega
  have e4 : (2 * i + 1) / 2 = i := by omega
  constructor
  · simp only [unpacked_sample, e1, e2, if_true]
  · simp only [unpacked_sample, e3, e4]
    rw [if_neg (by decide)]

theorem read_frame_data_body_spec {σ : Type} (M : Nat) (plat : platform_t σ)
    (st : direct_state σ) (sd fb : List Nat) (F ss h slice : Nat)
    (hg : slice_geometry M st.radar F ss h) (hlen : transport_keeps_length st.bgt60_dev)
    (hbytes : transport_bytes st.bgt60_dev) (hsd : sd.length = 3 * ss + h)
    (hsdb : ∀ b ∈ sd, b < 256) (hfb : fb.length = F) (hslice : slice < F / (ss * 2)) :
    ∃ st1 sd1 fb1,
      read_frame_data_body M plat (F / (ss * 2)) slice st sd fb = some (st1, sd1, fb1) ∧
      read_frame_data_slice plat (F / (ss * 2)) st sd = some (st1, sd1) ∧
      sd1.length = sd.length ∧ (∀ b ∈ sd1, b < 256) ∧ fb1.length = F ∧
      st1.radar =
        { st.radar with
          fifo_error := st.radar.fifo_error || slice_read_failed plat st sd } ∧
      st1.bgt60_dev = st.bgt60_dev ∧
      (∀ j, j < 2 * ss →
        fb1[slice * (F / (F / (ss * 2))) + j]? = some (unpacked_sample (sd1.drop h) j)) ∧
      (∀ j, j < slice * (F / (F / (ss * 2))) ∨ slice * (F / (F / (ss * 2))) + 2 * ss ≤ j →
        fb1[j]? = fb[j]?) := by
  have hg0 := hg
  obtain ⟨g1, g2, g3, g4, g5, g6, g7, g8⟩ := hg0
  obtain ⟨st1, sd1, e1, l1, r1, d1, _, _⟩ :=
    read_frame_data_slice_spec plat (F / (ss * 2)) st sd hlen (by omega)
  have hb1 := (read_frame_data_slice_bytes plat _ st st1 sd sd1 hbytes hsdb e1).1
  have hg1 : slice_geometry M st1.radar F ss h := by
    rw [r1]
    exact slice_geometry_fifo_error M st.radar F ss h _ hg
  have hN : 0 < F / (ss * 2) := by omega
  have ts := slice_geometry_transfer_size M st1.radar F ss h hg1
  have sl := (slice_geometry_slices M st1.radar F ss h hg1).2 hN
  have hh : st1.radar.header_size = h := hg1.2.2.1
  obtain ⟨q1, q2, q3⟩ := slice_region_le F ss slice hslice
  have hoff : (slice * (F / (F / (ss * 2)))) % M = slice * (F / (F / (ss * 2))) :=
    Nat.mod_eq_of_lt (by omega)
  obtain ⟨out, u0, u2, u3, u4⟩ :=
    unpack_raw12_loop_spec (sd1.drop h) (fun b hb => hb1 b (List.mem_of_mem_drop hb)) ss
      (3 * ss + 1) 0 (slice * (F / (F / (ss * 2)))) fb (by omega)
      (by rw [List.length_drop]; omega) (by omega)
  have u1 : unpack_raw12 (sd1.drop h) (3 * ss) fb (slice * (F / (F / (ss * 2)))) =
      some out := by
    simpa [unpack_raw12] using u0
  refine ⟨st1, sd1, out, ?_, e1, l1, hb1, by omega, r1, d1, ?_, u4⟩
  · have ts2 : size_sub M (get_spi_transfer_size M st1.radar) h = 3 * ss := by
      rw [← hh]
      exact ts.2
    simp only [read_frame_data_body, e1, sl, hh, ts2, hoff, u1]
  · intro j hj
    have hi : j / 2 < ss := by omega
    obtain ⟨a1, a2⟩ := u3 (j / 2) hi
    simp only [Nat.zero_add] at a1 a2
    obtain ⟨c1, c2⟩ := unpacked_sample_cases (sd1.drop h) (j / 2)
    rcases Nat.mod_two_eq_zero_or_one j with hj0 | hj1
    · have ej : j = 2 * (j / 2) := by omega
      rw [ej, a1, c1]
    · have ej : j = 2 * (j / 2) + 1 := by omega
      rw [ej, ← Nat.add_assoc, a2, c2]
theorem read_frame_data_loop_add {σ : Type} (M : Nat) (plat : platform_t σ) (num : Nat) :
    ∀ (a b slice : Nat) (st : direct_state σ) (sd fb : List Nat),
      read_frame_data_loop M plat num (a + b) slice st sd fb =
        (read_frame_data_loop M plat num a slice st sd fb).bind
          (fun r => read_frame_data_loop M plat num b (slice + a) r.1 r.2.1 r.2.2) := by
  intro a
  induction a with
  | zero =>
    intro b slice st sd fb
    rw [Nat.zero_add]
    rfl
  | succ a ih =>
    intro b slice st sd fb
    have e : a + 1 + b = (a + b) + 1 := by omega
    rw [e, read_frame_data_loop_succ, read_frame_data_loop_succ, Option.bind_assoc]
    congr 1
    funext r
    rw [ih]
    have e2 : slice + 1 + a = slice + (a + 1) := by omega
    rw [e2]

theorem read_frame_data_loop_one {σ : Type} (M : Nat) (plat : platform_t σ) (num slice : Nat)
    (st : direct_state σ) (sd fb : List Nat) :
    read_frame_data_loop M plat num 1 slice st sd fb =
      read_frame_data_body M plat num slice st sd fb := by
  rw [read_frame_data_loop_succ]
  cases read_frame_data_body M plat num slice st sd fb with
  | none => rfl
  | some r => rfl

theorem read_frame_data_loop_spec {σ : Type} (M : Nat) (plat : platform_t σ) (F ss h : Nat) :
    ∀ (n slice : Nat) (st : direct_state σ) (sd fb : List Nat),
      slice_geometry M st.radar F ss h → transport_keeps_length st.bgt60_dev →
      transport_bytes st.bgt60_dev → sd.length = 3 * ss + h → (∀ b ∈ sd, b < 256) →
      fb.length = F → slice + n ≤ F / (ss * 2) →
      ∃ st1 sd1 fb1,
        read_frame_data_loop M plat (F / (ss * 2)) n slice st sd fb = some (st1, sd1, fb1) ∧
        sd1.length = 3 * ss + h ∧ (∀ b ∈ sd1, b < 256) ∧ fb1.length = F ∧
        st1.bgt60_dev = st.bgt60_dev ∧
        st1.radar = { st.radar with fifo_error := st1.radar.fifo_error } ∧
        (∀ j, j < slice * (F / (F / (ss * 2))) ∨ (slice + n) * (F / (F / (ss * 2))) ≤ j →
          fb1[j]? = fb[j]?) := by
  intro n
  induction n with
  | zero =>
    intro slice st sd fb _ _ _ hsd hsdb hfb _
    exact ⟨st, sd, fb, rfl, hsd, hsdb, hfb, rfl, rfl, fun _ _ => rfl⟩
  | succ n ih =>
    intro slice st sd fb hg hlen hbytes hsd hsdb hfb hn
    obtain ⟨sA, sdA, fbA, b1, _, b3, b4, b5, b6, b7, _, b9⟩ :=
      read_frame_data_body_spec M plat st sd fb F ss h slice hg hlen hbytes hsd hsdb hfb
        (by omega)
    have hgA : slice_geometry M sA.radar F ss h := by
      rw [b6]
      exact slice_geometry_fifo_error M st.radar F ss h _ hg
    obtain ⟨st1, sd1, fb1, c1, c2, c3, c4, c5, c6, c7⟩ :=
      ih (slice + 1) sA sdA fbA hgA (by rw [b7]; exact hlen) (by rw [b7]; exact hbytes)
        (by omega) b4 b5 (by omega)
    obtain ⟨q1, _, _⟩ := slice_region_le F ss slice (by omega)
    refine ⟨st1, sd1, fb1, ?_, c2, c3, c4, by rw [c5, b7], ?_, ?_⟩
    · rw [read_frame_data_loop_succ, b1]
      exact c1
    · rw [c6, b6]
    · intro j hj
      have e : (slice + 1 + n) = slice + (n + 1) := by omega
      rw [c7 j (by
        rw [e]
        rcases hj with hj | hj
        · left
          rw [Nat.add_mul, Nat.one_mul]
          omega
        · right
          exact hj)]
      apply b9
      rcases hj with hj | hj
      · left
        exact hj
      · right
        have : (slice + 1) * (F / (F / (ss * 2))) ≤ (slice + (n + 1)) * (F / (F / (ss * 2))) :=
          Nat.mul_le_mul_right _ (by omega)
        rw [Nat.add_mul, Nat.one_mul] at this
        omega
theorem read_frame_data_loop_fifo_error {σ : Type} (M : Nat) (plat : platform_t σ)
    (F ss h : Nat) :
    ∀ (n slice : Nat) (st : direct_state σ) (sd fb : List Nat),
      slice_geometry M st.radar F ss h → transport_keeps_length st.bgt60_dev →
      transport_bytes st.bgt60_dev → sd.length = 3 * ss + h → (∀ b ∈ sd, b < 256) →
      fb.length = F → slice + n ≤ F / (ss * 2) →
      ∀ (st1 : direct_state σ) (sd1 fb1 : List Nat),
        read_frame_data_loop M plat (F / (ss * 2)) n slice st sd fb = some (st1, sd1, fb1) →
        (st1.radar.fifo_error = true ↔
          st.radar.fifo_error = true ∨
            ∃ k, k < n ∧ ∃ sk sdk fbk,
              read_frame_data_loop M plat (F / (ss * 2)) k slice st sd fb =
                some (sk, sdk, fbk) ∧
              slice_read_failed plat sk sdk = true) := by
  intro n
  induction n with
  | zero =>
    intro slice st sd fb _ _ _ _ _ _ _ st1 sd1 fb1 hl
    simp only [read_frame_data_loop, Option.some.injEq, Prod.mk.injEq] at hl
    rw [← hl.1]
    constructor
    · intro hf
      exact Or.inl hf
    · intro hf
      rcases hf with hf | ⟨k, hk, _⟩
      · exact hf
      · omega
  | succ n ih =>
    intro slice st sd fb hg hlen hbytes hsd hsdb hfb hn st1 sd1 fb1 hl
    obtain ⟨sA, sdA, fbA, b1, _, b3, b4, b5, b6, b7, _, _⟩ :=
      read_frame_data_body_spec M plat st sd fb F ss h slice hg hlen hbytes hsd hsdb hfb
        (by omega)
    have hgA : slice_geometry M sA.radar F ss h := by
      rw [b6]
      exact slice_geometry_fifo_error M st.radar F ss h _ hg
    have hpre : ∀ k, read_frame_data_loop M plat (F / (ss * 2)) (k + 1) slice st sd fb =
        read_frame_data_loop M plat (F / (ss * 2)) k (slice + 1) sA sdA fbA := by
      intro k
      rw [read_frame_data_loop_succ, b1]
      rfl
    rw [hpre] at hl
    have hi := ih (slice + 1) sA sdA fbA hgA (by rw [b7]; exact hlen) (by rw [b7]; exact hbytes)
      (by omega) b4 b5 (by omega) st1 sd1 fb1 hl
    have hA : sA.radar.fifo_error = (st.radar.fifo_error || slice_read_failed plat st sd) := by
      rw [b6]
    rw [hi, hA]
    constructor
    · intro hf
      rcases hf with hf | ⟨k, hk, sk, sdk, fbk, hp, hfail⟩
      · rw [Bool.or_eq_true] at hf
        rcases hf with hf | hf
        · exact Or.inl hf
        · exact Or.inr ⟨0, by omega, st, sd, fb, rfl, hf⟩
      · exact Or.inr ⟨k + 1, by omega, sk, sdk, fbk, by rw [hpre]; exact hp, hfail⟩
    · intro hf
      rcases hf with hf | ⟨k, hk, sk, sdk, fbk, hp, hfail⟩
      · left
        rw [hf]
        rfl
      · cases k with
        | zero =>
          simp only [read_frame_data_loop, Option.some.injEq, Prod.mk.injEq] at hp
          left
          rw [← hp.1, ← hp.2.1] at hfail
          rw [hfail]
          exact Bool.or_true _
        | succ k =>
          rw [hpre] at hp
          exact Or.inr ⟨k, by omega, sk, sdk, fbk, hp, hfail⟩

theorem read_frame_data_spec {σ : Type} (M : Nat) (plat : platform_t σ) (st : direct_state σ)
    (F ss h : Nat) (hg : slice_geometry M st.radar F ss h)
    (hlen : transport_keeps_length st.bgt60_dev) (hbytes : transport_bytes st.bgt60_dev) :
    ∃ stN sdN fbN,
      read_frame_data_loop M plat (F / (ss * 2)) (F / (ss * 2)) 0 st
          (List.replicate (3 * ss + h) 0) (List.replicate F 0) = some (stN, sdN, fbN) ∧
      read_frame_data_assemble M plat st = some (stN, fbN) ∧
      fbN.length = F ∧
      stN.radar = { st.radar with fifo_error := stN.radar.fifo_error } ∧
      stN.bgt60_dev = st.bgt60_dev ∧
      read_frame_data M plat st =
        some
          (if (try_push M st.radar.frame_buffer fbN).1 = false then
            { stN with
              radar := { stN.radar with buffer_overflow := true },
              reports := stN.reports ++
                [rep_event.frame_buffer_overflow (size st.radar.frame_buffer)
                  (fill M st.radar.frame_buffer)] }
          else
            { stN with
              radar :=
                { stN.radar with frame_buffer := (try_push M st.radar.frame_buffer fbN).2 } }) := by
  obtain ⟨stN, sdN, fbN, c1, _, _, c4, c5, c6, _⟩ :=
    read_frame_data_loop_spec M plat F ss h (F / (ss * 2)) 0 st (List.replicate (3 * ss + h) 0)
      (List.replicate F 0) hg hlen hbytes (List.length_replicate _ _)
      (fun b hb => by rw [List.eq_of_mem_replicate hb]; decide) (List.length_replicate _ _)
      (by omega)
  have ts := (slice_geometry_transfer_size M st.radar F ss h hg).1
  have sl := (slice_geometry_slices M st.radar F ss h hg).1
  have ha : read_frame_data_assemble M plat st = some (stN, fbN) := by
    simp only [read_frame_data_assemble, hg.1, sl, ts, c1]
  have hrb : stN.radar.frame_buffer = st.radar.frame_buffer := by
    rw [c6]
  refine ⟨stN, sdN, fbN, c1, ha, c4, c6, c5, ?_⟩
  simp only [read_frame_data, ha, hrb]
  by_cases hp : (try_push M st.radar.frame_buffer fbN).1 = false
  · rw [if_pos hp, if_pos hp]
  · rw [if_neg hp, if_neg hp]
theorem fit_reply_length (rx reply : List Nat) :
    (fit_reply (some rx) reply).length = rx.length := by
  simp only [fit_reply, List.length_map, List.length_take, List.length_append, List.length_drop]
  omega

theorem fit_reply_bytes (rx : Option (List Nat)) (reply : List Nat) :
    ∀ b ∈ fit_reply rx reply, b < 256 := by
  intro b hb
  cases rx with
  | none => simp [fit_reply] at hb
  | some buf =>
    simp only [fit_reply, List.mem_map] at hb
    obtain ⟨a, _, ha⟩ := hb
    omega

theorem transport_keeps_length_sim_dev (reg_reply : List Nat) (fifo_status : Int)
    (fifo_reply : List Nat) (slice_size : Nat) :
    transport_keeps_length (sim_dev reg_reply fifo_status fifo_reply slice_size) := by
  intro w tx rx n
  simp only [sim_dev]
  split <;> exact fit_reply_length _ _

theorem transport_bytes_sim_dev (reg_reply : List Nat) (fifo_status : Int)
    (fifo_reply : List Nat) (slice_size : Nat) :
    transport_bytes (sim_dev reg_reply fifo_status fifo_reply slice_size) := by
  intro w tx rx n
  simp only [sim_dev]
  split <;> exact fit_reply_bytes _ _

/-- C21: in one iteration of `read_frame_data` on a session with a frame geometry, the
slice loop runs its body for every one of the `num_slices_per_frame` slices,
whatever the earlier slice reads returned, and the iteration ends with one
`try_push` of the frame. If `bgt60_get_fifo_data` returns non-zero for some slice the
FIFO-error flag is true afterwards; if no slice read fails the flag is as it
was. -/
theorem read_frame_data_fifo_error {σ : Type} (M : Nat) (plat : platform_t σ)
    (st : direct_state σ) (F ss h : Nat) (hg : slice_geometry M st.radar F ss h)
    (hlen : transport_keeps_length st.bgt60_dev) (hbytes : transport_bytes st.bgt60_dev) :
    ∃ stN sdN fbN st1,
      read_frame_data_loop M plat (F / (ss * 2)) (F / (ss * 2)) 0 st
          (List.replicate (3 * ss + h) 0) (List.replicate F 0) = some (stN, sdN, fbN) ∧
      read_frame_data M plat st = some st1 ∧
      (∀ k, k < F / (ss * 2) →
        ∃ sk sdk fbk r,
          read_frame_data_loop M plat (F / (ss * 2)) k 0 st (List.replicate (3 * ss + h) 0)
              (List.replicate F 0) = some (sk, sdk, fbk) ∧
          read_frame_data_body M plat (F / (ss * 2)) k sk sdk fbk = some r ∧
          read_frame_data_loop M plat (F / (ss * 2)) (k + 1) 0 st
              (List.replicate (3 * ss + h) 0) (List.replicate F 0) = some r) ∧
      ((∃ k, k < F / (ss * 2) ∧ ∃ sk sdk fbk,
          read_frame_data_loop M plat (F / (ss * 2)) k 0 st (List.replicate (3 * ss + h) 0)
              (List.replicate F 0) = some (sk, sdk, fbk) ∧
          slice_read_failed plat sk sdk = true) →
        st1.radar.fifo_error = true) ∧
      ((∀ k sk sdk fbk, k < F / (ss * 2) →
          read_frame_data_loop M plat (F / (ss * 2)) k 0 st (List.replicate (3 * ss + h) 0)
              (List.replicate F 0) = some (sk, sdk, fbk) →
          slice_read_failed plat sk sdk = false) →
        st1.radar.fifo_error = st.radar.fifo_error) ∧
      stN.radar.frame_buffer = st.radar.frame_buffer ∧
      st1.radar.frame_buffer = (try_push M st.radar.frame_buffer fbN).2 := by
  have hz : ∀ b ∈ List.replicate (3 * ss + h) 0, b < 256 := fun b hb => by
    rw [List.eq_of_mem_replicate hb]
    decide
  obtain ⟨stN, sdN, fbN, c1, _, _, c4, _, c6⟩ :=
    read_frame_data_spec M plat st F ss h hg hlen hbytes
  have hfe := read_frame_data_loop_fifo_error M plat F ss h (F / (ss * 2)) 0 st
    (List.replicate (3 * ss + h) 0) (List.replicate F 0) hg hlen hbytes
    (List.length_replicate _ _) hz (List.length_replicate _ _) (by omega) stN sdN fbN c1
  have hrb : stN.radar.frame_buffer = st.radar.frame_buffer := by
    rw [c4]
  have hfin : ∀ st1 : direct_state σ,
      st1 =
        (if (try_push M st.radar.frame_buffer fbN).1 = false then
          { stN with
            radar := { stN.radar with buffer_overflow := true },
            reports := stN.reports ++
              [rep_event.frame_buffer_overflow (size st.radar.frame_buffer)
                (fill M st.radar.frame_buffer)] }
        else
          { stN with
            radar :=
              { stN.radar with frame_buffer := (try_push M st.radar.frame_buffer fbN).2 } }) →
      st1.radar.fifo_error = stN.radar.fifo_error ∧
        st1.radar.frame_buffer = (try_push M st.radar.frame_buffer fbN).2 := by
    intro st1 hst1
    by_cases hp : (try_push M st.radar.frame_buffer fbN).1 = false
    · rw [if_pos hp] at hst1
      rw [hst1]
      refine ⟨rfl, ?_⟩
      rcases try_push_effect M st.radar.frame_buffer fbN with ⟨e, _⟩ | ⟨_, e, _⟩
      · rw [e]
        exact hrb
      · rw [e] at hp
        cases hp
    · rw [if_neg hp] at hst1
      rw [hst1]
      exact ⟨rfl, rfl⟩
  obtain ⟨f1, f2⟩ := hfin _ rfl
  refine ⟨stN, sdN, fbN, _, c1, c6, ?_, ?_, ?_, hrb, f2⟩
  · intro k hk
    obtain ⟨sk, sdk, fbk, p1, _⟩ :=
      read_frame_data_loop_spec M plat F ss h k 0 st (List.replicate (3 * ss + h) 0)
        (List.replicate F 0) hg hlen hbytes (List.length_replicate _ _) hz
        (List.length_replicate _ _) (by omega)
    obtain ⟨sr, sdr, fbr, p2, _⟩ :=
      read_frame_data_loop_spec M plat F ss h (k + 1) 0 st (List.replicate (3 * ss + h) 0)
        (List.replicate F 0) hg hlen hbytes (List.length_replicate _ _) hz
        (List.length_replicate _ _) (by omega)
    refine ⟨sk, sdk, fbk, (sr, sdr, fbr), p1, ?_, p2⟩
    have e := read_frame_data_loop_add M plat (F / (ss * 2)) k 1 0 st
      (List.replicate (3 * ss + h) 0) (List.replicate F 0)
    rw [p2, p1] at e
    simp only [Option.some_bind, Nat.zero_add] at e
    rw [read_frame_data_loop_one] at e
    exact e.symm
  · intro hex
    rw [f1]
    exact hfe.2 (Or.inr hex)
  · intro hall
    rw [f1]
    cases hb : stN.radar.fifo_error with
    | false =>
      cases hs : st.radar.fifo_error with
      | false => rfl
      | true =>
        have := hfe.2 (Or.inl hs)
        rw [hb] at this
        cases this
    | true =>
      rcases hfe.1 hb with hs | ⟨k, hk, sk, sdk, fbk, hp, hfail⟩
      · exact hs.symm
      · rw [hall k sk sdk fbk hk hp] at hfail
        cases hfail

/-- Instance of C21: a frame of two slices on a transport whose FIFO reads fail;
the flag, clear before, is set by the iteration, and the frame is pushed. -/
theorem read_frame_data_fifo_error_witness :
    slice_geometry (2 ^ 64)
      (two_slice_session (sim_dev [0, 0, 3, 3] (-1) [9, 9, 9, 9, 0xAB, 0xCD, 0xEF] 1)).radar
      4 1 4 ∧
    (two_slice_session
      (sim_dev [0, 0, 3, 3] (-1) [9, 9, 9, 9, 0xAB, 0xCD, 0xEF] 1)).radar.fifo_error = false ∧
    ∃ st1,
      read_frame_data (2 ^ 64) sample_platform
        (two_slice_session (sim_dev [0, 0, 3, 3] (-1) [9, 9, 9, 9, 0xAB, 0xCD, 0xEF] 1)) =
          some st1 ∧
      st1.radar.fifo_error = true := by
  have hg : slice_geometry (2 ^ 64)
      (two_slice_session (sim_dev [0, 0, 3, 3] (-1) [9, 9, 9, 9, 0xAB, 0xCD, 0xEF] 1)).radar
      4 1 4 := by
    unfold slice_geometry
    decide
  refine ⟨hg, rfl, ?_⟩
  obtain ⟨_, _, _, st1, _, h2, _, h4, _, _, _⟩ :=
    read_frame_data_fifo_error (2 ^ 64) sample_platform
      (two_slice_session (sim_dev [0, 0, 3, 3] (-1) [9, 9, 9, 9, 0xAB, 0xCD, 0xEF] 1)) 4 1 4 hg
      (transport_keeps_length_sim_dev _ _ _ _) (transport_bytes_sim_dev _ _ _ _)
  exact ⟨st1, h2, h4 ⟨0, by decide, _, _, _, rfl, by decide⟩⟩
theorem unpacked_sample_zeros (n h j : Nat) :
    unpacked_sample ((List.replicate n 0).drop h) j = 0 := by
  have hz : ∀ i, ((List.replicate n 0).drop h).getD i 0 = 0 := by
    intro i
    rw [List.drop_replicate, List.getD_eq_getElem?_getD, List.getElem?_replicate]
    split <;> rfl
  unfold unpacked_sample
  split <;> simp [hz]

/-- C22 fails as stated. In a frame of two slices the data-ready wait indicates
readiness for slice 0 and not for slice 1: the region of slice 1 does not keep
its zero content, it receives the samples `0xABC`, `0xDEF` unpacked once more
from the slice buffer. With a wait that indicates readiness and FIFO reads
that fail, both regions receive the samples unpacked from what the transport
left in the slice buffer. -/
theorem read_frame_data_skip_counterexample :
    (∃ s1 sd1 stN,
      read_frame_data_loop (2 ^ 64) ready_once_platform 2 1 0
          (two_slice_session (sim_dev [0, 0, 3, 3] 0 [9, 9, 9, 9, 0xAB, 0xCD, 0xEF] 1))
          (List.replicate 7 0) (List.replicate 4 0) = some (s1, sd1, [0xABC, 0xDEF, 0, 0]) ∧
      slice_wait_ready ready_once_platform s1 = false ∧
      read_frame_data_assemble (2 ^ 64) ready_once_platform
          (two_slice_session (sim_dev [0, 0, 3, 3] 0 [9, 9, 9, 9, 0xAB, 0xCD, 0xEF] 1)) =
        some (stN, [0xABC, 0xDEF, 0xABC, 0xDEF])) ∧
    (∃ stN,
      slice_read_failed sample_platform
          (two_slice_session (sim_dev [0, 0, 3, 3] (-1) [9, 9, 9, 9, 0xAB, 0xCD, 0xEF] 1))
          (List.replicate 7 0) = true ∧
      read_frame_data_assemble (2 ^ 64) sample_platform
          (two_slice_session (sim_dev [0, 0, 3, 3] (-1) [9, 9, 9, 9, 0xAB, 0xCD, 0xEF] 1)) =
        some (stN, [0xABC, 0xDEF, 0xABC, 0xDEF])) :=
  ⟨⟨_, _, _, rfl, rfl, rfl⟩, ⟨_, rfl, rfl⟩⟩

/-- C22 (as amended): in `read_frame_data` the unpacking is not skipped. For every slice
`k` of the frame, whether or not the data-ready wait indicates readiness and
whether or not the slice read succeeds, the region of the assembled frame
that belongs to slice `k` holds the samples unpacked from the slice buffer as it
stands after the first part of the iteration: after a wait that does not
indicate readiness this is the slice buffer the iteration started with, after
a failing read it is what the transport left in the buffer. At slice 0 a wait
that does not indicate readiness leaves the all-zero slice buffer, so the
region of slice 0 is zero. -/
theorem read_frame_data_unpacks_every_slice {σ : Type} (M : Nat) (plat : platform_t σ)
    (st : direct_state σ) (F ss h : Nat) (hg : slice_geometry M st.radar F ss h)
    (hlen : transport_keeps_length st.bgt60_dev) (hbytes : transport_bytes st.bgt60_dev) :
    ∃ stN fbN,
      read_frame_data_assemble M plat st = some (stN, fbN) ∧
      (∀ k, k < F / (ss * 2) →
        ∃ sk sdk fbk s1 sd1,
          read_frame_data_loop M plat (F / (ss * 2)) k 0 st (List.replicate (3 * ss + h) 0)
              (List.replicate F 0) = some (sk, sdk, fbk) ∧
          read_frame_data_slice plat (F / (ss * 2)) sk sdk = some (s1, sd1) ∧
          (slice_wait_ready plat sk = false → sd1 = sdk) ∧
          (slice_read_failed plat sk sdk = true →
            sd1 = ((slice_fifo_read plat sk sdk).2.1).getD sdk) ∧
          ∀ j, j < 2 * ss →
            fbN[k * (F / (F / (ss * 2))) + j]? = some (unpacked_sample (sd1.drop h) j)) ∧
      (0 < F / (ss * 2) → slice_wait_ready plat st = false →
        ∀ j, j < 2 * ss → fbN[j]? = some 0) := by
  have hz : ∀ b ∈ List.replicate (3 * ss + h) 0, b < 256 := fun b hb => by
    rw [List.eq_of_mem_replicate hb]
    decide
  obtain ⟨stN, sdN, fbN, c1, c2, _, _, _, _⟩ :=
    read_frame_data_spec M plat st F ss h hg hlen hbytes
  have hreg : ∀ k, k < F / (ss * 2) →
      ∃ sk sdk fbk s1 sd1,
        read_frame_data_loop M plat (F / (ss * 2)) k 0 st (List.replicate (3 * ss + h) 0)
            (List.replicate F 0) = some (sk, sdk, fbk) ∧
        read_frame_data_slice plat (F / (ss * 2)) sk sdk = some (s1, sd1) ∧
        (slice_wait_ready plat sk = false → sd1 = sdk) ∧
        (slice_read_failed plat sk sdk = true →
          sd1 = ((slice_fifo_read plat sk sdk).2.1).getD sdk) ∧
        ∀ j, j < 2 * ss →
          fbN[k * (F / (F / (ss * 2))) + j]? = some (unpacked_sample (sd1.drop h) j) := by
    intro k hk
    obtain ⟨sk, sdk, fbk, p1, p2, p3, p4, p5, p6, _⟩ :=
      read_frame_data_loop_spec M plat F ss h k 0 st (List.replicate (3 * ss + h) 0)
        (List.replicate F 0) hg hlen hbytes (List.length_replicate _ _) hz
        (List.length_replicate _ _) (by omega)
    have hgk : slice_geometry M sk.radar F ss h := by
      rw [p6]
      exact slice_geometry_fifo_error M st.radar F ss h _ hg
    have hlenk : transport_keeps_length sk.bgt60_dev := by
      rw [p5]
      exact hlen
    have hbytesk : transport_bytes sk.bgt60_dev := by
      rw [p5]
      exact hbytes
    obtain ⟨sA, sdA, fbA, b1, b2, b3, b4, b5, b6, b7, b8, _⟩ :=
      read_frame_data_body_spec M plat sk sdk fbk F ss h k hgk hlenk hbytesk p2 p3 p4 hk
    obtain ⟨sB, sdB, e2, _, _, _, w1, w2⟩ :=
      read_frame_data_slice_spec plat (F / (ss * 2)) sk sdk hlenk (by have := hg.2.2.2.2.1; omega)
    rw [b2] at e2
    simp only [Option.some.injEq, Prod.mk.injEq] at e2
    rw [← e2.2] at w1 w2
    have hgA : slice_geometry M sA.radar F ss h := by
      rw [b6]
      exact slice_geometry_fifo_error M sk.radar F ss h _ hgk
    obtain ⟨sZ, sdZ, fbZ, z1, _, _, _, _, _, z7⟩ :=
      read_frame_data_loop_spec M plat F ss h (F / (ss * 2) - (k + 1)) (k + 1) sA sdA fbA hgA
        (by rw [b7]; exact hlenk) (by rw [b7]; exact hbytesk) (by omega) b4 b5 (by omega)
    have hN : F / (ss * 2) = k + (1 + (F / (ss * 2) - (k + 1))) := by omega
    have e := read_frame_data_loop_add M plat (F / (ss * 2)) k (1 + (F / (ss * 2) - (k + 1))) 0
      st (List.replicate (3 * ss + h) 0) (List.replicate F 0)
    rw [← hN, c1, p1] at e
    simp only [Option.some_bind, Nat.zero_add] at e
    rw [Nat.add_comm 1, read_frame_data_loop_succ, b1] at e
    simp only [Option.some_bind] at e
    rw [z1] at e
    simp only [Option.some.injEq, Prod.mk.injEq] at e
    refine ⟨sk, sdk, fbk, sA, sdA, p1, b2, w1, w2, ?_⟩
    intro j hj
    obtain ⟨q1, _, _⟩ := slice_region_le F ss k hk
    rw [e.2.2, z7 _ (Or.inl (by rw [Nat.add_mul, Nat.one_mul]; omega))]
    exact b8 j hj
  refine ⟨stN, fbN, c2, hreg, ?_⟩
  intro hN hw j hj
  obtain ⟨sk, sdk, fbk, s1, sd1, p1, _, w1, _, r1⟩ := hreg 0 hN
  simp only [read_frame_data_loop, Option.some.injEq, Prod.mk.injEq] at p1
  rw [← p1.1] at w1
  have := r1 j hj
  rw [Nat.zero_mul, Nat.zero_add, w1 hw, ← p1.2.1, unpacked_sample_zeros] at this
  exact this

/-- Instance of C22 (as amended): the frame of two slices in which the wait does
not indicate readiness for slice 1; the region of slice 1 holds the samples
unpacked from the slice buffer that slice 0 left behind. -/
theorem read_frame_data_unpacks_every_slice_witness :
    slice_geometry (2 ^ 64)
      (two_slice_session (sim_dev [0, 0, 3, 3] 0 [9, 9, 9, 9, 0xAB, 0xCD, 0xEF] 1)).radar
      4 1 4 ∧
    ∃ stN fbN,
      read_frame_data_assemble (2 ^ 64) ready_once_platform
          (two_slice_session (sim_dev [0, 0, 3, 3] 0 [9, 9, 9, 9, 0xAB, 0xCD, 0xEF] 1)) =
        some (stN, fbN) ∧
      ∃ sk sdk fbk,
        read_frame_data_loop (2 ^ 64) ready_once_platform (4 / (1 * 2)) 1 0
            (two_slice_session (sim_dev [0, 0, 3, 3] 0 [9, 9, 9, 9, 0xAB, 0xCD, 0xEF] 1))
            (List.replicate (3 * 1 + 4) 0) (List.replicate 4 0) = some (sk, sdk, fbk) ∧
        ∀ j, j < 2 * 1 →
          fbN[1 * (4 / (4 / (1 * 2))) + j]? = some (unpacked_sample (sdk.drop 4) j) := by
  have hg : slice_geometry (2 ^ 64)
      (two_slice_session (sim_dev [0, 0, 3, 3] 0 [9, 9, 9, 9, 0xAB, 0xCD, 0xEF] 1)).radar
      4 1 4 := by
    unfold slice_geometry
    decide
  refine ⟨hg, ?_⟩
  obtain ⟨stN, fbN, h1, h2, _⟩ :=
    read_frame_data_unpacks_every_slice (2 ^ 64) ready_once_platform
      (two_slice_session (sim_dev [0, 0, 3, 3] 0 [9, 9, 9, 9, 0xAB, 0xCD, 0xEF] 1)) 4 1 4 hg
      (transport_keeps_length_sim_dev _ _ _ _) (transport_bytes_sim_dev _ _ _ _)
  obtain ⟨sk, sdk, fbk, s1, sd1, p1, _, w1, _, r1⟩ := h2 1 (by decide)
  refine ⟨stN, fbN, h1, sk, sdk, fbk, p1, ?_⟩
  have hw : slice_wait_ready ready_once_platform sk = false := by
    have e : read_frame_data_loop (2 ^ 64) ready_once_platform (4 / (1 * 2)) 1 0
        (two_slice_session (sim_dev [0, 0, 3, 3] 0 [9, 9, 9, 9, 0xAB, 0xCD, 0xEF] 1))
        (List.replicate (3 * 1 + 4) 0) (List.replicate 4 0) = some (_, _, _) := rfl
    rw [e] at p1
    simp only [Option.some.injEq, Prod.mk.injEq] at p1
    rw [← p1.1]
    rfl
  rw [← w1 hw]
  exact r1
/-- C23: at the end of an iteration of `read_frame_data` the frame is pushed once. The
push returns false exactly when the ring buffer is full; then the overflow
flag is true afterwards, the overflow is reported and the ring buffer, its
offsets and its slots, is as it was before the iteration: the frame is
dropped. When the push returns true the overflow flag is as it was and the
ring buffer is the one the push produced. -/
theorem read_frame_data_overflow {σ : Type} (M : Nat) (plat : platform_t σ)
    (st : direct_state σ) (F ss h : Nat) (hg : slice_geometry M st.radar F ss h)
    (hlen : transport_keeps_length st.bgt60_dev) (hbytes : transport_bytes st.bgt60_dev) :
    ∃ stN fbN st1,
      read_frame_data_assemble M plat st = some (stN, fbN) ∧
      read_frame_data M plat st = some st1 ∧
      stN.radar.frame_buffer = st.radar.frame_buffer ∧
      stN.radar.buffer_overflow = st.radar.buffer_overflow ∧
      ((try_push M st.radar.frame_buffer fbN).1 = false ↔
        size st.radar.frame_buffer ≤ fill M st.radar.frame_buffer) ∧
      ((try_push M st.radar.frame_buffer fbN).1 = false →
        st1.radar.buffer_overflow = true ∧
        st1.radar.frame_buffer = st.radar.frame_buffer ∧
        st1.reports = stN.reports ++
          [rep_event.frame_buffer_overflow (size st.radar.frame_buffer)
            (fill M st.radar.frame_buffer)]) ∧
      ((try_push M st.radar.frame_buffer fbN).1 = true →
        st1.radar.buffer_overflow = st.radar.buffer_overflow ∧
        st1.radar.frame_buffer = (try_push M st.radar.frame_buffer fbN).2 ∧
        st1.reports = stN.reports) := by
  obtain ⟨stN, sdN, fbN, _, c2, _, c4, _, c6⟩ :=
    read_frame_data_spec M plat st F ss h hg hlen hbytes
  have hrb : stN.radar.frame_buffer = st.radar.frame_buffer := by
    rw [c4]
  have hov : stN.radar.buffer_overflow = st.radar.buffer_overflow := by
    rw [c4]
  refine ⟨stN, fbN, _, c2, c6, hrb, hov, ?_, ?_, ?_⟩
  · rcases try_push_effect M st.radar.frame_buffer fbN with ⟨e, hfull⟩ | ⟨hroom, e, _⟩
    · rw [e]
      exact ⟨fun _ => hfull, fun _ => rfl⟩
    · rw [e]
      constructor
      · intro hc
        cases hc
      · intro hc
        simp only [size] at hc
        omega
  · intro hp
    rw [if_pos hp]
    exact ⟨rfl, hrb, rfl⟩
  · intro hp
    rw [if_neg (by rw [hp]; decide)]
    exact ⟨hov, rfl, rfl⟩

/-- Instance of C23: a frame of two slices assembled while both slots of the ring
buffer are taken; the frame is dropped and the flag is set. -/
theorem read_frame_data_overflow_witness :
    slice_geometry (2 ^ 64)
      (two_slice_session_rb (sim_dev [0, 0, 3, 3] 0 [9, 9, 9, 9, 0xAB, 0xCD, 0xEF] 1)
        (SingleReaderSingleWriterRingBuffer.mk 0 2 [[1, 1, 1, 1], [2, 2, 2, 2]])).radar 4 1 4 ∧
    ∃ st1,
      read_frame_data (2 ^ 64) sample_platform
          (two_slice_session_rb (sim_dev [0, 0, 3, 3] 0 [9, 9, 9, 9, 0xAB, 0xCD, 0xEF] 1)
            (SingleReaderSingleWriterRingBuffer.mk 0 2 [[1, 1, 1, 1], [2, 2, 2, 2]])) =
        some st1 ∧
      st1.radar.buffer_overflow = true ∧
      st1.radar.frame_buffer =
        SingleReaderSingleWriterRingBuffer.mk 0 2 [[1, 1, 1, 1], [2, 2, 2, 2]] := by
  have hg : slice_geometry (2 ^ 64)
      (two_slice_session_rb (sim_dev [0, 0, 3, 3] 0 [9, 9, 9, 9, 0xAB, 0xCD, 0xEF] 1)
        (SingleReaderSingleWriterRingBuffer.mk 0 2 [[1, 1, 1, 1], [2, 2, 2, 2]])).radar
      4 1 4 := by
    unfold slice_geometry
    decide
  refine ⟨hg, ?_⟩
  obtain ⟨stN, fbN, st1, _, h2, _, _, h5, h6, _⟩ :=
    read_frame_data_overflow (2 ^ 64) sample_platform
      (two_slice_session_rb (sim_dev [0, 0, 3, 3] 0 [9, 9, 9, 9, 0xAB, 0xCD, 0xEF] 1)
        (SingleReaderSingleWriterRingBuffer.mk 0 2 [[1, 1, 1, 1], [2, 2, 2, 2]])) 4 1 4 hg
      (transport_keeps_length_sim_dev _ _ _ _) (transport_bytes_sim_dev _ _ _ _)
  have hp := h6 (h5.2 (by decide))
  exact ⟨st1, h2, hp.1, hp.2.1⟩
/-! ## Phases of `bgt60_init` and the session start -/

theorem bgt60_init_eq {σ : Type} (regs_h : bgt60_regs_t) (u : bgt60_uninit_t)
    (d : bgt60_dev_t σ) (rl : List Nat) (w : σ) :
    bgt60_init regs_h u (some d) (some rl) w =
      if (bgt60_init_prelude regs_h u d w).1 ≠ 0 then
        some ((bgt60_init_prelude regs_h u d w).1, some d, (bgt60_init_prelude regs_h u d w).2.2)
      else if (bgt60_init_chipid regs_h d (bgt60_init_prelude regs_h u d w).2.1
          (bgt60_init_prelude regs_h u d w).2.2).2.1 ≠ BGT60TR13C_CHIPID then
        some (BGT60_STATUS_CHIPID_ERROR, some d,
          (bgt60_init_chipid regs_h d (bgt60_init_prelude regs_h u d w).2.1
            (bgt60_init_prelude regs_h u d w).2.2).2.2)
      else
        bgt60_init_program regs_h u d rl
          (bgt60_init_chipid regs_h d (bgt60_init_prelude regs_h u d w).2.1
            (bgt60_init_prelude regs_h u d w).2.2).1
          (bgt60_init_chipid regs_h d (bgt60_init_prelude regs_h u d w).2.1
            (bgt60_init_prelude regs_h u d w).2.2).2.2 := by
  simp only [bgt60_init, bgt60_init_prelude, bgt60_init_chipid, bgt60_init_program]
  split_ifs <;> rfl

theorem bgt60_init_program_ok {σ : Type} (regs_h : bgt60_regs_t) (u : bgt60_uninit_t)
    (d : bgt60_dev_t σ) (rl : List Nat) (status : Int) (w : σ)
    (dev1 : Option (bgt60_dev_t σ)) (w1 : σ)
    (h : bgt60_init_program regs_h u d rl status w = some (0, dev1, w1)) :
    ∃ ss, ss < 65536 ∧ dev1 = some (bgt60_dev_t.mk d.spi_transfer d.reset ss) := by
  unfold bgt60_init_program at h
  split at h
  · cases h
  · rename_i l hl
    simp only [] at h
    split_ifs at h with h1 h2
    · simp only [Option.some.injEq, Prod.mk.injEq] at h
      exact ⟨_, Nat.mod_lt _ (by decide), h.2.1.symm⟩
    · simp only [Option.some.injEq, Prod.mk.injEq] at h
      exact absurd h.1 h2
    · simp only [Option.some.injEq, Prod.mk.injEq] at h
      exact absurd h.1 h1

theorem bgt60_init_ok {σ : Type} (regs_h : bgt60_regs_t) (u : bgt60_uninit_t)
    (d : bgt60_dev_t σ) (rl : List Nat) (w : σ) (dev1 : Option (bgt60_dev_t σ)) (w1 : σ)
    (h : bgt60_init regs_h u (some d) (some rl) w = some (0, dev1, w1)) :
    ∃ ss, ss < 65536 ∧ dev1 = some (bgt60_dev_t.mk d.spi_transfer d.reset ss) := by
  rw [bgt60_init_eq] at h
  split_ifs at h with h1 h2
  · simp only [Option.some.injEq, Prod.mk.injEq] at h
    exact absurd h.1 h1
  · simp only [Option.some.injEq, Prod.mk.injEq] at h
    have := h.1
    simp [BGT60_STATUS_CHIPID_ERROR] at this
  · exact bgt60_init_program_ok regs_h u d rl _ _ dev1 w1 h

theorem setup_bgt_ok {σ : Type} (regs_h : bgt60_regs_t) (u : bgt60_uninit_t)
    (st st1 : direct_state σ) (mode : direct_mode_description_t)
    (h : setup_bgt regs_h u st mode = some (true, st1)) :
    st1.radar =
        { st.radar with slice_size := st1.bgt60_dev.slice_size, frame_count := 0,
                        mode := some mode } ∧
      st1.bgt60_dev.spi_transfer = st.bgt60_dev.spi_transfer ∧
      st1.bgt60_dev.slice_size < 65536 ∧ 0 < st1.bgt60_dev.slice_size ∧
      st1.data_integrity_test_enabled = st.data_integrity_test_enabled := by
  unfold setup_bgt at h
  split at h
  · cases h
  · rename_i r hr
    simp only [] at h
    split_ifs at h with h1
    · simp at h
    · have h0 : r.1 = 0 := by
        by_contra hc
        exact h1 hc
      obtain ⟨s, dev1, w1⟩ := r
      simp only at h0
      subst h0
      obtain ⟨ss, hss, hd⟩ := bgt60_init_ok regs_h u st.bgt60_dev mode.regs st.world dev1 w1 hr
      subst hd
      split at h
      · cases h
      · rename_i n hn
        simp only [Option.some.injEq, Prod.mk.injEq, true_and] at h
        simp only [get_num_slices_per_frame, Option.getD_some] at hn
        have hpos : 0 < ss := by
          by_contra hc
          have hz : ss = 0 := by omega
          subst hz
          split at hn
          · cases hn
          · simp at hn
        rw [← h]
        exact ⟨rfl, rfl, hss, hpos, rfl⟩
theorem direct_device_start_ok {σ : Type} (regs_h : bgt60_regs_t) (u : bgt60_uninit_t)
    (plat : platform_t σ) (st st2 : direct_state σ) (mode : direct_mode_description_t)
    (h : direct_device_start regs_h u plat st mode = some (true, st2)) :
    ∃ ss rb, 0 < ss ∧ ss < 65536 ∧
      st2.radar =
        { st.radar with slice_size := ss, frame_count := 0, mode := some mode,
                        frame_buffer := rb, is_started := true } ∧
      rb.m_rd_offset = 0 ∧ rb.m_wr_offset = 0 ∧ rb.m_data.length = 5 ∧
      st2.bgt60_dev.spi_transfer = st.bgt60_dev.spi_transfer := by
  unfold direct_device_start at h
  simp only [] at h
  split_ifs at h with h1 h2 h3
  · simp at h
  · simp at h
  · simp at h
  · split at h
    · cases h
    · rename_i sb hsb
      split_ifs at h with h4 h5 h6
      · simp at h
      · simp at h
      · simp at h
      · obtain ⟨b, sb2⟩ := sb
        have hb : b = true := by
          cases b with
          | true => rfl
          | false => exact absurd rfl h4
        subst hb
        obtain ⟨r1, r2, r3, r4, _⟩ := setup_bgt_ok regs_h u _ sb2 mode hsb
        simp only [Option.some.injEq, Prod.mk.injEq, true_and] at h
        refine ⟨sb2.bgt60_dev.slice_size, st2.radar.frame_buffer, r4, r3, ?_, ?_, ?_, ?_, ?_⟩
        · rw [← h]
          simp only []
          rw [r1]
        · rw [← h]
          rfl
        · rw [← h]
          rfl
        · rw [← h]
          simp only [resize_fn, resize, List.length_map, List.length_append, List.length_take,
            List.length_replicate]
          omega
        · rw [← h]
          exact r2
theorem transport_keeps_length_congr {σ : Type} (d1 d2 : bgt60_dev_t σ)
    (h : d1.spi_transfer = d2.spi_transfer) (h2 : transport_keeps_length d2) :
    transport_keeps_length d1 := by
  intro w tx rx n
  rw [h]
  exact h2 w tx rx n

theorem transport_bytes_congr {σ : Type} (d1 d2 : bgt60_dev_t σ)
    (h : d1.spi_transfer = d2.spi_transfer) (h2 : transport_bytes d2) :
    transport_bytes d1 := by
  intro w tx rx n
  rw [h]
  exact h2 w tx rx n

theorem spi_data_thread_overflow {σ : Type} (M : Nat) (plat : platform_t σ) (F ss h : Nat)
    (hM : 5 < M) :
    ∀ (k j : Nat) (st : direct_state σ),
      slice_geometry M st.radar F ss h → transport_keeps_length st.bgt60_dev →
      transport_bytes st.bgt60_dev → st.radar.is_started = true →
      st.radar.frame_buffer.m_rd_offset = 0 → st.radar.frame_buffer.m_wr_offset = min j 5 →
      st.radar.frame_buffer.m_data.length = 5 →
      (st.radar.buffer_overflow = true ↔ 6 ≤ j) →
      ∃ stk, spi_data_thread M plat k st = some stk ∧
        fill M stk.radar.frame_buffer = min (j + k) 5 ∧
        size stk.radar.frame_buffer = 5 ∧
        (stk.radar.buffer_overflow = true ↔ 6 ≤ j + k) := by
  intro k
  induction k with
  | zero =>
    intro j st _ _ _ _ hrd hwr hlen5 hov
    refine ⟨st, rfl, ?_, hlen5, hov⟩
    simp only [fill, hrd, hwr]
    rw [size_sub_of_le M _ _ (Nat.zero_le _) (by omega)]
    omega
  | succ k ih =>
    intro j st hg hlen hbytes hst hrd hwr hlen5 hov
    obtain ⟨stN, sdN, fbN, _, _, _, c4, c5, c6⟩ :=
      read_frame_data_spec M plat st F ss h hg hlen hbytes
    have hfill : fill M st.radar.frame_buffer = min j 5 := by
      simp only [fill, hrd, hwr]
      rw [size_sub_of_le M _ _ (Nat.zero_le _) (by omega)]
      omega
    have hstep : ∃ st1, read_frame_data M plat st = some st1 ∧
        slice_geometry M st1.radar F ss h ∧ st1.bgt60_dev = st.bgt60_dev ∧
        st1.radar.is_started = true ∧ st1.radar.frame_buffer.m_rd_offset = 0 ∧
        st1.radar.frame_buffer.m_wr_offset = min (j + 1) 5 ∧
        st1.radar.frame_buffer.m_data.length = 5 ∧
        (st1.radar.buffer_overflow = true ↔ 6 ≤ j + 1) := by
      refine ⟨_, c6, ?_⟩
      rcases try_push_effect M st.radar.frame_buffer fbN with ⟨e, hfull⟩ | ⟨hroom, e, e1, e2, e3⟩
      · rw [e, if_pos rfl]
        rw [hfill, hlen5] at hfull
        refine ⟨?_, c5, ?_, ?_, ?_, ?_, ?_⟩
        · simp only []
          rw [c4]
          exact hg
        · simp only []
          rw [c4]
          exact hst
        · simp only []
          rw [c4]
          exact hrd
        · simp only []
          rw [c4]
          simp only []
          rw [hwr]
          omega
        · simp only []
          rw [c4]
          exact hlen5
        · simp only []
          constructor
          · intro _
            omega
          · intro _
            trivial
      · rw [if_neg (by rw [e]; decide)]
        rw [hfill, hlen5] at hroom
        refine ⟨?_, c5, ?_, ?_, ?_, ?_, ?_⟩
        · simp only []
          rw [c4]
          exact hg
        · simp only []
          rw [c4]
          exact hst
        · simp only []
          rw [e1]
          exact hrd
        · simp only []
          rw [e2, hwr, size_add, Nat.mod_eq_of_lt (by omega)]
          omega
        · simp only []
          rw [e3]
          exact hlen5
        · simp only []
          rw [c4]
          simp only []
          rw [hov]
          constructor
          · intro _
            omega
          · intro _
            omega
    obtain ⟨st1, s1, s2, s3, s4, s5, s6, s7, s8⟩ := hstep
    obtain ⟨stk, t1, t2, t3, t4⟩ :=
      ih (j + 1) st1 s2 (by rw [s3]; exact hlen) (by rw [s3]; exact hbytes) s4 s5 s6 s7 s8
    have e : j + 1 + k = j + (k + 1) := by omega
    rw [e] at t2 t4
    refine ⟨stk, ?_, t2, t3, t4⟩
    simp only [spi_data_thread, hst, if_true, s1]
    exact t1

/-- C24: a session is initialised and started, and the consumer never fetches.
The ring buffer has capacity 5 and the flags are clear; after `k` iterations of
`read_frame_data` the fill of the ring buffer is `min k 5`, the overflow flag is
false for every `k <= 5` and true for every `k >= 6`: the sixth frame sets it, and
the fill stays at the capacity. -/
theorem overflow_scenario {σ : Type} (M : Nat) (regs_h : bgt60_regs_t) (u : bgt60_uninit_t)
    (plat : platform_t σ) (st0 st2 : direct_state σ) (mode : direct_mode_description_t)
    (hstart :
      direct_device_start regs_h u plat (direct_device_init st0) mode = some (true, st2))
    (hlen : transport_keeps_length st0.bgt60_dev) (hbytes : transport_bytes st0.bgt60_dev)
    (hM : 2 ^ 32 ≤ M) :
    size st2.radar.frame_buffer = 5 ∧ st2.radar.buffer_overflow = false ∧
      st2.radar.fifo_error = false ∧
      ∀ k, ∃ stk, spi_data_thread M plat k st2 = some stk ∧
        fill M stk.radar.frame_buffer = min k 5 ∧
        size stk.radar.frame_buffer = 5 ∧
        (k ≤ 5 → stk.radar.buffer_overflow = false) ∧
        (6 ≤ k → stk.radar.buffer_overflow = true) := by
  obtain ⟨ss, rb, h1, h2, h3, h4, h5, h6, h7⟩ :=
    direct_device_start_ok regs_h u plat _ st2 mode hstart
  have hM2 : 4294967296 ≤ M := by
    norm_num at hM
    exact hM
  have hrb : st2.radar.frame_buffer = rb := by
    rw [h3]
  have hF : ∃ F, get_num_samples_per_frame st2.radar = some F ∧ F < 4294967296 := by
    rw [h3]
    refine ⟨_, rfl, ?_⟩
    exact Nat.mod_lt _ (by decide)
  obtain ⟨F, hF1, hF2⟩ := hF
  have hg : slice_geometry M st2.radar F ss 4 := by
    refine ⟨hF1, ?_, ?_, h1, by omega, by omega, ?_, by omega⟩
    · rw [h3]
    · rw [h3]
      rfl
    · norm_num
      omega
  have hov : st2.radar.buffer_overflow = false := by
    rw [h3]
    rfl
  refine ⟨by rw [hrb]; exact h6, hov, by rw [h3]; rfl, ?_⟩
  intro k
  obtain ⟨stk, t1, t2, t3, t4⟩ :=
    spi_data_thread_overflow M plat F ss 4 (by omega) k 0 st2 hg
      (transport_keeps_length_congr _ _ h7 hlen) (transport_bytes_congr _ _ h7 hbytes)
      (by rw [h3]) (by rw [hrb]; exact h4) (by rw [hrb, h5]; rfl) (by rw [hrb]; exact h6)
      (by
        rw [hov]
        constructor
        · intro hc
          cases hc
        · intro hc
          omega)
  rw [Nat.zero_add] at t2 t4
  refine ⟨stk, t1, t2, t3, ?_, ?_⟩
  · intro hk
    cases hb : stk.radar.buffer_overflow with
    | false => rfl
    | true =>
      have := t4.1 hb
      omega
  · intro hk
    exact t4.2 hk

/-- Instance of C24: a session in `sample_mode` is initialised and started on a
transport that never fails; after seven iterations the ring buffer holds five
frames and the overflow flag is set, after five it is still clear. -/
theorem overflow_scenario_witness :
    transport_keeps_length sim_idle_session.bgt60_dev ∧
    transport_bytes sim_idle_session.bgt60_dev ∧ 2 ^ 32 ≤ 2 ^ 64 ∧
    ∃ st2,
      direct_device_start sample_regs (bgt60_uninit_t.mk 0 0 0) sample_platform
        (direct_device_init sim_idle_session) sample_mode = some (true, st2) ∧
      (∃ st5, spi_data_thread (2 ^ 64) sample_platform 5 st2 = some st5 ∧
        fill (2 ^ 64) st5.radar.frame_buffer = 5 ∧ st5.radar.buffer_overflow = false) ∧
      (∃ st7, spi_data_thread (2 ^ 64) sample_platform 7 st2 = some st7 ∧
        fill (2 ^ 64) st7.radar.frame_buffer = 5 ∧ st7.radar.buffer_overflow = true) := by
  refine ⟨transport_keeps_length_sim_dev _ _ _ _, transport_bytes_sim_dev _ _ _ _, by decide, ?_⟩
  obtain ⟨st2, hs⟩ : ∃ st2,
      direct_device_start sample_regs (bgt60_uninit_t.mk 0 0 0) sample_platform
        (direct_device_init sim_idle_session) sample_mode = some (true, st2) := ⟨_, rfl⟩
  have h := (overflow_scenario (2 ^ 64) sample_regs (bgt60_uninit_t.mk 0 0 0) sample_platform
    sim_idle_session st2 sample_mode hs (transport_keeps_length_sim_dev _ _ _ _)
    (transport_bytes_sim_dev _ _ _ _) (by decide)).2.2.2
  obtain ⟨st5, a1, a2, _, a4, _⟩ := h 5
  obtain ⟨st7, b1, b2, _, _, b5⟩ := h 7
  exact ⟨st2, hs, ⟨st5, a1, a2, a4 (by decide)⟩, ⟨st7, b1, b2, b5 (by decide)⟩⟩
/-! ## Chip identity check and register programming of `bgt60_init` -/

theorem bgt60_get_reg_world {σ : Type} (d : bgt60_dev_t σ) (a c : Nat) (w : σ) :
    (bgt60_get_reg (some d) a c w).2.2 =
      (d.spi_transfer w (bgt60_get_reg_word a) (some (le_bytes c)) 4).2.2 := by
  simp only [bgt60_get_reg]
  split_ifs <;> rfl

theorem reg_entry_word (e : Nat) :
    bgt60_set_reg_word ((e &&& BGT60_SPI_REGADR_MSK) >>> BGT60_SPI_REGADR_POS)
      ((e &&& BGT60_SPI_DATA_MSK) >>> BGT60_SPI_DATA_POS) = reg_entry_wire e := by
  have e1 : BGT60_SPI_REGADR_MSK = (2 ^ 7 - 1) <<< 25 := by decide
  have e2 : BGT60_SPI_DATA_MSK = 2 ^ 24 - 1 := by decide
  have e3 : (0xFE000000 : Nat) = (2 ^ 7 - 1) <<< 25 := by decide
  have e4 : (0x00FFFFFF : Nat) = 2 ^ 24 - 1 := by decide
  have h1 : (((e &&& BGT60_SPI_REGADR_MSK) >>> BGT60_SPI_REGADR_POS) % 128) <<< 25 =
      e &&& 0xFE000000 := by
    rw [e1, e3, and_mask_shift, BGT60_SPI_REGADR_POS, Nat.shiftLeft_shiftRight]
    have : (2 : Nat) ^ 7 = 128 := by decide
    rw [this, Nat.mod_mod]
  have h2 : ((e &&& BGT60_SPI_DATA_MSK) >>> BGT60_SPI_DATA_POS) % 2 ^ 24 = e &&& 0x00FFFFFF := by
    rw [e2, e4, BGT60_SPI_DATA_POS, Nat.shiftRight_zero, Nat.and_pow_two_sub_one_eq_mod,
      Nat.mod_mod]
  rw [bgt60_set_reg_word_eq, h1, h2]
  rfl

theorem reg_entry_write_eq {σ : Type} (d : bgt60_dev_t σ) (e : Nat) (w : σ) :
    reg_entry_write d e w =
      ((d.spi_transfer w (reg_entry_wire e) none 4).1,
        (d.spi_transfer w (reg_entry_wire e) none 4).2.2) := by
  simp only [reg_entry_write, bgt60_set_reg, reg_entry_word]

theorem reg_list_world_eq {σ : Type} (d : bgt60_dev_t σ) :
    ∀ (es : List Nat) (w : σ),
      reg_list_world d w es = transmit_words d w (es.map reg_entry_wire) := by
  intro es
  induction es with
  | nil =>
    intro w
    rfl
  | cons e es ih =>
    intro w
    simp only [reg_list_world, List.map_cons, transmit_words, reg_entry_write_eq]
    exact ih _

theorem reg_list_ok_of_never_fails {σ : Type} (d : bgt60_dev_t σ)
    (hnf : transport_never_fails d) : ∀ (es : List Nat) (w : σ), reg_list_ok d w es = true := by
  intro es
  induction es with
  | nil =>
    intro w
    rfl
  | cons e es ih =>
    intro w
    simp only [reg_list_ok, Bool.and_eq_true, decide_eq_true_eq]
    refine ⟨?_, ih _⟩
    rw [reg_entry_write_eq]
    exact hnf _ _ _ _

theorem reg_list_split (rl : List Nat) (hsent : 0xFFFFFFFF ∈ rl) :
    (∃ post, rl = reg_list_entries rl ++ 0xFFFFFFFF :: post) ∧
      ∀ e ∈ reg_list_entries rl, e ≠ 0xFFFFFFFF := by
  induction rl with
  | nil => cases hsent
  | cons x xs ih =>
    by_cases hx : x = 0xFFFFFFFF
    · subst hx
      refine ⟨⟨xs, ?_⟩, ?_⟩
      · simp [reg_list_entries]
      · intro e he
        simp [reg_list_entries] at he
    · have hs : 0xFFFFFFFF ∈ xs := by
        rcases List.mem_cons.mp hsent with h | h
        · exact absurd h.symm hx
        · exact h
      obtain ⟨⟨post, hp⟩, hne⟩ := ih hs
      have e : reg_list_entries (x :: xs) = x :: reg_list_entries xs := by
        simp [reg_list_entries, hx]
      refine ⟨⟨post, ?_⟩, ?_⟩
      · rw [e, List.cons_append, ← hp]
      · intro y hy
        rw [e] at hy
        rcases List.mem_cons.mp hy with h | h
        · rw [h]
          exact hx
        · exact hne y h

theorem bgt60_init_reg_loop_append {σ : Type} (d : bgt60_dev_t σ) :
    ∀ (pre rest : List Nat) (idx : Nat) (s : Int) (w : σ),
      (∀ e ∈ pre, e ≠ 0xFFFFFFFF) → reg_list_ok d w pre = true →
      bgt60_init_reg_loop d (pre ++ rest) idx s w =
        bgt60_init_reg_loop d rest (idx + pre.length) (if pre = [] then s else 0)
          (reg_list_world d w pre) := by
  intro pre
  induction pre with
  | nil =>
    intro rest idx s w _ _
    rfl
  | cons e es ih =>
    intro rest idx s w hne hok
    simp only [reg_list_ok, Bool.and_eq_true, decide_eq_true_eq] at hok
    have he : e ≠ 0xFFFFFFFF := hne e (List.mem_cons_self _ _)
    have hw : bgt60_set_reg (some d)
        ((e &&& BGT60_SPI_REGADR_MSK) >>> BGT60_SPI_REGADR_POS)
        ((e &&& BGT60_SPI_DATA_MSK) >>> BGT60_SPI_DATA_POS) w = reg_entry_write d e w := rfl
    simp only [List.cons_append, bgt60_init_reg_loop, he, if_false, hw, hok.1, ne_eq,
      not_true_eq_false, reg_list_world, List.length_cons, List.append_eq]
    rw [ih rest (idx + 1) 0 _ (fun x hx => hne x (List.mem_cons_of_mem _ hx)) hok.2]
    have e1 : idx + 1 + es.length = idx + (es.length + 1) := by omega
    rw [e1]
    simp

theorem bgt60_init_reg_loop_sentinel {σ : Type} (d : bgt60_dev_t σ) (post : List Nat)
    (idx : Nat) (s : Int) (w : σ) :
    bgt60_init_reg_loop d (0xFFFFFFFF :: post) idx s w = some (s, idx, w) := by
  simp [bgt60_init_reg_loop]

theorem bgt60_init_reg_loop_fail {σ : Type} (d : bgt60_dev_t σ) (e : Nat) (rest : List Nat)
    (idx : Nat) (s : Int) (w : σ) (he : e ≠ 0xFFFFFFFF) (hf : (reg_entry_write d e w).1 ≠ 0) :
    bgt60_init_reg_loop d (e :: rest) idx s w =
      some ((reg_entry_write d e w).1, idx, (reg_entry_write d e w).2) := by
  have hw : bgt60_set_reg (some d)
      ((e &&& BGT60_SPI_REGADR_MSK) >>> BGT60_SPI_REGADR_POS)
      ((e &&& BGT60_SPI_DATA_MSK) >>> BGT60_SPI_DATA_POS) w = reg_entry_write d e w := rfl
  simp only [bgt60_init_reg_loop, he, if_false, hw, ne_eq, hf, not_false_eq_true, if_true]
theorem bgt60_init_of_chipid {σ : Type} (regs_h : bgt60_regs_t) (u : bgt60_uninit_t)
    (d : bgt60_dev_t σ) (rl : List Nat) (w0 w1 w : σ) (c1 : Nat) (sc : Int)
    (hpre : bgt60_init_prelude regs_h u d w0 = (0, c1, w1))
    (hchip : bgt60_init_chipid regs_h d c1 w1 = (sc, 0x000303, w)) :
    bgt60_init regs_h u (some d) (some rl) w0 = bgt60_init_program regs_h u d rl sc w := by
  rw [bgt60_init_eq, hpre]
  simp only [ne_eq, not_true_eq_false, if_false, hchip, BGT60TR13C_CHIPID]

/-- C25: after the first steps of `bgt60_init` have succeeded, the chip identity is
read once. If the value is `0x000303`, programming starts in the world right
after that transfer: no second read. Otherwise the register is read once
more; if the value is then still not `0x000303`, `bgt60_init` returns
`BGT60_STATUS_CHIPID_ERROR`, which is `-3`, the world is the one right after the second
read, so no register-list entry has been written, and the device handle with
its `slice_size` is as it was; if the second value is `0x000303`, programming starts
right after the second read. -/
theorem bgt60_init_chipid_retry {σ : Type} (regs_h : bgt60_regs_t) (u : bgt60_uninit_t)
    (d : bgt60_dev_t σ) (rl : List Nat) (w w1 : σ) (c1 : Nat)
    (hp : bgt60_init_prelude regs_h u d w = (0, c1, w1)) :
    ((bgt60_get_reg (some d) regs_h.BGT60_REG_CHIP_ID c1 w1).2.1 = 0x000303 →
      bgt60_init regs_h u (some d) (some rl) w =
        bgt60_init_program regs_h u d rl
          (bgt60_get_reg (some d) regs_h.BGT60_REG_CHIP_ID c1 w1).1
          (d.spi_transfer w1 (bgt60_get_reg_word regs_h.BGT60_REG_CHIP_ID)
            (some (le_bytes c1)) 4).2.2) ∧
    (∀ c2, (bgt60_get_reg (some d) regs_h.BGT60_REG_CHIP_ID c1 w1).2.1 = c2 → c2 ≠ 0x000303 →
      ((bgt60_get_reg (some d) regs_h.BGT60_REG_CHIP_ID c2
          (d.spi_transfer w1 (bgt60_get_reg_word regs_h.BGT60_REG_CHIP_ID)
            (some (le_bytes c1)) 4).2.2).2.1 ≠ 0x000303 →
        bgt60_init regs_h u (some d) (some rl) w =
          some (BGT60_STATUS_CHIPID_ERROR, some d,
            (d.spi_transfer
              (d.spi_transfer w1 (bgt60_get_reg_word regs_h.BGT60_REG_CHIP_ID)
                (some (le_bytes c1)) 4).2.2
              (bgt60_get_reg_word regs_h.BGT60_REG_CHIP_ID) (some (le_bytes c2)) 4).2.2)) ∧
      ((bgt60_get_reg (some d) regs_h.BGT60_REG_CHIP_ID c2
          (d.spi_transfer w1 (bgt60_get_reg_word regs_h.BGT60_REG_CHIP_ID)
            (some (le_bytes c1)) 4).2.2).2.1 = 0x000303 →
        bgt60_init regs_h u (some d) (some rl) w =
          bgt60_init_program regs_h u d rl
            (bgt60_get_reg (some d) regs_h.BGT60_REG_CHIP_ID c2
              (d.spi_transfer w1 (bgt60_get_reg_word regs_h.BGT60_REG_CHIP_ID)
                (some (le_bytes c1)) 4).2.2).1
            (d.spi_transfer
              (d.spi_transfer w1 (bgt60_get_reg_word regs_h.BGT60_REG_CHIP_ID)
                (some (le_bytes c1)) 4).2.2
              (bgt60_get_reg_word regs_h.BGT60_REG_CHIP_ID) (some (le_bytes c2)) 4).2.2)) ∧
    BGT60_STATUS_CHIPID_ERROR = -3 := by
  refine ⟨?_, ?_, rfl⟩
  · intro h1
    rw [← bgt60_get_reg_world]
    apply bgt60_init_of_chipid regs_h u d rl w w1 _ c1 _ hp
    simp only [bgt60_init_chipid, h1, BGT60TR13C_CHIPID, ne_eq, not_true_eq_false, if_false]
    rw [← h1]
  · intro c2 h1 h2
    rw [← bgt60_get_reg_world, ← bgt60_get_reg_world]
    have hc : bgt60_init_chipid regs_h d c1 w1 =
        bgt60_get_reg (some d) regs_h.BGT60_REG_CHIP_ID c2
          (bgt60_get_reg (some d) regs_h.BGT60_REG_CHIP_ID c1 w1).2.2 := by
      simp only [bgt60_init_chipid, h1, BGT60TR13C_CHIPID, ne_eq, h2, not_false_eq_true,
        if_true]
    constructor
    · intro h3
      rw [bgt60_init_eq, hp]
      simp only [ne_eq, not_true_eq_false, if_false, hc, BGT60TR13C_CHIPID, h3,
        not_false_eq_true, if_true]
    · intro h3
      apply bgt60_init_of_chipid regs_h u d rl w w1 _ c1 _ hp
      rw [hc, ← h3]

/-- Instance of C25: a transport whose register reads all decode to 0; the chip
identity is read twice (the log holds the four transfers of the first steps
and the two reads), `bgt60_init` returns `-3` and nothing is programmed. -/
theorem bgt60_init_chipid_retry_witness :
    ∃ c1 w1,
      bgt60_init_prelude sample_regs (bgt60_uninit_t.mk 0 0 0) (sim_dev [0, 0, 0, 0] 0 [] 7) [] =
        (0, c1, w1) ∧
      (bgt60_get_reg (some (sim_dev [0, 0, 0, 0] 0 [] 7)) sample_regs.BGT60_REG_CHIP_ID c1
        w1).2.1 ≠ 0x000303 ∧
      (bgt60_init sample_regs (bgt60_uninit_t.mk 0 0 0) (some (sim_dev [0, 0, 0, 0] 0 [] 7))
        (some regs_landscape_460MHz) []).map
          (fun r => (r.1, r.2.1.map (fun dv => dv.slice_size), r.2.2.length)) =
        some (-3, some 7, 6) := by
  obtain ⟨c1, w1, hp⟩ : ∃ c1 w1,
      bgt60_init_prelude sample_regs (bgt60_uninit_t.mk 0 0 0) (sim_dev [0, 0, 0, 0] 0 [] 7) [] =
        (0, c1, w1) := ⟨_, _, rfl⟩
  have h := (bgt60_init_chipid_retry sample_regs (bgt60_uninit_t.mk 0 0 0)
    (sim_dev [0, 0, 0, 0] 0 [] 7) regs_landscape_460MHz [] w1 c1 hp).2.1
  have e : bgt60_init_prelude sample_regs (bgt60_uninit_t.mk 0 0 0)
      (sim_dev [0, 0, 0, 0] 0 [] 7) [] = (0, _, _) := rfl
  rw [e] at hp
  simp only [Prod.mk.injEq, true_and] at hp
  obtain ⟨hc, hw⟩ := hp
  subst hc
  subst hw
  refine ⟨_, _, rfl, by decide, ?_⟩
  rw [(h _ rfl (by decide)).1 (by decide)]
  rfl
theorem bgt60_init_reg_loop_ok {σ : Type} (d : bgt60_dev_t σ) (rl : List Nat) (s : Int)
    (w : σ) (hsent : 0xFFFFFFFF ∈ rl) (hok : reg_list_ok d w (reg_list_entries rl) = true) :
    bgt60_init_reg_loop d rl 0 s w =
      some (if reg_list_entries rl = [] then s else 0, (reg_list_entries rl).length,
        reg_list_world d w (reg_list_entries rl)) := by
  obtain ⟨⟨post, hp⟩, hne⟩ := reg_list_split rl hsent
  have e := bgt60_init_reg_loop_append d (reg_list_entries rl) (0xFFFFFFFF :: post) 0 s w hne hok
  rw [← hp, bgt60_init_reg_loop_sentinel, Nat.zero_add] at e
  exact e

/-- C26: on a transport that never fails and with a matching chip identity, the
register-list loop of `bgt60_init` ends with the status 0 after one transfer per
entry before the first `0xFFFFFFFF`, in list order, each a transfer of four bytes
that sends the byte swap of `(e & 0xFE000000) | 0x01000000 | (e & 0x00FFFFFF)`; the next
transfer is the read-back of SFCTL, so nothing is sent for the sentinel or for
an entry after it. Both built-in tables have 39 entries before the sentinel,
all with bit 24 set, and for them the word sent is the byte swap of the
entry. -/
theorem bgt60_init_register_writes {σ : Type} (regs_h : bgt60_regs_t) (u : bgt60_uninit_t)
    (d : bgt60_dev_t σ) (rl : List Nat) (w0 w1 w : σ) (c1 : Nat) (sc : Int)
    (hnf : transport_never_fails d) (hsent : 0xFFFFFFFF ∈ rl)
    (hpre : bgt60_init_prelude regs_h u d w0 = (0, c1, w1))
    (hchip : bgt60_init_chipid regs_h d c1 w1 = (sc, 0x000303, w)) :
    bgt60_init_reg_loop d rl 0 sc w =
      some (0, (reg_list_entries rl).length,
        transmit_words d w ((reg_list_entries rl).map reg_entry_wire)) ∧
    bgt60_init regs_h u (some d) (some rl) w0 =
      some (0,
        some (bgt60_dev_t.mk d.spi_transfer d.reset
          (((((bgt60_get_reg (some d) regs_h.BGT60_REG_SFCTL u.tmp_init
              (transmit_words d w ((reg_list_entries rl).map reg_entry_wire))).2.1 &&&
            regs_h.BGT60_REG_SFCTL_FIFO_CREF_MSK) >>> regs_h.BGT60_REG_SFCTL_FIFO_CREF_POS) + 1) %
            65536)),
        (d.spi_transfer (transmit_words d w ((reg_list_entries rl).map reg_entry_wire))
          (bgt60_get_reg_word regs_h.BGT60_REG_SFCTL) (some (le_bytes u.tmp_init)) 4).2.2) ∧
    ((reg_list_entries regs_landscape_460MHz).length = 39 ∧
      ∀ e ∈ reg_list_entries regs_landscape_460MHz,
        e.testBit 24 = true ∧ reg_entry_wire e = htonl e) ∧
    ((reg_list_entries regs_landscape_1GHz).length = 39 ∧
      ∀ e ∈ reg_list_entries regs_landscape_1GHz,
        e.testBit 24 = true ∧ reg_entry_wire e = htonl e) := by
  have hsc : sc = 0 := by
    have h1 : (bgt60_init_chipid regs_h d c1 w1).1 = 0 := by
      simp only [bgt60_init_chipid, bgt60_get_reg]
      split_ifs <;> exact hnf _ _ _ _
    rw [hchip] at h1
    exact h1
  have hok := reg_list_ok_of_never_fails d hnf (reg_list_entries rl) w
  have hloop : bgt60_init_reg_loop d rl 0 sc w =
      some (0, (reg_list_entries rl).length,
        transmit_words d w ((reg_list_entries rl).map reg_entry_wire)) := by
    rw [bgt60_init_reg_loop_ok d rl sc w hsent hok, reg_list_world_eq, hsc]
    simp
  refine ⟨hloop, ?_, ⟨by decide, by decide⟩, ⟨by decide, by decide⟩⟩
  rw [bgt60_init_of_chipid regs_h u d rl w0 w1 w c1 sc hpre hchip, ← bgt60_get_reg_world]
  have h4 : (bgt60_get_reg (some d) regs_h.BGT60_REG_SFCTL u.tmp_init
      (transmit_words d w ((reg_list_entries rl).map reg_entry_wire))).1 = 0 := by
    simp only [bgt60_get_reg]
    split_ifs <;> exact hnf _ _ _ _
  simp only [bgt60_init_program, hloop, BGT60_STATUS_OK, if_true, h4]

/-- Instance of C26: `bgt60_init` with the table `regs_landscape_460MHz` on a transport that never
fails and answers every register read with the chip identity: status 0, and
the log holds the five transfers before the loop, the 39 writes and the
read-back. -/
theorem bgt60_init_register_writes_witness :
    transport_never_fails (sim_dev [0, 0, 3, 3] 0 [] 7) ∧
    (0xFFFFFFFF : Nat) ∈ regs_landscape_460MHz ∧
    ∃ c1 w1 sc w,
      bgt60_init_prelude sample_regs (bgt60_uninit_t.mk 0 0 0) (sim_dev [0, 0, 3, 3] 0 [] 7) [] =
        (0, c1, w1) ∧
      bgt60_init_chipid sample_regs (sim_dev [0, 0, 3, 3] 0 [] 7) c1 w1 = (sc, 0x000303, w) ∧
      bgt60_init_reg_loop (sim_dev [0, 0, 3, 3] 0 [] 7) regs_landscape_460MHz 0 sc w =
        some (0, 39,
          transmit_words (sim_dev [0, 0, 3, 3] 0 [] 7) w
            ((reg_list_entries regs_landscape_460MHz).map reg_entry_wire)) := by
  have hnf : transport_never_fails (sim_dev [0, 0, 3, 3] 0 [] 7) := by
    intro w tx rx n
    simp only [sim_dev]
    split <;> rfl
  refine ⟨hnf, by decide, _, _, _, _, rfl, rfl, ?_⟩
  exact (bgt60_init_register_writes sample_regs (bgt60_uninit_t.mk 0 0 0)
    (sim_dev [0, 0, 3, 3] 0 [] 7) regs_landscape_460MHz [] _ _ _ _ hnf (by decide) rfl rfl).1

/-- C27: when the writes of the entries before index `k` succeed and the write of
entry `k` fails, the register-list loop of `bgt60_init` stops with the failing status
and `reg_idx = k`, the index that the message prints. The world is the one right
after the failing transfer: no entry after `k` is written and SFCTL is not read
back. `bgt60_init` returns the failing status, which is not `BGT60_STATUS_OK`, and the device
handle with its `slice_size` is as it was. -/
theorem bgt60_init_write_failure {σ : Type} (regs_h : bgt60_regs_t) (u : bgt60_uninit_t)
    (d : bgt60_dev_t σ) (pre rest : List Nat) (e : Nat) (w0 w1 w : σ) (c1 : Nat) (sc : Int)
    (hpre : bgt60_init_prelude regs_h u d w0 = (0, c1, w1))
    (hchip : bgt60_init_chipid regs_h d c1 w1 = (sc, 0x000303, w))
    (hne : ∀ x ∈ pre, x ≠ 0xFFFFFFFF) (he : e ≠ 0xFFFFFFFF)
    (hok : reg_list_ok d w pre = true)
    (hf : (reg_entry_write d e (reg_list_world d w pre)).1 ≠ 0) :
    (pre ++ e :: rest)[pre.length]? = some e ∧
    reg_list_world d w pre = transmit_words d w (pre.map reg_entry_wire) ∧
    bgt60_init_reg_loop d (pre ++ e :: rest) 0 sc w =
      some ((reg_entry_write d e (reg_list_world d w pre)).1, pre.length,
        (d.spi_transfer (reg_list_world d w pre) (reg_entry_wire e) none 4).2.2) ∧
    bgt60_init regs_h u (some d) (some (pre ++ e :: rest)) w0 =
      some ((reg_entry_write d e (reg_list_world d w pre)).1, some d,
        (d.spi_transfer (reg_list_world d w pre) (reg_entry_wire e) none 4).2.2) ∧
    (reg_entry_write d e (reg_list_world d w pre)).1 ≠ BGT60_STATUS_OK := by
  have hloop : bgt60_init_reg_loop d (pre ++ e :: rest) 0 sc w =
      some ((reg_entry_write d e (reg_list_world d w pre)).1, pre.length,
        (d.spi_transfer (reg_list_world d w pre) (reg_entry_wire e) none 4).2.2) := by
    rw [bgt60_init_reg_loop_append d pre (e :: rest) 0 sc w hne hok,
      bgt60_init_reg_loop_fail d e rest _ _ _ he hf, Nat.zero_add]
    rw [reg_entry_write_eq]
  refine ⟨?_, reg_list_world_eq d pre w, hloop, ?_, hf⟩
  · rw [List.getElem?_append_right (le_refl _), Nat.sub_self]
    exact List.getElem?_cons_zero
  · rw [bgt60_init_of_chipid regs_h u d _ w0 w1 w c1 sc hpre hchip]
    simp only [bgt60_init_program, hloop, BGT60_STATUS_OK]
    rw [if_neg hf]
/-- Instance of C27: a transport whose eighth transfer fails, that is the write of
the entry with index 2: `bgt60_init` returns `-1`, `slice_size` stays 7 and the log ends
with the failing transfer, the eighth. -/
theorem bgt60_init_write_failure_witness :
    ∃ c1 w1 sc w,
      bgt60_init_prelude sample_regs (bgt60_uninit_t.mk 0 0 0) (failing_dev 7 [0, 0, 3, 3] 7) [] =
        (0, c1, w1) ∧
      bgt60_init_chipid sample_regs (failing_dev 7 [0, 0, 3, 3] 7) c1 w1 = (sc, 0x000303, w) ∧
      reg_list_ok (failing_dev 7 [0, 0, 3, 3] 7) w [0x011E8270, 0x030A0210] = true ∧
      (reg_entry_write (failing_dev 7 [0, 0, 3, 3] 7) 0x09E967FD
        (reg_list_world (failing_dev 7 [0, 0, 3, 3] 7) w [0x011E8270, 0x030A0210])).1 ≠ 0 ∧
      bgt60_init_reg_loop (failing_dev 7 [0, 0, 3, 3] 7)
          ([0x011E8270, 0x030A0210] ++ 0x09E967FD :: [0x0B0805B4, 0xFFFFFFFF]) 0 sc w =
        some (-1, 2,
          ((failing_dev 7 [0, 0, 3, 3] 7).spi_transfer
            (reg_list_world (failing_dev 7 [0, 0, 3, 3] 7) w [0x011E8270, 0x030A0210])
            (reg_entry_wire 0x09E967FD) none 4).2.2) ∧
      (bgt60_init sample_regs (bgt60_uninit_t.mk 0 0 0) (some (failing_dev 7 [0, 0, 3, 3] 7))
        (some ([0x011E8270, 0x030A0210] ++ 0x09E967FD :: [0x0B0805B4, 0xFFFFFFFF])) []).map
          (fun r => (r.1, r.2.1.map (fun dv => dv.slice_size), r.2.2.length)) =
        some (-1, some 7, 8) := by
  have h := bgt60_init_write_failure sample_regs (bgt60_uninit_t.mk 0 0 0)
    (failing_dev 7 [0, 0, 3, 3] 7) [0x011E8270, 0x030A0210] [0x0B0805B4, 0xFFFFFFFF]
    0x09E967FD [] _ _ _ _ rfl rfl (by decide) (by decide) (by decide) (by decide)
  refine ⟨_, _, _, _, rfl, rfl, by decide, by decide, h.2.2.1, ?_⟩
  rw [h.2.2.2.1]
  rfl

theorem and_shiftRight_le (x m p : Nat) : (x &&& m) >>> p ≤ m >>> p := by
  rw [Nat.shiftRight_eq_div_pow, Nat.shiftRight_eq_div_pow]
  exact Nat.div_le_div_right Nat.and_le_right

/-- The read of the slice size when the status tested after the register loop is
0, that is when the loop is entered with a status of 0 or writes at least one
entry: after all register-list writes have succeeded, `bgt60_init` reads SFCTL once. If
the read succeeds, `slice_size` becomes the FIFO_CREF field of the value plus 1,
which is at least 1, and `bgt60_init` returns `BGT60_STATUS_OK`; if the read fails,
`bgt60_init` returns its status, which is not zero, and `slice_size` is 0. The FIFO_CREF
field is narrower than 16 bits. -/
theorem bgt60_init_slice_size {σ : Type} (regs_h : bgt60_regs_t) (u : bgt60_uninit_t)
    (d : bgt60_dev_t σ) (rl : List Nat) (w0 w1 w : σ) (c1 : Nat) (sc : Int)
    (hpre : bgt60_init_prelude regs_h u d w0 = (0, c1, w1))
    (hchip : bgt60_init_chipid regs_h d c1 w1 = (sc, 0x000303, w))
    (hsent : 0xFFFFFFFF ∈ rl) (hok : reg_list_ok d w (reg_list_entries rl) = true)
    (hst : reg_list_entries rl ≠ [] ∨ sc = 0)
    (hfield :
      regs_h.BGT60_REG_SFCTL_FIFO_CREF_MSK >>> regs_h.BGT60_REG_SFCTL_FIFO_CREF_POS < 65535) :
    ((bgt60_get_reg (some d) regs_h.BGT60_REG_SFCTL u.tmp_init
        (reg_list_world d w (reg_list_entries rl))).1 = 0 →
      1 ≤ ((bgt60_get_reg (some d) regs_h.BGT60_REG_SFCTL u.tmp_init
          (reg_list_world d w (reg_list_entries rl))).2.1 &&&
        regs_h.BGT60_REG_SFCTL_FIFO_CREF_MSK) >>> regs_h.BGT60_REG_SFCTL_FIFO_CREF_POS + 1 ∧
      ((bgt60_get_reg (some d) regs_h.BGT60_REG_SFCTL u.tmp_init
          (reg_list_world d w (reg_list_entries rl))).2.1 &&&
        regs_h.BGT60_REG_SFCTL_FIFO_CREF_MSK) >>> regs_h.BGT60_REG_SFCTL_FIFO_CREF_POS + 1 <
        65536 ∧
      bgt60_init regs_h u (some d) (some rl) w0 =
        some (BGT60_STATUS_OK,
          some (bgt60_dev_t.mk d.spi_transfer d.reset
            (((bgt60_get_reg (some d) regs_h.BGT60_REG_SFCTL u.tmp_init
                (reg_list_world d w (reg_list_entries rl))).2.1 &&&
              regs_h.BGT60_REG_SFCTL_FIFO_CREF_MSK) >>> regs_h.BGT60_REG_SFCTL_FIFO_CREF_POS + 1)),
          (d.spi_transfer (reg_list_world d w (reg_list_entries rl))
            (bgt60_get_reg_word regs_h.BGT60_REG_SFCTL) (some (le_bytes u.tmp_init)) 4).2.2)) ∧
    ((bgt60_get_reg (some d) regs_h.BGT60_REG_SFCTL u.tmp_init
        (reg_list_world d w (reg_list_entries rl))).1 ≠ 0 →
      bgt60_init regs_h u (some d) (some rl) w0 =
        some ((bgt60_get_reg (some d) regs_h.BGT60_REG_SFCTL u.tmp_init
            (reg_list_world d w (reg_list_entries rl))).1,
          some (bgt60_dev_t.mk d.spi_transfer d.reset 0),
          (d.spi_transfer (reg_list_world d w (reg_list_entries rl))
            (bgt60_get_reg_word regs_h.BGT60_REG_SFCTL) (some (le_bytes u.tmp_init)) 4).2.2)) := by
  have hloop : bgt60_init_reg_loop d rl 0 sc w =
      some (0, (reg_list_entries rl).length, reg_list_world d w (reg_list_entries rl)) := by
    rw [bgt60_init_reg_loop_ok d rl sc w hsent hok]
    rcases hst with h | h
    · rw [if_neg h]
    · rw [h]
      simp
  have hinit := bgt60_init_of_chipid regs_h u d rl w0 w1 w c1 sc hpre hchip
  have hle := and_shiftRight_le
    (bgt60_get_reg (some d) regs_h.BGT60_REG_SFCTL u.tmp_init
      (reg_list_world d w (reg_list_entries rl))).2.1
    regs_h.BGT60_REG_SFCTL_FIFO_CREF_MSK regs_h.BGT60_REG_SFCTL_FIFO_CREF_POS
  have hlt := Nat.succ_lt_succ (lt_of_le_of_lt hle hfield)
  constructor
  · intro h4
    refine ⟨Nat.succ_le_succ (Nat.zero_le _), hlt, ?_⟩
    rw [hinit, ← bgt60_get_reg_world]
    simp only [bgt60_init_program, hloop, BGT60_STATUS_OK, if_true, h4]
    rw [Nat.mod_eq_of_lt hlt]
  · intro h4
    rw [hinit, ← bgt60_get_reg_world]
    simp only [bgt60_init_program, hloop, BGT60_STATUS_OK, if_true, h4, if_false]

/-- The slice size read by `bgt60_init` with the table `regs_landscape_460MHz` on a transport that answers
every register read with `0x000303`: the slice size stored is `0x303 + 1 = 772`. -/
theorem bgt60_init_slice_size_witness :
    ∃ c1 w1 sc w,
      bgt60_init_prelude sample_regs (bgt60_uninit_t.mk 0 0 0) (sim_dev [0, 0, 3, 3] 0 [] 7) [] =
        (0, c1, w1) ∧
      bgt60_init_chipid sample_regs (sim_dev [0, 0, 3, 3] 0 [] 7) c1 w1 = (sc, 0x000303, w) ∧
      reg_list_ok (sim_dev [0, 0, 3, 3] 0 [] 7) w (reg_list_entries regs_landscape_460MHz) =
        true ∧
      (bgt60_init sample_regs (bgt60_uninit_t.mk 0 0 0) (some (sim_dev [0, 0, 3, 3] 0 [] 7))
        (some regs_landscape_460MHz) []).map
          (fun r => (r.1, r.2.1.map (fun dv => dv.slice_size), r.2.2.length)) =
        some (0, some 772, 45) := by
  have hnf : transport_never_fails (sim_dev [0, 0, 3, 3] 0 [] 7) := by
    intro w tx rx n
    simp only [sim_dev]
    split <;> rfl
  have h := (bgt60_init_slice_size sample_regs (bgt60_uninit_t.mk 0 0 0)
    (sim_dev [0, 0, 3, 3] 0 [] 7) regs_landscape_460MHz [] _ _ _ _ rfl rfl (by decide)
    (reg_list_ok_of_never_fails _ hnf _ _) (Or.inr rfl) (by decide)).1
  refine ⟨_, _, _, _, rfl, rfl, reg_list_ok_of_never_fails _ hnf _ _, ?_⟩
  rw [(h (by decide)).2.2]
  rfl
theorem set_bit_word (r b : Nat) (hb : b < 24) :
    ((r ||| 2 ^ b) % 2 ^ 32) % 2 ^ 24 < 2 ^ 24 ∧
      (((r ||| 2 ^ b) % 2 ^ 32) % 2 ^ 24).testBit b = true ∧
      ∀ i, i < 24 → i ≠ b → (((r ||| 2 ^ b) % 2 ^ 32) % 2 ^ 24).testBit i = r.testBit i := by
  refine ⟨Nat.mod_lt _ (by decide), ?_, ?_⟩
  · simp only [Nat.testBit_mod_two_pow, Nat.testBit_or, Nat.testBit_two_pow]
    have h32 : b < 32 := by omega
    simp [hb, h32]
  · intro i hi hne
    simp only [Nat.testBit_mod_two_pow, Nat.testBit_or, Nat.testBit_two_pow]
    have h32 : i < 32 := by omega
    have hne2 : ¬ b = i := fun h => hne h.symm
    simp [hi, h32, hne2]

theorem clear_bit_word (r b : Nat) (hb : b < 24) :
    (r &&& ((2 ^ 32 - 1) ^^^ (2 ^ b % 2 ^ 32))) % 2 ^ 24 < 2 ^ 24 ∧
      ((r &&& ((2 ^ 32 - 1) ^^^ (2 ^ b % 2 ^ 32))) % 2 ^ 24).testBit b = false ∧
      ∀ i, i < 24 → i ≠ b →
        ((r &&& ((2 ^ 32 - 1) ^^^ (2 ^ b % 2 ^ 32))) % 2 ^ 24).testBit i = r.testBit i := by
  refine ⟨Nat.mod_lt _ (by decide), ?_, ?_⟩
  · simp only [Nat.testBit_mod_two_pow, Nat.testBit_and, Nat.testBit_xor,
      Nat.testBit_two_pow_sub_one, Nat.testBit_two_pow]
    have h32 : b < 32 := by omega
    simp [hb, h32]
  · intro i hi hne
    simp only [Nat.testBit_mod_two_pow, Nat.testBit_and, Nat.testBit_xor,
      Nat.testBit_two_pow_sub_one, Nat.testBit_two_pow]
    have h32 : i < 32 := by omega
    have hne2 : ¬ b = i := fun h => hne h.symm
    simp [hi, h32, hne2]

/-- C29: `bgt60_enable_data_test_mode` reads SFCTL, changes one bit and writes the value back.
When the read fails, its status is returned and the world is the one right
after the read: no write. When the read succeeds with the 24-bit value `r`,
one write to SFCTL follows whose data field `v` has the LFSR-enable bit set
(enable) or cleared (disable) and agrees with `r` in every other one of the 24
data bits; the status of that write is returned. The LFSR-enable mask is a
single bit among the data bits. -/
theorem bgt60_enable_data_test_mode_rmw {σ : Type} (regs_h : bgt60_regs_t) (d : bgt60_dev_t σ)
    (enable : Bool) (tmp0 : Nat) (w : σ) (b : Nat)
    (hmask : regs_h.BGT60_REG_SFCTL_LFSR_EN_MSK = 2 ^ b) (hb : b < 24) :
    ((bgt60_get_reg (some d) regs_h.BGT60_REG_SFCTL tmp0 w).1 ≠ 0 →
      bgt60_enable_data_test_mode regs_h (some d) enable tmp0 w =
        ((bgt60_get_reg (some d) regs_h.BGT60_REG_SFCTL tmp0 w).1,
          (d.spi_transfer w (bgt60_get_reg_word regs_h.BGT60_REG_SFCTL)
            (some (le_bytes tmp0)) 4).2.2)) ∧
    ((bgt60_get_reg (some d) regs_h.BGT60_REG_SFCTL tmp0 w).1 = 0 →
      ∃ v, v < 2 ^ 24 ∧ v.testBit b = enable ∧
        (∀ i, i < 24 → i ≠ b →
          v.testBit i = (bgt60_get_reg (some d) regs_h.BGT60_REG_SFCTL tmp0 w).2.1.testBit i) ∧
        bgt60_enable_data_test_mode regs_h (some d) enable tmp0 w =
          ((d.spi_transfer
              (d.spi_transfer w (bgt60_get_reg_word regs_h.BGT60_REG_SFCTL)
                (some (le_bytes tmp0)) 4).2.2
              (htonl (((regs_h.BGT60_REG_SFCTL % 128) <<< 25) ||| 0x01000000 ||| v)) none 4).1,
            (d.spi_transfer
              (d.spi_transfer w (bgt60_get_reg_word regs_h.BGT60_REG_SFCTL)
                (some (le_bytes tmp0)) 4).2.2
              (htonl (((regs_h.BGT60_REG_SFCTL % 128) <<< 25) ||| 0x01000000 ||| v)) none
              4).2.2)) := by
  constructor
  · intro h
    rw [← bgt60_get_reg_world]
    simp only [bgt60_enable_data_test_mode, ne_eq, h, not_false_eq_true, if_true]
  · intro h
    rw [← bgt60_get_reg_world]
    cases enable with
    | true =>
      obtain ⟨v1, v2, v3⟩ := set_bit_word _ b hb
      refine ⟨_, v1, v2, v3, ?_⟩
      simp only [bgt60_enable_data_test_mode, ne_eq, h, not_true_eq_false, if_false, if_true,
        bgt60_set_reg, bgt60_set_reg_word_eq, hmask]
    | false =>
      obtain ⟨v1, v2, v3⟩ := clear_bit_word _ b hb
      refine ⟨_, v1, v2, v3, ?_⟩
      simp only [bgt60_enable_data_test_mode, ne_eq, h, not_true_eq_false, if_false,
        Bool.false_eq_true, bgt60_set_reg, bgt60_set_reg_word_eq, hmask]

/-- Instance of C29: the LFSR-enable bit is bit 17 and SFCTL reads as `0x000303`; enabling
writes the data field `0x020303`, disabling writes `0x000303`. -/
theorem bgt60_enable_data_test_mode_rmw_witness :
    sample_regs.BGT60_REG_SFCTL_LFSR_EN_MSK = 2 ^ 17 ∧ 17 < 24 ∧
    (bgt60_get_reg (some (sim_dev [0, 0, 3, 3] 0 [] 7)) sample_regs.BGT60_REG_SFCTL 0 []).1 = 0 ∧
    (∃ v, v < 2 ^ 24 ∧ v.testBit 17 = true ∧
      (∀ i, i < 24 → i ≠ 17 →
        v.testBit i =
          (bgt60_get_reg (some (sim_dev [0, 0, 3, 3] 0 [] 7)) sample_regs.BGT60_REG_SFCTL 0
            []).2.1.testBit i) ∧
      bgt60_enable_data_test_mode sample_regs (some (sim_dev [0, 0, 3, 3] 0 [] 7)) true 0 [] =
        (((sim_dev [0, 0, 3, 3] 0 [] 7).spi_transfer
            ((sim_dev [0, 0, 3, 3] 0 [] 7).spi_transfer []
              (bgt60_get_reg_word sample_regs.BGT60_REG_SFCTL) (some (le_bytes 0)) 4).2.2
            (htonl (((sample_regs.BGT60_REG_SFCTL % 128) <<< 25) ||| 0x01000000 ||| v)) none 4).1,
          ((sim_dev [0, 0, 3, 3] 0 [] 7).spi_transfer
            ((sim_dev [0, 0, 3, 3] 0 [] 7).spi_transfer []
              (bgt60_get_reg_word sample_regs.BGT60_REG_SFCTL) (some (le_bytes 0)) 4).2.2
            (htonl (((sample_regs.BGT60_REG_SFCTL % 128) <<< 25) ||| 0x01000000 ||| v)) none
            4).2.2)) ∧
    (bgt60_enable_data_test_mode sample_regs (some (sim_dev [0, 0, 3, 3] 0 [] 7)) true 0 []).2 =
      [(htonl 0x0C000000, some [0, 0, 0, 0], 4), (htonl 0x0D020303, none, 4)] ∧
    (bgt60_enable_data_test_mode sample_regs (some (sim_dev [0, 0, 3, 3] 0 [] 7)) false 0 []).2 =
      [(htonl 0x0C000000, some [0, 0, 0, 0], 4), (htonl 0x0D000303, none, 4)] :=
  ⟨by decide, by decide, by decide,
    (bgt60_enable_data_test_mode_rmw sample_regs (sim_dev [0, 0, 3, 3] 0 [] 7) true 0 [] 17
      (by decide) (by decide)).2 (by decide),
    by decide, by decide⟩
/-! ## Mode lookup -/

theorem char_toNat_inj (x y : Char) (h : x.toNat = y.toNat) : x = y :=
  Char.ext (UInt32.toNat.inj h)

theorem strcmp_eq_zero : ∀ (a b : List Char), (∀ c ∈ a, c.toNat ≠ 0) → (∀ c ∈ b, c.toNat ≠ 0) →
    (strcmp a b = 0 ↔ a = b) := by
  intro a
  induction a with
  | nil =>
    intro b _ hb
    cases b with
    | nil => simp [strcmp]
    | cons y ys =>
      simp only [strcmp]
      constructor
      · intro h
        have hy := hb y (List.mem_cons_self _ _)
        omega
      · intro h
        cases h
  | cons x xs ih =>
    intro b ha hb
    cases b with
    | nil =>
      simp only [strcmp]
      constructor
      · intro h
        have hx := ha x (List.mem_cons_self _ _)
        omega
      · intro h
        cases h
    | cons y ys =>
      simp only [strcmp]
      by_cases hxy : x = y
      · rw [if_pos hxy, ih ys (fun c hc => ha c (List.mem_cons_of_mem _ hc))
          (fun c hc => hb c (List.mem_cons_of_mem _ hc)), hxy]
        simp
      · rw [if_neg hxy]
        constructor
        · intro h
          have : x.toNat = y.toNat := by omega
          exact absurd (char_toNat_inj x y this) hxy
        · intro h
          simp only [List.cons.injEq] at h
          exact absurd h.1 hxy

theorem direct_device_default_mode_find_eq (name : String)
    (hname : ∀ c ∈ name.toList, c.toNat ≠ 0) :
    direct_device_default_mode_find name =
      if name = ("landscape") then direct_device_default_mode_table[0]?
      else if name = ("landscape-1ghz") then direct_device_default_mode_table[1]?
      else none := by
  have h1 : strcmp name.toList ("landscape").toList = 0 ↔ name = ("landscape") := by
    rw [strcmp_eq_zero _ _ hname (by decide)]
    constructor
    · intro h
      exact String.ext h
    · intro h
      rw [h]
  have h2 : strcmp name.toList ("landscape-1ghz").toList = 0 ↔ name = ("landscape-1ghz") := by
    rw [strcmp_eq_zero _ _ hname (by decide)]
    constructor
    · intro h
      exact String.ext h
    · intro h
      rw [h]
  simp only [direct_device_default_mode_find, direct_device_default_mode_table,
    direct_device_default_mode_find_loop, h1, h2]
  split_ifs <;> rfl

/-- C30: for a name given as a C string, `direct_device_default_mode_find` returns an entry if and
only if the name is `landscape` or `landscape-1ghz`, and the entry has the name as its
specifier. `landscape` has 2 antennas and a bandwidth of 460000000 Hz, `landscape-1ghz` has
2 antennas and a bandwidth of 1000000000 Hz. Every other name gives `NULL`, and
`acq_set_mode` then returns false, reports the name and leaves the selected mode as
it was. -/
theorem direct_device_default_mode_find_spec (name : String) (acq : acq_spi_t)
    (hname : ∀ c ∈ name.toList, c.toNat ≠ 0) :
    ((direct_device_default_mode_find name).isSome = true ↔
      name = ("landscape") ∨ name = ("landscape-1ghz")) ∧
    (∀ e, direct_device_default_mode_find name = some e → e.specifier = name) ∧
    (∃ e, direct_device_default_mode_find ("landscape") = some e ∧
      e.specifier = ("landscape") ∧ e.num_antennas = 2 ∧
      e.seg_config.bandwidth_Hz = 460000000) ∧
    (∃ e, direct_device_default_mode_find ("landscape-1ghz") = some e ∧
      e.specifier = ("landscape-1ghz") ∧ e.num_antennas = 2 ∧
      e.seg_config.bandwidth_Hz = 1000000000) ∧
    (460000000 : ℚ) ≠ 1000000000 ∧
    (name ≠ ("landscape") → name ≠ ("landscape-1ghz") →
      direct_device_default_mode_find name = none ∧
      (acq_set_mode name acq).1 = false ∧
      (acq_set_mode name acq).2.mode = acq.mode ∧
      (acq_set_mode name acq).2.mode_not_understood = acq.mode_not_understood ++ [name]) ∧
    (∀ e, direct_device_default_mode_find name = some e →
      acq_set_mode name acq = (true, { acq with mode := e })) := by
  have hf := direct_device_default_mode_find_eq name hname
  refine ⟨?_, ?_, ?_, ?_, by norm_num, ?_, ?_⟩
  · rw [hf]
    constructor
    · intro h
      by_cases h1 : name = ("landscape")
      · exact Or.inl h1
      · by_cases h2 : name = ("landscape-1ghz")
        · exact Or.inr h2
        · rw [if_neg h1, if_neg h2] at h
          cases h
    · intro h
      rcases h with h | h
      · rw [if_pos h]
        rfl
      · rw [h]
        rfl
  · intro e he
    rw [hf] at he
    by_cases h1 : name = ("landscape")
    · rw [if_pos h1] at he
      simp only [direct_device_default_mode_table, List.getElem?_cons_zero,
        Option.some.injEq] at he
      rw [← he, h1]
    · by_cases h2 : name = ("landscape-1ghz")
      · rw [if_neg h1, if_pos h2] at he
        simp only [direct_device_default_mode_table, List.getElem?_cons_succ,
          List.getElem?_cons_zero, Option.some.injEq] at he
        rw [← he, h2]
      · rw [if_neg h1, if_neg h2] at he
        cases he
  · rw [direct_device_default_mode_find_eq _ (by decide)]
    exact ⟨_, rfl, rfl, rfl, rfl⟩
  · rw [direct_device_default_mode_find_eq _ (by decide)]
    exact ⟨_, rfl, rfl, rfl, rfl⟩
  · intro h1 h2
    have hn : direct_device_default_mode_find name = none := by
      rw [hf, if_neg h1, if_neg h2]
    simp only [acq_set_mode, hn]
    exact ⟨trivial, trivial, trivial, trivial⟩
  · intro e he
    simp only [acq_set_mode, he]

/-- Instance of C30: the name `portrait` is not in the table; the lookup gives `NULL` and
`acq_set_mode` keeps the mode `landscape` that `acq_spi.c` starts with. -/
theorem direct_device_default_mode_find_spec_witness :
    (∀ c ∈ ("portrait").toList, c.toNat ≠ 0) ∧
    direct_device_default_mode_find ("portrait") = none ∧
    (∃ e, direct_device_default_mode_table[0]? = some e ∧
      (acq_set_mode ("portrait") (acq_spi_t.mk e [])).1 = false ∧
      (acq_set_mode ("portrait") (acq_spi_t.mk e [])).2.mode = e) := by
  obtain ⟨e, he⟩ : ∃ e, direct_device_default_mode_table[0]? = some e := ⟨_, rfl⟩
  have h := (direct_device_default_mode_find_spec ("portrait") (acq_spi_t.mk e [])
    (by decide)).2.2.2.2.2.1 (by decide) (by decide)
  exact ⟨by decide, h.1, e, he, h.2.1, h.2.2.1⟩
/-! ## Range and period of the self-test register -/

/-- C35: the self-test register stays in the non-zero 12-bit range and has the
period 4095. Drawing from the seed `0x0001`, every value returned by
`test_mode_lsfr_get_next` lies in `[1, 4095]`; the first 4095 values are pairwise distinct
and every non-zero 12-bit value is among them; the 4096th value is `0x0001`
again, and no shorter period exists. -/
theorem lfsr_range_and_period :
    (∀ N k, k < N →
      ∃ v, (lfsr_draws N 0x0001)[k]? = some v ∧ 1 ≤ v ∧ v ≤ 4095) ∧
    (∀ k, 1 ≤ lfsr_state k 0x0001 ∧ lfsr_state k 0x0001 ≤ 4095) ∧
    (∀ i j, i < 4095 → j < 4095 →
      (lfsr_draws 4095 0x0001)[i]? = (lfsr_draws 4095 0x0001)[j]? → i = j) ∧
    (∀ v, 1 ≤ v → v ≤ 4095 → ∃ k, k < 4095 ∧ (lfsr_draws 4095 0x0001)[k]? = some v) ∧
    (lfsr_draws 4096 0x0001)[4095]? = some 0x0001 ∧
    (∀ N k, k + 4095 < N →
      (lfsr_draws N 0x0001)[k + 4095]? = (lfsr_draws N 0x0001)[k]?) ∧
    (∀ p, 0 < p → p < 4095 → (lfsr_draws 4096 0x0001)[p]? ≠ (lfsr_draws 4096 0x0001)[0]?) := by
  have hper : ∀ k, lfsr_state (k + 4095) 0x0001 = lfsr_state k 0x0001 := by
    intro k
    rw [Nat.add_comm, lfsr_state_add, lfsr_state_4095]
  refine ⟨?_, lfsr_state_range, ?_, ?_, ?_, ?_, ?_⟩
  · intro N k hk
    exact ⟨_, lfsr_draws_getElem N 0x0001 k hk, lfsr_state_range k⟩
  · intro i j hi hj h
    rw [lfsr_draws_getElem 4095 0x0001 i hi, lfsr_draws_getElem 4095 0x0001 j hj] at h
    exact lfsr_state_injective i j hi hj (Option.some.inj h)
  · intro v h1 h2
    obtain ⟨k, hk, hv⟩ := lfsr_state_surjective v h1 h2
    exact ⟨k, hk, by rw [lfsr_draws_getElem 4095 0x0001 k hk, hv]⟩
  · rw [lfsr_draws_getElem 4096 0x0001 4095 (by decide), lfsr_state_4095]
  · intro N k hk
    rw [lfsr_draws_getElem N 0x0001 (k + 4095) hk, lfsr_draws_getElem N 0x0001 k (by omega),
      hper]
  · intro p h0 h1 h
    rw [lfsr_draws_getElem 4096 0x0001 p (by omega),
      lfsr_draws_getElem 4096 0x0001 0 (by decide)] at h
    exact lfsr_state_ne_seed p h0 h1 (Option.some.inj h)

/-! ## Slots addressed by producer and consumer -/

theorem mod_ne_of_lt_sub (cap rd wr : Nat) (h1 : rd < wr) (h2 : wr - rd < cap) :
    wr % cap ≠ rd % cap := by
  intro h
  have hd : cap ∣ wr - rd := (Nat.modEq_iff_dvd' (le_of_lt h1)).mp h.symm
  have := Nat.le_of_dvd (by omega) hd
  omega

theorem rb_run_empty {T : Type} (M : Nat) (calls : List (rb_call T)) :
    ∀ rb : SingleReaderSingleWriterRingBuffer T, rb.m_data = [] →
      rb.m_rd_offset = rb.m_wr_offset → rb_run M rb calls = rb := by
  induction calls with
  | nil =>
    intro rb _ _
    rfl
  | cons c cs ih =>
    intro rb hd hrw
    have hs : (rb_step M rb c).2 = rb := by
      cases c with
      | push v =>
        simp only [rb_step, try_push]
        rw [try_push_fn_full M rb _ _ (by rw [hd]; exact Nat.zero_le _)]
      | pop dest =>
        simp only [rb_step, try_pop, try_pop_fn, hrw, if_true]
      | pop_discard =>
        simp only [rb_step, try_pop_discard, try_pop_fn, hrw, if_true]
    simp only [rb_run, hs]
    exact ih rb hd hrw

/-- C38: on a ring buffer with at least 2 slots whose cursors have not wrapped
around and whose fill lies strictly between 0 and the capacity, a push and a
pop are both enabled, the push writes the slot `write_offset mod capacity`, the pop
reads the slot `read_offset mod capacity`, and the two indices differ. On a ring
buffer without slots the cursors stay equal after `resize(0)` whatever is
called, so `try_push` returns false at its fill test and `try_pop` returns false at
its test `rd_offset == wr_offset`, before any index is computed. -/
theorem producer_consumer_slots {T : Type} (M : Nat)
    (rb : SingleReaderSingleWriterRingBuffer T) (value dest : T)
    (hcap : 2 ≤ size rb) (hrw : rb.m_rd_offset ≤ rb.m_wr_offset) (hwM : rb.m_wr_offset < M)
    (h0 : 0 < rb.m_wr_offset - rb.m_rd_offset)
    (h1 : rb.m_wr_offset - rb.m_rd_offset < size rb) :
    fill M rb = rb.m_wr_offset - rb.m_rd_offset ∧
    (try_push M rb value).1 = true ∧
    (try_push M rb value).2.m_data = rb.m_data.set (rb.m_wr_offset % size rb) value ∧
    (try_pop M rb dest).1 = true ∧
    (try_pop M rb dest).2.2 = rb.m_data.getD (rb.m_rd_offset % size rb) dest ∧
    rb.m_wr_offset % size rb ≠ rb.m_rd_offset % size rb ∧
    (∀ (rb0 : SingleReaderSingleWriterRingBuffer T) (dflt : T) (calls : List (rb_call T)),
      size (rb_run M (rb0.resize 0 dflt) calls) = 0 ∧
      (rb_run M (rb0.resize 0 dflt) calls).m_rd_offset =
        (rb_run M (rb0.resize 0 dflt) calls).m_wr_offset ∧
      try_push M (rb_run M (rb0.resize 0 dflt) calls) value =
        (false, rb_run M (rb0.resize 0 dflt) calls) ∧
      try_pop M (rb_run M (rb0.resize 0 dflt) calls) dest =
        (false, rb_run M (rb0.resize 0 dflt) calls, dest)) := by
  have hfill : fill M rb = rb.m_wr_offset - rb.m_rd_offset := by
    simp only [fill]
    exact size_sub_of_le M _ _ hrw hwM
  have hlt : rb.m_rd_offset < rb.m_wr_offset := by omega
  simp only [size] at hcap h1 ⊢
  have hidx : rb.m_rd_offset % rb.m_data.length < rb.m_data.length :=
    Nat.mod_lt _ (by omega)
  refine ⟨hfill, ?_, ?_, ?_, ?_, mod_ne_of_lt_sub _ _ _ hlt h1, ?_⟩
  · obtain ⟨slot, _, e⟩ := try_push_fn_ok M rb (fun _ (v : T) => (v, v)) value
      (by rw [← hfill] at h1; exact h1)
    simp only [try_push, e]
  · obtain ⟨slot, _, e⟩ := try_push_fn_ok M rb (fun _ (v : T) => (v, v)) value
      (by rw [← hfill] at h1; exact h1)
    simp only [try_push, e]
  · simp only [try_pop, try_pop_fn]
    rw [if_neg (by omega), List.getElem?_eq_getElem hidx]
  · simp only [try_pop, try_pop_fn]
    rw [if_neg (by omega), List.getElem?_eq_getElem hidx, List.getD_eq_getElem _ _ hidx]
  · intro rb0 dflt calls
    have hr : rb_run M (rb0.resize 0 dflt) calls = rb0.resize 0 dflt :=
      rb_run_empty M calls _ (by simp [resize]) rfl
    rw [hr]
    refine ⟨by simp [resize, size], rfl, ?_, ?_⟩
    · simp only [try_push]
      rw [try_push_fn_full M _ _ _ (by simp [resize])]
    · simp only [try_pop, try_pop_fn, resize, if_true]

/-- Instance of C38: five slots, read cursor 7, write cursor 9; the push writes
slot 4, the pop reads slot 2. -/
theorem producer_consumer_slots_witness :
    (2 ≤ size (SingleReaderSingleWriterRingBuffer.mk 7 9 [10, 11, 12, 13, 14]) ∧
      (7 : Nat) ≤ 9 ∧ 9 < 2 ^ 64 ∧ 0 < 9 - 7 ∧
      9 - 7 < size (SingleReaderSingleWriterRingBuffer.mk 7 9 [10, 11, 12, 13, 14])) ∧
    (try_push (2 ^ 64) (SingleReaderSingleWriterRingBuffer.mk 7 9 [10, 11, 12, 13, 14]) 99).2.m_data =
      [10, 11, 12, 13, 99] ∧
    (try_pop (2 ^ 64) (SingleReaderSingleWriterRingBuffer.mk 7 9 [10, 11, 12, 13, 14]) 0).2.2 =
      12 ∧
    (9 : Nat) % 5 ≠ 7 % 5 := by
  have h := producer_consumer_slots (2 ^ 64)
    (SingleReaderSingleWriterRingBuffer.mk 7 9 [10, 11, 12, 13, 14]) 99 0
    (by decide) (by decide) (by decide) (by decide) (by decide)
  exact ⟨by decide, h.2.2.1, h.2.2.2.2.1, h.2.2.2.2.2.1⟩
/-! ## Header overwrite in the slice buffer -/

/-- C33: after a successful slice read that left `T` in the slice buffer, the header
overwrite of `read_frame_data` changes the bytes 1, 2 and 3 and nothing else. Byte 1
becomes the low 8 bits of `slice_cnt & (num_slices_per_frame - 1)`, the bytes 2 and 3 become
the low and the high byte of `(slice_cnt / num_slices_per_frame) mod 2^16` (the target is
little-endian); byte 0 and every byte from index 4 on are those of `T`, so the
samples unpacked from a header of 4 or more bytes on do not depend on the
counters. -/
theorem read_frame_data_header_overwrite {σ : Type} (plat : platform_t σ) (N : Nat)
    (st : direct_state σ) (sd T : List Nat) (w1 : σ)
    (hready : slice_wait_ready plat st = true)
    (hread : slice_fifo_read plat st sd = (0, some T, w1))
    (hlen : 4 ≤ T.length) (hN : 1 ≤ N) (hN32 : N < 2 ^ 32) :
    ∃ st1 sd1, read_frame_data_slice plat N st sd = some (st1, sd1) ∧
      sd1.length = T.length ∧
      sd1[0]? = T[0]? ∧
      (∀ i, 4 ≤ i → sd1[i]? = T[i]?) ∧
      sd1[1]? = some ((st.slice_cnt &&& (N - 1)) % 256) ∧
      sd1[2]? = some ((st.slice_cnt / N) % 2 ^ 16 % 256) ∧
      sd1[3]? = some ((st.slice_cnt / N) % 2 ^ 16 / 256) ∧
      (∀ h, 4 ≤ h → sd1.drop h = T.drop h) ∧
      (∀ h j, 4 ≤ h → unpacked_sample (sd1.drop h) j = unpacked_sample (T.drop h) j) ∧
      st1.slice_cnt = (st.slice_cnt + 1) % 2 ^ 32 ∧
      st1.radar = st.radar := by
  have hw : (plat.bgt60_platform_wait_interrupt st.world).1 > 0 := by
    simp only [slice_wait_ready, decide_eq_true_eq] at hready
    exact hready
  have hread2 := hread
  simp only [slice_fifo_read] at hread2
  have e1 : (N + 2 ^ 32 - 1) % 2 ^ 32 = N - 1 := by
    have : N + 2 ^ 32 - 1 = (N - 1) + 2 ^ 32 := by omega
    rw [this, Nat.add_mod_right, Nat.mod_eq_of_lt (by omega)]
  have e2 : (st.slice_cnt / N) &&& 0xFFFF = (st.slice_cnt / N) % 2 ^ 16 :=
    Nat.and_pow_two_sub_one_eq_mod _ 16
  have e3 : (st.slice_cnt / N) % 2 ^ 16 / 256 % 256 = (st.slice_cnt / N) % 2 ^ 16 / 256 := by
    have : (st.slice_cnt / N) % 2 ^ 16 < 65536 := Nat.mod_lt _ (by decide)
    omega
  simp only [read_frame_data_slice, hw, if_true, hread2, Option.getD_some, e1, e2, e3]
  rw [if_neg (by omega)]
  have hdrop : ∀ h, 4 ≤ h →
      (((T.set 1 ((st.slice_cnt &&& (N - 1)) % 256)).set 2
        ((st.slice_cnt / N) % 2 ^ 16 % 256)).set 3 ((st.slice_cnt / N) % 2 ^ 16 / 256)).drop h =
      T.drop h := by
    intro h hh
    rw [List.drop_set_of_lt _ _ (by omega), List.drop_set_of_lt _ _ (by omega),
      List.drop_set_of_lt _ _ (by omega)]
  refine ⟨_, _, rfl, ?_, ?_, ?_, ?_, ?_, ?_, hdrop, ?_, rfl, rfl⟩
  · simp only [List.length_set]
  · rw [List.getElem?_set_ne (by decide), List.getElem?_set_ne (by decide),
      List.getElem?_set_ne (by decide)]
  · intro i hi
    rw [List.getElem?_set_ne (by omega), List.getElem?_set_ne (by omega),
      List.getElem?_set_ne (by omega)]
  · rw [List.getElem?_set_ne (by decide), List.getElem?_set_ne (by decide),
      List.getElem?_set_self (by omega)]
  · rw [List.getElem?_set_ne (by decide),
      List.getElem?_set_self (by simp only [List.length_set]; omega)]
  · rw [List.getElem?_set_self (by simp only [List.length_set]; omega)]
  · intro h j hh
    rw [hdrop h hh]

/-- Instance of C33: slice counter 5 in a frame of 2 slices; the transport leaves
`09 09 09 09 AB CD EF`, byte 1 becomes `5 & 1 = 1`, the bytes 2 and 3 become `02 00`. -/
theorem read_frame_data_header_overwrite_witness :
    ∃ w1 st1,
      slice_wait_ready sample_platform
        { two_slice_session (sim_dev [0, 0, 3, 3] 0 [9, 9, 9, 9, 0xAB, 0xCD, 0xEF] 1) with
          slice_cnt := 5 } = true ∧
      slice_fifo_read sample_platform
        { two_slice_session (sim_dev [0, 0, 3, 3] 0 [9, 9, 9, 9, 0xAB, 0xCD, 0xEF] 1) with
          slice_cnt := 5 } (List.replicate 7 0) = (0, some [9, 9, 9, 9, 0xAB, 0xCD, 0xEF], w1) ∧
      read_frame_data_slice sample_platform 2
        { two_slice_session (sim_dev [0, 0, 3, 3] 0 [9, 9, 9, 9, 0xAB, 0xCD, 0xEF] 1) with
          slice_cnt := 5 } (List.replicate 7 0) = some (st1, [9, 1, 2, 0, 0xAB, 0xCD, 0xEF]) ∧
      st1.slice_cnt = 6 := by
  obtain ⟨st1, sd1, h1, _, _, _, _, _, _, _, _, h10, _⟩ :=
    read_frame_data_header_overwrite sample_platform 2
      { two_slice_session (sim_dev [0, 0, 3, 3] 0 [9, 9, 9, 9, 0xAB, 0xCD, 0xEF] 1) with
        slice_cnt := 5 } (List.replicate 7 0) [9, 9, 9, 9, 0xAB, 0xCD, 0xEF] _
      rfl rfl (by decide) (by decide) (by decide)
  have e : read_frame_data_slice sample_platform 2
      { two_slice_session (sim_dev [0, 0, 3, 3] 0 [9, 9, 9, 9, 0xAB, 0xCD, 0xEF] 1) with
        slice_cnt := 5 } (List.replicate 7 0) = some (_, [9, 1, 2, 0, 0xAB, 0xCD, 0xEF]) := rfl
  rw [e] at h1
  simp only [Option.some.injEq, Prod.mk.injEq] at h1
  refine ⟨_, st1, rfl, rfl, ?_, ?_⟩
  · rw [e, ← h1.1]
  · rw [h10]
    rfl
/-! ## Placement of the slices in the frame -/

theorem read_frame_data_slice_payload {σ : Type} (plat : platform_t σ) (N : Nat)
    (st st1 : direct_state σ) (sd sd1 : List Nat)
    (h : read_frame_data_slice plat N st sd = some (st1, sd1))
    (hready : slice_wait_ready plat st = true) (hok : (slice_fifo_read plat st sd).1 = 0) :
    ∀ hd, 4 ≤ hd → sd1.drop hd = (((slice_fifo_read plat st sd).2.1).getD sd).drop hd := by
  have hw : (plat.bgt60_platform_wait_interrupt st.world).1 > 0 := by
    simp only [slice_wait_ready, decide_eq_true_eq] at hready
    exact hready
  simp only [slice_fifo_read] at hok ⊢
  simp only [read_frame_data_slice, hw, if_true, hok] at h
  split_ifs at h with h1
  simp only [Option.some.injEq, Prod.mk.injEq] at h
  intro hd hhd
  rw [← h.2, List.drop_set_of_lt _ _ (by omega), List.drop_set_of_lt _ _ (by omega),
    List.drop_set_of_lt _ _ (by omega)]

theorem read_frame_data_regions {σ : Type} (M : Nat) (plat : platform_t σ)
    (st : direct_state σ) (F ss h : Nat) (hg : slice_geometry M st.radar F ss h)
    (hlen : transport_keeps_length st.bgt60_dev) (hbytes : transport_bytes st.bgt60_dev) :
    ∃ stN fbN,
      read_frame_data_assemble M plat st = some (stN, fbN) ∧ fbN.length = F ∧
      ∀ k, k < F / (ss * 2) →
        ∃ sk sdk fbk s1 sd1,
          read_frame_data_loop M plat (F / (ss * 2)) k 0 st (List.replicate (3 * ss + h) 0)
              (List.replicate F 0) = some (sk, sdk, fbk) ∧
          read_frame_data_slice plat (F / (ss * 2)) sk sdk = some (s1, sd1) ∧
          ∀ j, j < 2 * ss →
            fbN[k * (F / (F / (ss * 2))) + j]? = some (unpacked_sample (sd1.drop h) j) := by
  have hz : ∀ b ∈ List.replicate (3 * ss + h) 0, b < 256 := fun b hb => by
    rw [List.eq_of_mem_replicate hb]
    decide
  obtain ⟨stN, sdN, fbN, c1, c2, c3, _, _, _⟩ :=
    read_frame_data_spec M plat st F ss h hg hlen hbytes
  refine ⟨stN, fbN, c2, c3, ?_⟩
  intro k hk
  obtain ⟨sk, sdk, fbk, p1, p2, p3, p4, p5, p6, _⟩ :=
    read_frame_data_loop_spec M plat F ss h k 0 st (List.replicate (3 * ss + h) 0)
      (List.replicate F 0) hg hlen hbytes (List.length_replicate _ _) hz
      (List.length_replicate _ _) (by omega)
  have hgk : slice_geometry M sk.radar F ss h := by
    rw [p6]
    exact slice_geometry_fifo_error M st.radar F ss h _ hg
  have hlenk : transport_keeps_length sk.bgt60_dev := by
    rw [p5]
    exact hlen
  have hbytesk : transport_bytes sk.bgt60_dev := by
    rw [p5]
    exact hbytes
  obtain ⟨sA, sdA, fbA, b1, b2, b3, b4, b5, b6, b7, b8, _⟩ :=
    read_frame_data_body_spec M plat sk sdk fbk F ss h k hgk hlenk hbytesk p2 p3 p4 hk
  have hgA : slice_geometry M sA.radar F ss h := by
    rw [b6]
    exact slice_geometry_fifo_error M sk.radar F ss h _ hgk
  obtain ⟨sZ, sdZ, fbZ, z1, _, _, _, _, _, z7⟩ :=
    read_frame_data_loop_spec M plat F ss h (F / (ss * 2) - (k + 1)) (k + 1) sA sdA fbA hgA
      (by rw [b7]; exact hlenk) (by rw [b7]; exact hbytesk) (by omega) b4 b5 (by omega)
  have hN : F / (ss * 2) = k + (1 + (F / (ss * 2) - (k + 1))) := by omega
  have e := read_frame_data_loop_add M plat (F / (ss * 2)) k (1 + (F / (ss * 2) - (k + 1))) 0
    st (List.replicate (3 * ss + h) 0) (List.replicate F 0)
  rw [← hN, c1, p1] at e
  simp only [Option.some_bind, Nat.zero_add] at e
  rw [Nat.add_comm 1, read_frame_data_loop_succ, b1] at e
  simp only [Option.some_bind] at e
  rw [z1] at e
  simp only [Option.some.injEq, Prod.mk.injEq] at e
  refine ⟨sk, sdk, fbk, sA, sdA, p1, b2, ?_⟩
  intro j hj
  obtain ⟨q1, _, _⟩ := slice_region_le F ss k hk
  rw [e.2.2, z7 _ (Or.inl (by rw [Nat.add_mul, Nat.one_mul]; omega))]
  exact b8 j hj

/-- C34: when the frame size `F` is a multiple of `2 * slice_size` and every slice read
of the iteration succeeds, the frame that `read_frame_data` assembles and pushes holds,
at the indices `k * 2 * slice_size + j` with `j < 2 * slice_size`, the samples unpacked from
the bytes 4 onward that the transport delivered for slice `k`. The regions of
the `F / (2 * slice_size)` slices are pairwise disjoint and cover `[0, F)`. -/
theorem read_frame_data_slice_offsets {σ : Type} (M : Nat) (plat : platform_t σ)
    (st : direct_state σ) (F ss : Nat) (hg : slice_geometry M st.radar F ss 4)
    (hlen : transport_keeps_length st.bgt60_dev) (hbytes : transport_bytes st.bgt60_dev)
    (hmul : F % (ss * 2) = 0)
    (hall : ∀ k sk sdk fbk, k < F / (ss * 2) →
      read_frame_data_loop M plat (F / (ss * 2)) k 0 st (List.replicate (3 * ss + 4) 0)
          (List.replicate F 0) = some (sk, sdk, fbk) →
      slice_wait_ready plat sk = true ∧ (slice_fifo_read plat sk sdk).1 = 0) :
    ∃ stN fbN st1,
      read_frame_data_assemble M plat st = some (stN, fbN) ∧
      read_frame_data M plat st = some st1 ∧
      fbN.length = F ∧ F = F / (ss * 2) * (2 * ss) ∧
      (∀ k, k < F / (ss * 2) →
        ∃ sk sdk fbk,
          read_frame_data_loop M plat (F / (ss * 2)) k 0 st (List.replicate (3 * ss + 4) 0)
              (List.replicate F 0) = some (sk, sdk, fbk) ∧
          ∀ j, j < 2 * ss →
            fbN[k * (2 * ss) + j]? =
              some (unpacked_sample ((((slice_fifo_read plat sk sdk).2.1).getD sdk).drop 4) j)) ∧
      (∀ k1 k2 j1 j2, j1 < 2 * ss → j2 < 2 * ss →
        k1 * (2 * ss) + j1 = k2 * (2 * ss) + j2 → k1 = k2 ∧ j1 = j2) ∧
      (∀ i, i < F → ∃ k j, k < F / (ss * 2) ∧ j < 2 * ss ∧ i = k * (2 * ss) + j) ∧
      ((try_push M st.radar.frame_buffer fbN).1 = true →
        st1.radar.frame_buffer.m_data =
          st.radar.frame_buffer.m_data.set
            (st.radar.frame_buffer.m_wr_offset % size st.radar.frame_buffer) fbN) := by
  have hss : 0 < ss := hg.2.2.2.1
  have hF : F = F / (ss * 2) * (2 * ss) := by
    have := Nat.div_add_mod F (ss * 2)
    rw [hmul, Nat.add_zero, Nat.mul_comm] at this
    rw [Nat.mul_comm 2 ss]
    exact this.symm
  have hstep : ∀ k, k < F / (ss * 2) → F / (F / (ss * 2)) = 2 * ss := by
    intro k hk
    have hN : 0 < F / (ss * 2) := by omega
    have e : F / (F / (ss * 2)) = F / (ss * 2) * (2 * ss) / (F / (ss * 2)) := by
      rw [← hF]
    rw [e]
    exact Nat.mul_div_cancel_left _ hN
  obtain ⟨stN, fbN, a1, a2, a3⟩ := read_frame_data_regions M plat st F ss 4 hg hlen hbytes
  obtain ⟨stN2, _, fbN2, _, c2, _, _, _, c6⟩ :=
    read_frame_data_spec M plat st F ss 4 hg hlen hbytes
  rw [a1] at c2
  simp only [Option.some.injEq, Prod.mk.injEq] at c2
  rw [← c2.1, ← c2.2] at c6
  refine ⟨stN, fbN, _, a1, c6, a2, hF, ?_, ?_, ?_, ?_⟩
  · intro k hk
    obtain ⟨sk, sdk, fbk, s1, sd1, p1, p2, p3⟩ := a3 k hk
    obtain ⟨r1, r2⟩ := hall k sk sdk fbk hk p1
    refine ⟨sk, sdk, fbk, p1, ?_⟩
    intro j hj
    have := p3 j hj
    rw [hstep k hk, read_frame_data_slice_payload plat _ sk s1 sdk sd1 p2 r1 r2 4 (le_refl _)]
      at this
    exact this
  · intro k1 k2 j1 j2 h1 h2 he
    have hk : k1 = k2 := by
      have e1 : (k1 * (2 * ss) + j1) / (2 * ss) = k1 := by
        rw [Nat.mul_comm, Nat.mul_add_div (by omega), Nat.div_eq_of_lt h1, Nat.add_zero]
      have e2 : (k2 * (2 * ss) + j2) / (2 * ss) = k2 := by
        rw [Nat.mul_comm, Nat.mul_add_div (by omega), Nat.div_eq_of_lt h2, Nat.add_zero]
      rw [← e1, ← e2, he]
    subst hk
    exact ⟨rfl, by omega⟩
  · intro i hi
    refine ⟨i / (2 * ss), i % (2 * ss), ?_, Nat.mod_lt _ (by omega), ?_⟩
    · rw [Nat.mul_comm 2 ss]
      rw [hF] at hi
      rw [Nat.mul_comm 2 ss] at hi
      exact Nat.div_lt_of_lt_mul (by rw [Nat.mul_comm]; exact hi)
    · rw [Nat.mul_comm]
      exact (Nat.div_add_mod i (2 * ss)).symm
  · intro hp
    rw [if_neg (by rw [hp]; decide)]
    simp only []
    rcases try_push_effect M st.radar.frame_buffer fbN with ⟨e, _⟩ | ⟨hroom, _, _⟩
    · rw [e] at hp
      cases hp
    · obtain ⟨slot, _, e⟩ := try_push_fn_ok M st.radar.frame_buffer (fun _ (v : List Nat) => (v, v))
        fbN (by simp only [fill] at hroom; exact hroom)
      simp only [try_push, e, size]

/-- C36: the frame assembly stays inside its buffers. For every frame size `F` and
`slice_size >= 1` with `F >= 2 * slice_size`, with `n = F / (2 * slice_size)` slices and the offset
step `F / n`: `n` is not zero, so the division `F / n` is defined whenever the loop body
runs; every frame index `k * (F / n) + j` written for a slice `k < n` is below `F`, in
particular `(n - 1) * (F / n) + 2 * slice_size <= F`; the `3 * slice_size` bytes read from the slice
buffer lie below its size `4 + 3 * slice_size`. In the model, where an access outside
a buffer or a division by zero has no result, the assembly has a result. -/
theorem frame_assembly_in_bounds {σ : Type} (M : Nat) (plat : platform_t σ)
    (st : direct_state σ) (F ss : Nat) (hg : slice_geometry M st.radar F ss 4)
    (hlen : transport_keeps_length st.bgt60_dev) (hbytes : transport_bytes st.bgt60_dev)
    (hF : 2 * ss ≤ F) :
    0 < F / (ss * 2) ∧
    get_num_slices_per_frame st.radar = some (F / (ss * 2)) ∧
    get_num_samples_per_slice st.radar = some (F / (F / (ss * 2))) ∧
    (F / (ss * 2) - 1) * (F / (F / (ss * 2))) + 2 * ss ≤ F ∧
    (∀ k j, k < F / (ss * 2) → j < 2 * ss → k * (F / (F / (ss * 2))) + j < F) ∧
    get_spi_transfer_size M st.radar = 4 + 3 * ss ∧
    size_sub M (get_spi_transfer_size M st.radar) st.radar.header_size = 3 * ss ∧
    (∀ i, i < 3 * ss → st.radar.header_size + i < get_spi_transfer_size M st.radar) ∧
    (∃ stN fbN, read_frame_data_assemble M plat st = some (stN, fbN) ∧ fbN.length = F) ∧
    (∀ F1 ss1 : Nat, 1 ≤ ss1 → 2 * ss1 ≤ F1 →
      0 < F1 / (2 * ss1) ∧
      (F1 / (2 * ss1) - 1) * (F1 / (F1 / (2 * ss1))) + 2 * ss1 ≤ F1) := by
  have hss : 0 < ss := hg.2.2.2.1
  have hN : 0 < F / (ss * 2) := Nat.div_pos (by omega) (by omega)
  obtain ⟨s1, s2⟩ := slice_geometry_slices M st.radar F ss 4 hg
  obtain ⟨t1, t2⟩ := slice_geometry_transfer_size M st.radar F ss 4 hg
  have hh : st.radar.header_size = 4 := hg.2.2.1
  obtain ⟨stN, fbN, a1, a2, _⟩ := read_frame_data_regions M plat st F ss 4 hg hlen hbytes
  refine ⟨hN, s1, s2 hN, ?_, ?_, by omega, t2, ?_, ⟨stN, fbN, a1, a2⟩, ?_⟩
  · exact (slice_region_le F ss (F / (ss * 2) - 1) (by omega)).2.1
  · intro k j hk hj
    have := (slice_region_le F ss k hk).2.1
    omega
  · intro i hi
    rw [hh, t1]
    omega
  · intro F1 ss1 h1 h2
    have hN1 : 0 < F1 / (ss1 * 2) := Nat.div_pos (by omega) (by omega)
    have := (slice_region_le F1 ss1 (F1 / (ss1 * 2) - 1) (by omega)).2.1
    rw [Nat.mul_comm ss1 2] at hN1 this
    exact ⟨hN1, this⟩
/-- Instance of C34: a frame of two slices of two samples, every read succeeds and
delivers the payload `AB CD EF`; the frame is the two unpacked payloads in order. -/
theorem read_frame_data_slice_offsets_witness :
    slice_geometry (2 ^ 64)
      (two_slice_session (sim_dev [0, 0, 3, 3] 0 [9, 9, 9, 9, 0xAB, 0xCD, 0xEF] 1)).radar
      4 1 4 ∧
    4 % (1 * 2) = 0 ∧
    ∃ stN fbN,
      read_frame_data_assemble (2 ^ 64) sample_platform
          (two_slice_session (sim_dev [0, 0, 3, 3] 0 [9, 9, 9, 9, 0xAB, 0xCD, 0xEF] 1)) =
        some (stN, fbN) ∧
      fbN = [0xABC, 0xDEF, 0xABC, 0xDEF] ∧
      ∀ i, i < 4 → ∃ k j, k < 4 / (1 * 2) ∧ j < 2 * 1 ∧ i = k * (2 * 1) + j := by
  have hg : slice_geometry (2 ^ 64)
      (two_slice_session (sim_dev [0, 0, 3, 3] 0 [9, 9, 9, 9, 0xAB, 0xCD, 0xEF] 1)).radar
      4 1 4 := by
    unfold slice_geometry
    decide
  refine ⟨hg, by decide, ?_⟩
  obtain ⟨stN, fbN, st1, h1, _, _, _, _, _, h7, _⟩ :=
    read_frame_data_slice_offsets (2 ^ 64) sample_platform
      (two_slice_session (sim_dev [0, 0, 3, 3] 0 [9, 9, 9, 9, 0xAB, 0xCD, 0xEF] 1)) 4 1 hg
      (transport_keeps_length_sim_dev _ _ _ _) (transport_bytes_sim_dev _ _ _ _) (by decide)
      (by
        intro k sk sdk fbk _ hl
        have hd := (read_frame_data_loop_le (2 ^ 64) sample_platform (4 / (1 * 2)) k 0 _ sk _ sdk
          _ fbk (transport_bytes_sim_dev _ _ _ _)
          (fun b hb => by rw [List.eq_of_mem_replicate hb]; decide)
          (fun b hb => by rw [List.eq_of_mem_replicate hb]; decide) hl).2.1
        refine ⟨rfl, ?_⟩
        simp only [slice_fifo_read, bgt60_get_fifo_data, hd, two_slice_session, sim_dev]
        split <;> rfl)
  have e : Option.map Prod.snd (read_frame_data_assemble (2 ^ 64) sample_platform
      (two_slice_session (sim_dev [0, 0, 3, 3] 0 [9, 9, 9, 9, 0xAB, 0xCD, 0xEF] 1))) =
      some [0xABC, 0xDEF, 0xABC, 0xDEF] := rfl
  rw [h1] at e
  simp only [Option.map_some', Option.some.injEq] at e
  exact ⟨stN, fbN, h1, e, h7⟩

/-- Instance of C36: frame size 4, slice size 1: two slices with the offset step
2; the indices written are 0 to 3 and the assembly has a result. -/
theorem frame_assembly_in_bounds_witness :
    slice_geometry (2 ^ 64)
      (two_slice_session (sim_dev [0, 0, 3, 3] 0 [9, 9, 9, 9, 0xAB, 0xCD, 0xEF] 1)).radar
      4 1 4 ∧
    2 * 1 ≤ 4 ∧ 0 < 4 / (1 * 2) ∧ (4 / (1 * 2) - 1) * (4 / (4 / (1 * 2))) + 2 * 1 ≤ 4 ∧
    ∃ stN fbN,
      read_frame_data_assemble (2 ^ 64) sample_platform
          (two_slice_session (sim_dev [0, 0, 3, 3] 0 [9, 9, 9, 9, 0xAB, 0xCD, 0xEF] 1)) =
        some (stN, fbN) ∧
      fbN.length = 4 := by
  have hg : slice_geometry (2 ^ 64)
      (two_slice_session (sim_dev [0, 0, 3, 3] 0 [9, 9, 9, 9, 0xAB, 0xCD, 0xEF] 1)).radar
      4 1 4 := by
    unfold slice_geometry
    decide
  have h := frame_assembly_in_bounds (2 ^ 64) sample_platform
    (two_slice_session (sim_dev [0, 0, 3, 3] 0 [9, 9, 9, 9, 0xAB, 0xCD, 0xEF] 1)) 4 1 hg
    (transport_keeps_length_sim_dev _ _ _ _) (transport_bytes_sim_dev _ _ _ _) (by decide)
  exact ⟨hg, by decide, h.1, h.2.2.2.1, h.2.2.2.2.2.2.2.2.1⟩
/-! ## A fetch before the first start (C32) -/

/-- With a mode description in place a fetch on a session that is not started
returns false with `*out = NULL`; the ring buffer and the shift register are as
before. -/
theorem direct_device_acq_fetch_not_started {σ : Type} (M : Nat) (st : direct_state σ)
    (mode : direct_mode_description_t) (hmode : st.radar.mode = some mode)
    (hs : st.radar.is_started = false) :
    ∃ st1,
      direct_device_acq_fetch M st = some (false, st1, none) ∧
      st1.radar = st.radar ∧
      st1.test_mode_shift_register = st.test_mode_shift_register := by
  simp only [direct_device_acq_fetch, radar_fetch_frame, get_num_samples_per_frame, hmode, hs]
  exact ⟨_, rfl, rfl, rfl⟩

/-- Evaluation for C32: after `direct_device_init()` alone the session is not started and
`radar.mode` is `NULL`; `direct_device_acq_fetch` evaluates `get_num_samples_per_frame()`, which reads
through `radar.mode`, before it looks at `is_started`, so the call has no defined
result instead of the result false. -/
theorem direct_device_acq_fetch_before_start :
    (direct_device_init sim_idle_session).radar.is_started = false ∧
    (direct_device_init sim_idle_session).radar.mode = none ∧
    get_num_samples_per_frame (direct_device_init sim_idle_session).radar = none ∧
    direct_device_acq_fetch (2 ^ 64) (direct_device_init sim_idle_session) = none :=
  ⟨rfl, rfl, rfl, rfl⟩

/-! ## The chip identity check on a failed transfer (C39) -/

/-- Evaluation for C39: on a transport where every transfer with the chip-identity
request fails with the status -1 and leaves the bytes `03 03 00 00` in the
receive buffer, every read of the chip-identity register fails, and `bgt60_init`
still programs the 39 registers of the list and returns `BGT60_STATUS_OK` with the slice
size 8: the log holds 45 transfers, one of them the failed chip-identity
read. -/
theorem bgt60_init_chipid_read_failure :
    (∀ c w,
      (bgt60_get_reg
        (some (selective_dev (bgt60_get_reg_word sample_regs.BGT60_REG_CHIP_ID) [3, 3, 0, 0]
          [0, 0, 0, 7] 7)) sample_regs.BGT60_REG_CHIP_ID c w).1 = -1) ∧
    (bgt60_init sample_regs (bgt60_uninit_t.mk 0 0 0)
      (some (selective_dev (bgt60_get_reg_word sample_regs.BGT60_REG_CHIP_ID) [3, 3, 0, 0]
        [0, 0, 0, 7] 7)) (some regs_landscape_460MHz) []).map
        (fun r => (r.1, r.2.1.map (fun dv => dv.slice_size), r.2.2.length,
          (r.2.2.filter
            (fun e => e.1 = bgt60_get_reg_word sample_regs.BGT60_REG_CHIP_ID)).length)) =
      some (BGT60_STATUS_OK, some 8, 45, 1) := by
  refine ⟨fun c w => rfl, ?_⟩
  decide

/-- Evaluation for C40: on the vector `(1, 2, 3)` with the shift 1 the in-place
branch of `ifx_vec_copyshift_r`, reached through `ifx_vec_shift_r`, leaves `(2, 3, 1)`, and the
branch for a distinct target leaves `(3, 1, 2)` in the target. -/
theorem ifx_vec_copyshift_r_branches_differ :
    ifx_vec_shift_r [1, 2, 3] 1 = some [2, 3, 1] ∧
    ifx_vec_copyshift_r [1, 2, 3] 1 (some [0, 0, 0]) = some [3, 1, 2] ∧
    ifx_vec_shift_r [1, 2, 3] 1 ≠ ifx_vec_copyshift_r [1, 2, 3] 1 (some [0, 0, 0]) := by
  decide
/-! ## Persistence of the session flags (C31) -/

theorem flags_kept_refl {σ : Type} (st : direct_state σ) : flags_kept st st :=
  ⟨fun h => h, fun h => h⟩

theorem flags_kept_trans {σ : Type} (st st1 st2 : direct_state σ) (h1 : flags_kept st st1)
    (h2 : flags_kept st1 st2) : flags_kept st st2 :=
  ⟨fun h => h2.1 (h1.1 h), fun h => h2.2 (h1.2 h)⟩

theorem read_frame_data_slice_flags {σ : Type} (plat : platform_t σ) (n : Nat)
    (st st1 : direct_state σ) (sd sd1 : List Nat)
    (h : read_frame_data_slice plat n st sd = some (st1, sd1)) : flags_kept st st1 := by
  unfold read_frame_data_slice at h
  simp only [bgt60_get_fifo_data, Option.getD_some] at h
  split_ifs at h with h1 h2 h3
  · simp only [Option.some.injEq, Prod.mk.injEq] at h
    rw [← h.1]
    exact ⟨fun g => g, fun g => g⟩
  · simp only [Option.some.injEq, Prod.mk.injEq] at h
    rw [← h.1]
    exact ⟨fun _ => rfl, fun g => g⟩
  · simp only [Option.some.injEq, Prod.mk.injEq] at h
    rw [← h.1]
    exact ⟨fun g => g, fun g => g⟩

theorem read_frame_data_loop_flags {σ : Type} (M : Nat) (plat : platform_t σ) (num : Nat) :
    ∀ (n slice : Nat) (st st1 : direct_state σ) (sd sd1 fb fb1 : List Nat),
      read_frame_data_loop M plat num n slice st sd fb = some (st1, sd1, fb1) →
      flags_kept st st1 := by
  intro n
  induction n with
  | zero =>
    intro slice st st1 sd sd1 fb fb1 h
    simp only [read_frame_data_loop, Option.some.injEq, Prod.mk.injEq] at h
    rw [← h.1]
    exact flags_kept_refl st
  | succ n ih =>
    intro slice st st1 sd sd1 fb fb1 h
    rw [read_frame_data_loop] at h
    cases hs : read_frame_data_slice plat num st sd with
    | none => simp [hs] at h
    | some p =>
      obtain ⟨st2, sd2⟩ := p
      have hr2 := read_frame_data_slice_flags plat num st st2 sd sd2 hs
      simp only [hs] at h
      cases hq : get_num_samples_per_slice st2.radar with
      | none => simp [hq] at h
      | some sps =>
        simp only [hq] at h
        cases hu : unpack_raw12 (sd2.drop st2.radar.header_size)
            (size_sub M (get_spi_transfer_size M st2.radar) st2.radar.header_size) fb
            ((slice * sps) % M) with
        | none => simp [hu] at h
        | some fb2 =>
          simp only [hu] at h
          exact flags_kept_trans st st2 st1 hr2 (ih (slice + 1) st2 st1 sd2 sd1 fb2 fb1 h)

/-- An iteration of the acquisition thread clears neither flag. -/
theorem read_frame_data_flags {σ : Type} (M : Nat) (plat : platform_t σ)
    (st st1 : direct_state σ) (h : read_frame_data M plat st = some st1) :
    flags_kept st st1 := by
  unfold read_frame_data at h
  cases ha : read_frame_data_assemble M plat st with
  | none => simp [ha] at h
  | some p =>
    obtain ⟨st2, fb⟩ := p
    have hk : flags_kept st st2 := by
      unfold read_frame_data_assemble at ha
      cases h1 : get_num_samples_per_frame st.radar with
      | none => simp [h1] at ha
      | some F =>
        cases h2 : get_num_slices_per_frame st.radar with
        | none => simp [h1, h2] at ha
        | some n =>
          simp only [h1, h2] at ha
          cases h3 : read_frame_data_loop M plat n n 0 st
              (List.replicate (get_spi_transfer_size M st.radar) 0) (List.replicate F 0) with
          | none => simp [h3] at ha
          | some r =>
            obtain ⟨st3, sd3, fb3⟩ := r
            simp only [h3, Option.some.injEq, Prod.mk.injEq] at ha
            rw [← ha.1]
            exact read_frame_data_loop_flags M plat n n 0 st st3 _ sd3 _ fb3 h3
    simp only [ha] at h
    split_ifs at h
    · simp only [Option.some.injEq] at h
      rw [← h]
      exact ⟨fun g => hk.1 g, fun _ => rfl⟩
    · simp only [Option.some.injEq] at h
      rw [← h]
      exact ⟨fun g => hk.1 g, fun g => hk.2 g⟩

/-- A call of `radar_fetch_frame` leaves both flags as they are. -/
theorem radar_fetch_frame_flags {σ : Type} (M : Nat) (st : direct_state σ)
    (frame : Option ifx_Cube_R_t) (r : Bool × direct_state σ × Option ifx_Cube_R_t)
    (h : radar_fetch_frame M st frame = some r) :
    r.2.1.radar.fifo_error = st.radar.fifo_error ∧
      r.2.1.radar.buffer_overflow = st.radar.buffer_overflow := by
  unfold radar_fetch_frame at h
  cases h1 : get_num_samples_per_frame st.radar with
  | none => simp [h1] at h
  | some F =>
    cases h2 : st.radar.mode with
    | none => simp [h1, h2] at h
    | some mode =>
      simp only [h1, h2] at h
      split_ifs at h with hs hf ht
      · cases hi : integrity_loop M
            (try_pop M st.radar.frame_buffer (List.replicate F 0)).2.2 F mode.num_antennas
            (F + 1) 0 st.test_mode_shift_register with
        | none => simp [hi] at h
        | some q =>
          obtain ⟨o, reg⟩ := q
          cases o with
          | some t =>
            obtain ⟨i, e, a⟩ := t
            simp only [hi, Option.some.injEq] at h
            subst h
            exact ⟨rfl, rfl⟩
          | none =>
            simp only [hi] at h
            cases frame with
            | none => simp at h
            | some cube =>
              simp only at h
              cases hg : get_next_frame_from_buffer M
                  (List.replicate
                    (try_pop M st.radar.frame_buffer (List.replicate F 0)).2.2.length 0)
                  cube with
              | none => simp [hg] at h
              | some g =>
                simp only [hg, Option.some.injEq] at h
                subst h
                exact ⟨rfl, rfl⟩
      · cases frame with
        | none => simp at h
        | some cube =>
          simp only at h
          cases hg : get_next_frame_from_buffer M
              (try_pop M st.radar.frame_buffer (List.replicate F 0)).2.2 cube with
          | none => simp [hg] at h
          | some g =>
            simp only [hg, Option.some.injEq] at h
            subst h
            exact ⟨rfl, rfl⟩
      · simp only [Option.some.injEq] at h
        subst h
        exact ⟨rfl, rfl⟩

/-- A fetch call clears neither flag. -/
theorem direct_device_acq_fetch_flags {σ : Type} (M : Nat) (st : direct_state σ)
    (r : Bool × direct_state σ × Option ifx_Cube_R_t)
    (h : direct_device_acq_fetch M st = some r) : flags_kept st r.2.1 := by
  unfold direct_device_acq_fetch at h
  cases hf : radar_fetch_frame M st st.radar_data_frame with
  | none => simp [hf] at h
  | some q =>
    have hq := radar_fetch_frame_flags M st _ q hf
    simp only [hf] at h
    split_ifs at h
    · simp only [Option.some.injEq] at h
      subst h
      exact ⟨fun g => hq.1.trans g, fun g => hq.2.trans g⟩
    · simp only [Option.some.injEq] at h
      subst h
      exact ⟨fun g => hq.1.trans g, fun g => hq.2.trans g⟩

/-- A stop clears neither flag. -/
theorem direct_device_stop_flags {σ : Type} (M : Nat) (plat : platform_t σ) (in_flight : Bool)
    (st st1 : direct_state σ) (h : direct_device_stop M plat in_flight st = some st1) :
    flags_kept st st1 := by
  unfold direct_device_stop at h
  by_cases hs : st.radar.is_started = true
  · simp only [hs, if_true] at h
    cases hb : in_flight with
    | false =>
      simp only [hb, Bool.false_eq_true, if_false, Option.some.injEq] at h
      subst h
      exact ⟨fun g => g, fun g => g⟩
    | true =>
      simp only [hb, if_true] at h
      cases hr : read_frame_data M plat
          { st with radar := { st.radar with is_started := false } } with
      | none => simp [hr] at h
      | some st2 =>
        have hk := read_frame_data_flags M plat _ st2 hr
        simp only [hr, Option.some.injEq] at h
        subst h
        exact ⟨fun g => hk.1 g, fun g => hk.2 g⟩
  · have hs1 : st.radar.is_started = false := by simpa using hs
    simp only [hs1, Bool.false_eq_true, if_false, Option.some.injEq] at h
    subst h
    exact ⟨fun g => g, fun g => g⟩

theorem session_step_flags {σ : Type} (M : Nat) (plat : platform_t σ) (c : session_call)
    (st st1 : direct_state σ) (h : session_step M plat c st = some st1) : flags_kept st st1 := by
  cases c with
  | iteration => exact read_frame_data_flags M plat st st1 h
  | fetch =>
    simp only [session_step] at h
    cases hf : direct_device_acq_fetch M st with
    | none => simp [hf] at h
    | some r =>
      simp only [hf, Option.some.injEq] at h
      subst h
      exact direct_device_acq_fetch_flags M st r hf
  | stop in_flight => exact direct_device_stop_flags M plat in_flight st st1 h

/-- C31: the flags `fifo_error` and `buffer_overflow` are cleared by `direct_device_init` and by
nothing that follows the start of a session: a flag that is true in a session
state is true after every finite sequence of `read_frame_data` iterations, fetch calls
and stops that runs from that state. -/
theorem session_flags_persist {σ : Type} (M : Nat) (plat : platform_t σ)
    (calls : List session_call) (st st1 : direct_state σ)
    (h : session_run M plat calls st = some st1) :
    (st.radar.fifo_error = true → st1.radar.fifo_error = true) ∧
    (st.radar.buffer_overflow = true → st1.radar.buffer_overflow = true) ∧
    (direct_device_init st).radar.fifo_error = false ∧
    (direct_device_init st).radar.buffer_overflow = false := by
  have key : ∀ (cs : List session_call) (s s1 : direct_state σ),
      session_run M plat cs s = some s1 → flags_kept s s1 := by
    intro cs
    induction cs with
    | nil =>
      intro s s1 hr
      simp only [session_run, Option.some.injEq] at hr
      subst hr
      exact flags_kept_refl s
    | cons c cs ih =>
      intro s s1 hr
      rw [session_run] at hr
      cases hc : session_step M plat c s with
      | none => simp [hc] at hr
      | some s2 =>
        simp only [hc] at hr
        exact flags_kept_trans s s2 s1 (session_step_flags M plat c s s2 hc) (ih s2 s1 hr)
  exact ⟨(key calls st st1 h).1, (key calls st st1 h).2, rfl, rfl⟩

/-- Instance of C31: in a session with both flags set a fetch, an iteration of
the acquisition thread, a stop during an iteration and another fetch run
through, and both flags are still set. -/
theorem session_flags_persist_witness :
    ∃ st1,
      session_run (2 ^ 64) sample_platform
          [session_call.fetch, session_call.iteration, session_call.stop true,
            session_call.fetch] flagged_session = some st1 ∧
      flagged_session.radar.fifo_error = true ∧
      flagged_session.radar.buffer_overflow = true ∧
      st1.radar.fifo_error = true ∧ st1.radar.buffer_overflow = true := by
  have hsome : (session_run (2 ^ 64) sample_platform
      [session_call.fetch, session_call.iteration, session_call.stop true,
        session_call.fetch] flagged_session).isSome = true := rfl
  obtain ⟨st1, h⟩ := Option.isSome_iff_exists.mp hsome
  have hk := session_flags_persist (2 ^ 64) sample_platform _ flagged_session st1 h
  exact ⟨st1, h, rfl, rfl, hk.1 rfl, hk.2.1 rfl⟩
/-! ## First-in first-out order of the ring buffer (C37) -/

theorem pushed_values_append {T : Type} (M : Nat) (a b : List (rb_call T)) :
    ∀ rb : SingleReaderSingleWriterRingBuffer T,
      pushed_values M rb (a ++ b) = pushed_values M rb a ++ pushed_values M (rb_run M rb a) b := by
  induction a with
  | nil =>
    intro rb
    rfl
  | cons c cs ih =>
    intro rb
    cases c with
    | push v => simp only [List.cons_append, pushed_values, rb_run, List.append_eq, ih, List.append_assoc]
    | pop dest => simp only [List.cons_append, pushed_values, rb_run, List.append_eq, ih]
    | pop_discard => simp only [List.cons_append, pushed_values, rb_run, List.append_eq, ih]

theorem popped_values_append {T : Type} (M : Nat) (a b : List (rb_call T)) :
    ∀ rb : SingleReaderSingleWriterRingBuffer T,
      popped_values M rb (a ++ b) = popped_values M rb a ++ popped_values M (rb_run M rb a) b := by
  induction a with
  | nil =>
    intro rb
    rfl
  | cons c cs ih =>
    intro rb
    cases c with
    | push v => simp only [List.cons_append, popped_values, rb_run, List.append_eq, ih]
    | pop dest => simp only [List.cons_append, popped_values, rb_run, List.append_eq, ih, List.append_assoc]
    | pop_discard => simp only [List.cons_append, popped_values, rb_run, List.append_eq, ih, List.append_assoc]

/-- The difference of two reduced cursors is the reduced difference of the
counts behind them. -/
theorem size_sub_mod (M W R : Nat) (hM : 0 < M) (h : R ≤ W) :
    size_sub M (W % M) (R % M) = (W - R) % M := by
  unfold size_sub
  simp only [Nat.mod_mod]
  have hr := Nat.mod_lt R hM
  have key : (W % M + (M - R % M)) ≡ W - R [MOD M] := by
    refine Int.natCast_modEq_iff.mp ?_
    rw [Nat.cast_add, Nat.cast_sub hr.le, Nat.cast_sub h, Int.natCast_mod, Int.natCast_mod]
    have h1 : (W : ℤ) % M ≡ W [ZMOD M] := Int.mod_modEq _ _
    have h2 : (R : ℤ) % M ≡ R [ZMOD M] := Int.mod_modEq _ _
    have h3 : (M : ℤ) ≡ 0 [ZMOD M] := Int.emod_self
    have h4 := h1.add (h3.sub h2)
    simpa using h4
  rw [key]

/-- The cursor arithmetic behind the counts `W` of pushes and `R` of pops, when the
capacity divides the modulus or the push count is below the modulus. -/
theorem cursor_facts (M cap W R : Nat) (hR : R ≤ W) (hfill : W - R ≤ cap)
    (hc : (cap ∣ M ∧ cap < M) ∨ W < M) :
    0 < M ∧ (W % M) % cap = W % cap ∧ (R % M) % cap = R % cap ∧
      size_sub M (W % M) (R % M) = W - R ∧ (R % M = W % M ↔ R = W) := by
  have hM : 0 < M := by
    rcases hc with h | h <;> omega
  have hlt : W - R < M := by
    rcases hc with h | h <;> omega
  have hidx : ∀ x, x ≤ W → (x % M) % cap = x % cap := by
    intro x hx
    rcases hc with h | h
    · exact Nat.mod_mod_of_dvd x h.1
    · rw [Nat.mod_eq_of_lt (lt_of_le_of_lt hx h)]
  refine ⟨hM, hidx W le_rfl, hidx R hR, ?_, ?_⟩
  · rw [size_sub_mod M W R hM hR, Nat.mod_eq_of_lt hlt]
  · constructor
    · intro e
      have hd : M ∣ W - R := (Nat.modEq_iff_dvd' hR).mp e
      have := Nat.eq_zero_of_dvd_of_lt hd hlt
      omega
    · intro e
      rw [e]

/-- The first-in first-out invariant: with the values `P` pushed so far, `R` of them
popped, the cursors at the reduced counts and the values not yet popped in
their slots, the values popped by any further calls are the values pushed,
from position `R` on, in order. -/
theorem fifo_invariant {T : Type} (M : Nat) (calls : List (rb_call T)) :
    ∀ (rb : SingleReaderSingleWriterRingBuffer T) (P : List T) (R : Nat),
      R ≤ P.length → P.length - R ≤ rb.m_data.length →
      rb.m_wr_offset = P.length % M → rb.m_rd_offset = R % M →
      (∀ i, R ≤ i → i < P.length → rb.m_data[i % rb.m_data.length]? = P[i]?) →
      ((rb.m_data.length ∣ M ∧ rb.m_data.length < M) ∨
        P.length + (pushed_values M rb calls).length < M) →
      ∃ n, popped_values M rb calls = ((P ++ pushed_values M rb calls).drop R).take n := by
  induction calls with
  | nil =>
    intro rb P R _ _ _ _ _ _
    exact ⟨0, by simp [popped_values]⟩
  | cons c cs ih =>
    intro rb P R hR hfill hwr hrd hdata hc
    have hc0 : (rb.m_data.length ∣ M ∧ rb.m_data.length < M) ∨ P.length < M := by
      rcases hc with h | h
      · exact Or.inl h
      · exact Or.inr (by omega)
    obtain ⟨hM, iW, iR, hsub, hemp⟩ := cursor_facts M rb.m_data.length P.length R hR hfill hc0
    have pop_case : ∀ (S : Type) (fn : T → S → T × S) (env : S),
        (∀ slot e, (fn slot e).1 = slot) →
        (R = P.length ∧ try_pop_fn M rb fn env = (false, rb, env)) ∨
        (∃ x, P[R]? = some x ∧ R < P.length ∧
          try_pop_fn M rb fn env =
            (true, SingleReaderSingleWriterRingBuffer.mk ((R + 1) % M) rb.m_wr_offset rb.m_data,
              (fn x env).2)) := by
      intro S fn env hfn
      by_cases he : R = P.length
      · left
        refine ⟨he, ?_⟩
        simp [try_pop_fn, hwr, hrd, he]
      · right
        have hlt : R < P.length := lt_of_le_of_ne hR he
        have hcap : 0 < rb.m_data.length := by omega
        have hidx : R % rb.m_data.length < rb.m_data.length := Nat.mod_lt _ hcap
        have hslot := hdata R le_rfl hlt
        rw [List.getElem?_eq_getElem hlt] at hslot
        refine ⟨P[R], List.getElem?_eq_getElem hlt, hlt, ?_⟩
        have hne : ¬ R % M = P.length % M := fun e => he (hemp.mp e)
        have hset : rb.m_data.set (R % rb.m_data.length) P[R] = rb.m_data := by
          apply List.ext_getElem?
          intro j
          by_cases hj : R % rb.m_data.length = j
          · subst hj
            rw [List.getElem?_set_self hidx, hslot]
          · rw [List.getElem?_set_ne hj]
        simp only [try_pop_fn, hwr, hrd, hne, if_false, iR, hslot, hfn, hset, size_add,
          Nat.mod_add_mod]
    cases c with
    | push v =>
      by_cases hfull : rb.m_data.length ≤ size_sub M rb.m_wr_offset rb.m_rd_offset
      · have hp : try_push M rb v = (false, rb) := by
          simp only [try_push, try_push_fn_full M rb _ v hfull]
        have e1 : pushed_values M rb (rb_call.push v :: cs) = pushed_values M rb cs := by
          simp [pushed_values, rb_step, hp]
        have e2 : popped_values M rb (rb_call.push v :: cs) = popped_values M rb cs := by
          simp [popped_values, rb_step, hp]
        rw [e1] at hc ⊢
        rw [e2]
        exact ih rb P R hR hfill hwr hrd hdata hc
      · have hlt : size_sub M rb.m_wr_offset rb.m_rd_offset < rb.m_data.length := by omega
        obtain ⟨slot, _, hpush⟩ := try_push_fn_ok M rb (fun _ (x : T) => (x, x)) v hlt
        have hp : try_push M rb v =
            (true, SingleReaderSingleWriterRingBuffer.mk rb.m_rd_offset ((P.length + 1) % M)
              (rb.m_data.set (P.length % rb.m_data.length) v)) := by
          simp only [try_push, hpush, size_add, hwr, Nat.mod_add_mod, iW]
        have e1 : pushed_values M rb (rb_call.push v :: cs) =
            v :: pushed_values M
              (SingleReaderSingleWriterRingBuffer.mk rb.m_rd_offset ((P.length + 1) % M)
                (rb.m_data.set (P.length % rb.m_data.length) v)) cs := by
          simp [pushed_values, rb_step, hp]
        have e2 : popped_values M rb (rb_call.push v :: cs) =
            popped_values M
              (SingleReaderSingleWriterRingBuffer.mk rb.m_rd_offset ((P.length + 1) % M)
                (rb.m_data.set (P.length % rb.m_data.length) v)) cs := by
          simp [popped_values, rb_step, hp]
        rw [hwr, hrd, hsub] at hlt
        have hcap : 0 < rb.m_data.length := by omega
        rw [e1] at hc ⊢
        rw [e2]
        obtain ⟨n, hn⟩ := ih
          (SingleReaderSingleWriterRingBuffer.mk rb.m_rd_offset ((P.length + 1) % M)
            (rb.m_data.set (P.length % rb.m_data.length) v)) (P ++ [v]) R
          (by simp only [List.length_append, List.length_singleton]; omega)
          (by simp only [List.length_append, List.length_singleton, List.length_set]; omega)
          (by simp only [List.length_append, List.length_singleton])
          hrd
          (by
            intro i hi1 hi2
            simp only [List.length_append, List.length_singleton] at hi2
            simp only [List.length_set]
            by_cases hi : i = P.length
            · subst hi
              rw [List.getElem?_set_self (Nat.mod_lt _ hcap)]
              simp
            · have hi3 : i < P.length := by omega
              have hne : P.length % rb.m_data.length ≠ i % rb.m_data.length :=
                mod_ne_of_lt_sub rb.m_data.length i P.length hi3 (by omega)
              rw [List.getElem?_set_ne hne, hdata i hi1 hi3, List.getElem?_append_left hi3])
          (by
            simp only [List.length_append, List.length_singleton, List.length_set]
            simp only [List.length_cons] at hc
            rcases hc with h | h
            · exact Or.inl h
            · exact Or.inr (by omega))
        refine ⟨n, ?_⟩
        rw [hn, List.append_assoc, List.singleton_append]
    | pop dest =>
      have e1 : pushed_values M rb (rb_call.pop dest :: cs) =
          pushed_values M (try_pop M rb dest).2.1 cs := by
        simp [pushed_values, rb_step]
      rcases pop_case T (fun value (_ : T) => (value, value)) dest (fun _ _ => rfl) with
        ⟨he, hp⟩ | ⟨x, hx, hlt, hp⟩
      · have hp1 : try_pop M rb dest = (false, rb, dest) := hp
        have e2 : popped_values M rb (rb_call.pop dest :: cs) = popped_values M rb cs := by
          simp [popped_values, rb_step, hp1]
        rw [e1, hp1] at hc ⊢
        rw [e2]
        exact ih rb P R hR hfill hwr hrd hdata hc
      · have hp1 : try_pop M rb dest =
            (true, SingleReaderSingleWriterRingBuffer.mk ((R + 1) % M) rb.m_wr_offset rb.m_data,
              x) := hp
        have e2 : popped_values M rb (rb_call.pop dest :: cs) =
            x :: popped_values M
              (SingleReaderSingleWriterRingBuffer.mk ((R + 1) % M) rb.m_wr_offset rb.m_data)
              cs := by
          simp [popped_values, rb_step, hp1]
        rw [e1, hp1] at hc ⊢
        rw [e2]
        obtain ⟨n, hn⟩ := ih
          (SingleReaderSingleWriterRingBuffer.mk ((R + 1) % M) rb.m_wr_offset rb.m_data) P
          (R + 1) hlt (by simp only []; omega) hwr rfl
          (fun i hi1 hi2 => hdata i (by omega) hi2) hc
        refine ⟨n + 1, ?_⟩
        have hlt2 : R < (P ++ pushed_values M
            (SingleReaderSingleWriterRingBuffer.mk ((R + 1) % M) rb.m_wr_offset rb.m_data)
            cs).length := by
          rw [List.length_append]
          omega
        rw [hn, List.drop_eq_getElem_cons hlt2, List.take_succ_cons]
        congr 1
        have : (P ++ pushed_values M
            (SingleReaderSingleWriterRingBuffer.mk ((R + 1) % M) rb.m_wr_offset rb.m_data)
            cs)[R]? = P[R]? := List.getElem?_append_left hlt
        rw [hx, List.getElem?_eq_getElem hlt2] at this
        exact (Option.some.inj this).symm
    | pop_discard =>
      have e1 : pushed_values M rb (rb_call.pop_discard :: cs) =
          pushed_values M (try_pop_discard M rb).2 cs := by
        simp [pushed_values, rb_step]
      have e0 : popped_values M rb (rb_call.pop_discard :: cs) =
          (try_pop_fn M rb (fun value (_ : List T) => (value, [value])) []).2.2 ++
            popped_values M (try_pop_discard M rb).2 cs := by
        simp [popped_values, rb_step]
      rcases pop_case Unit (fun value (u : Unit) => (value, u)) () (fun _ _ => rfl) with
        ⟨he, hp⟩ | ⟨x, hx, hlt, hp⟩
      · rcases pop_case (List T) (fun value (_ : List T) => (value, [value])) []
          (fun _ _ => rfl) with ⟨_, hq⟩ | ⟨_, _, hlt, _⟩
        · have hp1 : try_pop_discard M rb = (false, rb) := by
            simp only [try_pop_discard, hp]
          rw [e1, hp1] at hc ⊢
          rw [e0, hq, hp1]
          exact ih rb P R hR hfill hwr hrd hdata hc
        · omega
      · rcases pop_case (List T) (fun value (_ : List T) => (value, [value])) []
          (fun _ _ => rfl) with ⟨he, _⟩ | ⟨y, hy, _, hq⟩
        · omega
        · have hxy : y = x := by
            rw [hx] at hy
            exact (Option.some.inj hy).symm
          subst hxy
          have hp1 : try_pop_discard M rb =
              (true,
                SingleReaderSingleWriterRingBuffer.mk ((R + 1) % M) rb.m_wr_offset rb.m_data) := by
            simp only [try_pop_discard, hp]
          rw [e1, hp1] at hc ⊢
          rw [e0, hq, hp1]
          obtain ⟨n, hn⟩ := ih
            (SingleReaderSingleWriterRingBuffer.mk ((R + 1) % M) rb.m_wr_offset rb.m_data) P
            (R + 1) hlt (by simp only []; omega) hwr rfl
            (fun i hi1 hi2 => hdata i (by omega) hi2) hc
          refine ⟨n + 1, ?_⟩
          have hlt2 : R < (P ++ pushed_values M
              (SingleReaderSingleWriterRingBuffer.mk ((R + 1) % M) rb.m_wr_offset rb.m_data)
              cs).length := by
            rw [List.length_append]
            omega
          simp only [List.singleton_append]
          rw [hn, List.drop_eq_getElem_cons hlt2, List.take_succ_cons]
          congr 1
          have : (P ++ pushed_values M
              (SingleReaderSingleWriterRingBuffer.mk ((R + 1) % M) rb.m_wr_offset rb.m_data)
              cs)[R]? = P[R]? := List.getElem?_append_left hlt
          rw [hx, List.getElem?_eq_getElem hlt2] at this
          exact (Option.some.inj this).symm
/-- The run of `n` rounds `try_push(value); try_pop();` on an empty buffer with at least one
slot, as long as the cursors stay below the modulus: every push and every pop
succeeds, and both cursors advance by `n`. -/
theorem push_pop_pairs_run {T : Type} (M : Nat) (v : T) :
    ∀ (n : Nat) (rb : SingleReaderSingleWriterRingBuffer T),
      rb.m_rd_offset = rb.m_wr_offset → rb.m_wr_offset + n < M → 0 < rb.m_data.length →
      (rb_run M rb (push_pop_pairs v n)).m_rd_offset = rb.m_wr_offset + n ∧
      (rb_run M rb (push_pop_pairs v n)).m_wr_offset = rb.m_wr_offset + n ∧
      (rb_run M rb (push_pop_pairs v n)).m_data.length = rb.m_data.length ∧
      pushed_values M rb (push_pop_pairs v n) = List.replicate n v ∧
      popped_values M rb (push_pop_pairs v n) = List.replicate n v := by
  intro n
  induction n with
  | zero =>
    intro rb hrw _ _
    exact ⟨hrw, rfl, rfl, rfl, rfl⟩
  | succ n ih =>
    intro rb hrw hM hcap
    obtain ⟨rd, wr, data⟩ := rb
    simp only at hrw hM hcap
    subst hrw
    have hidx : rd % data.length < data.length := Nat.mod_lt _ hcap
    have hfill : size_sub M rd rd = 0 := by
      rw [size_sub_of_le M rd rd le_rfl (by omega), Nat.sub_self]
    have h1 : (rd + 1) % M = rd + 1 := Nat.mod_eq_of_lt (by omega)
    have hpush : try_push M (SingleReaderSingleWriterRingBuffer.mk rd rd data) v =
        (true, SingleReaderSingleWriterRingBuffer.mk rd (rd + 1) (data.set (rd % data.length) v)) := by
      have hnf : ¬ size_sub M rd rd ≥ data.length := by
        rw [hfill]
        omega
      simp [try_push, try_push_fn, hnf, List.getElem?_eq_getElem hidx, size_add, h1]
    have hslot : (data.set (rd % data.length) v)[rd % data.length]? = some v :=
      List.getElem?_set_self hidx
    have hpop : ∀ (S : Type) (fn : T → S → T × S) (env : S), (∀ slot e, (fn slot e).1 = slot) →
        try_pop_fn M
          (SingleReaderSingleWriterRingBuffer.mk rd (rd + 1) (data.set (rd % data.length) v))
          fn env =
        (true,
          SingleReaderSingleWriterRingBuffer.mk (rd + 1) (rd + 1)
            (data.set (rd % data.length) v),
          (fn v env).2) := by
      intro S fn env hfn
      simp [try_pop_fn, List.length_set, hslot, size_add, h1, hfn]
    have hpd : try_pop_discard M
        (SingleReaderSingleWriterRingBuffer.mk rd (rd + 1) (data.set (rd % data.length) v)) =
        (true,
          SingleReaderSingleWriterRingBuffer.mk (rd + 1) (rd + 1)
            (data.set (rd % data.length) v)) := by
      simp only [try_pop_discard, hpop Unit (fun value (u : Unit) => (value, u)) ()
        (fun _ _ => rfl)]
    obtain ⟨g1, g2, g3, g4, g5⟩ := ih
      (SingleReaderSingleWriterRingBuffer.mk (rd + 1) (rd + 1) (data.set (rd % data.length) v))
      rfl (by simp only []; omega) (by simp only [List.length_set]; exact hcap)
    simp only [List.length_set] at g1 g2 g3
    simp only [push_pop_pairs, rb_run, pushed_values, popped_values, rb_step, hpush, hpd,
      hpop (List T) (fun value (_ : List T) => (value, [value])) [] (fun _ _ => rfl),
      g1, g2, g3, g4, g5, if_true, List.replicate_succ,
      List.singleton_append]
    refine ⟨by omega, by omega, trivial, trivial, trivial⟩

/-- The three calls `try_push(a); try_push(b); try_pop(dest)` on an empty buffer whose cursors stand at
`M - 1`, the last `size_t` value, when slot `(M - 1) % size()` is slot 0: both pushes succeed
and use slot 0, the pop delivers `b`. -/
theorem wrap_tail {T : Type} (M : Nat) (rb : SingleReaderSingleWriterRingBuffer T) (a b dest : T)
    (hM : 3 ≤ M) (hrd : rb.m_rd_offset = M - 1) (hwr : rb.m_wr_offset = M - 1)
    (hcap : 2 ≤ rb.m_data.length) (hmod : (M - 1) % rb.m_data.length = 0) :
    pushed_values M rb [rb_call.push a, rb_call.push b, rb_call.pop dest] = [a, b] ∧
    popped_values M rb [rb_call.push a, rb_call.push b, rb_call.pop dest] = [b] := by
  obtain ⟨rd, wr, data⟩ := rb
  simp only at hrd hwr hcap hmod
  subst hrd
  subst hwr
  have f1 : size_sub M (M - 1) (M - 1) = 0 := by
    rw [size_sub_of_le M (M - 1) (M - 1) le_rfl (by omega), Nat.sub_self]
  have f2 : size_add M (M - 1) 1 = 0 := by
    unfold size_add
    rw [Nat.sub_add_cancel (by omega), Nat.mod_self]
  have f3 : size_sub M 0 (M - 1) = 1 := by
    unfold size_sub
    rw [Nat.zero_mod, Nat.mod_eq_of_lt (by omega : M - 1 < M), Nat.zero_add,
      Nat.sub_sub_self (by omega), Nat.mod_eq_of_lt (by omega)]
  have f4 : size_add M 0 1 = 1 := by
    unfold size_add
    rw [Nat.zero_add, Nat.mod_eq_of_lt (by omega)]
  have f5 : size_add M (M - 1) 1 = 0 := f2
  have h0 : 0 < data.length := by omega
  have n1 : ¬ size_sub M (M - 1) (M - 1) ≥ data.length := by
    rw [f1]
    omega
  have n2 : ¬ size_sub M 0 (M - 1) ≥ (data.set 0 a).length := by
    rw [f3, List.length_set]
    omega
  have n3 : ¬ M - 1 = 1 := by omega
  have hp1 : try_push M (SingleReaderSingleWriterRingBuffer.mk (M - 1) (M - 1) data) a =
      (true, SingleReaderSingleWriterRingBuffer.mk (M - 1) 0 (data.set 0 a)) := by
    simp [try_push, try_push_fn, n1, hmod, List.getElem?_eq_getElem h0, f2]
  have hp2 : try_push M (SingleReaderSingleWriterRingBuffer.mk (M - 1) 0 (data.set 0 a)) b =
      (true, SingleReaderSingleWriterRingBuffer.mk (M - 1) 1 ((data.set 0 a).set 0 b)) := by
    have h1 : 0 < (data.set 0 a).length := by
      rw [List.length_set]
      exact h0
    simp only [try_push, try_push_fn, n2, if_false, Nat.zero_mod, List.getElem?_eq_getElem h1, f4]
  have hp3 : try_pop M
      (SingleReaderSingleWriterRingBuffer.mk (M - 1) 1 ((data.set 0 a).set 0 b)) dest =
      (true, SingleReaderSingleWriterRingBuffer.mk 0 1 ((data.set 0 a).set 0 b), b) := by
    have h1 : 0 < (data.set 0 a).length := by
      rw [List.length_set]
      exact h0
    have hs : ((data.set 0 a).set 0 b)[0]? = some b := List.getElem?_set_self h1
    have hl : ((data.set 0 a).set 0 b).length = data.length := by
      rw [List.length_set, List.length_set]
    have hset : ((data.set 0 a).set 0 b).set 0 b = (data.set 0 a).set 0 b := by
      rw [List.set_set]
    simp only [try_pop, try_pop_fn, n3, if_false, hl, hmod, hs, f2, hset]
  simp only [pushed_values, popped_values, rb_step, hp1, hp2, hp3, if_true, List.append_nil,
    List.singleton_append, and_self]

/-- Counterexample to the order of C37 on a target with a 32-bit `size_t` and a
buffer of five slots: after `reset()` and `2 ^ 32 - 1` rounds `try_push(0); try_pop();` the calls
`try_push(1); try_push(2); try_pop(dest)` all succeed; push number `2 ^ 32` stores 1 and pop
number `2 ^ 32` delivers 2, because the write cursor wraps from `2 ^ 32 - 1`, slot 0,
to 0, slot 0 again. -/
theorem fifo_wrap_counterexample :
    (pushed_values (2 ^ 32)
      (reset (SingleReaderSingleWriterRingBuffer.mk 0 0 [0, 0, 0, 0, 0]))
      (push_pop_pairs 0 (2 ^ 32 - 1) ++
        [rb_call.push 1, rb_call.push 2, rb_call.pop 0]))[2 ^ 32 - 1]? = some 1 ∧
    (popped_values (2 ^ 32)
      (reset (SingleReaderSingleWriterRingBuffer.mk 0 0 [0, 0, 0, 0, 0]))
      (push_pop_pairs 0 (2 ^ 32 - 1) ++
        [rb_call.push 1, rb_call.push 2, rb_call.pop 0]))[2 ^ 32 - 1]? = some 2 := by
  obtain ⟨h1, h2, h3, h4, h5⟩ := push_pop_pairs_run (2 ^ 32) (0 : Nat) (2 ^ 32 - 1)
    (reset (SingleReaderSingleWriterRingBuffer.mk 0 0 [0, 0, 0, 0, 0])) rfl (by decide)
    (by decide)
  obtain ⟨t1, t2⟩ := wrap_tail (2 ^ 32) _ 1 2 0 (by decide) (h1.trans (by decide))
    (h2.trans (by decide)) (by rw [h3]; decide) (by rw [h3]; decide)
  rw [pushed_values_append, popped_values_append, h4, h5, t1, t2]
  constructor
  · rw [List.getElem?_append_right (by rw [List.length_replicate]), List.length_replicate,
      Nat.sub_self]
    rfl
  · rw [List.getElem?_append_right (by rw [List.length_replicate]), List.length_replicate,
      Nat.sub_self]
    rfl

/-- C37, amended: when the capacity divides the number `M` of `size_t` values and lies
below it, or when fewer than `M` pushes succeed, the ring buffer is first-in
first-out: in every finite sequence of `try_push` and `try_pop` calls that starts from
`reset()`, the value delivered by the `k`-th successful pop is the value stored by the
`k`-th successful push. -/
theorem ring_buffer_fifo {T : Type} (M : Nat) (rb0 : SingleReaderSingleWriterRingBuffer T)
    (calls : List (rb_call T))
    (hc : (size rb0 ∣ M ∧ size rb0 < M) ∨ (pushed_values M (reset rb0) calls).length < M) :
    ∀ (k : Nat) (v : T), (popped_values M (reset rb0) calls)[k]? = some v →
      (pushed_values M (reset rb0) calls)[k]? = some v := by
  obtain ⟨n, hn⟩ := fifo_invariant M calls (reset rb0) [] 0 le_rfl (Nat.zero_le _) rfl rfl
    (fun i _ hi => absurd hi (Nat.not_lt_zero _))
    (by
      rcases hc with h | h
      · exact Or.inl h
      · exact Or.inr (by simpa using h))
  simp only [List.nil_append, List.drop_zero] at hn
  intro k v hk
  rw [hn, List.getElem?_take] at hk
  split_ifs at hk
  exact hk

/-- Instance of C37 on a 64-bit target with three slots: two pushes, then three
pops, the last on the empty buffer; the second value popped is the second
value pushed. -/
theorem ring_buffer_fifo_witness :
    (pushed_values (2 ^ 64) (reset (SingleReaderSingleWriterRingBuffer.mk 3 1 [0, 0, 0]))
      [rb_call.push 7, rb_call.push 8, rb_call.pop 0, rb_call.pop_discard,
        rb_call.pop 0]).length < 2 ^ 64 ∧
    (popped_values (2 ^ 64) (reset (SingleReaderSingleWriterRingBuffer.mk 3 1 [0, 0, 0]))
      [rb_call.push 7, rb_call.push 8, rb_call.pop 0, rb_call.pop_discard,
        rb_call.pop 0])[1]? = some 8 ∧
    (pushed_values (2 ^ 64) (reset (SingleReaderSingleWriterRingBuffer.mk 3 1 [0, 0, 0]))
      [rb_call.push 7, rb_call.push 8, rb_call.pop 0, rb_call.pop_discard,
        rb_call.pop 0])[1]? = some 8 :=
  ⟨by decide, by decide,
    ring_buffer_fifo (2 ^ 64) (SingleReaderSingleWriterRingBuffer.mk 3 1 [0, 0, 0]) _
      (Or.inr (by decide)) 1 8 (by decide)⟩

end SpiLib
